import Mathlib

/-!
The environment sanitiser of sudo (`plugins/sudoers/env.c`).

A shallow embedding of the policy matcher, the private environment table and
`rebuild_env`, followed by theorems about them.

Conventions of the embedding.

* A C string is the list of its bytes before the terminating NUL (`CStr`);
  reading at an index at or past the length yields the terminator `0`.
* `struct environment` is kept at the level of its slots: `envp` is a vector of
  slots, each a string pointer or `NULL` (`none`), and `env_len` is the counter
  the source keeps next to it.  A walk of the vector stops at the first `NULL`.
* Out-parameters (`bool *full_match`) are state passed in and returned.
* Globals declared in `sudoers.h` (the `def_*` settings, `sudo_mode`, the
  passwd entries, `user_*`) are the fields of `Sudoers`; constants and
  predicates of the C library and of the build (`PATH_MAX`, `_PATH_ZONEINFO`,
  `isprint`, the `#ifdef`s) are the fields of `Platform`.
* Heap allocation is taken to succeed; what remains of the failure returns are
  the arithmetic overflow guards (`Fault.failure`), and the places where the C
  code has no defined behaviour are `Fault.undefined`.
* The build has neither `ENV_DEBUG` nor `HAVE_LOGIN_CAP_H`; `env_merge`
  (`HAVE_PAM`) and the hook wrappers are not part of the embedding.
-/

namespace SudoEnv

/-! ## C strings -/

/-- A C string: its bytes before the terminating NUL. -/
abbrev CStr := List Nat

/-- The bytes of a string literal. -/
def cstr (s : String) : CStr := s.toList.map Char.toNat

/-- The byte `=`. -/
abbrev c_eq : Nat := 61
/-- The byte `*`. -/
abbrev c_star : Nat := 42
/-- The byte `/`. -/
abbrev c_slash : Nat := 47
/-- The byte `.`. -/
abbrev c_dot : Nat := 46
/-- The byte `:`. -/
abbrev c_colon : Nat := 58
/-- The byte `%`. -/
abbrev c_percent : Nat := 37

/-- A well-formed C string holds no NUL and only bytes. -/
def isCStr (s : CStr) : Bool := s.all fun b => decide (0 < b ∧ b < 256)

/-- The expression `s[i]`: the byte at index `i`, the terminator past the end. -/
def byteAt (s : CStr) (i : Nat) : Nat := s.getD i 0

/-- The function `strlen`. -/
def strlen (s : CStr) : Nat := s.length

/-- The test `strncmp(a, b, n) == 0`: the first `n` bytes agree, the comparison
stopping at a common terminator. -/
def strncmp_eq : CStr → CStr → Nat → Bool
  | _, _, 0 => true
  | [], [], _ + 1 => true
  | a :: as, b :: bs, n + 1 => a == b && strncmp_eq as bs n
  | _, _, _ + 1 => false

/-- The function `strchr(s, c)`: the suffix of `s` that starts at the first `c`,
or `NULL`. -/
def strchr : CStr → Nat → Option CStr
  | [], _ => none
  | a :: as, c => if a = c then some (a :: as) else strchr as c

/-- The function `strcspn(s, "c")` for a one-byte reject set: the length of the
prefix of `s` that holds no `c`. -/
def strcspn : CStr → Nat → Nat
  | [], _ => 0
  | a :: as, c => if a = c then 0 else strcspn as c + 1

/-- The test `strpbrk(s, set) != NULL`: some byte of `s` is in `set`. -/
def strpbrk (s : CStr) (set : List Nat) : Bool := s.any fun b => set.contains b

/-! ## Platform and policy -/

/-- What the build and the C library fix. -/
structure Platform where
  /-- The function `isspace` of the active locale. -/
  isspace : Nat → Bool
  /-- The function `isprint` of the active locale. -/
  isprint : Nat → Bool
  /-- The macro `_PATH_ZONEINFO`, `none` when it is not defined. -/
  PATH_ZONEINFO : Option CStr
  /-- The macro `PATH_MAX`. -/
  PATH_MAX : Nat
  /-- The macro `_PATH_MAILDIR`. -/
  PATH_MAILDIR : CStr
  /-- The macro `_PATH_STDPATH`. -/
  PATH_STDPATH : CStr
  /-- The macro `SIZE_MAX`. -/
  SIZE_MAX : Nat
  /-- The value of `sizeof(char *)`. -/
  sizeof_ptr : Nat
  /-- Whether `__hpux` is defined. -/
  hpux : Bool
  /-- Whether `_AIX` is defined. -/
  aix : Bool
  /-- Whether `__APPLE__` is defined. -/
  apple : Bool
  /-- Whether `HAVE_KERB5` is defined. -/
  kerb5 : Bool
  /-- Whether `HAVE_SECURID` is defined. -/
  securid : Bool
  /-- Whether `rebuild_env` reads `_PATH_ENVIRONMENT`:
  `defined(_AIX) || (defined(__linux__) && !defined(HAVE_PAM))`. -/
  reads_environment : Bool

/-- The bits of `sudo_mode` that `env.c` tests. -/
structure Mode where
  /-- The bit `MODE_RUN`. -/
  run : Bool
  /-- The bit `MODE_SHELL`. -/
  shell : Bool
  /-- The bit `MODE_LOGIN_SHELL`. -/
  login_shell : Bool
  /-- The bit `MODE_RESET_HOME`. -/
  reset_home : Bool

/-- The fields of `struct passwd` that `env.c` reads. -/
structure Passwd where
  /-- The user name. -/
  pw_name : CStr
  /-- The home directory. -/
  pw_dir : CStr
  /-- The login shell. -/
  pw_shell : CStr

/-- The globals of `sudoers.h` that `env.c` reads. -/
structure Sudoers where
  /-- The build. -/
  plat : Platform
  /-- The list `def_env_delete`, in list order. -/
  def_env_delete : List CStr
  /-- The list `def_env_check`, in list order. -/
  def_env_check : List CStr
  /-- The list `def_env_keep`, in list order. -/
  def_env_keep : List CStr
  /-- The flag `def_env_reset`. -/
  def_env_reset : Bool
  /-- The flag `def_set_logname`. -/
  def_set_logname : Bool
  /-- The flag `def_always_set_home`. -/
  def_always_set_home : Bool
  /-- The flag `def_set_home`. -/
  def_set_home : Bool
  /-- The string `def_secure_path`, `none` when it is `NULL`. -/
  def_secure_path : Option CStr
  /-- The result of `user_is_exempt()`. -/
  user_is_exempt : Bool
  /-- The word `sudo_mode`. -/
  sudo_mode : Mode
  /-- The target user `runas_pw`. -/
  runas_pw : Passwd
  /-- The invoker's name `user_name`. -/
  user_name : CStr
  /-- The invoker's uid `user_uid`. -/
  user_uid : Nat
  /-- The invoker's gid `user_gid`. -/
  user_gid : Nat
  /-- The command `user_cmnd`. -/
  user_cmnd : CStr
  /-- The arguments `user_args`, `none` when `NULL`. -/
  user_args : Option CStr
  /-- The lines that `sudo_parseln` returns for `_PATH_ENVIRONMENT`, `none` when
  the file cannot be opened. -/
  environment_file : Option (List CStr)

/-! ## The policy matcher -/

/-- The function `matches_env_list`: the first pattern of `list` that matches
`var` decides; `full_match` is written only on a match. Returns the match flag
and the content of `*full_match`. -/
def matches_env_list (var : CStr) : List CStr → Bool → Bool × Bool
  | [], full_match => (false, full_match)
  | cur :: rest, full_match =>
    let len := strlen cur
    let sep_pos := strcspn var c_eq
    let iswild := byteAt cur (len - 1) == c_star
    let len := if iswild then len - 1 else len
    if strncmp_eq cur var len &&
        (iswild || len == sep_pos || byteAt var len == 0) then
      (true, decide (len > sep_pos + 1))
    else
      matches_env_list var rest full_match

/-- The function `matches_env_delete`. -/
def matches_env_delete (S : Sudoers) (var : CStr) : Bool :=
  (matches_env_list var S.def_env_delete false).1

/-- The loop of `tz_is_sane`; `lastch` is the byte before the head. -/
def tz_scan (P : Platform) : Nat → CStr → Bool
  | _, [] => true
  | lastch, c :: rest =>
    if P.isspace c || !P.isprint c then false
    else if lastch == c_slash && c == c_dot && byteAt rest 0 == c_dot &&
        (byteAt rest 1 == c_slash || byteAt rest 1 == 0) then false
    else tz_scan P c rest

/-- The function `tz_is_sane`. -/
def tz_is_sane (P : Platform) (tzval : CStr) : Bool :=
  let tzval := if byteAt tzval 0 == c_colon then tzval.drop 1 else tzval
  if byteAt tzval 0 == c_slash &&
      !(match P.PATH_ZONEINFO with
        | some zi => strncmp_eq tzval zi (strlen zi) &&
            byteAt tzval (strlen zi) == c_slash
        | none => false) then false
  else if !tz_scan P c_slash tzval then false
  else if strlen tzval ≥ P.PATH_MAX then false
  else true

/-- The function `matches_env_check`: `1` allowed, `0` denied, `-1` no match. -/
def matches_env_check (S : Sudoers) (var : CStr) (full_match : Bool) :
    Int × Bool :=
  let r := matches_env_list var S.def_env_check full_match
  if r.1 then
    if strncmp_eq var (cstr "TZ=") 3 then
      (if tz_is_sane S.plat (var.drop 3) then 1 else 0, r.2)
    else
      match strchr var c_eq with
      | some val => (if strpbrk (val.drop 1) [c_slash, c_percent] then 0 else 1, r.2)
      | none => (-1, r.2)
  else (-1, r.2)

/-- The function `matches_env_keep`. -/
def matches_env_keep (S : Sudoers) (var : CStr) (full_match : Bool) :
    Bool × Bool :=
  if S.sudo_mode.shell && strncmp_eq var (cstr "SHELL=") 6 then
    (true, full_match)
  else
    let r := matches_env_list var S.def_env_keep full_match
    if r.1 then (true, r.2) else (false, r.2)

/-- The test both `env_should_delete` and `env_should_keep` make for a bash
function: `(cp = strchr(var, '=')) != NULL && strncmp(cp, "=() ", 3) == 0`. -/
def bash_function_value (var : CStr) : Bool :=
  match strchr var c_eq with
  | some cp => strncmp_eq cp (cstr "=() ") 3
  | none => false

/-- The function `env_should_delete`. -/
def env_should_delete (S : Sudoers) (var : CStr) : Bool :=
  if bash_function_value var then true
  else
    let delete_it := matches_env_delete S var
    if !delete_it then (matches_env_check S var false).1 == 0
    else delete_it

/-- The function `env_should_keep`. -/
def env_should_keep (S : Sudoers) (var : CStr) : Bool :=
  let r := matches_env_check S var false
  let k : Int × Bool :=
    if r.1 == -1 then
      let q := matches_env_keep S var r.2
      (if q.1 then 1 else 0, q.2)
    else r
  let keepit : Int :=
    if k.1 != 0 && !k.2 then
      (if bash_function_value var then 0 else k.1)
    else k.1
  keepit == 1

/-! ## The built-in tables -/

/-- The table `initial_badenv_table`, with its `#ifdef` sections. -/
def initial_badenv_table (P : Platform) : List CStr :=
  [cstr "IFS", cstr "CDPATH", cstr "LOCALDOMAIN", cstr "RES_OPTIONS",
   cstr "HOSTALIASES", cstr "NLSPATH", cstr "PATH_LOCALE", cstr "LD_*",
   cstr "_RLD*"] ++
  (if P.hpux then [cstr "SHLIB_PATH"] else []) ++
  (if P.aix then [cstr "LDR_*", cstr "LIBPATH", cstr "AUTHSTATE"] else []) ++
  (if P.apple then [cstr "DYLD_*"] else []) ++
  (if P.kerb5 then [cstr "KRB5_CONFIG*", cstr "KRB5_KTNAME"] else []) ++
  (if P.securid then [cstr "VAR_ACE", cstr "USR_ACE", cstr "DLC_ACE"] else []) ++
  [cstr "TERMINFO", cstr "TERMINFO_DIRS", cstr "TERMPATH", cstr "TERMCAP",
   cstr "ENV", cstr "BASH_ENV", cstr "PS4", cstr "GLOBIGNORE", cstr "BASHOPTS",
   cstr "SHELLOPTS", cstr "JAVA_TOOL_OPTIONS", cstr "PERLIO_DEBUG ",
   cstr "PERLLIB", cstr "PERL5LIB", cstr "PERL5OPT", cstr "PERL5DB",
   cstr "FPATH", cstr "NULLCMD", cstr "READNULLCMD", cstr "ZDOTDIR",
   cstr "TMPPREFIX", cstr "PYTHONHOME", cstr "PYTHONPATH",
   cstr "PYTHONINSPECT", cstr "PYTHONUSERBASE", cstr "RUBYLIB",
   cstr "RUBYOPT", cstr "BASH_FUNC_*", cstr "__BASH_FUNC<*"]

/-- The table `initial_checkenv_table`. -/
def initial_checkenv_table : List CStr :=
  [cstr "COLORTERM", cstr "LANG", cstr "LANGUAGE", cstr "LC_*",
   cstr "LINGUAS", cstr "TERM", cstr "TZ"]

/-- The table `initial_keepenv_table`. -/
def initial_keepenv_table : List CStr :=
  [cstr "COLORS", cstr "DISPLAY", cstr "HOSTNAME", cstr "KRB5CCNAME",
   cstr "LS_COLORS", cstr "PATH", cstr "PS1", cstr "PS2", cstr "XAUTHORITY",
   cstr "XAUTHORIZATION"]

/-- The macro `SLIST_INSERT_HEAD` applied to each element of `table` in turn:
the table ends up reversed in front of what the list held. -/
def slist_insert_all (table list : List CStr) : List CStr :=
  table.foldl (fun acc p => p :: acc) list

/-- The function `init_envtables`. -/
def init_envtables (S : Sudoers) : Sudoers :=
  { S with
    def_env_delete := slist_insert_all (initial_badenv_table S.plat) S.def_env_delete
    def_env_check := slist_insert_all initial_checkenv_table S.def_env_check
    def_env_keep := slist_insert_all initial_keepenv_table S.def_env_keep }

/-! ## The private environment table -/

/-- How a call can go wrong. -/
inductive Fault where
  /-- The function returned its error indicator (`-1` or `false`). -/
  | failure
  /-- The C code has no defined behaviour at this point. -/
  | undefined
  deriving DecidableEq

/-- The vector `envp` points to: its slots, each a string or `NULL`. A slot past
the end of the list was never written; it reads as `NULL`. -/
abbrev Slots := List (Option CStr)

/-- The type `struct environment`; `none` is the `NULL` vector. -/
structure Environment where
  /-- The field `envp`. -/
  envp : Option Slots
  /-- The field `old_envp`. -/
  old_envp : Option Slots
  /-- The field `env_size`. -/
  env_size : Nat
  /-- The field `env_len`. -/
  env_len : Nat
  deriving DecidableEq

/-- The walk `for (ep = v; *ep != NULL; ep++)`: the entries before the first
`NULL`. -/
def walk : Slots → List CStr
  | some e :: rest => e :: walk rest
  | _ => []

/-- The assignment `v[i] = x`. -/
def store (v : Slots) (i : Nat) (x : Option CStr) : Slots :=
  if i < v.length then v.set i x
  else v ++ List.replicate (i - v.length) none ++ [x]

/-- The function `env_init`; it returns `true` (allocation succeeds). -/
def env_init (env : Environment) (envp : Option (List CStr)) : Bool × Environment :=
  match envp with
  | none =>
    (true, { envp := none, old_envp := env.envp, env_size := 0, env_len := 0 })
  | some l =>
    (true, { envp := some (l.map some ++ [none]), old_envp := none,
             env_size := l.length + 1 + 128, env_len := l.length })

/-- The function `env_swap_old`. -/
def env_swap_old (env : Environment) : Bool × Environment :=
  match env.old_envp with
  | none => (false, env)
  | some old => (true, { env with old_envp := env.envp, envp := some old })

/-- The first loop of `sudo_putenv_nodebug`: the index of the first entry whose
first `len` bytes are those of `str`. -/
def find_dup (str : CStr) (len : Nat) : Slots → Option Nat
  | some e :: rest =>
    if strncmp_eq str e len then some 0
    else (find_dup str len rest).map fun i => i + 1
  | _ => none

/-- The inner loop `while ((*cur = *(cur + 1)) != NULL) cur++`, `cur` at the
head: every slot up to the first `NULL` moves one place down. -/
def shift_left : Slots → Slots
  | _ :: some y :: rest => some y :: shift_left (some y :: rest)
  | _ :: none :: rest => none :: none :: rest
  | [_] => [none]
  | [] => []

/-- The loop `while (*++ep != NULL)` of `sudo_putenv_nodebug` on the slots that
follow `ep`: the slots it leaves and the number of entries before the `NULL` it
stops at. Each turn consumes one entry, so `fuel` the number of slots is
enough. -/
def prune (str : CStr) (len : Nat) : Nat → Slots → Slots × Nat
  | fuel + 1, some e :: rest =>
    if strncmp_eq str e len then prune str len fuel (shift_left (some e :: rest))
    else
      let r := prune str len fuel rest
      (some e :: r.1, r.2 + 1)
  | _, tail => (tail, 0)

/-- The function `sudo_putenv_nodebug`. An error leaves `env` as it was.
`len = (strchr(str, '=') - str) + 1` is not guarded: for a string without `=` the
count is taken from the null result and exceeds the length of `str`, so `strncmp`
runs up to the terminator of `str` and compares whole strings, which are the
first `strlen str + 1` bytes. -/
def sudo_putenv_nodebug (P : Platform) (env : Environment) (str : CStr)
    (dupcheck overwrite : Bool) : Except Fault Environment :=
  let grown : Except Fault Environment :=
    if env.env_size > 2 && env.env_len > env.env_size - 2 then
      if env.env_size > P.SIZE_MAX - 128 then .error .failure
      else if env.env_size + 128 > P.SIZE_MAX / P.sizeof_ptr then .error .failure
      else .ok { env with env_size := env.env_size + 128 }
    else .ok env
  match grown with
  | .error f => .error f
  | .ok env =>
    match env.envp with
    | none => .error .undefined
    | some v =>
      let append : Except Fault Environment :=
        .ok { env with
              envp := some (store (store v env.env_len (some str)) (env.env_len + 1) none)
              env_len := env.env_len + 1 }
      if dupcheck then
        let len :=
          match strchr str c_eq with
          | some eq => (strlen str - strlen eq) + 1
          | none => strlen str + 1
        match find_dup str len v with
        | some i =>
          if overwrite then
            let r := prune str len v.length ((v.set i (some str)).drop (i + 1))
            .ok { env with
                  envp := some ((v.set i (some str)).take (i + 1) ++ r.1)
                  env_len := i + 1 + r.2 }
          else .ok env
        | none => append
      else append

/-- The function `sudo_putenv`. -/
def sudo_putenv (P : Platform) (env : Environment) (str : CStr)
    (dupcheck overwrite : Bool) : Except Fault Environment :=
  sudo_putenv_nodebug P env str dupcheck overwrite

/-- The function `sudo_setenv2`. -/
def sudo_setenv2 (P : Platform) (env : Environment) (var val : CStr)
    (dupcheck overwrite : Bool) : Except Fault Environment :=
  sudo_putenv P env (var ++ c_eq :: val) dupcheck overwrite

/-- The loop of `sudo_getenv_nodebug`. -/
def getenv_walk (name : CStr) (namelen : Nat) : Slots → Option CStr
  | some e :: rest =>
    if strncmp_eq e name namelen && byteAt e namelen == c_eq then
      some (e.drop (namelen + 1))
    else getenv_walk name namelen rest
  | _ => none

/-- The function `sudo_getenv_nodebug`; `none` is `NULL`. -/
def sudo_getenv_nodebug (env : Environment) (name : CStr) : Option CStr :=
  if env.env_len != 0 then
    match env.envp with
    | some v => getenv_walk name (strcspn name c_eq) v
    | none => none
  else none

/-- The function `sudo_getenv`. -/
def sudo_getenv (env : Environment) (name : CStr) : Option CStr :=
  sudo_getenv_nodebug env name

/-- The function `sudo_setenv`. -/
def sudo_setenv (P : Platform) (env : Environment) (var val : CStr) (overwrite : Bool) :
    Except Fault Environment :=
  sudo_setenv2 P env var val true overwrite

/-- The loop `while (*ep != NULL)` of `sudo_unsetenv_nodebug`, `ep` at the head:
an entry `var=...` is shifted out, any other is stepped over. Each turn consumes
one entry, so `fuel` the number of slots is enough. -/
def unset_loop (var : CStr) (len : Nat) : Nat → Slots → Slots
  | fuel + 1, some e :: rest =>
    if strncmp_eq var e len && byteAt e len == c_eq then
      unset_loop var len fuel (shift_left (some e :: rest))
    else some e :: unset_loop var len fuel rest
  | _, tail => tail

/-- The function `sudo_unsetenv_nodebug`; `var` is `none` for `NULL`. It does
not touch `env_len`. -/
def sudo_unsetenv_nodebug (env : Environment) (var : Option CStr) :
    Except Fault Environment :=
  match env.envp, var with
  | some v, some var =>
    if byteAt var 0 == 0 || (strchr var c_eq).isSome then .error .failure
    else .ok { env with envp := some (unset_loop var (strlen var) v.length v) }
  | _, _ => .error .failure

/-- The function `sudo_unsetenv`. -/
def sudo_unsetenv (env : Environment) (name : Option CStr) : Except Fault Environment :=
  sudo_unsetenv_nodebug env name

/-- The function `sudo_setenv_nodebug`, the set that `sudoers_hook_setenv` calls;
`var` and `val` are `none` for `NULL` and `overwrite` is the truth value of the
`int`. A `NULL` or empty name is refused; the name is copied up to its first
`=`. -/
def sudo_setenv_nodebug (P : Platform) (env : Environment) (var val : Option CStr)
    (overwrite : Bool) : Except Fault Environment :=
  match var with
  | none => .error .failure
  | some var =>
    if byteAt var 0 == 0 then .error .failure
    else
      let estring := var.take (strcspn var c_eq) ++ c_eq :: val.getD []
      sudo_putenv_nodebug P env estring true overwrite

/-! ## The environment file -/

/-- The loop `while (isspace((unsigned char) *var)) var++`. -/
def skip_spaces (P : Platform) : CStr → CStr
  | c :: rest => if P.isspace c then skip_spaces P rest else c :: rest
  | [] => []

/-- One turn of the loop of `read_env_file` on the line `line`: `none` when the
line is skipped (`continue`), else the string handed to `sudo_putenv`. -/
def parse_env_line (P : Platform) (line : CStr) : Except Fault (Option CStr) :=
  if byteAt line 0 == 0 then .ok none
  else
    let var :=
      if strncmp_eq line (cstr "export") 6 && P.isspace (byteAt line 6) then
        skip_spaces P (line.drop 7)
      else line
    let var_len := strcspn var c_eq
    if var_len == 0 || byteAt var var_len != c_eq then .ok none
    else
      let val := var.drop (var_len + 1)
      let val_len := strlen val
      if (byteAt val 0 == 39 || byteAt val 0 == 34) &&
          byteAt val 0 == byteAt val (val_len - 1) then
        -- `val_len -= 2` wraps when the value is one quote; the copy is then
        -- made without a terminator
        if val_len < 2 then .error .undefined
        else .ok (some (var.take (var_len + 1) ++ (val.drop 1).take (val_len - 2)))
      else .ok (some (var.take (var_len + 1) ++ val))

/-- The loop of `read_env_file` over the lines `sudo_parseln` returns; the flag
is `rval`. A failed `sudo_putenv` ends the loop with what was inserted. -/
def read_env_lines (P : Platform) (overwrite : Bool) :
    List CStr → Environment → Except Fault (Bool × Environment)
  | [], env => .ok (true, env)
  | line :: rest, env =>
    match parse_env_line P line with
    | .error f => .error f
    | .ok none => read_env_lines P overwrite rest env
    | .ok (some cp) =>
      match sudo_putenv P env cp true overwrite with
      | .error .undefined => .error .undefined
      | .error .failure => .ok (false, env)
      | .ok env1 => read_env_lines P overwrite rest env1

/-- The function `read_env_file`, of a file whose lines are `file` (`none`: it
does not exist). -/
def read_env_file (P : Platform) (file : Option (List CStr)) (overwrite : Bool)
    (env : Environment) : Except Fault (Bool × Environment) :=
  match file with
  | none => .ok (true, env)
  | some lines => read_env_lines P overwrite lines env

/-! ## Rebuilding the environment -/

/-- The flag `DID_TERM`. -/
abbrev DID_TERM : Nat := 0x0001
/-- The flag `DID_PATH`. -/
abbrev DID_PATH : Nat := 0x0002
/-- The flag `DID_HOME`. -/
abbrev DID_HOME : Nat := 0x0004
/-- The flag `DID_SHELL`. -/
abbrev DID_SHELL : Nat := 0x0008
/-- The flag `DID_LOGNAME`. -/
abbrev DID_LOGNAME : Nat := 0x0010
/-- The flag `DID_USER`. -/
abbrev DID_USER : Nat := 0x0020
/-- The flag `DID_USERNAME`. -/
abbrev DID_USERNAME : Nat := 0x0040
/-- The flag `DID_MAIL`. -/
abbrev DID_MAIL : Nat := 0x0080
/-- The flag `KEPT_HOME`. -/
abbrev KEPT_HOME : Nat := 0x0400
/-- The flag `KEPT_LOGNAME`. -/
abbrev KEPT_LOGNAME : Nat := 0x1000
/-- The flag `KEPT_USER`. -/
abbrev KEPT_USER : Nat := 0x2000
/-- The flag `KEPT_USERNAME`. -/
abbrev KEPT_USERNAME : Nat := 0x4000
/-- The flag `KEPT_MAIL`. -/
abbrev KEPT_MAIL : Nat := 0x8000

/-- The macro `ISSET`. -/
def ISSET (t f : Nat) : Bool := (t &&& f) != 0

/-- The macro `SET`. -/
def SET (t f : Nat) : Nat := t ||| f

/-- The function `env_update_didvar`. -/
def env_update_didvar (ep : CStr) (didvar : Nat) : Nat :=
  if byteAt ep 0 == 72 then
    (if strncmp_eq ep (cstr "HOME=") 5 then SET didvar DID_HOME else didvar)
  else if byteAt ep 0 == 76 then
    (if strncmp_eq ep (cstr "LOGNAME=") 8 then SET didvar DID_LOGNAME else didvar)
  else if byteAt ep 0 == 77 then
    (if strncmp_eq ep (cstr "MAIL=") 5 then SET didvar DID_MAIL else didvar)
  else if byteAt ep 0 == 80 then
    (if strncmp_eq ep (cstr "PATH=") 5 then SET didvar DID_PATH else didvar)
  else if byteAt ep 0 == 83 then
    (if strncmp_eq ep (cstr "SHELL=") 6 then SET didvar DID_SHELL else didvar)
  else if byteAt ep 0 == 84 then
    (if strncmp_eq ep (cstr "TERM=") 5 then SET didvar DID_TERM else didvar)
  else if byteAt ep 0 == 85 then
    let d := if strncmp_eq ep (cstr "USER=") 5 then SET didvar DID_USER else didvar
    if strncmp_eq ep (cstr "USERNAME=") 5 then SET d DID_USERNAME else d
  else didvar

/-- The global `env` and the locals of `rebuild_env`. -/
structure Rebuild where
  /-- The global `env`. -/
  env : Environment
  /-- The local `didvar`, an `unsigned int`. -/
  didvar : Nat
  /-- The local `ps1`. -/
  ps1 : Option CStr
  /-- The local `reset_home`. -/
  reset_home : Bool
  deriving DecidableEq

/-- The macro `CHECK_PUTENV` inside `rebuild_env`. -/
def CHECK_PUTENV (S : Sudoers) (r : Rebuild) (str : CStr) (dupcheck overwrite : Bool) :
    Except Fault Rebuild :=
  match sudo_putenv S.plat r.env str dupcheck overwrite with
  | .ok env => .ok { r with env := env }
  | .error f => .error f

/-- The macro `CHECK_SETENV2` inside `rebuild_env`. -/
def CHECK_SETENV2 (S : Sudoers) (r : Rebuild) (var val : CStr) (dupcheck overwrite : Bool) :
    Except Fault Rebuild :=
  match sudo_setenv2 S.plat r.env var val dupcheck overwrite with
  | .ok env => .ok { r with env := env }
  | .error f => .error f

/-- A statement of `rebuild_env` under a condition. -/
def when (c : Bool) (f : Rebuild → Except Fault Rebuild) (r : Rebuild) :
    Except Fault Rebuild :=
  if c then f r else .ok r

/-- The loop over `env.old_envp` when the environment is reset (lines 905-925). -/
def keep_loop (S : Sudoers) : List CStr → Rebuild → Except Fault Rebuild
  | [], r => .ok r
  | ep :: rest, r =>
    let keepit := env_should_keep S ep
    let r := if strncmp_eq ep (cstr "SUDO_PS1=") 8 then { r with ps1 := some (ep.drop 5) } else r
    if keepit then
      match CHECK_PUTENV S r ep true false with
      | .error f => .error f
      | .ok r => keep_loop S rest { r with didvar := env_update_didvar ep r.didvar }
    else keep_loop S rest r

/-- The loop over `env.old_envp` when the environment is filtered (lines
981-994). -/
def delete_loop (S : Sudoers) : List CStr → Rebuild → Except Fault Rebuild
  | [], r => .ok r
  | ep :: rest, r =>
    if !env_should_delete S ep then
      let r :=
        if strncmp_eq ep (cstr "SUDO_PS1=") 9 then { r with ps1 := some (ep.drop 5) }
        else if strncmp_eq ep (cstr "SHELL=") 6 then { r with didvar := SET r.didvar DID_SHELL }
        else if strncmp_eq ep (cstr "PATH=") 5 then { r with didvar := SET r.didvar DID_PATH }
        else if strncmp_eq ep (cstr "TERM=") 5 then { r with didvar := SET r.didvar DID_TERM }
        else r
      match CHECK_PUTENV S r ep true false with
      | .error f => .error f
      | .ok r => delete_loop S rest r
    else delete_loop S rest r

/-- The seeding of a reset environment outside `-i` mode (lines 884-902);
`HAVE_LOGIN_CAP_H` is not defined. The result of `read_env_file` is dropped. -/
def seed_defaults (S : Sudoers) (r : Rebuild) : Except Fault Rebuild :=
  let seeded : Except Fault Rebuild :=
    if S.plat.reads_environment then
      match read_env_file S.plat S.environment_file true r.env with
      | .error f => .error f
      | .ok p => .ok { r with env := p.2 }
    else .ok r
  match seeded with
  | .error f => .error f
  | .ok r =>
    match r.env.envp with
    | none => .error .undefined
    | some v => .ok { r with didvar := (walk v).foldl (fun d ep => env_update_didvar ep d) r.didvar }

/-- The defaults of a reset environment (lines 933-952). -/
def reset_defaults (S : Sudoers) (r : Rebuild) : Except Fault Rebuild :=
  if S.sudo_mode.login_shell then
    CHECK_SETENV2 S r (cstr "SHELL") S.runas_pw.pw_shell (ISSET r.didvar DID_SHELL) true
    >>= fun r => CHECK_SETENV2 S r (cstr "LOGNAME") S.runas_pw.pw_name (ISSET r.didvar DID_LOGNAME) true
    >>= fun r => CHECK_SETENV2 S r (cstr "USER") S.runas_pw.pw_name (ISSET r.didvar DID_USER) true
    >>= fun r => CHECK_SETENV2 S r (cstr "USERNAME") S.runas_pw.pw_name (ISSET r.didvar DID_USERNAME) true
  else if !S.def_set_logname then
    when (!ISSET r.didvar DID_LOGNAME)
      (fun r => CHECK_SETENV2 S r (cstr "LOGNAME") S.user_name false true) r
    >>= fun r => when (!ISSET r.didvar DID_USER)
      (fun r => CHECK_SETENV2 S r (cstr "USER") S.user_name false true) r
    >>= fun r => when (!ISSET r.didvar DID_USERNAME)
      (fun r => CHECK_SETENV2 S r (cstr "USERNAME") S.user_name false true) r
  else .ok r

/-- The setting of `MAIL` in a reset environment (lines 962-975). -/
def reset_mail (S : Sudoers) (r : Rebuild) : Except Fault Rebuild :=
  if S.sudo_mode.login_shell || !ISSET r.didvar KEPT_MAIL then
    let dir := S.plat.PATH_MAILDIR
    let cp :=
      if byteAt dir (strlen dir - 1) == c_slash then
        cstr "MAIL=" ++ dir ++ S.runas_pw.pw_name
      else cstr "MAIL=" ++ dir ++ c_slash :: S.runas_pw.pw_name
    CHECK_PUTENV S r cp (ISSET r.didvar DID_MAIL) true
  else .ok r

/-- The branch `def_env_reset || ISSET(sudo_mode, MODE_LOGIN_SHELL)` (lines
877-975). -/
def reset_branch (S : Sudoers) (old : List CStr) (r : Rebuild) : Except Fault Rebuild :=
  when (!S.sudo_mode.login_shell) (seed_defaults S) r
  >>= keep_loop S old
  >>= fun r => .ok { r with didvar := (r.didvar ||| (r.didvar <<< 8)) % 2 ^ 32 }
  >>= reset_defaults S
  >>= fun r => .ok (if !ISSET r.didvar KEPT_HOME then { r with reset_home := true } else r)
  >>= reset_mail S

/-- The replacement of `PATH` by the secure path (lines 997-1000). -/
def secure_path_step (S : Sudoers) (r : Rebuild) : Except Fault Rebuild :=
  match S.def_secure_path with
  | some sp =>
    if !S.user_is_exempt then
      CHECK_SETENV2 S r (cstr "PATH") sp true true
      >>= fun r => .ok { r with didvar := SET r.didvar DID_PATH }
    else .ok r
  | none => .ok r

/-- The setting of `LOGNAME`, `USER` and `USERNAME` (lines 1007-1037). -/
def logname_step (S : Sudoers) (r : Rebuild) : Except Fault Rebuild :=
  if S.def_set_logname && !S.sudo_mode.login_shell then
    if !ISSET r.didvar (KEPT_LOGNAME ||| KEPT_USER ||| KEPT_USERNAME) then
      CHECK_SETENV2 S r (cstr "LOGNAME") S.runas_pw.pw_name true true
      >>= fun r => CHECK_SETENV2 S r (cstr "USER") S.runas_pw.pw_name true true
      >>= fun r => CHECK_SETENV2 S r (cstr "USERNAME") S.runas_pw.pw_name true true
    else if (r.didvar &&& (KEPT_LOGNAME ||| KEPT_USER ||| KEPT_USERNAME)) !=
        (KEPT_LOGNAME ||| KEPT_USER ||| KEPT_USERNAME) then
      let cp :=
        if ISSET r.didvar KEPT_LOGNAME then sudo_getenv r.env (cstr "LOGNAME")
        else if ISSET r.didvar KEPT_USER then sudo_getenv r.env (cstr "USER")
        else if ISSET r.didvar KEPT_USERNAME then sudo_getenv r.env (cstr "USERNAME")
        else none
      match cp with
      | some cp =>
        when (!ISSET r.didvar KEPT_LOGNAME)
          (fun r => CHECK_SETENV2 S r (cstr "LOGNAME") cp true true) r
        >>= fun r => when (!ISSET r.didvar KEPT_USER)
          (fun r => CHECK_SETENV2 S r (cstr "USER") cp true true) r
        >>= fun r => when (!ISSET r.didvar KEPT_USERNAME)
          (fun r => CHECK_SETENV2 S r (cstr "USERNAME") cp true true) r
      | none => .ok r
    else .ok r
  else .ok r

/-- The decimal digits `snprintf(idbuf, sizeof(idbuf), "%u", (unsigned int) id)`
writes. -/
def idbuf (id : Nat) : CStr := (Nat.toDigits 10 (id % 2 ^ 32)).map Char.toNat

/-- The end of `rebuild_env`: `HOME`, the defaults, `PS1` and the `SUDO_*`
variables (lines 1040-1072). -/
def final_steps (S : Sudoers) (r : Rebuild) : Except Fault Rebuild :=
  when r.reset_home (fun r => CHECK_SETENV2 S r (cstr "HOME") S.runas_pw.pw_dir true true) r
  >>= fun r => when (!ISSET r.didvar DID_SHELL)
    (fun r => CHECK_SETENV2 S r (cstr "SHELL") S.runas_pw.pw_shell false false) r
  >>= fun r => when (!ISSET r.didvar DID_TERM)
    (fun r => CHECK_PUTENV S r (cstr "TERM=unknown") false false) r
  >>= fun r => when (!ISSET r.didvar DID_PATH)
    (fun r => CHECK_SETENV2 S r (cstr "PATH") S.plat.PATH_STDPATH false true) r
  >>= fun r =>
    (match r.ps1 with
     | some ps1 => CHECK_PUTENV S r ps1 true true
     | none => .ok r)
  >>= fun r =>
    (match S.user_args with
     | some args =>
       CHECK_PUTENV S r (cstr "SUDO_COMMAND=" ++ S.user_cmnd ++ 32 :: args) true true
     | none => CHECK_SETENV2 S r (cstr "SUDO_COMMAND") S.user_cmnd true true)
  >>= fun r => CHECK_SETENV2 S r (cstr "SUDO_USER") S.user_name true true
  >>= fun r => CHECK_SETENV2 S r (cstr "SUDO_UID") (idbuf S.user_uid) true true
  >>= fun r => CHECK_SETENV2 S r (cstr "SUDO_GID") (idbuf S.user_gid) true true

/-- The function `rebuild_env`: `.ok` is the state of `env` when it returns
`true`, `.error .failure` its return of `false`. -/
def rebuild_env (S : Sudoers) (env : Environment) : Except Fault Environment :=
  match env.envp with
  | none => .error .undefined
  | some oldv =>
    let old := walk oldv
    let r0 : Rebuild :=
      { env := { envp := some [none], old_envp := env.envp, env_size := 128, env_len := 0 }
        didvar := 0
        ps1 := none
        reset_home :=
          S.sudo_mode.run &&
            (S.def_always_set_home || (S.sudo_mode.reset_home || S.sudo_mode.login_shell) ||
              (S.sudo_mode.shell && S.def_set_home)) }
    ((if S.def_env_reset || S.sudo_mode.login_shell then reset_branch S old r0
      else delete_loop S old r0)
    >>= secure_path_step S
    >>= logname_step S
    >>= final_steps S).map fun r => r.env

/-- The entries of the table: a walk of `env.envp`. -/
def env_entries (env : Environment) : List CStr :=
  match env.envp with
  | some v => walk v
  | none => []

/-! ## Validating the variables of the command line -/

/-- The function `strlcat(dst, src, size)` for a `dst` shorter than `size`: the
string it leaves in `dst` and the length it returns. -/
def strlcat (dst src : CStr) (size : Nat) : CStr × Nat :=
  (dst ++ src.take (size - 1 - strlen dst), strlen dst + strlen src)

/-- The loop of `validate_env_vars`; `errbuf` is a buffer of 4096 bytes. -/
def validate_loop (S : Sudoers) : List CStr → CStr → CStr
  | [], errbuf => errbuf
  | ep :: rest, errbuf =>
    let okvar :=
      if S.def_secure_path.isSome && !S.user_is_exempt &&
          strncmp_eq ep (cstr "PATH=") 5 then false
      else if S.def_env_reset then env_should_keep S ep
      else !env_should_delete S ep
    if okvar == false then
      -- `*eq = '\0'` cuts the entry at its first `=` while it is copied
      let name :=
        match strchr ep c_eq with
        | some eq => ep.take (strlen ep - strlen eq)
        | none => ep
      let errbuf :=
        if byteAt errbuf 0 != 0 then (strlcat errbuf (cstr ", ") 4096).1 else errbuf
      let r := strlcat errbuf name 4096
      let errbuf :=
        if r.2 ≥ 4096 then (strlcat (r.1.take (4096 - 4)) (cstr "...") 4096).1 else r.1
      validate_loop S rest errbuf
    else validate_loop S rest errbuf

/-- The function `validate_env_vars`: its result and the list of names it hands
to `log_warningx` (`none`: nothing is logged). -/
def validate_env_vars (S : Sudoers) (env_vars : Option (List CStr)) : Bool × Option CStr :=
  match env_vars with
  | none => (true, none)
  | some l =>
    let errbuf := validate_loop S l []
    if byteAt errbuf 0 != 0 then (false, some errbuf) else (true, none)

/-! ## A concrete build and a concrete invocation -/

/-- The function `isspace` of the C locale. -/
def isspace_C (b : Nat) : Bool := b == 32 || (9 ≤ b && b ≤ 13)

/-- The function `isprint` of the C locale. -/
def isprint_C (b : Nat) : Bool := 32 ≤ b && b ≤ 126

/-- A Linux build with PAM, in the C locale. -/
def linux : Platform where
  isspace := isspace_C
  isprint := isprint_C
  PATH_ZONEINFO := some (cstr "/usr/share/zoneinfo")
  PATH_MAX := 4096
  PATH_MAILDIR := cstr "/var/mail"
  PATH_STDPATH := cstr "/usr/bin:/bin:/usr/sbin:/sbin"
  SIZE_MAX := 2 ^ 64 - 1
  sizeof_ptr := 8
  hpux := false
  aix := false
  apple := false
  kerb5 := false
  securid := false
  reads_environment := false

/-- No list, no flag: alice (uid and gid 1000) runs `/bin/ls` as bob. -/
def bare : Sudoers where
  plat := linux
  def_env_delete := []
  def_env_check := []
  def_env_keep := []
  def_env_reset := false
  def_set_logname := false
  def_always_set_home := false
  def_set_home := false
  def_secure_path := none
  user_is_exempt := false
  sudo_mode := { run := true, shell := false, login_shell := false, reset_home := false }
  runas_pw := { pw_name := cstr "bob", pw_dir := cstr "/home/bob", pw_shell := cstr "/bin/zsh" }
  user_name := cstr "alice"
  user_uid := 1000
  user_gid := 1000
  user_cmnd := cstr "/bin/ls"
  user_args := none
  environment_file := none

/-- The invocation `bare` with the built-in lists. -/
def builtin : Sudoers := init_envtables bare

/-- The scenario of the specification: the invoker's environment. -/
def scenario_env : Environment :=
  (env_init { envp := none, old_envp := none, env_size := 0, env_len := 0 }
    (some [cstr "HOME=/home/alice", cstr "PATH=/usr/bin", cstr "TERM=xterm",
      cstr "LD_PRELOAD=/tmp/evil.so", cstr "DISPLAY=:0", cstr "SUDO_PS1=# ",
      cstr "SHELL=/bin/bash"])).2

/-! ## Words of the specification -/

/-- The NAME of an entry: its longest prefix that holds no `=`. -/
def env_name (var : CStr) : CStr := var.takeWhile fun b => b != c_eq

/-- The suffix-star rule of the specification: with `L` the length of `P`
(reduced by one, and `wild` set, when `P` ends in `*`) and `sep` the index of
the first `=` of `E` (its length when it has none), the first `L` bytes of `E`
are the first `L` bytes of `P` and (`wild`, or `L = sep`, or `E` has length
`L`). -/
def suffix_star_match (E P : CStr) : Prop :=
  let wild := P.getLast? = some c_star
  let L := if wild then P.length - 1 else P.length
  let sep := E.indexOf c_eq
  E.take L = P.take L ∧ (wild ∨ L = sep ∨ E.length = L)

/-- The length a pattern consumes: its length, not counting a trailing `*`. -/
def consumed_length (P : CStr) : Nat :=
  if P.getLast? = some c_star then P.length - 1 else P.length

instance (E P : CStr) : Decidable (suffix_star_match E P) := by
  unfold suffix_star_match; exact inferInstance

/-- A `..` path component, in the words of the specification: a `..` preceded
by the start of `r` or by `/`, and followed by `/` or by the end of `r`. -/
def has_dotdot_component (r : CStr) : Prop :=
  ∃ pre post, r = pre ++ c_dot :: c_dot :: post ∧
    (pre = [] ∨ pre.getLast? = some c_slash) ∧ (post = [] ∨ post.head? = some c_slash)

/-- An entry named `N`: it reads `N=...`. -/
def named (N e : CStr) : Bool := decide (c_eq ∈ e ∧ env_name e = N)

/-- The VALUE of an entry: everything after its first `=`. -/
def env_value (e : CStr) : CStr := e.drop (e.indexOf c_eq + 1)

/-- The list holds an entry named `N`. -/
def has_entry (l : List CStr) (N : CStr) : Prop := ∃ e ∈ l, named N e = true

/-- The decimal representation of a number. -/
def decimal (n : Nat) : CStr := cstr (toString n)

/-- The entry named `N` that `rebuild_env` keeps from the invoker's environment
`old` when the environment is reset: the first one `env_should_keep` accepts. -/
def kept_entry (S : Sudoers) (old : List CStr) (N : CStr) : Option CStr :=
  (old.filter (env_should_keep S)).find? (named N)

/-- The value the identity variables that were not kept are set to: the value
of a kept one, taken in the order `LOGNAME`, `USER`, `USERNAME`, and the name of
the target user when none was kept. -/
def identity_value (S : Sudoers) (old : List CStr) : CStr :=
  match kept_entry S old (cstr "LOGNAME") with
  | some e => env_value e
  | none =>
    match kept_entry S old (cstr "USER") with
    | some e => env_value e
    | none =>
      match kept_entry S old (cstr "USERNAME") with
      | some e => env_value e
      | none => S.runas_pw.pw_name

/-- The entry named `N` of the result, for `N` one of `LOGNAME`, `USER` and
`USERNAME`: the kept one, or `N` set to `identity_value`. -/
def identity_entry (S : Sudoers) (old : List CStr) (N : CStr) : CStr :=
  match kept_entry S old N with
  | some e => e
  | none => N ++ c_eq :: identity_value S old

/-- An entry the policy permits on the command line, in the words of the
specification: it is not an explicit `PATH=` while a secure path is configured
and the invoker is not exempt, and `env_should_keep` holds for it when the
environment is reset, `env_should_delete` does not when it is not. -/
def permitted (S : Sudoers) (e : CStr) : Bool :=
  !(S.def_secure_path.isSome && !S.user_is_exempt && decide (cstr "PATH=" <+: e)) &&
    (if S.def_env_reset then env_should_keep S e else !env_should_delete S e)

/-- The names of the entries that are not permitted, in input order, joined by
a comma and a blank. -/
def rejected_names (S : Sudoers) (l : List CStr) : CStr :=
  List.intercalate (cstr ", ") ((l.filter fun e => !permitted S e).map env_name)

/-- The names claim C26 sets apart: those `rebuild_env` may set by itself when
it filters the environment. -/
def filter_only_names : List CStr :=
  [cstr "PATH", cstr "LOGNAME", cstr "USER", cstr "USERNAME", cstr "HOME", cstr "SHELL",
   cstr "TERM", cstr "PS1", cstr "SUDO_COMMAND", cstr "SUDO_USER", cstr "SUDO_UID",
   cstr "SUDO_GID"]

/-- An entry that has none of the names `names`. -/
def other_entry (names : List CStr) (e : CStr) : Bool := !names.any fun N => named N e

/-- A line of the environment file without its optional leading `export`: when
the line starts with `export` and whitespace follows, the rest of the line after
that whitespace. -/
def strip_export (P : Platform) (line : CStr) : CStr :=
  if cstr "export" <+: line ∧ P.isspace (byteAt line 6) = true then
    (line.drop 7).dropWhile P.isspace
  else line

/-- A raw value without its surrounding pair of quotes: when it has two bytes or
more and begins and ends with the same quote character (`'` or `"`), the bytes
between them; the raw value in every other case. -/
def unquote (raw : CStr) : CStr :=
  if 2 ≤ raw.length ∧ (raw.head? = some 39 ∨ raw.head? = some 34) ∧
      raw.getLast? = raw.head? then (raw.drop 1).dropLast
  else raw

/-- The entry a line of the environment file stands for, in the words of the
specification: none when, after the `export` is removed, the line is empty, has
an empty name or has no `=`; else `NAME=VALUE` with the value unquoted. -/
def env_file_entry (P : Platform) (line : CStr) : Option CStr :=
  let rest := strip_export P line
  if rest = [] ∨ env_name rest = [] ∨ c_eq ∉ rest then none
  else some (env_name rest ++ c_eq :: unquote (env_value rest))

/-- The names claim C27 sets apart: those `rebuild_env` may set by itself when
it starts from a clean slate. -/
def clean_slate_names : List CStr :=
  [cstr "HOME", cstr "LOGNAME", cstr "USER", cstr "USERNAME", cstr "MAIL", cstr "PATH",
   cstr "SHELL", cstr "TERM", cstr "PS1", cstr "SUDO_COMMAND", cstr "SUDO_USER",
   cstr "SUDO_UID", cstr "SUDO_GID"]

/-! ## Vocabulary of the proofs -/

/-- The flag `iswild` of `matches_env_list` for the pattern `cur`. -/
def pattern_wild (cur : CStr) : Bool := byteAt cur (strlen cur - 1) == c_star

/-- The length `len` of `matches_env_list` after the wildcard is dealt with. -/
def pattern_len (cur : CStr) : Nat :=
  if pattern_wild cur then strlen cur - 1 else strlen cur

/-- The test of `matches_env_list` on one pattern. -/
def pattern_test (var cur : CStr) : Bool :=
  strncmp_eq cur var (pattern_len cur) &&
    (pattern_wild cur || pattern_len cur == strcspn var c_eq ||
      byteAt var (pattern_len cur) == 0)

/-- A `..` component of `s`, when `lastch` is the byte before `s`. -/
def dotdot_after (lastch : Nat) (s : CStr) : Prop :=
  ∃ pre post, s = pre ++ c_dot :: c_dot :: post ∧
    ((pre = [] ∧ lastch = c_slash) ∨ pre.getLast? = some c_slash) ∧
    (post = [] ∨ post.head? = some c_slash)

/-- What a put with duplicate checking does to the entries. -/
def put_entries (str : CStr) (len : Nat) (overwrite : Bool) : List CStr → List CStr
  | [] => [str]
  | e :: rest =>
    if strncmp_eq str e len then
      (if overwrite then str :: rest.filter (fun x => !strncmp_eq str x len) else e :: rest)
    else e :: put_entries str len overwrite rest

/-- What `sudo_putenv_nodebug` does to the entries of a well-formed table. -/
def put_result (l : List CStr) (str : CStr) (dupcheck overwrite : Bool) : List CStr :=
  if dupcheck then put_entries str (str.indexOf c_eq + 1) overwrite l else l ++ [str]

/-- The table is well formed: the vector holds a `NULL` and `env_len` counts
the entries before it. -/
def table_ok (env : Environment) : Prop :=
  ∃ (l : List CStr) (junk : Slots),
    env.envp = some (l.map some ++ none :: junk) ∧ env.env_len = l.length

/-- The table is initialised: the vector holds a `NULL` and `env_len` is not
below the number of entries before it (`sudo_unsetenv` leaves it above). -/
def table_init (env : Environment) : Prop :=
  ∃ (l : List CStr) (junk : Slots),
    env.envp = some (l.map some ++ none :: junk) ∧ l.length ≤ env.env_len

/-- What one turn of the loop of `validate_env_vars` does to `errbuf` for a
rejected entry of name `name`. -/
def errbuf_add (errbuf name : CStr) : CStr :=
  let errbuf :=
    if byteAt errbuf 0 != 0 then (strlcat errbuf (cstr ", ") 4096).1 else errbuf
  let r := strlcat errbuf name 4096
  if r.2 ≥ 4096 then (strlcat (r.1.take (4096 - 4)) (cstr "...") 4096).1 else r.1

/-- The step `f` keeps the invariant `I` whenever it succeeds. -/
def Keeps (I : Rebuild → Prop) (f : Rebuild → Except Fault Rebuild) : Prop :=
  ∀ r r', I r → f r = .ok r' → I r'

/-- An invariant of `rebuild_env`: the table is well formed, its entries satisfy
`Q`, a pending `ps1` satisfies `B` and `didvar` satisfies `D`. -/
def RInv (Q : List CStr → Prop) (B : CStr → Prop) (D : Nat → Prop) (r : Rebuild) : Prop :=
  table_ok r.env ∧ Q (env_entries r.env) ∧ (∀ p, r.ps1 = some p → B p) ∧ D r.didvar

/-- The names claim C4 is about: `IFS`, and the names that begin with `LD_` or
with `BASH_FUNC_`. -/
def loader_name (e : CStr) : Prop :=
  env_name e = cstr "IFS" ∨ cstr "LD_" <+: env_name e ∨ cstr "BASH_FUNC_" <+: env_name e

/-- The names `rebuild_env` sets by itself, `PATH` apart. -/
def own_names : List CStr :=
  [cstr "HOME", cstr "SHELL", cstr "TERM", cstr "LOGNAME", cstr "USER", cstr "USERNAME",
   cstr "MAIL", cstr "SUDO_COMMAND", cstr "SUDO_USER", cstr "SUDO_UID", cstr "SUDO_GID"]

/-- What one turn of the loop of `read_env_file` does once `var` is set: the
part of `parse_env_line` that follows the skip of `export`. -/
def parse_entry (var : CStr) : Except Fault (Option CStr) :=
  let var_len := strcspn var c_eq
  if var_len == 0 || byteAt var var_len != c_eq then .ok none
  else
    let val := var.drop (var_len + 1)
    let val_len := strlen val
    if (byteAt val 0 == 39 || byteAt val 0 == 34) &&
        byteAt val 0 == byteAt val (val_len - 1) then
      if val_len < 2 then .error .undefined
      else .ok (some (var.take (var_len + 1) ++ (val.drop 1).take (val_len - 2)))
    else .ok (some (var.take (var_len + 1) ++ val))

/-! ## The rebuild on the entries -/

/-- The state of `rebuild_env` seen through the entries of the table. -/
structure View where
  /-- The entries of `env.envp`. -/
  entries : List CStr
  /-- The local `didvar`. -/
  didvar : Nat
  /-- The local `ps1`. -/
  ps1 : Option CStr
  /-- The local `reset_home`. -/
  reset_home : Bool

/-- The view of a state of `rebuild_env`. -/
def view (r : Rebuild) : View :=
  { entries := env_entries r.env, didvar := r.didvar, ps1 := r.ps1, reset_home := r.reset_home }

/-- The macro `CHECK_PUTENV` on a view. -/
def v_put (v : View) (str : CStr) (d o : Bool) : View :=
  { v with entries := put_result v.entries str d o }

/-- The macro `CHECK_SETENV2` on a view. -/
def v_set (v : View) (var val : CStr) (d o : Bool) : View :=
  v_put v (var ++ c_eq :: val) d o

/-- What `sudo_getenv` returns, on the entries. -/
def v_getenv (l : List CStr) (q : CStr) : Option CStr :=
  (l.find? (named (env_name q))).map env_value

/-- The function `keep_loop` on a view. -/
def v_keep_loop (S : Sudoers) : List CStr → View → View
  | [], v => v
  | ep :: rest, v =>
    let v := if strncmp_eq ep (cstr "SUDO_PS1=") 8 then { v with ps1 := some (ep.drop 5) } else v
    if env_should_keep S ep then
      v_keep_loop S rest { v_put v ep true false with didvar := env_update_didvar ep v.didvar }
    else v_keep_loop S rest v

/-- The function `delete_loop` on a view. -/
def v_delete_loop (S : Sudoers) : List CStr → View → View
  | [], v => v
  | ep :: rest, v =>
    if !env_should_delete S ep then
      let v :=
        if strncmp_eq ep (cstr "SUDO_PS1=") 9 then { v with ps1 := some (ep.drop 5) }
        else if strncmp_eq ep (cstr "SHELL=") 6 then { v with didvar := SET v.didvar DID_SHELL }
        else if strncmp_eq ep (cstr "PATH=") 5 then { v with didvar := SET v.didvar DID_PATH }
        else if strncmp_eq ep (cstr "TERM=") 5 then { v with didvar := SET v.didvar DID_TERM }
        else v
      v_delete_loop S rest (v_put v ep true false)
    else v_delete_loop S rest v

/-- The function `seed_defaults` on a view, when it leaves the entries `l0`. -/
def v_seed (l0 : List CStr) (v : View) : View :=
  { v with entries := l0, didvar := l0.foldl (fun d ep => env_update_didvar ep d) v.didvar }

/-- The function `reset_defaults` on a view. -/
def v_reset_defaults (S : Sudoers) (v : View) : View :=
  if S.sudo_mode.login_shell then
    let v := v_set v (cstr "SHELL") S.runas_pw.pw_shell (ISSET v.didvar DID_SHELL) true
    let v := v_set v (cstr "LOGNAME") S.runas_pw.pw_name (ISSET v.didvar DID_LOGNAME) true
    let v := v_set v (cstr "USER") S.runas_pw.pw_name (ISSET v.didvar DID_USER) true
    v_set v (cstr "USERNAME") S.runas_pw.pw_name (ISSET v.didvar DID_USERNAME) true
  else if !S.def_set_logname then
    let v := if !ISSET v.didvar DID_LOGNAME then v_set v (cstr "LOGNAME") S.user_name false true
      else v
    let v := if !ISSET v.didvar DID_USER then v_set v (cstr "USER") S.user_name false true else v
    if !ISSET v.didvar DID_USERNAME then v_set v (cstr "USERNAME") S.user_name false true else v
  else v

/-- The function `reset_mail` on a view. -/
def v_reset_mail (S : Sudoers) (v : View) : View :=
  if S.sudo_mode.login_shell || !ISSET v.didvar KEPT_MAIL then
    let dir := S.plat.PATH_MAILDIR
    let cp :=
      if byteAt dir (strlen dir - 1) == c_slash then
        cstr "MAIL=" ++ dir ++ S.runas_pw.pw_name
      else cstr "MAIL=" ++ dir ++ c_slash :: S.runas_pw.pw_name
    v_put v cp (ISSET v.didvar DID_MAIL) true
  else v

/-- The function `reset_branch` on a view; `l0` are the entries the seeding
leaves. -/
def v_reset_branch (S : Sudoers) (old l0 : List CStr) (v : View) : View :=
  let v := if !S.sudo_mode.login_shell then v_seed l0 v else v
  let v := v_keep_loop S old v
  let v := { v with didvar := (v.didvar ||| (v.didvar <<< 8)) % 2 ^ 32 }
  let v := v_reset_defaults S v
  let v := if !ISSET v.didvar KEPT_HOME then { v with reset_home := true } else v
  v_reset_mail S v

/-- The function `secure_path_step` on a view. -/
def v_secure_path_step (S : Sudoers) (v : View) : View :=
  match S.def_secure_path with
  | some sp =>
    if !S.user_is_exempt then
      { v_set v (cstr "PATH") sp true true with didvar := SET v.didvar DID_PATH }
    else v
  | none => v

/-- The function `logname_step` on a view. -/
def v_logname_step (S : Sudoers) (v : View) : View :=
  if S.def_set_logname && !S.sudo_mode.login_shell then
    if !ISSET v.didvar (KEPT_LOGNAME ||| KEPT_USER ||| KEPT_USERNAME) then
      let v := v_set v (cstr "LOGNAME") S.runas_pw.pw_name true true
      let v := v_set v (cstr "USER") S.runas_pw.pw_name true true
      v_set v (cstr "USERNAME") S.runas_pw.pw_name true true
    else if (v.didvar &&& (KEPT_LOGNAME ||| KEPT_USER ||| KEPT_USERNAME)) !=
        (KEPT_LOGNAME ||| KEPT_USER ||| KEPT_USERNAME) then
      let cp :=
        if ISSET v.didvar KEPT_LOGNAME then v_getenv v.entries (cstr "LOGNAME")
        else if ISSET v.didvar KEPT_USER then v_getenv v.entries (cstr "USER")
        else if ISSET v.didvar KEPT_USERNAME then v_getenv v.entries (cstr "USERNAME")
        else none
      match cp with
      | some cp =>
        let v := if !ISSET v.didvar KEPT_LOGNAME then v_set v (cstr "LOGNAME") cp true true else v
        let v := if !ISSET v.didvar KEPT_USER then v_set v (cstr "USER") cp true true else v
        if !ISSET v.didvar KEPT_USERNAME then v_set v (cstr "USERNAME") cp true true else v
      | none => v
    else v
  else v

/-- The defaults of `final_steps` on a view: `HOME`, `SHELL`, `TERM` and
`PATH`. -/
def v_defaults (S : Sudoers) (v : View) : View :=
  let v := if v.reset_home then v_set v (cstr "HOME") S.runas_pw.pw_dir true true else v
  let v := if !ISSET v.didvar DID_SHELL then
      v_set v (cstr "SHELL") S.runas_pw.pw_shell false false else v
  let v := if !ISSET v.didvar DID_TERM then v_put v (cstr "TERM=unknown") false false else v
  if !ISSET v.didvar DID_PATH then v_set v (cstr "PATH") S.plat.PATH_STDPATH false true else v

/-- The pending `PS1` of `final_steps` on a view. -/
def v_ps1 (v : View) : View :=
  match v.ps1 with
  | some ps1 => v_put v ps1 true true
  | none => v

/-- The `SUDO_*` variables of `final_steps` on a view. -/
def v_sudo_vars (S : Sudoers) (v : View) : View :=
  let v :=
    match S.user_args with
    | some args => v_put v (cstr "SUDO_COMMAND=" ++ S.user_cmnd ++ 32 :: args) true true
    | none => v_set v (cstr "SUDO_COMMAND") S.user_cmnd true true
  let v := v_set v (cstr "SUDO_USER") S.user_name true true
  let v := v_set v (cstr "SUDO_UID") (idbuf S.user_uid) true true
  v_set v (cstr "SUDO_GID") (idbuf S.user_gid) true true

/-- The function `final_steps` on a view. -/
def v_final_steps (S : Sudoers) (v : View) : View :=
  v_sudo_vars S (v_ps1 (v_defaults S v))

/-- The function `rebuild_env` on the entries: `old` is the invoker's
environment, `l0` the entries the seeding leaves. -/
def v_rebuild (S : Sudoers) (old l0 : List CStr) : View :=
  let v0 : View :=
    { entries := []
      didvar := 0
      ps1 := none
      reset_home :=
        S.sudo_mode.run &&
          (S.def_always_set_home || (S.sudo_mode.reset_home || S.sudo_mode.login_shell) ||
            (S.sudo_mode.shell && S.def_set_home)) }
  let v1 :=
    if S.def_env_reset || S.sudo_mode.login_shell then v_reset_branch S old l0 v0
    else v_delete_loop S old v0
  v_final_steps S (v_logname_step S (v_secure_path_step S v1))

/-- The flags of `env_update_didvar` with the comparisons that set them. -/
def did_lit : List (Nat × CStr × Nat) :=
  [(DID_HOME, cstr "HOME=", 5), (DID_LOGNAME, cstr "LOGNAME=", 8), (DID_MAIL, cstr "MAIL=", 5),
   (DID_PATH, cstr "PATH=", 5), (DID_SHELL, cstr "SHELL=", 6), (DID_TERM, cstr "TERM=", 5),
   (DID_USER, cstr "USER=", 5), (DID_USERNAME, cstr "USERNAME=", 5)]

/-- The comparison of `env_update_didvar` that sets the flag `g`. -/
def did_test (g : Nat) (ep : CStr) : Bool :=
  did_lit.any fun t => t.1 == g && strncmp_eq ep t.2.1 t.2.2

/-- The flags of `didvar` whose comparison is on a whole `NAME=`, with the
name. -/
def flag_names : List (Nat × CStr) :=
  [(DID_TERM, cstr "TERM"), (DID_PATH, cstr "PATH"), (DID_HOME, cstr "HOME"),
   (DID_SHELL, cstr "SHELL"), (DID_LOGNAME, cstr "LOGNAME"), (DID_USER, cstr "USER"),
   (DID_MAIL, cstr "MAIL")]

/-- The flags `KEPT_*` of `rebuild_env`, with the name. -/
def kept_names : List (Nat × CStr) :=
  [(KEPT_HOME, cstr "HOME"), (KEPT_MAIL, cstr "MAIL"), (KEPT_LOGNAME, cstr "LOGNAME"),
   (KEPT_USER, cstr "USER")]

/-- A flag of `fl` that is set in `didvar` has an entry of its name. -/
def Seen (fl : List (Nat × CStr)) (v : View) : Prop :=
  ∀ p ∈ fl, ISSET v.didvar p.1 = true → has_entry v.entries p.2

/-- The entries `l'` come from `l` by puts of strings that satisfy `A`. -/
inductive Puts (A : CStr → Prop) : List CStr → List CStr → Prop
  /-- No put. -/
  | refl (l : List CStr) : Puts A l l
  /-- One more put. -/
  | put (l l' : List CStr) (str : CStr) (d o : Bool) :
      Puts A l l' → A str → Puts A l (put_result l' str d o)

/-- The string sets one of the names `ns`: it reads `n=...` for an `n` of `ns`. -/
def sets (ns : List CStr) (s : CStr) : Prop := ∃ n ∈ ns, ∃ val, s = n ++ c_eq :: val

/-- Every name of `fl` that has an entry has its flag set in `didvar`. -/
def Marked (fl : List (Nat × CStr)) (v : View) : Prop :=
  ∀ p ∈ fl, has_entry v.entries p.2 → ISSET v.didvar p.1 = true

/-- The flags of `env_update_didvar`, with the name each stands for. -/
def did_names : List (Nat × CStr) :=
  flag_names ++ [(DID_USERNAME, cstr "USERNAME")]

/-- The table of `r` is well formed and `n` more reallocations of 128 slots pass
the overflow guards of `sudo_putenv_nodebug`. -/
def Fits (S : Sudoers) (n : Nat) (r : Rebuild) : Prop :=
  table_ok r.env ∧ r.env.env_size + 128 * n ≤ S.plat.SIZE_MAX / S.plat.sizeof_ptr

/-- The step `f` succeeds wherever `c` reallocations fit, and uses up no more
than `c` of them. -/
def Runs (S : Sudoers) (c : Nat) (f : Rebuild → Except Fault Rebuild) : Prop :=
  ∀ r n, Fits S (n + c) r → ∃ r', f r = .ok r' ∧ Fits S n r'

/-! ## Theorems -/

/-! ### C strings and the policy matcher -/

theorem strncmp_eq_iff_take (a b : CStr) (n : Nat) :
    strncmp_eq a b n = true ↔ a.take n = b.take n := by
  induction n generalizing a b with
  | zero => simp [strncmp_eq]
  | succ n ih =>
    cases a with
    | nil => cases b <;> simp [strncmp_eq]
    | cons x xs =>
      cases b with
      | nil => simp [strncmp_eq]
      | cons y ys => simp [strncmp_eq, ih]

theorem strchr_append (name value : CStr) (c : Nat) (h : c ∉ name) :
    strchr (name ++ c :: value) c = some (c :: value) := by
  induction name with
  | nil => simp [strchr]
  | cons x xs ih =>
    have hx : x ≠ c := fun e => h (by simp [e])
    have hxs : c ∉ xs := fun m => h (by simp [m])
    simp [strchr, hx, ih hxs]

theorem strchr_eq_none (s : CStr) (c : Nat) : strchr s c = none ↔ c ∉ s := by
  induction s with
  | nil => simp [strchr]
  | cons x xs ih =>
    by_cases hx : x = c
    · simp [strchr, hx]
    · simp [strchr, hx, ih, Ne.symm hx]

theorem strchr_some (s : CStr) (c : Nat) (t : CStr) (h : strchr s c = some t) :
    ∃ name value, s = name ++ c :: value ∧ c ∉ name ∧ t = c :: value := by
  induction s with
  | nil => simp [strchr] at h
  | cons x xs ih =>
    by_cases hx : x = c
    · simp [strchr, hx] at h
      exact ⟨[], xs, by simp [hx], by simp, h.symm⟩
    · simp [strchr, hx] at h
      obtain ⟨name, value, h1, h2, h3⟩ := ih h
      exact ⟨x :: name, value, by simp [h1], by simp [h2, Ne.symm hx], h3⟩

theorem strcspn_eq_indexOf (s : CStr) (c : Nat) : strcspn s c = s.indexOf c := by
  induction s with
  | nil => simp [strcspn]
  | cons x xs ih =>
    by_cases hx : x = c
    · simp [strcspn, hx]
    · simp [strcspn, hx, ih, List.indexOf_cons_ne _ hx]

theorem indexOf_append_eq (name value : CStr) (c : Nat) (h : c ∉ name) :
    (name ++ c :: value).indexOf c = name.length := by
  induction name with
  | nil => simp
  | cons x xs ih =>
    have hx : x ≠ c := fun e => h (by simp [e])
    have hxs : c ∉ xs := fun m => h (by simp [m])
    simp [List.indexOf_cons_ne _ hx, ih hxs]

/-- The bash-function test compares three bytes: `=`, `(` and `)`. -/
theorem bash_function_value_iff (name value : CStr) (h : c_eq ∉ name) :
    bash_function_value (name ++ c_eq :: value) = true ↔ cstr "()" <+: value := by
  unfold bash_function_value
  rw [strchr_append name value c_eq h]
  simp only [strncmp_eq_iff_take]
  have e1 : (cstr "=() ").take 3 = c_eq :: cstr "()" := by decide
  rw [e1]
  constructor
  · intro h1
    have : (value.take 2) = cstr "()" := by
      simpa using h1
    rw [← this]; exact List.take_prefix 2 value
  · rintro ⟨t, rfl⟩
    simp [cstr]

theorem bash_function_value_no_eq (var : CStr) (h : c_eq ∉ var) :
    bash_function_value var = false := by
  unfold bash_function_value
  rw [(strchr_eq_none var c_eq).2 h]

theorem matches_env_list_cons (var cur : CStr) (rest : List CStr) (fm : Bool) :
    matches_env_list var (cur :: rest) fm =
      if pattern_test var cur then (true, decide (pattern_len cur > strcspn var c_eq + 1))
      else matches_env_list var rest fm := rfl

theorem matches_env_list_snd_of_no_match (var : CStr) (l : List CStr) (fm : Bool)
    (h : (matches_env_list var l fm).1 = false) : (matches_env_list var l fm).2 = fm := by
  induction l with
  | nil => simp [matches_env_list]
  | cons cur rest ih =>
    rw [matches_env_list_cons] at h ⊢
    split
    · rename_i hc; rw [if_pos hc] at h; simp at h
    · rename_i hc; rw [if_neg hc] at h; exact ih h

theorem matches_env_check_fst_of_eq (S : Sudoers) (name value : CStr) (fm : Bool)
    (h : c_eq ∉ name) :
    (matches_env_check S (name ++ c_eq :: value) fm).1 =
      if (matches_env_list (name ++ c_eq :: value) S.def_env_check fm).1 then
        (if strncmp_eq (name ++ c_eq :: value) (cstr "TZ=") 3 then
          (if tz_is_sane S.plat ((name ++ c_eq :: value).drop 3) then 1 else 0)
        else (if strpbrk value [c_slash, c_percent] then 0 else 1))
      else -1 := by
  unfold matches_env_check
  rw [strchr_append name value c_eq h]
  simp only [List.drop_succ_cons, List.drop_zero]
  split <;> [split; skip] <;> simp

theorem matches_env_check_snd (S : Sudoers) (var : CStr) (fm : Bool) :
    (matches_env_check S var fm).2 = (matches_env_list var S.def_env_check fm).2 := by
  unfold matches_env_check
  dsimp only
  cases strchr var c_eq <;> split_ifs <;> rfl

/-- C1 (amended). For every entry `NAME=VALUE`, `env_should_delete` is true
exactly when VALUE starts with the two bytes `()`, or the entry matches
`env_delete`, or `matches_env_check` returns deny (`0`) for it. -/
theorem env_should_delete_iff (S : Sudoers) (name value : CStr) (h : c_eq ∉ name) :
    env_should_delete S (name ++ c_eq :: value) = true ↔
      (cstr "()" <+: value ∨ matches_env_delete S (name ++ c_eq :: value) = true ∨
        (matches_env_check S (name ++ c_eq :: value) false).1 = 0) := by
  unfold env_should_delete
  rw [← bash_function_value_iff name value h]
  cases hb : bash_function_value (name ++ c_eq :: value)
  · cases hd : matches_env_delete S (name ++ c_eq :: value) <;> simp
  · simp

/-- C1 fails as stated: `FOO=()x` is deleted although its value does not start
with `() `, it matches no `env_delete` pattern and `matches_env_check` does not
deny it. -/
theorem env_should_delete_paren_counterexample :
    env_should_delete builtin (cstr "FOO" ++ c_eq :: cstr "()x") = true ∧
    ¬ (cstr "() " <+: cstr "()x" ∨
        matches_env_delete builtin (cstr "FOO" ++ c_eq :: cstr "()x") = true ∨
        (matches_env_check builtin (cstr "FOO" ++ c_eq :: cstr "()x") false).1 = 0) := by
  decide

theorem env_should_delete_iff_witness :
    c_eq ∉ cstr "FOO" ∧
    (env_should_delete builtin (cstr "FOO" ++ c_eq :: cstr "() { :; }") = true ↔
      (cstr "()" <+: cstr "() { :; }" ∨
        matches_env_delete builtin (cstr "FOO" ++ c_eq :: cstr "() { :; }") = true ∨
        (matches_env_check builtin (cstr "FOO" ++ c_eq :: cstr "() { :; }") false).1 = 0)) :=
  ⟨by decide, env_should_delete_iff builtin _ _ (by decide)⟩

/-- C2. For every entry whose value starts with `() `, whatever the lists and the
mode, `env_should_delete` is true, and `env_should_keep` is true only if the list
match that allowed the entry reported `full_match`: either `env_check` matched
with `full_match` and allowed it, or `env_check` did not match and `env_keep`
matched with `full_match`. -/
theorem bash_function_guard (S : Sudoers) (name value : CStr) (h : c_eq ∉ name)
    (hv : cstr "() " <+: value) :
    env_should_delete S (name ++ c_eq :: value) = true ∧
    (env_should_keep S (name ++ c_eq :: value) = true →
      ((matches_env_check S (name ++ c_eq :: value) false).1 = 1 ∧
        matches_env_list (name ++ c_eq :: value) S.def_env_check false = (true, true)) ∨
      ((matches_env_check S (name ++ c_eq :: value) false).1 = -1 ∧
        (matches_env_list (name ++ c_eq :: value) S.def_env_check false).1 = false ∧
        matches_env_list (name ++ c_eq :: value) S.def_env_keep false = (true, true))) := by
  have hb : bash_function_value (name ++ c_eq :: value) = true := by
    rw [bash_function_value_iff name value h]
    obtain ⟨t, rfl⟩ := hv
    exact ⟨cstr " " ++ t, by simp [cstr]⟩
  refine ⟨by simp [env_should_delete, hb], ?_⟩
  intro hk
  unfold env_should_keep at hk
  simp only [hb, if_true] at hk
  have hsnd := matches_env_check_snd S (name ++ c_eq :: value) false
  have hfst := matches_env_check_fst_of_eq S name value false h
  cases hm : (matches_env_list (name ++ c_eq :: value) S.def_env_check false).1
  · -- no env_check pattern matches
    rw [hm] at hfst
    simp only [Bool.false_eq_true, if_false] at hfst
    have h2 := matches_env_list_snd_of_no_match _ _ _ hm
    rw [h2] at hsnd
    right
    refine ⟨hfst, rfl, ?_⟩
    rw [hfst, hsnd] at hk
    simp only [beq_self_eq_true, if_true] at hk
    unfold matches_env_keep at hk
    split at hk
    · simp at hk
    · cases hq : matches_env_list (name ++ c_eq :: value) S.def_env_keep false with
      | mk q1 q2 =>
        rw [hq] at hk
        cases q1 <;> cases q2 <;> simp at hk ⊢
  · left
    rw [hm] at hfst
    simp only [if_true] at hfst
    have hne : ((matches_env_check S (name ++ c_eq :: value) false).1 == -1) = false := by
      rw [hfst]; split <;> [split; split] <;> decide
    rw [hne] at hk
    simp only [Bool.false_eq_true, if_false] at hk
    rw [hsnd] at hk
    cases h2 : (matches_env_list (name ++ c_eq :: value) S.def_env_check false).2
    · rw [h2] at hk
      simp at hk
      split at hk <;> omega
    · rw [h2] at hk
      simp at hk
      exact ⟨hk, Prod.ext hm h2⟩

theorem bash_function_guard_witness :
    c_eq ∉ cstr "FOO" ∧ cstr "() " <+: cstr "() { :; }" ∧
    env_should_delete builtin (cstr "FOO" ++ c_eq :: cstr "() { :; }") = true :=
  ⟨by decide, by decide, (bash_function_guard builtin _ _ (by decide) (by decide)).1⟩

theorem byteAt_eq_zero_iff (s : CStr) (i : Nat) (h : 0 ∉ s) :
    byteAt s i = 0 ↔ s.length ≤ i := by
  unfold byteAt
  constructor
  · intro hz
    by_contra hlt
    have hlt : i < s.length := by omega
    rw [List.getD_eq_getElem _ _ hlt] at hz
    exact h (hz ▸ List.getElem_mem hlt)
  · intro hle
    exact List.getD_eq_default _ _ hle

theorem pattern_wild_iff (P : CStr) (h : P ≠ []) :
    pattern_wild P = true ↔ P.getLast? = some c_star := by
  unfold pattern_wild byteAt strlen
  have hlt : P.length - 1 < P.length := by
    have := List.length_pos.2 h; omega
  rw [List.getD_eq_getElem _ _ hlt, List.getLast?_eq_getLast _ h, List.getLast_eq_getElem]
  simp

theorem pattern_len_eq (P : CStr) (h : P ≠ []) : pattern_len P = consumed_length P := by
  unfold pattern_len consumed_length strlen
  by_cases hw : pattern_wild P = true
  · rw [if_pos hw, if_pos ((pattern_wild_iff P h).1 hw)]
  · rw [if_neg hw, if_neg (fun e => hw ((pattern_wild_iff P h).2 e))]

theorem consumed_length_le (P : CStr) : consumed_length P ≤ P.length := by
  unfold consumed_length; split <;> omega

theorem pattern_test_iff (E P : CStr) (hE : 0 ∉ E) (hP : P ≠ []) :
    pattern_test E P = true ↔ suffix_star_match E P := by
  unfold pattern_test suffix_star_match
  rw [pattern_len_eq P hP, strcspn_eq_indexOf]
  have hL : consumed_length P ≤ P.length := consumed_length_le P
  simp only [Bool.and_eq_true, Bool.or_eq_true, beq_iff_eq, strncmp_eq_iff_take,
    pattern_wild_iff P hP, byteAt_eq_zero_iff E _ hE]
  show _ ↔ (E.take (consumed_length P) = P.take (consumed_length P) ∧
      (P.getLast? = some c_star ∨ consumed_length P = E.indexOf c_eq ∨
        E.length = consumed_length P))
  constructor
  · rintro ⟨h1, h2⟩
    refine ⟨h1.symm, ?_⟩
    have hlen := congrArg List.length h1
    simp only [List.length_take] at hlen
    rcases h2 with (h2 | h2) | h2
    · exact Or.inl h2
    · exact Or.inr (Or.inl h2)
    · exact Or.inr (Or.inr (by omega))
  · rintro ⟨h1, h2⟩
    refine ⟨h1.symm, ?_⟩
    rcases h2 with h2 | h2 | h2
    · exact Or.inl (Or.inl h2)
    · exact Or.inl (Or.inr h2)
    · exact Or.inr (by omega)

/-- C6. `matches_env_list` reports a match exactly when some pattern of the list
matches the entry under the suffix-star rule, for every entry without a NUL byte
and every list of non-empty patterns. -/
theorem matches_env_list_iff (E : CStr) (list : List CStr) (fm : Bool)
    (hE : 0 ∉ E) (hl : ∀ P ∈ list, P ≠ []) :
    (matches_env_list E list fm).1 = true ↔ ∃ P ∈ list, suffix_star_match E P := by
  induction list with
  | nil => simp [matches_env_list]
  | cons cur rest ih =>
    have hcur : cur ≠ [] := hl cur (by simp)
    have ih := ih (fun P hP => hl P (by simp [hP]))
    rw [matches_env_list_cons]
    by_cases ht : pattern_test E cur = true
    · rw [if_pos ht]
      simp only [true_iff]
      exact ⟨cur, by simp, (pattern_test_iff E cur hE hcur).1 ht⟩
    · rw [if_neg ht, ih]
      have hn : ¬ suffix_star_match E cur := fun e => ht ((pattern_test_iff E cur hE hcur).2 e)
      simp [hn]

theorem matches_env_list_iff_witness :
    0 ∉ cstr "LC_ALL=C" ∧ (∀ P ∈ initial_checkenv_table, P ≠ []) ∧
    ((matches_env_list (cstr "LC_ALL=C") initial_checkenv_table false).1 = true ↔
      ∃ P ∈ initial_checkenv_table, suffix_star_match (cstr "LC_ALL=C") P) :=
  ⟨by decide, by decide,
    matches_env_list_iff (cstr "LC_ALL=C") initial_checkenv_table false (by decide) (by decide)⟩

/-- C7. When `matches_env_list` reports a match, the `full_match` it writes is
that of the first pattern of the list that matches: the patterns before it do not
match, and the flag is true exactly when the length that pattern consumes is
greater than the index of the first `=` of the entry plus one. -/
theorem matches_env_list_full_match (E : CStr) (list : List CStr) (fm fm' : Bool)
    (hE : 0 ∉ E) (hl : ∀ P ∈ list, P ≠ [])
    (h : matches_env_list E list fm = (true, fm')) :
    ∃ pre P post, list = pre ++ P :: post ∧ (∀ Q ∈ pre, ¬ suffix_star_match E Q) ∧
      suffix_star_match E P ∧ (fm' = true ↔ consumed_length P > E.indexOf c_eq + 1) := by
  induction list with
  | nil => simp [matches_env_list] at h
  | cons cur rest ih =>
    have hcur : cur ≠ [] := hl cur (by simp)
    rw [matches_env_list_cons] at h
    by_cases ht : pattern_test E cur = true
    · rw [if_pos ht] at h
      refine ⟨[], cur, rest, rfl, by simp, (pattern_test_iff E cur hE hcur).1 ht, ?_⟩
      have h2 := (Prod.mk.inj h).2
      rw [← h2, pattern_len_eq cur hcur, strcspn_eq_indexOf]
      simp
    · rw [if_neg ht] at h
      obtain ⟨pre, P, post, h1, h2, h3, h4⟩ := ih (fun P hP => hl P (by simp [hP])) h
      refine ⟨cur :: pre, P, post, by simp [h1], ?_, h3, h4⟩
      intro Q hQ
      rcases List.mem_cons.1 hQ with rfl | hQ
      · exact fun e => ht ((pattern_test_iff E Q hE hcur).2 e)
      · exact h2 Q hQ

theorem matches_env_list_full_match_witness :
    ∃ pre P post, [cstr "LC_*", cstr "LC_ALL=C*", cstr "LC_ALL"] = pre ++ P :: post ∧
      (∀ Q ∈ pre, ¬ suffix_star_match (cstr "LC_ALL=C.UTF-8") Q) ∧
      suffix_star_match (cstr "LC_ALL=C.UTF-8") P ∧
      (false = true ↔ consumed_length P > (cstr "LC_ALL=C.UTF-8").indexOf c_eq + 1) :=
  matches_env_list_full_match (cstr "LC_ALL=C.UTF-8")
    [cstr "LC_*", cstr "LC_ALL=C*", cstr "LC_ALL"] false false (by decide) (by decide) (by decide)

theorem matches_env_list_of_mem (var : CStr) (l : List CStr) (fm : Bool) (P : CStr)
    (hP : P ∈ l) (ht : pattern_test var P = true) : (matches_env_list var l fm).1 = true := by
  induction l with
  | nil => simp at hP
  | cons cur rest ih =>
    rw [matches_env_list_cons]
    by_cases hc : pattern_test var cur = true
    · rw [if_pos hc]
    · rw [if_neg hc]
      rcases List.mem_cons.1 hP with rfl | h
      · exact absurd ht hc
      · exact ih h

theorem pattern_test_name (name value : CStr) (h : c_eq ∉ name)
    (hw : pattern_wild name = false) :
    pattern_test (name ++ c_eq :: value) name = true := by
  unfold pattern_test pattern_len
  rw [hw, strcspn_eq_indexOf, indexOf_append_eq name value c_eq h]
  simp [strncmp_eq_iff_take, strlen]

theorem pattern_test_star (pre rest : CStr) (hw : pattern_wild (pre ++ [c_star]) = true) :
    pattern_test (pre ++ rest) (pre ++ [c_star]) = true := by
  unfold pattern_test pattern_len
  rw [hw]
  simp [strncmp_eq_iff_take, strlen, List.take_append_eq_append_take]

theorem mem_slist_insert_all (p : CStr) (table list : List CStr) :
    p ∈ slist_insert_all table list ↔ p ∈ table ∨ p ∈ list := by
  unfold slist_insert_all
  induction table generalizing list with
  | nil => simp
  | cons t ts ih =>
    simp only [List.foldl_cons, ih, List.mem_cons]
    tauto

theorem env_should_delete_of_matches (S : Sudoers) (var : CStr)
    (h : matches_env_delete S var = true) : env_should_delete S var = true := by
  unfold env_should_delete
  rw [h]; simp

/-- C5 (amended). With the `env_delete` list as `init_envtables` fills it,
`env_should_delete` is true for every entry whose NAME is one of `PERLLIB`,
`PERL5LIB`, `PERL5OPT`, `PERL5DB`, `PYTHONHOME`, `PYTHONPATH`, `PYTHONINSPECT`,
`PYTHONUSERBASE`, `RUBYLIB`, `RUBYOPT` and `JAVA_TOOL_OPTIONS`, whatever its
value. -/
theorem env_should_delete_language_hooks (S : Sudoers) (name value : CStr)
    (hn : name ∈ [cstr "PERLLIB", cstr "PERL5LIB", cstr "PERL5OPT", cstr "PERL5DB",
      cstr "PYTHONHOME", cstr "PYTHONPATH", cstr "PYTHONINSPECT", cstr "PYTHONUSERBASE",
      cstr "RUBYLIB", cstr "RUBYOPT", cstr "JAVA_TOOL_OPTIONS"]) :
    env_should_delete (init_envtables S) (name ++ c_eq :: value) = true := by
  apply env_should_delete_of_matches
  have hmem : name ∈ (init_envtables S).def_env_delete := by
    show name ∈ slist_insert_all (initial_badenv_table S.plat) S.def_env_delete
    rw [mem_slist_insert_all]
    left
    unfold initial_badenv_table
    simp only [List.mem_append]
    right
    revert hn
    simp only [List.mem_cons, List.mem_singleton, List.not_mem_nil, or_false]
    tauto
  have hside : c_eq ∉ name ∧ pattern_wild name = false := by
    simp only [List.mem_cons, List.mem_singleton, List.not_mem_nil, or_false] at hn
    rcases hn with rfl | rfl | rfl | rfl | rfl | rfl | rfl | rfl | rfl | rfl | rfl <;> decide
  exact matches_env_list_of_mem _ _ _ name hmem (pattern_test_name name value hside.1 hside.2)

theorem env_should_delete_language_hooks_witness :
    env_should_delete (init_envtables bare) (cstr "PERL5LIB" ++ c_eq :: cstr "/tmp/lib") = true :=
  env_should_delete_language_hooks bare (cstr "PERL5LIB") (cstr "/tmp/lib") (by decide)

/-- The entry `"PERLIO_DEBUG "` of `initial_badenv_table` ends in a space: it
matches no entry `PERLIO_DEBUG=...`, which is therefore not deleted. -/
theorem perlio_debug_not_deleted :
    cstr "PERLIO_DEBUG " ∈ initial_badenv_table linux ∧
    env_should_delete builtin (cstr "PERLIO_DEBUG=/tmp/log") = false := by
  decide

/-- C5 fails as stated: with the built-in lists `PYTHONSTARTUP=/tmp/x.py`, whose
NAME begins with `PYTHON`, is not deleted. -/
theorem env_should_delete_python_counterexample :
    cstr "PYTHON" <+: cstr "PYTHONSTARTUP" ∧
    env_should_delete (init_envtables bare)
      (cstr "PYTHONSTARTUP" ++ c_eq :: cstr "/tmp/x.py") = false := by
  decide

theorem take_three_tz (name value : CStr) (h : c_eq ∉ name) :
    strncmp_eq (name ++ c_eq :: value) (cstr "TZ=") 3 = true ↔ name = cstr "TZ" := by
  rw [strncmp_eq_iff_take]
  have e : (cstr "TZ=").take 3 = [84, 90, 61] := by decide
  have e2 : cstr "TZ" = [84, 90] := by decide
  rw [e, e2]
  match name, h with
  | [], _ => simp
  | [a], h => simp at h ⊢
  | [a, b], h => simp
  | a :: b :: c :: rest, h =>
    simp at h ⊢
    intro _ _ hc
    exact absurd hc.symm h.2.2.1

theorem strpbrk_iff (s : CStr) : strpbrk s [c_slash, c_percent] = true ↔
    (c_slash ∈ s ∨ c_percent ∈ s) := by
  unfold strpbrk
  simp only [List.any_eq_true, List.contains_iff_exists_mem_beq]
  constructor
  · rintro ⟨b, hb, c, hc, hbc⟩
    have hbc : b = c := by simpa using hbc
    subst hbc
    rcases List.mem_cons.1 hc with rfl | hc
    · exact Or.inl hb
    · rcases List.mem_cons.1 hc with rfl | hc
      · exact Or.inr hb
      · simp at hc
  · rintro (h | h)
    · exact ⟨c_slash, h, c_slash, by simp, by simp⟩
    · exact ⟨c_percent, h, c_percent, by simp, by simp⟩

theorem matches_env_check_no_eq (S : Sudoers) (var : CStr) (fm : Bool) (h : c_eq ∉ var) :
    (matches_env_check S var fm).1 = -1 := by
  unfold matches_env_check
  have h1 : strncmp_eq var (cstr "TZ=") 3 = false := by
    cases hs : strncmp_eq var (cstr "TZ=") 3
    · rfl
    · exfalso
      rw [strncmp_eq_iff_take] at hs
      have e : (cstr "TZ=").take 3 = [84, 90, 61] := by decide
      rw [e] at hs
      have : c_eq ∈ var.take 3 := by rw [hs]; simp
      exact h (List.mem_of_mem_take this)
  rw [h1, (strchr_eq_none var c_eq).2 h]
  dsimp only
  split <;> simp

theorem exists_split_of_mem (var : CStr) (c : Nat) (h : c ∈ var) :
    ∃ name value, var = name ++ c :: value ∧ c ∉ name := by
  induction var with
  | nil => simp at h
  | cons x xs ih =>
    by_cases hx : x = c
    · exact ⟨[], xs, by simp [hx], by simp⟩
    · have : c ∈ xs := by
        rcases List.mem_cons.1 h with e | e
        · exact absurd e.symm hx
        · exact e
      obtain ⟨n, v, h1, h2⟩ := ih this
      exact ⟨x :: n, v, by simp [h1], by simp [h2, Ne.symm hx]⟩

/-- C8 (amended). `matches_env_check` returns `-1` exactly when the entry matches
no `env_check` pattern or holds no `=`; for a matching entry `NAME=VALUE` it
returns, when NAME is `TZ`, `1` if `tz_is_sane(VALUE)` and `0` if not, and
otherwise `1` if VALUE holds neither `/` nor `%` and `0` if it holds either. -/
theorem matches_env_check_spec (S : Sudoers) (var : CStr) (fm : Bool) :
    ((matches_env_check S var fm).1 = -1 ↔
      ((matches_env_list var S.def_env_check fm).1 = false ∨ c_eq ∉ var)) ∧
    (∀ name value, var = name ++ c_eq :: value → c_eq ∉ name →
      (matches_env_list var S.def_env_check fm).1 = true →
      (name = cstr "TZ" →
        (matches_env_check S var fm).1 = if tz_is_sane S.plat value then 1 else 0) ∧
      (name ≠ cstr "TZ" →
        (matches_env_check S var fm).1 =
          if c_slash ∈ value ∨ c_percent ∈ value then 0 else 1)) := by
  have key : ∀ name value, var = name ++ c_eq :: value → c_eq ∉ name →
      (matches_env_list var S.def_env_check fm).1 = true →
      (name = cstr "TZ" →
        (matches_env_check S var fm).1 = if tz_is_sane S.plat value then 1 else 0) ∧
      (name ≠ cstr "TZ" →
        (matches_env_check S var fm).1 =
          if c_slash ∈ value ∨ c_percent ∈ value then 0 else 1) := by
    intro name value hv hn hm
    subst hv
    have hfst := matches_env_check_fst_of_eq S name value fm hn
    rw [hm] at hfst
    simp only [if_true] at hfst
    constructor
    · intro hname
      rw [hfst, if_pos ((take_three_tz name value hn).2 hname)]
      subst hname
      rfl
    · intro hname
      have : ¬ strncmp_eq (name ++ c_eq :: value) (cstr "TZ=") 3 = true :=
        fun e => hname ((take_three_tz name value hn).1 e)
      rw [hfst, if_neg this]
      by_cases hp : c_slash ∈ value ∨ c_percent ∈ value
      · rw [if_pos hp, if_pos ((strpbrk_iff value).2 hp)]
      · rw [if_neg hp, if_neg (fun e => hp ((strpbrk_iff value).1 e))]
  refine ⟨?_, key⟩
  by_cases hmem : c_eq ∈ var
  · obtain ⟨name, value, hv, hn⟩ := exists_split_of_mem var c_eq hmem
    cases hm : (matches_env_list var S.def_env_check fm).1
    · have hfst := matches_env_check_fst_of_eq S name value fm hn
      rw [← hv, hm] at hfst
      simp [hfst]
    · have k := key name value hv hn hm
      simp only [Bool.true_eq_false, hmem, not_true_eq_false, or_self, iff_false]
      by_cases hname : name = cstr "TZ"
      · rw [k.1 hname]; split <;> decide
      · rw [k.2 hname]; split <;> decide
  · simp [matches_env_check_no_eq S var fm hmem, hmem]

theorem matches_env_check_spec_witness :
    (matches_env_check builtin (cstr "TZ=/etc/shadow") false).1 =
      if tz_is_sane builtin.plat (cstr "/etc/shadow") then 1 else 0 :=
  ((matches_env_check_spec builtin (cstr "TZ=/etc/shadow") false).2
    (cstr "TZ") (cstr "/etc/shadow") (by decide) (by decide) (by decide)).1 rfl

/-- C8 fails as stated: the entry `LANG`, which holds no `=`, matches the
`env_check` pattern `LANG`, and `matches_env_check` returns `-1` for it. -/
theorem matches_env_check_bare_name_counterexample :
    (∃ P ∈ builtin.def_env_check, suffix_star_match (cstr "LANG") P) ∧
    (matches_env_list (cstr "LANG") builtin.def_env_check false).1 = true ∧
    (matches_env_check builtin (cstr "LANG") false).1 = -1 := by
  decide

theorem dotdot_after_cons (lastch c : Nat) (rest : CStr) :
    dotdot_after lastch (c :: rest) ↔
      (lastch = c_slash ∧ c = c_dot ∧
        ∃ post, rest = c_dot :: post ∧ (post = [] ∨ post.head? = some c_slash)) ∨
      dotdot_after c rest := by
  unfold dotdot_after
  constructor
  · rintro ⟨pre, post, hs, hpre, hpost⟩
    cases pre with
    | nil =>
      simp only [List.nil_append, List.cons.injEq] at hs
      rcases hpre with ⟨_, hl⟩ | hp
      · exact Or.inl ⟨hl, hs.1, post, hs.2, hpost⟩
      · simp at hp
    | cons p ps =>
      simp only [List.cons_append, List.cons.injEq] at hs
      right
      refine ⟨ps, post, hs.2, ?_, hpost⟩
      rcases hpre with ⟨hp, _⟩ | hp
      · simp at hp
      · cases ps with
        | nil =>
          left
          simp only [List.getLast?_singleton, Option.some.injEq] at hp
          exact ⟨rfl, hs.1 ▸ hp⟩
        | cons q qs =>
          right
          simpa [List.getLast?_cons_cons] using hp
  · rintro (⟨hl, hc, post, hr, hpost⟩ | ⟨pre, post, hs, hpre, hpost⟩)
    · exact ⟨[], post, by simp [hc, hr], Or.inl ⟨rfl, hl⟩, hpost⟩
    · refine ⟨c :: pre, post, by simp [hs], ?_, hpost⟩
      right
      rcases hpre with ⟨hp, hc⟩ | hp
      · subst hp; simp [hc]
      · cases pre with
        | nil => simp at hp
        | cons q qs => simpa [List.getLast?_cons_cons] using hp

theorem dotdot_head_iff (rest : CStr) (h0 : 0 ∉ rest) :
    (byteAt rest 0 == c_dot && (byteAt rest 1 == c_slash || byteAt rest 1 == 0)) = true ↔
      ∃ post, rest = c_dot :: post ∧ (post = [] ∨ post.head? = some c_slash) := by
  unfold byteAt
  match rest, h0 with
  | [], _ => simp
  | [a], _ =>
    simp only [List.getD_cons_zero, List.getD_cons_succ, List.getD_nil, beq_self_eq_true,
      Bool.or_true, Bool.and_true, beq_iff_eq]
    constructor
    · intro h; exact ⟨[], by rw [h], Or.inl rfl⟩
    · rintro ⟨post, h, _⟩
      exact (List.cons.inj h).1
  | a :: b :: t, h0 =>
    have hb : b ≠ 0 := fun e => h0 (by simp [e])
    simp only [List.getD_cons_zero, List.getD_cons_succ, Bool.and_eq_true, Bool.or_eq_true,
      beq_iff_eq, hb, or_false]
    constructor
    · rintro ⟨h1, h2⟩
      exact ⟨b :: t, by rw [h1], Or.inr (by simp [h2])⟩
    · rintro ⟨post, h, hp⟩
      have h1 := (List.cons.inj h).1
      have h2 := (List.cons.inj h).2
      subst h2
      refine ⟨h1, ?_⟩
      rcases hp with hp | hp
      · simp at hp
      · simpa using hp

theorem tz_scan_iff (P : Platform) (lastch : Nat) (s : CStr) (hs : 0 ∉ s) :
    tz_scan P lastch s = true ↔
      (∀ b ∈ s, P.isprint b = true ∧ P.isspace b = false) ∧ ¬ dotdot_after lastch s := by
  induction s generalizing lastch with
  | nil =>
    simp [tz_scan, dotdot_after]
  | cons c rest ih =>
    have h0 : 0 ∉ rest := fun m => hs (by simp [m])
    rw [dotdot_after_cons]
    unfold tz_scan
    by_cases hbad : (P.isspace c || !P.isprint c) = true
    · rw [if_pos hbad]
      simp only [Bool.false_eq_true, false_iff, not_and, not_not]
      intro hall
      have := hall c (by simp)
      simp [this.1, this.2] at hbad
    · rw [if_neg hbad]
      have hok : P.isprint c = true ∧ P.isspace c = false := by
        cases h1 : P.isprint c <;> cases h2 : P.isspace c <;> simp [h1, h2] at hbad ⊢
      have hd := dotdot_head_iff rest h0
      by_cases hcond : (lastch == c_slash && c == c_dot && byteAt rest 0 == c_dot &&
          (byteAt rest 1 == c_slash || byteAt rest 1 == 0)) = true
      · rw [if_pos hcond]
        simp only [Bool.false_eq_true, false_iff, not_and, not_not]
        intro _
        left
        simp only [Bool.and_eq_true, beq_iff_eq] at hcond
        refine ⟨hcond.1.1.1, hcond.1.1.2, hd.1 ?_⟩
        simp only [Bool.and_eq_true, beq_iff_eq]
        exact ⟨hcond.1.2, hcond.2⟩
      · rw [if_neg hcond, ih c h0]
        have hnh : ¬ (lastch = c_slash ∧ c = c_dot ∧
            ∃ post, rest = c_dot :: post ∧ (post = [] ∨ post.head? = some c_slash)) := by
          rintro ⟨h1, h2, h3⟩
          apply hcond
          have := hd.2 h3
          simp only [Bool.and_eq_true, beq_iff_eq] at this ⊢
          exact ⟨⟨⟨h1, h2⟩, this.1⟩, this.2⟩
        constructor
        · rintro ⟨ha, hn⟩
          refine ⟨?_, fun h => h.elim hnh hn⟩
          intro b hb
          rcases List.mem_cons.1 hb with rfl | hb
          · exact hok
          · exact ha b hb
        · rintro ⟨ha, hn⟩
          exact ⟨fun b hb => ha b (by simp [hb]), fun h => hn (Or.inr h)⟩

theorem dotdot_after_slash (r : CStr) : dotdot_after c_slash r ↔ has_dotdot_component r := by
  unfold dotdot_after has_dotdot_component
  simp

theorem getD_append_length (zi t : CStr) (c : Nat) :
    (zi ++ c :: t).getD zi.length 0 = c := by
  induction zi with
  | nil => rfl
  | cons x xs ih => simpa [List.getD_cons_succ] using ih

theorem zoneinfo_prefix_iff (r zi : CStr) :
    (strncmp_eq r zi (strlen zi) && byteAt r (strlen zi) == c_slash) = true ↔
      (zi ++ [c_slash]) <+: r := by
  simp only [Bool.and_eq_true, strncmp_eq_iff_take, beq_iff_eq, strlen, byteAt]
  constructor
  · rintro ⟨h1, h2⟩
    have hlt : zi.length < r.length := by
      by_contra hge
      rw [List.getD_eq_default _ _ (by omega)] at h2
      exact absurd h2 (by decide)
    rw [List.getD_eq_getElem _ _ hlt] at h2
    rw [List.take_length] at h1
    refine ⟨r.drop (zi.length + 1), ?_⟩
    have h3 := List.take_append_drop (zi.length + 1) r
    rw [List.take_succ, h1, List.getElem?_eq_getElem hlt, h2] at h3
    exact h3
  · rintro ⟨t, rfl⟩
    refine ⟨?_, ?_⟩
    · simp [List.take_append_eq_append_take]
    · simpa using getD_append_length zi t c_slash

theorem byteAt_zero_eq_iff (r : CStr) (c : Nat) (hc : c ≠ 0) :
    (byteAt r 0 == c) = true ↔ r.head? = some c := by
  cases r with
  | nil => simp [byteAt, Ne.symm hc]
  | cons x xs => simp [byteAt]

theorem tz_is_sane_core (P : Platform) (zi r : CStr) (hz : P.PATH_ZONEINFO = some zi)
    (h0 : 0 ∉ r) :
    (if (byteAt r 0 == c_slash &&
        !(match P.PATH_ZONEINFO with
          | some zi => strncmp_eq r zi (strlen zi) && byteAt r (strlen zi) == c_slash
          | none => false)) = true then false
      else if (!tz_scan P c_slash r) = true then false
      else if strlen r ≥ P.PATH_MAX then false
      else true) = true ↔
      (r.head? = some c_slash → (zi ++ [c_slash]) <+: r) ∧
      (∀ b ∈ r, P.isprint b = true ∧ P.isspace b = false) ∧
      ¬ has_dotdot_component r ∧ r.length < P.PATH_MAX := by
  rw [hz]
  simp only [Bool.and_eq_true, Bool.not_eq_true', byteAt_zero_eq_iff r c_slash (by decide)]
  have hzp := zoneinfo_prefix_iff r zi
  have hscan := tz_scan_iff P c_slash r h0
  rw [dotdot_after_slash] at hscan
  by_cases h1 : r.head? = some c_slash ∧
      (strncmp_eq r zi (strlen zi) && byteAt r (strlen zi) == c_slash) = false
  · rw [if_pos h1]
    simp only [Bool.false_eq_true, false_iff]
    intro hcon
    have := hzp.2 (hcon.1 h1.1)
    rw [h1.2] at this
    exact absurd this (by decide)
  · rw [if_neg h1]
    have h1' : r.head? = some c_slash → (zi ++ [c_slash]) <+: r := by
      intro hh
      apply hzp.1
      by_contra hne
      exact h1 ⟨hh, by simpa using hne⟩
    by_cases h2 : tz_scan P c_slash r = false
    · rw [if_pos h2]
      simp only [Bool.false_eq_true, false_iff]
      intro hcon
      have := hscan.2 ⟨hcon.2.1, hcon.2.2.1⟩
      rw [h2] at this
      exact absurd this (by decide)
    · rw [if_neg h2]
      have h2' : tz_scan P c_slash r = true := by simpa using h2
      have hs := hscan.1 h2'
      by_cases h3 : strlen r ≥ P.PATH_MAX
      · rw [if_pos h3]
        simp only [Bool.false_eq_true, false_iff]
        intro hcon
        have := hcon.2.2.2
        unfold strlen at h3
        omega
      · rw [if_neg h3]
        simp only [true_iff]
        unfold strlen at h3
        exact ⟨h1', hs.1, hs.2, by omega⟩

theorem tz_strip_eq (v : CStr) :
    (if byteAt v 0 == c_colon then v.drop 1 else v) =
      (if v.head? = some c_colon then v.tail else v) := by
  cases v <;> simp [byteAt]

theorem tz_is_sane_unfold (P : Platform) (v r : CStr)
    (hr : r = if v.head? = some c_colon then v.tail else v) :
    tz_is_sane P v =
      (if (byteAt r 0 == c_slash &&
        !(match P.PATH_ZONEINFO with
          | some zi => strncmp_eq r zi (strlen zi) && byteAt r (strlen zi) == c_slash
          | none => false)) = true then false
      else if (!tz_scan P c_slash r) = true then false
      else if strlen r ≥ P.PATH_MAX then false
      else true) := by
  subst hr
  unfold tz_is_sane
  simp only [tz_strip_eq]

/-- C9. With the zoneinfo directory `zi` configured, `tz_is_sane(v)` is true
exactly when, for `r` the string `v` less one leading `:`: if `r` starts with
`/` then `r` begins with `zi` followed by `/`; every byte of `r` is printable
and not white space; `r` has no `..` path component; and `r` is shorter than
`PATH_MAX`. On the Linux build it accepts `America/Denver`, `:America/Denver`
and `UTC` and rejects `/etc/shadow`, `/usr/share/zoneinfo/../../../etc/shadow`,
`America/Den ver` and `/usr/share/zoneinfo-extra/Foo`. -/
theorem tz_is_sane_iff (P : Platform) (zi v : CStr) (hz : P.PATH_ZONEINFO = some zi)
    (hv : 0 ∉ v) :
    (tz_is_sane P v = true ↔
      ((if v.head? = some c_colon then v.tail else v).head? = some c_slash →
        (zi ++ [c_slash]) <+: (if v.head? = some c_colon then v.tail else v)) ∧
      (∀ b ∈ (if v.head? = some c_colon then v.tail else v),
        P.isprint b = true ∧ P.isspace b = false) ∧
      ¬ has_dotdot_component (if v.head? = some c_colon then v.tail else v) ∧
      (if v.head? = some c_colon then v.tail else v).length < P.PATH_MAX) ∧
    (tz_is_sane linux (cstr "America/Denver") = true ∧
      tz_is_sane linux (cstr ":America/Denver") = true ∧
      tz_is_sane linux (cstr "UTC") = true ∧
      tz_is_sane linux (cstr "/etc/shadow") = false ∧
      tz_is_sane linux (cstr "/usr/share/zoneinfo/../../../etc/shadow") = false ∧
      tz_is_sane linux (cstr "America/Den ver") = false ∧
      tz_is_sane linux (cstr "/usr/share/zoneinfo-extra/Foo") = false) := by
  refine ⟨?_, by decide⟩
  have h0 : 0 ∉ (if v.head? = some c_colon then v.tail else v) := by
    split
    · exact fun m => hv (List.mem_of_mem_tail m)
    · exact hv
  rw [tz_is_sane_unfold P v _ rfl]
  exact tz_is_sane_core P zi _ hz h0

theorem tz_is_sane_iff_witness :
    linux.PATH_ZONEINFO = some (cstr "/usr/share/zoneinfo") ∧
    0 ∉ cstr ":/usr/share/zoneinfo/Europe/Paris" ∧
    tz_is_sane linux (cstr ":/usr/share/zoneinfo/Europe/Paris") = true ∧
    (cstr "/usr/share/zoneinfo" ++ [c_slash]) <+: cstr "/usr/share/zoneinfo/Europe/Paris" :=
  ⟨rfl, by decide, by decide,
    ((tz_is_sane_iff linux (cstr "/usr/share/zoneinfo") (cstr ":/usr/share/zoneinfo/Europe/Paris")
      rfl (by decide)).1.1 (by decide)).1 (by decide)⟩

theorem tz_scan_replicate (n lastch : Nat) :
    tz_scan linux lastch (List.replicate n 65) = true := by
  induction n generalizing lastch with
  | zero => rfl
  | succ n ih =>
    rw [List.replicate_succ]
    unfold tz_scan
    rw [if_neg (by decide), if_neg (by simp), ih]

theorem tz_is_sane_colon_replicate (n : Nat) (h : n + 1 < linux.PATH_MAX) :
    tz_is_sane linux (c_colon :: List.replicate (n + 1) 65) = true := by
  rw [tz_is_sane_unfold linux _ (List.replicate (n + 1) 65) (by simp)]
  rw [tz_scan_replicate]
  have e2 : byteAt (List.replicate (n + 1) 65) 0 = 65 := by
    rw [List.replicate_succ]; rfl
  rw [e2]
  have e3 : ¬ (strlen (List.replicate (n + 1) 65) ≥ linux.PATH_MAX) := by
    unfold strlen; rw [List.length_replicate]; omega
  simp [e3, c_slash]

/-- C10 fails as stated: with `PATH_MAX` 4096, the string made of `:` and 4095
letters `A` has length `PATH_MAX` and `tz_is_sane` accepts it. -/
theorem tz_is_sane_colon_counterexample :
    (c_colon :: List.replicate 4095 65).length ≥ linux.PATH_MAX ∧
    tz_is_sane linux (c_colon :: List.replicate 4095 65) = true := by
  constructor
  · rw [List.length_cons, List.length_replicate]; decide
  · exact tz_is_sane_colon_replicate 4094 (by decide)

/-- C10 (amended). `tz_is_sane` rejects every string whose length, not counting
one leading `:`, is greater than or equal to `PATH_MAX`, whatever its content. -/
theorem tz_is_sane_rejects_long (P : Platform) (v : CStr)
    (h : P.PATH_MAX ≤ (if v.head? = some c_colon then v.tail else v).length) :
    tz_is_sane P v = false := by
  rw [tz_is_sane_unfold P v _ rfl]
  have h3 : strlen (if v.head? = some c_colon then v.tail else v) ≥ P.PATH_MAX := h
  generalize (if v.head? = some c_colon then v.tail else v) = r at h3
  rw [if_pos h3]
  split_ifs <;> rfl

theorem tz_is_sane_rejects_long_witness :
    tz_is_sane { linux with PATH_MAX := 4 } (cstr ":UTC0") = false :=
  tz_is_sane_rejects_long { linux with PATH_MAX := 4 } (cstr ":UTC0") (by decide)

/-! ### The table at the level of its entries -/

theorem walk_append (l : List CStr) (junk : Slots) :
    walk (l.map some ++ none :: junk) = l := by
  induction l with
  | nil => rfl
  | cons e rest ih => simp [walk, ih]

theorem env_entries_of (env : Environment) (l : List CStr) (junk : Slots)
    (h : env.envp = some (l.map some ++ none :: junk)) : env_entries env = l := by
  unfold env_entries; rw [h]; exact walk_append l junk

theorem shift_left_cons_some (x : Option CStr) (y : CStr) (rest : Slots) :
    shift_left (x :: some y :: rest) = some y :: shift_left (some y :: rest) := rfl

theorem prune_succ_some (str : CStr) (len fuel : Nat) (e : CStr) (rest : Slots) :
    prune str len (fuel + 1) (some e :: rest) =
      if strncmp_eq str e len then prune str len fuel (shift_left (some e :: rest))
      else ((some e :: (prune str len fuel rest).1, (prune str len fuel rest).2 + 1)) := rfl

theorem shift_left_append (x : Option CStr) (rest : List CStr) (junk : Slots) :
    shift_left (x :: (rest.map some ++ none :: junk)) =
      rest.map some ++ none :: none :: junk := by
  induction rest generalizing x with
  | nil => rfl
  | cons e rest ih =>
    rw [List.map_cons, List.cons_append, shift_left_cons_some, ih]
    rfl

theorem prune_append (str : CStr) (len fuel : Nat) (t : List CStr) (junk : Slots)
    (hf : t.length ≤ fuel) :
    ∃ junk', prune str len fuel (t.map some ++ none :: junk) =
      ((t.filter fun x => !strncmp_eq str x len).map some ++ none :: junk',
        (t.filter fun x => !strncmp_eq str x len).length) := by
  induction fuel generalizing t junk with
  | zero =>
    have : t = [] := List.length_eq_zero.1 (by omega)
    subst this
    exact ⟨junk, rfl⟩
  | succ f ih =>
    cases t with
    | nil => exact ⟨junk, rfl⟩
    | cons e rest =>
      have hr : rest.length ≤ f := by simp at hf; omega
      rw [List.map_cons, List.cons_append, prune_succ_some]
      by_cases hm : strncmp_eq str e len = true
      · rw [if_pos hm, shift_left_append]
        obtain ⟨j, hj⟩ := ih rest (none :: junk) hr
        refine ⟨j, ?_⟩
        rw [hj]
        simp [List.filter_cons, hm]
      · rw [if_neg hm]
        obtain ⟨j, hj⟩ := ih rest junk hr
        refine ⟨j, ?_⟩
        rw [hj]
        simp [List.filter_cons, hm]

theorem find_dup_append (str : CStr) (len : Nat) (ow : Bool) (l : List CStr) (junk : Slots) :
    match find_dup str len (l.map some ++ none :: junk) with
    | none => put_entries str len ow l = l ++ [str]
    | some i => i < l.length ∧
        put_entries str len ow l =
          (if ow then l.take i ++ str :: (l.drop (i + 1)).filter (fun x => !strncmp_eq str x len)
           else l) := by
  induction l with
  | nil => simp [find_dup, put_entries]
  | cons e rest ih =>
    simp only [List.map_cons, List.cons_append, find_dup, put_entries]
    by_cases hm : strncmp_eq str e len = true
    · simp [hm]
    · simp only [hm, Bool.false_eq_true, if_false]
      cases hf : find_dup str len (rest.map some ++ none :: junk) with
      | none =>
        rw [hf] at ih
        simp only [Option.map_none']
        simpa using ih
      | some i =>
        rw [hf] at ih
        simp only [Option.map_some']
        refine ⟨by simp; omega, ?_⟩
        rw [ih.2]
        cases ow <;> simp

theorem store_append (l : List CStr) (junk : Slots) (str : CStr) :
    ∃ junk', store (store (l.map some ++ none :: junk) l.length (some str)) (l.length + 1) none =
      (l ++ [str]).map some ++ none :: junk' := by
  have h1 : store (l.map some ++ none :: junk) l.length (some str) =
      l.map some ++ some str :: junk := by
    unfold store
    rw [if_pos (by simp)]
    rw [List.set_append_right _ _ (by simp)]
    simp
  rw [h1]
  cases junk with
  | nil =>
    refine ⟨[], ?_⟩
    unfold store
    rw [if_neg (by simp)]
    simp
  | cons j js =>
    refine ⟨js, ?_⟩
    unfold store
    rw [if_pos (by simp)]
    have : (l.map some ++ some str :: j :: js) = ((l ++ [str]).map some ++ j :: js) := by simp
    rw [this, List.set_append_right _ _ (by simp)]
    simp

theorem take_set_succ (l : List CStr) (i : Nat) (x : CStr) (h : i < l.length) :
    (l.set i x).take (i + 1) = l.take i ++ [x] := by
  induction l generalizing i with
  | nil => simp at h
  | cons a as ih =>
    cases i with
    | zero => simp
    | succ j => simp [ih j (by simpa using h)]

theorem drop_set_succ (l : List CStr) (i : Nat) (x : CStr) :
    (l.set i x).drop (i + 1) = l.drop (i + 1) := by
  induction l generalizing i with
  | nil => simp
  | cons a as ih =>
    cases i with
    | zero => simp
    | succ j => simp [ih j]

theorem strchr_len (str eq : CStr) (h : strchr str c_eq = some eq) :
    strlen str - strlen eq + 1 = str.indexOf c_eq + 1 := by
  induction str with
  | nil => simp [strchr] at h
  | cons x xs ih =>
    by_cases hx : x = c_eq
    · simp only [strchr, hx, if_true, Option.some.injEq] at h
      subst h
      simp [strlen, hx]
    · simp only [strchr, hx, if_false] at h
      have h1 := ih h
      have hle : strlen eq ≤ strlen xs := by
        clear ih h1
        induction xs with
        | nil => simp [strchr] at h
        | cons y ys ih2 =>
          by_cases hy : y = c_eq
          · simp only [strchr, hy, if_true, Option.some.injEq] at h
            subst h; simp [strlen]
          · simp only [strchr, hy, if_false] at h
            have := ih2 h
            simp only [strlen, List.length_cons] at this ⊢
            omega
      simp only [strlen, List.length_cons] at h1 hle ⊢
      rw [List.indexOf_cons_ne _ hx]
      omega



theorem sudo_putenv_nodebug_ok (P : Platform) (env env' : Environment) (str : CStr)
    (dup ow : Bool) (hok : table_ok env)
    (h : sudo_putenv_nodebug P env str dup ow = .ok env') :
    table_ok env' ∧ env'.old_envp = env.old_envp ∧
      env_entries env' = put_result (env_entries env) str dup ow := by
  obtain ⟨l, junk, hv, hlen⟩ := hok
  have hent := env_entries_of env l junk hv
  unfold sudo_putenv_nodebug at h
  -- the growth step only touches `env_size`
  generalize hg : (if (decide (env.env_size > 2) && decide (env.env_len > env.env_size - 2)) = true then
      if env.env_size > P.SIZE_MAX - 128 then Except.error Fault.failure
      else if env.env_size + 128 > P.SIZE_MAX / P.sizeof_ptr then Except.error Fault.failure
      else Except.ok { env with env_size := env.env_size + 128 }
    else Except.ok env : Except Fault Environment) = grown at h
  cases grown with
  | error f => simp at h
  | ok e1 =>
    have he1 : e1.envp = env.envp ∧ e1.old_envp = env.old_envp ∧ e1.env_len = env.env_len := by
      split at hg
      · split at hg
        · simp at hg
        · split at hg
          · simp at hg
          · cases hg; simp
      · cases hg; simp
    obtain ⟨hp1, hp2, hp3⟩ := he1
    simp only [hp1, hv, hp3, hlen] at h
    have happ : ∀ e2, (Except.ok { e1 with
          envp := some (store (store (l.map some ++ none :: junk) l.length (some str))
            (l.length + 1) none)
          env_len := l.length + 1 } : Except Fault Environment) = .ok e2 →
        table_ok e2 ∧ e2.old_envp = env.old_envp ∧ env_entries e2 = l ++ [str] := by
      intro e2 h2
      cases h2
      obtain ⟨j, hj⟩ := store_append l junk str
      refine ⟨⟨l ++ [str], j, by simp [hj], by simp⟩, hp2, ?_⟩
      exact env_entries_of _ (l ++ [str]) j (by simp [hj])
    cases dup with
    | false =>
      simp only [Bool.false_eq_true, if_false] at h
      obtain ⟨a, b, c⟩ := happ env' h
      exact ⟨a, b, by rw [c, hent]; simp [put_result]⟩
    | true =>
      simp only [if_true] at h
      have hcount : (match strchr str c_eq with
          | some eq => strlen str - strlen eq + 1
          | none => strlen str + 1) = str.indexOf c_eq + 1 := by
        cases hs : strchr str c_eq with
        | none =>
          have hn : c_eq ∉ str := (strchr_eq_none str c_eq).1 hs
          simp [strlen, List.indexOf_eq_length.2 hn]
        | some eq => exact strchr_len str eq hs
      simp only [hcount] at h
      · have hfd := find_dup_append str (str.indexOf c_eq + 1) ow l junk
        cases hf : find_dup str (str.indexOf c_eq + 1) (l.map some ++ none :: junk) with
        | none =>
          rw [hf] at h hfd
          simp only at h hfd
          obtain ⟨a, b, c⟩ := happ env' h
          exact ⟨a, b, by rw [c, hent]; simp [put_result, hfd]⟩
        | some i =>
          rw [hf] at h hfd
          simp only at h hfd
          obtain ⟨hi, hpe⟩ := hfd
          cases ow with
          | false =>
            simp only [Bool.false_eq_true, if_false] at h hpe
            cases h
            refine ⟨⟨l, junk, by rw [hp1, hv], by rw [hp3, hlen]⟩, hp2, ?_⟩
            rw [env_entries_of env' l junk (by rw [hp1, hv]), hent]
            simp [put_result, hpe]
          | true =>
            simp only [if_true] at h hpe
            have hset : (l.map some ++ none :: junk).set i (some str) =
                (l.set i str).map some ++ none :: junk := by
              rw [List.set_append_left _ _ (by simpa using hi)]
              simp [List.map_set]
            have hdrop : ((l.set i str).map some ++ none :: junk).drop (i + 1) =
                (l.drop (i + 1)).map some ++ none :: junk := by
              rw [List.drop_append_of_le_length (by simp; omega)]
              rw [← List.map_drop, drop_set_succ]
            have htake : ((l.set i str).map some ++ none :: junk).take (i + 1) =
                (l.take i ++ [str]).map some := by
              rw [List.take_append_of_le_length (by simp; omega)]
              rw [← List.map_take, take_set_succ l i str hi]
            rw [hset, hdrop, htake] at h
            obtain ⟨j, hj⟩ := prune_append str (str.indexOf c_eq + 1)
              ((l.map some ++ none :: junk).length) (l.drop (i + 1)) junk (by simp; omega)
            rw [hj] at h
            cases h
            refine ⟨⟨l.take i ++ [str] ++
                (l.drop (i + 1)).filter (fun x => !strncmp_eq str x (str.indexOf c_eq + 1)), j,
              by simp, by simp; omega⟩, hp2, ?_⟩
            rw [env_entries_of _ (l.take i ++ [str] ++
                (l.drop (i + 1)).filter (fun x => !strncmp_eq str x (str.indexOf c_eq + 1))) j
              (by simp), hent]
            simp [put_result, hpe]

/-! ### Names of entries -/

theorem env_name_append (name value : CStr) (h : c_eq ∉ name) :
    env_name (name ++ c_eq :: value) = name := by
  unfold env_name
  induction name with
  | nil => simp
  | cons x xs ih =>
    have hx : x ≠ c_eq := fun e => h (by simp [e])
    have hxs : c_eq ∉ xs := fun m => h (by simp [m])
    simp [List.takeWhile_cons, hx, ih hxs]

theorem env_name_not_mem (e : CStr) : c_eq ∉ env_name e := by
  unfold env_name
  intro h
  have := List.mem_takeWhile_imp h
  simp at this

theorem env_name_split (e : CStr) (h : c_eq ∈ e) :
    ∃ value, e = env_name e ++ c_eq :: value := by
  obtain ⟨name, value, he, hn⟩ := exists_split_of_mem e c_eq h
  refine ⟨value, ?_⟩
  rw [he, env_name_append name value hn]

theorem env_name_starts (e : CStr) : env_name e <+: e := by
  unfold env_name
  exact List.takeWhile_prefix _

theorem env_name_length (e : CStr) : (env_name e).length = e.indexOf c_eq := by
  unfold env_name
  induction e with
  | nil => simp
  | cons x xs ih =>
    by_cases hx : x = c_eq
    · simp [hx]
    · simp [List.takeWhile_cons, hx, List.indexOf_cons_ne _ hx, ih]

/-- The duplicate test of `sudo_putenv_nodebug` compares the `NAME=` prefixes. -/
theorem dup_test_iff (str e : CStr) (h : c_eq ∈ str) :
    strncmp_eq str e (str.indexOf c_eq + 1) = true ↔
      (c_eq ∈ e ∧ env_name e = env_name str) := by
  obtain ⟨v, hv⟩ := env_name_split str h
  have hn := env_name_not_mem str
  rw [strncmp_eq_iff_take, ← env_name_length]
  generalize env_name str = name at hv hn
  subst hv
  have ht : (name ++ c_eq :: v).take (name.length + 1) = name ++ [c_eq] := by
    rw [List.take_append_eq_append_take]
    simp
  rw [ht]
  constructor
  · intro h1
    have h2 : e = (name ++ [c_eq]) ++ e.drop (name.length + 1) := by
      rw [h1]; exact (List.take_append_drop _ _).symm
    have h3 : e = name ++ c_eq :: e.drop (name.length + 1) := by
      rw [List.append_assoc] at h2; exact h2
    refine ⟨by rw [h3]; simp, ?_⟩
    rw [h3, env_name_append name _ hn]
  · rintro ⟨h1, h2⟩
    obtain ⟨w, hw⟩ := env_name_split e h1
    rw [h2] at hw
    rw [hw, List.take_append_eq_append_take]
    simp

/-! ### What a put does to the entries -/

theorem mem_put_entries (str : CStr) (len : Nat) (ow : Bool) (l : List CStr) (x : CStr)
    (h : x ∈ put_entries str len ow l) : x = str ∨ x ∈ l := by
  induction l with
  | nil => simp [put_entries] at h; exact Or.inl h
  | cons e rest ih =>
    unfold put_entries at h
    split at h
    · split at h
      · rcases List.mem_cons.1 h with h | h
        · exact Or.inl h
        · exact Or.inr (List.mem_cons_of_mem _ (List.mem_of_mem_filter h))
      · exact Or.inr h
    · rcases List.mem_cons.1 h with h | h
      · exact Or.inr (by simp [h])
      · rcases ih h with h | h
        · exact Or.inl h
        · exact Or.inr (List.mem_cons_of_mem _ h)

theorem mem_put_result (l : List CStr) (str : CStr) (d o : Bool) (x : CStr)
    (h : x ∈ put_result l str d o) : x = str ∨ x ∈ l := by
  unfold put_result at h
  split at h
  · exact mem_put_entries _ _ _ _ _ h
  · rcases List.mem_append.1 h with h | h
    · exact Or.inr h
    · exact Or.inl (by simpa using h)

/-! ### Steps of `rebuild_env` -/

theorem bind_ok {α β : Type} (x : Except Fault α) (f : α → Except Fault β) (b : β) :
    (x >>= f) = .ok b ↔ ∃ a, x = .ok a ∧ f a = .ok b := by
  cases x with
  | error e => simp [bind, Except.bind]
  | ok a => simp [bind, Except.bind]

theorem Keeps.bind {I : Rebuild → Prop} {f g : Rebuild → Except Fault Rebuild}
    (hf : Keeps I f) (hg : Keeps I g) : Keeps I (fun r => f r >>= g) := by
  intro r r' hI h
  obtain ⟨a, h1, h2⟩ := (bind_ok _ _ _).1 h
  exact hg a r' (hf r a hI h1) h2

theorem Keeps.when {I : Rebuild → Prop} {f : Rebuild → Except Fault Rebuild}
    (c : Rebuild → Bool) (hf : Keeps I f) : Keeps I (fun r => when (c r) f r) := by
  intro r r' hI h
  by_cases hc : c r = true
  · simp only [SudoEnv.when, hc, if_true] at h
    exact hf r r' hI h
  · simp only [SudoEnv.when, hc, if_false] at h
    cases h; exact hI

theorem Keeps.pure {I : Rebuild → Prop} (u : Rebuild → Rebuild) (hu : ∀ r, I r → I (u r)) :
    Keeps I (fun r => .ok (u r)) := by
  intro r r' hI h
  cases h; exact hu r hI

/-- What a successful `CHECK_PUTENV` does. -/
theorem CHECK_PUTENV_ok (S : Sudoers) (r r' : Rebuild) (str : CStr) (d o : Bool)
    (hok : table_ok r.env) (h : CHECK_PUTENV S r str d o = .ok r') :
    table_ok r'.env ∧ r'.didvar = r.didvar ∧ r'.ps1 = r.ps1 ∧
      r'.reset_home = r.reset_home ∧ r'.env.old_envp = r.env.old_envp ∧
      env_entries r'.env = put_result (env_entries r.env) str d o := by
  unfold CHECK_PUTENV sudo_putenv at h
  cases hp : sudo_putenv_nodebug S.plat r.env str d o with
  | error f => rw [hp] at h; simp at h
  | ok e =>
    rw [hp] at h
    cases h
    obtain ⟨h1, h2, h3⟩ := sudo_putenv_nodebug_ok S.plat r.env e str d o hok hp
    exact ⟨h1, rfl, rfl, rfl, h2, h3⟩

theorem CHECK_SETENV2_eq (S : Sudoers) (r : Rebuild) (var val : CStr) (d o : Bool) :
    CHECK_SETENV2 S r var val d o = CHECK_PUTENV S r (var ++ c_eq :: val) d o := rfl

/-- A successful put keeps an invariant whose entry part admits the string. -/
theorem RInv_put {Q : List CStr → Prop} {A B : CStr → Prop} {D : Nat → Prop}
    (hput : ∀ l str d o, Q l → A str → Q (put_result l str d o))
    (S : Sudoers) (r r' : Rebuild) (str : CStr) (d o : Bool)
    (hI : RInv Q B D r) (hA : A str)
    (h : CHECK_PUTENV S r str d o = .ok r') : RInv Q B D r' := by
  obtain ⟨h1, h2, h3, h4⟩ := hI
  obtain ⟨k1, k2, k3, _, _, k6⟩ := CHECK_PUTENV_ok S r r' str d o h1 h
  refine ⟨k1, ?_, ?_, ?_⟩
  · rw [k6]; exact hput _ _ _ _ h2 hA
  · rw [k3]; exact h3
  · rw [k2]; exact h4

theorem RInv_set {Q : List CStr → Prop} {A B : CStr → Prop} {D : Nat → Prop}
    (hput : ∀ l str d o, Q l → A str → Q (put_result l str d o))
    (S : Sudoers) (r r' : Rebuild) (var val : CStr) (d o : Bool)
    (hI : RInv Q B D r) (hA : A (var ++ c_eq :: val))
    (h : CHECK_SETENV2 S r var val d o = .ok r') : RInv Q B D r' :=
  RInv_put hput S r r' _ d o hI hA h

theorem final_steps_keeps {Q : List CStr → Prop} {A B : CStr → Prop} {D : Nat → Prop}
    (hput : ∀ l str d o, Q l → A str → Q (put_result l str d o))
    (S : Sudoers)
    (hown : ∀ n ∈ own_names, ∀ val, A (n ++ c_eq :: val))
    (hpath : ∀ d, D d → ISSET d DID_PATH = false → A (cstr "PATH" ++ c_eq :: S.plat.PATH_STDPATH))
    (hB : ∀ p, B p → A p) :
    Keeps (RInv Q B D) (final_steps S) := by
  unfold final_steps
  refine Keeps.bind ?_ (Keeps.bind ?_ (Keeps.bind ?_ (Keeps.bind ?_ (Keeps.bind ?_
    (Keeps.bind ?_ (Keeps.bind ?_ (Keeps.bind ?_ ?_)))))))
  · exact Keeps.when _ (fun r r' hI h => RInv_set hput S r r' _ _ _ _ hI
      (hown _ (by decide) _) h)
  · exact Keeps.when _ (fun r r' hI h => RInv_set hput S r r' _ _ _ _ hI
      (hown _ (by decide) _) h)
  · exact Keeps.when _ (fun r r' hI h => RInv_put hput S r r' _ _ _ hI
      (hown (cstr "TERM") (by decide) (cstr "unknown")) h)
  · intro r r' hI h
    by_cases hc : (!ISSET r.didvar DID_PATH) = true
    · simp only [SudoEnv.when, hc, if_true] at h
      exact RInv_set hput S r r' _ _ _ _ hI (hpath _ hI.2.2.2 (by simpa using hc)) h
    · simp only [SudoEnv.when, hc, if_false] at h
      cases h; exact hI
  · intro r r' hI h
    dsimp only at h
    cases hp : r.ps1 with
    | none => rw [hp] at h; cases h; exact hI
    | some p =>
      rw [hp] at h
      exact RInv_put hput S r r' p true true hI (hB p (hI.2.2.1 p hp)) h
  · intro r r' hI h
    dsimp only at h
    cases ha : S.user_args with
    | none =>
      rw [ha] at h
      exact RInv_set hput S r r' _ _ _ _ hI (hown _ (by decide) _) h
    | some args =>
      rw [ha] at h
      refine RInv_put hput S r r' _ true true hI ?_ h
      have := hown (cstr "SUDO_COMMAND") (by decide) (S.user_cmnd ++ 32 :: args)
      have e : cstr "SUDO_COMMAND=" ++ S.user_cmnd ++ 32 :: args =
          cstr "SUDO_COMMAND" ++ c_eq :: (S.user_cmnd ++ 32 :: args) := by
        have : cstr "SUDO_COMMAND=" = cstr "SUDO_COMMAND" ++ [c_eq] := by decide
        rw [this]; simp
      rw [e]; exact this
  · exact fun r r' hI h => RInv_set hput S r r' _ _ _ _ hI (hown _ (by decide) _) h
  · exact fun r r' hI h => RInv_set hput S r r' _ _ _ _ hI (hown _ (by decide) _) h
  · exact fun r r' hI h => RInv_set hput S r r' _ _ _ _ hI (hown _ (by decide) _) h

theorem logname_step_keeps {Q : List CStr → Prop} {A B : CStr → Prop} {D : Nat → Prop}
    (hput : ∀ l str d o, Q l → A str → Q (put_result l str d o))
    (S : Sudoers)
    (hown : ∀ n ∈ own_names, ∀ val, A (n ++ c_eq :: val)) :
    Keeps (RInv Q B D) (logname_step S) := by
  have hS : ∀ (var val : CStr) (d o : Bool), var ∈ own_names →
      Keeps (RInv Q B D) (fun r => CHECK_SETENV2 S r var val d o) :=
    fun var val d o hv r r' hI h => RInv_set hput S r r' _ _ _ _ hI (hown var hv val) h
  intro r r' hI h
  unfold logname_step at h
  split at h
  · split at h
    · exact Keeps.bind (hS _ _ _ _ (by decide))
        (Keeps.bind (hS _ _ _ _ (by decide)) (hS _ _ _ _ (by decide))) r r' hI h
    · split at h
      · dsimp only at h
        generalize (if ISSET r.didvar KEPT_LOGNAME = true then sudo_getenv r.env (cstr "LOGNAME")
          else if ISSET r.didvar KEPT_USER = true then sudo_getenv r.env (cstr "USER")
          else if ISSET r.didvar KEPT_USERNAME = true then sudo_getenv r.env (cstr "USERNAME")
          else none) = cp at h
        cases cp with
        | none => cases h; exact hI
        | some cp =>
          dsimp only at h
          exact Keeps.bind
            (Keeps.when (fun r => !ISSET r.didvar KEPT_LOGNAME)
              (hS (cstr "LOGNAME") cp true true (by decide)))
            (Keeps.bind
              (Keeps.when (fun r => !ISSET r.didvar KEPT_USER)
                (hS (cstr "USER") cp true true (by decide)))
              (Keeps.when (fun r => !ISSET r.didvar KEPT_USERNAME)
                (hS (cstr "USERNAME") cp true true (by decide)))) r r' hI h
      · cases h; exact hI
  · cases h; exact hI

theorem ISSET_SET (d f : Nat) (hf : f ≠ 0) : ISSET (SET d f) f = true := by
  unfold ISSET SET
  have : (d ||| f) &&& f = f := by
    apply Nat.eq_of_testBit_eq
    intro i
    simp only [Nat.testBit_and, Nat.testBit_or]
    cases h : Nat.testBit f i <;> simp
  simp [this, hf]

theorem drop_of_starts (ep pre : CStr) (n k : Nat) (hk : k ≤ n)
    (h : strncmp_eq ep pre n = true) (hn : n ≤ pre.length) :
    ep.drop k = (pre.take n).drop k ++ ep.drop n := by
  rw [strncmp_eq_iff_take] at h
  have h1 : ep = pre.take n ++ ep.drop n := by
    rw [← h]; exact (List.take_append_drop n ep).symm
  have hl : (pre.take n).length = n := by simp [hn]
  conv_lhs => rw [h1]
  rw [List.drop_append_of_le_length (by omega)]

theorem delete_loop_keeps {Q : List CStr → Prop} {A B : CStr → Prop}
    (hput : ∀ l str d o, Q l → A str → Q (put_result l str d o))
    (S : Sudoers) (old : List CStr)
    (hA : ∀ ep ∈ old, env_should_delete S ep = false → A ep)
    (hB : ∀ v, B (cstr "PS1=" ++ v)) :
    Keeps (RInv Q B (fun _ => True)) (delete_loop S old) := by
  induction old with
  | nil => intro r r' hI h; cases h; exact hI
  | cons ep rest ih =>
    have ih := ih (fun x hx => hA x (List.mem_cons_of_mem _ hx))
    intro r r' hI h
    unfold delete_loop at h
    by_cases hd : env_should_delete S ep = true
    · simp only [hd, Bool.not_true, Bool.false_eq_true, if_false] at h
      exact ih r r' hI h
    · have hd' : env_should_delete S ep = false := by simpa using hd
      simp only [hd', Bool.not_false, if_true] at h
      generalize hr1 : (if strncmp_eq ep (cstr "SUDO_PS1=") 9 = true then
          { r with ps1 := some (ep.drop 5) }
        else if strncmp_eq ep (cstr "SHELL=") 6 = true then
          { r with didvar := SET r.didvar DID_SHELL }
        else if strncmp_eq ep (cstr "PATH=") 5 = true then
          { r with didvar := SET r.didvar DID_PATH }
        else if strncmp_eq ep (cstr "TERM=") 5 = true then
          { r with didvar := SET r.didvar DID_TERM }
        else r : Rebuild) = r1 at h
      have hI1 : RInv Q B (fun _ => True) r1 := by
        obtain ⟨k1, k2, k3, _⟩ := hI
        rw [← hr1]
        split
        · rename_i hps
          refine ⟨k1, k2, ?_, trivial⟩
          intro p hp
          have hp : ep.drop 5 = p := by simpa using hp
          rw [← hp, drop_of_starts ep (cstr "SUDO_PS1=") 9 5 (by decide) hps (by decide)]
          exact hB _
        · split
          · exact ⟨k1, k2, k3, trivial⟩
          · split
            · exact ⟨k1, k2, k3, trivial⟩
            · split
              · exact ⟨k1, k2, k3, trivial⟩
              · exact ⟨k1, k2, k3, trivial⟩
      cases hp : CHECK_PUTENV S r1 ep true false with
      | error f => rw [hp] at h; simp at h
      | ok r2 =>
        rw [hp] at h
        have hI2 := RInv_put hput S r1 r2 ep true false hI1
          (hA ep (by simp) hd') hp
        exact ih r2 r' hI2 h

theorem keep_loop_keeps {Q : List CStr → Prop} {A B : CStr → Prop}
    (hput : ∀ l str d o, Q l → A str → Q (put_result l str d o))
    (S : Sudoers) (old : List CStr)
    (hA : ∀ ep ∈ old, env_should_keep S ep = true → A ep)
    (hB : ∀ v, B (cstr "PS1" ++ v)) :
    Keeps (RInv Q B (fun _ => True)) (keep_loop S old) := by
  induction old with
  | nil => intro r r' hI h; cases h; exact hI
  | cons ep rest ih =>
    have ih := ih (fun x hx => hA x (List.mem_cons_of_mem _ hx))
    intro r r' hI h
    unfold keep_loop at h
    dsimp only at h
    generalize hr1 : (if strncmp_eq ep (cstr "SUDO_PS1=") 8 = true then
        { r with ps1 := some (ep.drop 5) } else r : Rebuild) = r1 at h
    have hI1 : RInv Q B (fun _ => True) r1 := by
      obtain ⟨k1, k2, k3, _⟩ := hI
      rw [← hr1]
      split
      · rename_i hps
        refine ⟨k1, k2, ?_, trivial⟩
        intro p hp
        have hp : ep.drop 5 = p := by simpa using hp
        rw [← hp, drop_of_starts ep (cstr "SUDO_PS1=") 8 5 (by decide) hps (by decide)]
        have : ((cstr "SUDO_PS1=").take 8).drop 5 = cstr "PS1" := by decide
        rw [this]
        exact hB _
      · exact ⟨k1, k2, k3, trivial⟩
    by_cases hk : env_should_keep S ep = true
    · simp only [hk, if_true] at h
      cases hp : CHECK_PUTENV S r1 ep true false with
      | error f => rw [hp] at h; simp at h
      | ok r2 =>
        rw [hp] at h
        have hI2 := RInv_put hput S r1 r2 ep true false hI1
          (hA ep (by simp) hk) hp
        refine ih _ r' ?_ h
        exact ⟨hI2.1, hI2.2.1, hI2.2.2.1, trivial⟩
    · simp only [hk, if_false] at h
      exact ih r1 r' hI1 h

theorem secure_path_step_keeps {Q : List CStr → Prop} {A B : CStr → Prop}
    (hput : ∀ l str d o, Q l → A str → Q (put_result l str d o))
    (S : Sudoers) (hA : ∀ val, A (cstr "PATH" ++ c_eq :: val)) :
    Keeps (RInv Q B (fun _ => True)) (secure_path_step S) := by
  intro r r' hI h
  unfold secure_path_step at h
  split at h
  · split at h
    · obtain ⟨r1, h1, h2⟩ := (bind_ok _ _ _).1 h
      have := RInv_set hput S r r1 _ _ _ _ hI (hA _) h1
      cases h2
      exact ⟨this.1, this.2.1, this.2.2.1, trivial⟩
    · cases h; exact hI
  · cases h; exact hI

theorem mem_take_of_byteAt (v : CStr) (n c : Nat) (h : byteAt v n = c) (hc : c ≠ 0) :
    c ∈ v.take (n + 1) := by
  induction v generalizing n with
  | nil => exact absurd (by simpa [byteAt] using h.symm) hc
  | cons x xs ih =>
    cases n with
    | zero =>
      have : x = c := by simpa [byteAt] using h
      simp [this]
    | succ m =>
      have : byteAt xs m = c := by simpa [byteAt] using h
      simp only [List.take_succ_cons, List.mem_cons]
      exact Or.inr (ih m this)

/-- A line of the environment file that is not skipped gives an entry with a
`=`. -/
theorem parse_env_line_has_eq (P : Platform) (line cp : CStr)
    (h : parse_env_line P line = .ok (some cp)) : c_eq ∈ cp := by
  unfold parse_env_line at h
  dsimp only at h
  generalize (if (strncmp_eq line (cstr "export") 6 && P.isspace (byteAt line 6)) = true then
      skip_spaces P (line.drop 7) else line) = var at h
  split at h
  · simp at h
  · split at h
    · simp at h
    · rename_i hc
      have hb : byteAt var (strcspn var c_eq) = c_eq := by
        by_contra hne
        exact hc (by simp [hne])
      have hm := mem_take_of_byteAt var _ c_eq hb (by decide)
      split at h
      · split at h
        · simp at h
        · cases h
          exact List.mem_append_left _ hm
      · cases h
        exact List.mem_append_left _ hm

theorem read_env_lines_keeps {Q : List CStr → Prop} {A : CStr → Prop}
    (hput : ∀ l str d o, Q l → A str → Q (put_result l str d o))
    (hA : ∀ s, c_eq ∈ s → A s)
    (P : Platform) (ow : Bool) (lines : List CStr) (env env' : Environment) (b : Bool)
    (hok : table_ok env) (hQ : Q (env_entries env))
    (h : read_env_lines P ow lines env = .ok (b, env')) :
    table_ok env' ∧ Q (env_entries env') := by
  induction lines generalizing env with
  | nil => cases h; exact ⟨hok, hQ⟩
  | cons line rest ih =>
    unfold read_env_lines at h
    split at h
    · simp at h
    · exact ih env hok hQ h
    · rename_i cp hparse
      unfold sudo_putenv at h
      split at h
      · simp at h
      · cases h; exact ⟨hok, hQ⟩
      · rename_i env1 hp
        obtain ⟨k1, _, k3⟩ := sudo_putenv_nodebug_ok P env env1 cp true ow hok hp
        have hcp := hA _ (parse_env_line_has_eq P line cp hparse)
        exact ih env1 k1 (by rw [k3]; exact hput _ _ _ _ hQ hcp) h

theorem seed_defaults_keeps {Q : List CStr → Prop} {A B : CStr → Prop}
    (hput : ∀ l str d o, Q l → A str → Q (put_result l str d o))
    (hA : ∀ s, c_eq ∈ s → A s) (S : Sudoers) :
    Keeps (RInv Q B (fun _ => True)) (seed_defaults S) := by
  intro r r' hI h
  unfold seed_defaults at h
  dsimp only at h
  split at h
  · simp at h
  · rename_i r1 hs
    have hI1 : RInv Q B (fun _ => True) r1 := by
      split at hs
      · split at hs
        · simp at hs
        · rename_i p hp
          cases hs
          unfold read_env_file at hp
          cases hf : S.environment_file with
          | none =>
            rw [hf] at hp
            cases hp
            exact hI
          | some lines =>
            rw [hf] at hp
            obtain ⟨k1, k2⟩ := read_env_lines_keeps hput hA S.plat true lines r.env p.2 p.1
              hI.1 hI.2.1 hp
            exact ⟨k1, k2, hI.2.2.1, trivial⟩
      · cases hs; exact hI
    split at h
    · simp at h
    · cases h; exact ⟨hI1.1, hI1.2.1, hI1.2.2.1, trivial⟩

theorem reset_defaults_keeps {Q : List CStr → Prop} {A B : CStr → Prop} {D : Nat → Prop}
    (hput : ∀ l str d o, Q l → A str → Q (put_result l str d o))
    (S : Sudoers) (hown : ∀ n ∈ own_names, ∀ val, A (n ++ c_eq :: val)) :
    Keeps (RInv Q B D) (reset_defaults S) := by
  have hS : ∀ (var val : CStr) (d : Rebuild → Bool) (o : Bool), var ∈ own_names →
      Keeps (RInv Q B D) (fun r => CHECK_SETENV2 S r var val (d r) o) :=
    fun var val d o hv r r' hI h => RInv_set hput S r r' _ _ _ _ hI (hown var hv val) h
  intro r r' hI h
  unfold reset_defaults at h
  split at h
  · exact Keeps.bind (hS (cstr "SHELL") _ (fun r => ISSET r.didvar DID_SHELL) true (by decide))
      (Keeps.bind (hS (cstr "LOGNAME") _ (fun r => ISSET r.didvar DID_LOGNAME) true (by decide))
        (Keeps.bind (hS (cstr "USER") _ (fun r => ISSET r.didvar DID_USER) true (by decide))
          (hS (cstr "USERNAME") _ (fun r => ISSET r.didvar DID_USERNAME) true (by decide))))
      r r' hI h
  · split at h
    · exact Keeps.bind
        (Keeps.when (fun r => !ISSET r.didvar DID_LOGNAME)
          (hS (cstr "LOGNAME") _ (fun _ => false) true (by decide)))
        (Keeps.bind
          (Keeps.when (fun r => !ISSET r.didvar DID_USER)
            (hS (cstr "USER") _ (fun _ => false) true (by decide)))
          (Keeps.when (fun r => !ISSET r.didvar DID_USERNAME)
            (hS (cstr "USERNAME") _ (fun _ => false) true (by decide)))) r r' hI h
    · cases h; exact hI

theorem reset_mail_keeps {Q : List CStr → Prop} {A B : CStr → Prop} {D : Nat → Prop}
    (hput : ∀ l str d o, Q l → A str → Q (put_result l str d o))
    (S : Sudoers) (hown : ∀ n ∈ own_names, ∀ val, A (n ++ c_eq :: val)) :
    Keeps (RInv Q B D) (reset_mail S) := by
  intro r r' hI h
  unfold reset_mail at h
  have e : ∀ v : CStr, cstr "MAIL=" ++ v = cstr "MAIL" ++ c_eq :: v := fun v => rfl
  split at h
  · dsimp only at h
    refine RInv_put hput S r r' _ _ _ hI ?_ h
    split
    · rw [List.append_assoc, e]; exact hown _ (by decide) _
    · rw [List.append_assoc, e]; exact hown _ (by decide) _
  · cases h; exact hI

theorem reset_branch_keeps {Q : List CStr → Prop} {A B : CStr → Prop}
    (hput : ∀ l str d o, Q l → A str → Q (put_result l str d o))
    (hA : ∀ s, c_eq ∈ s → A s) (hB : ∀ v, B (cstr "PS1" ++ v))
    (S : Sudoers) (old : List CStr)
    (hold : ∀ ep ∈ old, env_should_keep S ep = true → A ep) :
    Keeps (RInv Q B (fun _ => True)) (reset_branch S old) := by
  have hown : ∀ n ∈ own_names, ∀ val, A (n ++ c_eq :: val) :=
    fun n _ val => hA _ (by simp)
  unfold reset_branch
  refine Keeps.bind (Keeps.bind ?_ ?_) (Keeps.bind (Keeps.bind ?_ ?_) (Keeps.bind ?_ ?_))
  · exact Keeps.when (fun _ => !S.sudo_mode.login_shell) (seed_defaults_keeps hput hA S)
  · exact keep_loop_keeps hput S old hold hB
  · exact Keeps.pure _ (fun r hI => ⟨hI.1, hI.2.1, hI.2.2.1, trivial⟩)
  · exact reset_defaults_keeps hput S hown
  · refine Keeps.pure _ (fun r hI => ?_)
    split
    · exact ⟨hI.1, hI.2.1, hI.2.2.1, trivial⟩
    · exact hI
  · exact reset_mail_keeps hput S hown

theorem map_ok {α β : Type} (x : Except Fault α) (f : α → β) (b : β)
    (h : x.map f = .ok b) : ∃ a, x = .ok a ∧ f a = b := by
  cases x with
  | error e => simp [Except.map] at h
  | ok a => exact ⟨a, rfl, by simpa [Except.map] using h⟩

/-- The link between `rebuild_env` and its steps. -/
theorem rebuild_env_ok (S : Sudoers) (env env' : Environment)
    (h : rebuild_env S env = .ok env') :
    ∃ oldv r0 r1 r2 r3 r4, env.envp = some oldv ∧
      r0.env = { envp := some [none], old_envp := env.envp, env_size := 128, env_len := 0 } ∧
      r0.didvar = 0 ∧ r0.ps1 = none ∧
      (if S.def_env_reset || S.sudo_mode.login_shell then reset_branch S (walk oldv) r0
        else delete_loop S (walk oldv) r0) = .ok r1 ∧
      secure_path_step S r1 = .ok r2 ∧ logname_step S r2 = .ok r3 ∧
      final_steps S r3 = .ok r4 ∧ r4.env = env' := by
  unfold rebuild_env at h
  split at h
  · simp at h
  · rename_i oldv hv
    dsimp only at h
    obtain ⟨r4, h4, he⟩ := map_ok _ _ _ h
    obtain ⟨r3, h3, h4⟩ := (bind_ok _ _ _).1 h4
    obtain ⟨r2, h2, h3⟩ := (bind_ok _ _ _).1 h3
    obtain ⟨r1, h1, h2⟩ := (bind_ok _ _ _).1 h2
    exact ⟨oldv, _, r1, r2, r3, r4, hv, rfl, rfl, rfl, h1, h2, h3, h4, he⟩

theorem RInv_start {Q : List CStr → Prop} {B : CStr → Prop} (r0 : Rebuild) (old : Option Slots)
    (he : r0.env = { envp := some [none], old_envp := old, env_size := 128, env_len := 0 })
    (hp : r0.ps1 = none) (hQ : Q []) : RInv Q B (fun _ => True) r0 := by
  refine ⟨⟨[], [], by rw [he]; rfl, by rw [he]; rfl⟩, ?_, ?_, trivial⟩
  · have : env_entries r0.env = [] := by rw [he]; rfl
    rw [this]; exact hQ
  · intro p h; rw [hp] at h; cases h

/-! ### C4: the loader variables -/

theorem pattern_test_of_name (ep n : CStr) (hw : pattern_wild n = false)
    (hn : env_name ep = n) : pattern_test ep n = true := by
  unfold pattern_test pattern_len
  rw [hw, strcspn_eq_indexOf, ← env_name_length, hn]
  obtain ⟨t, ht⟩ := env_name_starts ep
  rw [hn] at ht
  simp only [Bool.false_eq_true, if_false, strlen, strncmp_eq_iff_take, beq_self_eq_true,
    Bool.or_true, Bool.true_or, Bool.and_true, Bool.false_or, decide_eq_true_eq]
  rw [← ht]
  simp

theorem loader_name_deleted (S0 : Sudoers) (ep : CStr) (h : loader_name ep) :
    env_should_delete (init_envtables S0) ep = true := by
  apply env_should_delete_of_matches
  have hmem : ∀ p ∈ [cstr "IFS", cstr "LD_*", cstr "BASH_FUNC_*"],
      p ∈ (init_envtables S0).def_env_delete := by
    intro p hp
    show p ∈ slist_insert_all (initial_badenv_table S0.plat) S0.def_env_delete
    rw [mem_slist_insert_all]
    left
    unfold initial_badenv_table
    simp only [List.mem_append]
    simp only [List.mem_cons, List.mem_singleton, List.not_mem_nil, or_false] at hp
    rcases hp with rfl | rfl | rfl
    · left; left; left; left; left; simp
    · left; left; left; left; left; simp
    · right; simp
  have hpre : ∀ pre : CStr, pre <+: env_name ep → ∃ rest, ep = pre ++ rest := by
    intro pre hp
    obtain ⟨t, ht⟩ := hp.trans (env_name_starts ep)
    exact ⟨t, ht.symm⟩
  rcases h with h | h | h
  · exact matches_env_list_of_mem _ _ _ (cstr "IFS") (hmem _ (by simp))
      (pattern_test_of_name ep _ (by decide) h)
  · obtain ⟨rest, hr⟩ := hpre _ h
    rw [hr]
    exact matches_env_list_of_mem _ _ _ (cstr "LD_*") (hmem _ (by simp))
      (pattern_test_star (cstr "LD_") rest (by decide))
  · obtain ⟨rest, hr⟩ := hpre _ h
    rw [hr]
    exact matches_env_list_of_mem _ _ _ (cstr "BASH_FUNC_*") (hmem _ (by simp))
      (pattern_test_star (cstr "BASH_FUNC_") rest (by decide))

theorem not_loader_name_of_name (n val : CStr) (hn : c_eq ∉ n)
    (h1 : n ≠ cstr "IFS") (h2 : ¬ cstr "LD_" <+: n) (h3 : ¬ cstr "BASH_FUNC_" <+: n) :
    ¬ loader_name (n ++ c_eq :: val) := by
  unfold loader_name
  rw [env_name_append n val hn]
  tauto

theorem own_names_not_loader :
    ∀ n ∈ cstr "PATH" :: cstr "PS1" :: own_names, ∀ val, ¬ loader_name (n ++ c_eq :: val) := by
  intro n hn val
  have : c_eq ∉ n ∧ n ≠ cstr "IFS" ∧ ¬ cstr "LD_" <+: n ∧ ¬ cstr "BASH_FUNC_" <+: n := by
    revert n
    decide
  exact not_loader_name_of_name n val this.1 this.2.1 this.2.2.1 this.2.2.2

/-- C4. With the lists as `init_envtables` fills them from the built-in tables, a
successful filter-only rebuild (`def_env_reset` false, mode not `MODE_LOGIN_SHELL`)
of any invoker environment, its entries with or without a `=`, yields a table
with no entry whose name is `IFS`, none whose name begins with `LD_` and none
whose name begins with `BASH_FUNC_`, whatever their values. -/
theorem rebuild_env_drops_loader_names (S0 : Sudoers) (env env' : Environment)
    (hreset : S0.def_env_reset = false) (hlogin : S0.sudo_mode.login_shell = false)
    (h : rebuild_env (init_envtables S0) env = .ok env') :
    ∀ e ∈ env_entries env', ¬ loader_name e := by
  obtain ⟨oldv, r0, r1, r2, r3, r4, _, he, _, hp, h1, h2, h3, h4, h5⟩ :=
    rebuild_env_ok _ env env' h
  have hc : ((init_envtables S0).def_env_reset || (init_envtables S0).sudo_mode.login_shell)
      = false := by
    show (S0.def_env_reset || S0.sudo_mode.login_shell) = false
    rw [hreset, hlogin]; rfl
  rw [hc] at h1
  simp only [Bool.false_eq_true, if_false] at h1
  have hput : ∀ (l : List CStr) (str : CStr) (d o : Bool), (∀ e ∈ l, ¬ loader_name e) →
      ¬ loader_name str →
      ∀ e ∈ put_result l str d o, ¬ loader_name e := by
    intro l str d o hl hs e he
    rcases mem_put_result l str d o e he with h | h
    · rw [h]; exact hs
    · exact hl e h
  have hown : ∀ n ∈ own_names, ∀ val, ¬ loader_name (n ++ c_eq :: val) :=
    fun n hn => own_names_not_loader n (by simp [hn])
  have hpath : ∀ val, ¬ loader_name (cstr "PATH" ++ c_eq :: val) :=
    own_names_not_loader _ (by simp)
  have hps : ∀ v, ¬ loader_name (cstr "PS1=" ++ v) :=
    fun v => own_names_not_loader (cstr "PS1") (by simp) v
  have I0 : RInv (fun l => ∀ e ∈ l, ¬ loader_name e) (fun p => ¬ loader_name p)
      (fun _ => True) r0 := RInv_start r0 _ he hp (by simp)
  have I1 := delete_loop_keeps hput (init_envtables S0) (walk oldv)
    (fun ep _ hd hl => by rw [loader_name_deleted S0 ep hl] at hd; cases hd) hps r0 r1 I0 h1
  have I2 := secure_path_step_keeps hput (init_envtables S0) hpath r1 r2 I1 h2
  have I3 := logname_step_keeps hput (init_envtables S0) hown r2 r3 I2 h3
  have I4 := final_steps_keeps hput (init_envtables S0) hown (fun _ _ _ => hpath _)
    (fun p hp => hp) r3 r4 I3 h4
  rw [← h5]
  exact I4.2.1

theorem rebuild_env_drops_loader_names_witness :
    rebuild_env (init_envtables { bare with def_secure_path := some (cstr "/sbin:/bin") })
      (env_init { envp := none, old_envp := none, env_size := 0, env_len := 0 }
        (some [cstr "FOO", cstr "PATH=/tmp/bad:/bin", cstr "IFS=x",
          cstr "LD_PRELOAD=/tmp/evil.so", cstr "BASH_FUNC_foo%%=() { :; }", cstr "IFS",
          cstr "DISPLAY=:0"])).2 =
      .ok { envp := some ([cstr "FOO", cstr "PATH=/sbin:/bin", cstr "DISPLAY=:0",
              cstr "SHELL=/bin/zsh", cstr "TERM=unknown", cstr "SUDO_COMMAND=/bin/ls",
              cstr "SUDO_USER=alice", cstr "SUDO_UID=1000", cstr "SUDO_GID=1000"].map some ++
              [none]),
            old_envp := some ([cstr "FOO", cstr "PATH=/tmp/bad:/bin", cstr "IFS=x",
              cstr "LD_PRELOAD=/tmp/evil.so", cstr "BASH_FUNC_foo%%=() { :; }", cstr "IFS",
              cstr "DISPLAY=:0"].map some ++ [none]),
            env_size := 128, env_len := 9 } ∧
    ∀ e ∈ [cstr "FOO", cstr "PATH=/sbin:/bin", cstr "DISPLAY=:0", cstr "SHELL=/bin/zsh",
        cstr "TERM=unknown", cstr "SUDO_COMMAND=/bin/ls", cstr "SUDO_USER=alice",
        cstr "SUDO_UID=1000", cstr "SUDO_GID=1000"], ¬ loader_name e :=
  ⟨rfl, rebuild_env_drops_loader_names { bare with def_secure_path := some (cstr "/sbin:/bin") }
    (env_init { envp := none, old_envp := none, env_size := 0, env_len := 0 }
      (some [cstr "FOO", cstr "PATH=/tmp/bad:/bin", cstr "IFS=x",
        cstr "LD_PRELOAD=/tmp/evil.so", cstr "BASH_FUNC_foo%%=() { :; }", cstr "IFS",
        cstr "DISPLAY=:0"])).2
    _ rfl rfl rfl⟩

/-! ### The table operations -/


theorem named_iff (N e : CStr) : named N e = true ↔ (c_eq ∈ e ∧ env_name e = N) := by
  unfold named; simp

theorem dup_test_named (str e : CStr) (h : c_eq ∈ str) :
    strncmp_eq str e (str.indexOf c_eq + 1) = named (env_name str) e := by
  rw [Bool.eq_iff_iff, dup_test_iff str e h, named_iff]

/-- An overwriting put on a list that holds the name: the first entry of the
name is replaced, the later ones go. -/
theorem put_entries_found (str : CStr) (l : List CStr) (h : c_eq ∈ str)
    (hex : ∃ e ∈ l, named (env_name str) e = true) :
    put_entries str (str.indexOf c_eq + 1) true l =
      l.take (l.findIdx (named (env_name str))) ++
        str :: (l.drop (l.findIdx (named (env_name str)) + 1)).filter
          (fun x => !named (env_name str) x) := by
  induction l with
  | nil => simp at hex
  | cons e rest ih =>
    unfold put_entries
    rw [dup_test_named str e h, List.findIdx_cons]
    cases hn : named (env_name str) e with
    | true =>
      simp only [if_true, cond_true, List.take_zero, List.nil_append, zero_add,
        List.drop_succ_cons, List.drop_zero]
      congr 1
      apply List.filter_congr
      intro x _
      rw [dup_test_named str x h]
    | false =>
      have hex' : ∃ e ∈ rest, named (env_name str) e = true := by
        obtain ⟨x, hx, hxn⟩ := hex
        rcases List.mem_cons.1 hx with rfl | hx
        · rw [hn] at hxn; cases hxn
        · exact ⟨x, hx, hxn⟩
      simp only [Bool.false_eq_true, if_false, cond_false, ih hex', List.take_succ_cons,
        List.drop_succ_cons, List.cons_append]

/-- A put that does not overwrite leaves a list that holds the name alone. -/
theorem put_entries_kept (str : CStr) (l : List CStr) (h : c_eq ∈ str)
    (hex : ∃ e ∈ l, named (env_name str) e = true) :
    put_entries str (str.indexOf c_eq + 1) false l = l := by
  induction l with
  | nil => simp at hex
  | cons e rest ih =>
    unfold put_entries
    rw [dup_test_named str e h]
    cases hn : named (env_name str) e with
    | true => simp
    | false =>
      have hex' : ∃ e ∈ rest, named (env_name str) e = true := by
        obtain ⟨x, hx, hxn⟩ := hex
        rcases List.mem_cons.1 hx with rfl | hx
        · rw [hn] at hxn; cases hxn
        · exact ⟨x, hx, hxn⟩
      simp only [Bool.false_eq_true, if_false, ih hex']

theorem findIdx_lt_of_exists (p : CStr → Bool) (l : List CStr) (hex : ∃ e ∈ l, p e = true) :
    l.findIdx p < l.length := by
  obtain ⟨x, hx, hp⟩ := hex
  exact List.findIdx_lt_length_of_exists ⟨x, hx, hp⟩

theorem filter_take_findIdx (p : CStr → Bool) (l : List CStr) :
    (l.take (l.findIdx p)).filter p = [] := by
  induction l with
  | nil => simp
  | cons e rest ih =>
    rw [List.findIdx_cons]
    cases hn : p e with
    | true => simp
    | false => simp [List.filter_cons, hn, ih]

theorem filter_not_take_findIdx (p : CStr → Bool) (l : List CStr) :
    (l.take (l.findIdx p)).filter (fun x => !p x) = l.take (l.findIdx p) := by
  induction l with
  | nil => simp
  | cons e rest ih =>
    rw [List.findIdx_cons]
    cases hn : p e with
    | true => simp
    | false => simp [List.filter_cons, hn, ih]

/-- The four facts of the dedup law, on lists. -/
theorem put_found_facts (str : CStr) (l : List CStr) (h : c_eq ∈ str)
    (hex : ∃ e ∈ l, named (env_name str) e = true) :
    (put_result l str true true).filter (named (env_name str)) = [str] ∧
    (put_result l str true true)[l.findIdx (named (env_name str))]? = some str ∧
    (put_result l str true true).filter (fun e => !named (env_name str) e) =
      l.filter (fun e => !named (env_name str) e) := by
  have hs : named (env_name str) str = true := (named_iff _ _).2 ⟨h, rfl⟩
  have hlt := findIdx_lt_of_exists _ l hex
  have hfi : named (env_name str) (l.get ⟨_, hlt⟩) = true := List.findIdx_getElem
  unfold put_result
  simp only [if_true]
  rw [put_entries_found str l h hex]
  generalize hi : l.findIdx (named (env_name str)) = i at hlt hfi
  have hti := filter_take_findIdx (named (env_name str)) l
  have htn := filter_not_take_findIdx (named (env_name str)) l
  rw [hi] at hti htn
  refine ⟨?_, ?_, ?_⟩
  · rw [List.filter_append, hti, List.filter_cons, hs]
    simp only [if_true, List.nil_append, List.filter_filter]
    congr 1
    apply List.filter_eq_nil_iff.2
    intro x _
    cases named (env_name str) x <;> simp
  · rw [List.getElem?_append_right (by rw [List.length_take]; omega)]
    simp [Nat.min_eq_left (Nat.le_of_lt hlt)]
  · rw [List.filter_append, htn, List.filter_cons, hs]
    simp only [Bool.not_true, Bool.false_eq_true, if_false, List.filter_filter, Bool.and_self]
    conv_rhs => rw [← List.take_append_drop i l, List.filter_append, htn]
    congr 1
    have hd : l.drop i = l.get ⟨i, hlt⟩ :: l.drop (i + 1) := by
      simp
    rw [hd, List.filter_cons, hfi]
    simp




theorem table_ok_init (env : Environment) (h : table_ok env) : table_init env := by
  obtain ⟨l, junk, hv, hl⟩ := h
  exact ⟨l, junk, hv, by omega⟩

/-- A put into a well-formed table succeeds when the reallocation does not
overflow. -/
theorem sudo_putenv_nodebug_succeeds (P : Platform) (env : Environment) (str : CStr)
    (dup ow : Bool) (hok : table_ok env)
    (hroom : env.env_size + 128 ≤ P.SIZE_MAX / P.sizeof_ptr) :
    ∃ env', sudo_putenv_nodebug P env str dup ow = .ok env' := by
  obtain ⟨l, junk, hv, hlen⟩ := hok
  have h1 : ¬ env.env_size > P.SIZE_MAX - 128 := by
    have := Nat.div_le_self P.SIZE_MAX P.sizeof_ptr
    omega
  have h2 : ¬ env.env_size + 128 > P.SIZE_MAX / P.sizeof_ptr := by omega
  unfold sudo_putenv_nodebug
  simp only [h1, h2, if_false]
  split
  · rename_i f hf
    split at hf <;> simp at hf
  · rename_i e1 he1
    have hp : e1.envp = env.envp := by
      split at he1 <;> (cases he1; rfl)
    rw [hp, hv]
    simp only
    cases dup with
    | false => exact ⟨_, rfl⟩
    | true =>
      simp only [if_true]
      cases hc : strchr str c_eq with
      | none =>
        simp only
        split
        · split
          · exact ⟨_, rfl⟩
          · exact ⟨_, rfl⟩
        · exact ⟨_, rfl⟩
      | some eq =>
        simp only
        split
        · split
          · exact ⟨_, rfl⟩
          · exact ⟨_, rfl⟩
        · exact ⟨_, rfl⟩


/-- **C17** (dedup law). A well-formed table that holds one or more entries
named `N`, after `sudo_putenv("N=V2", dupcheck = true, overwrite = true)` (which
succeeds when the reallocation does not overflow), holds exactly one entry named
`N`, the entry `N=V2`; it sits at the index of the first former entry named `N`;
the entries with another name are the former ones in their order; and `env_len`
is the new number of entries. -/
theorem sudo_putenv_dedup_law (P : Platform) (env : Environment) (N V2 : CStr)
    (hok : table_ok env) (hroom : env.env_size + 128 ≤ P.SIZE_MAX / P.sizeof_ptr)
    (hN : c_eq ∉ N) (hex : ∃ e ∈ env_entries env, named N e = true) :
    ∃ env', sudo_putenv P env (N ++ c_eq :: V2) true true = .ok env' ∧
      (env_entries env').filter (named N) = [N ++ c_eq :: V2] ∧
      env_value (N ++ c_eq :: V2) = V2 ∧
      (env_entries env')[(env_entries env).findIdx (named N)]? = some (N ++ c_eq :: V2) ∧
      (env_entries env').filter (fun e => !named N e) =
        (env_entries env).filter (fun e => !named N e) ∧
      env'.env_len = (env_entries env').length := by
  have hs : c_eq ∈ N ++ c_eq :: V2 := by simp
  have hn : env_name (N ++ c_eq :: V2) = N := env_name_append N V2 hN
  obtain ⟨env', h⟩ := sudo_putenv_nodebug_succeeds P env (N ++ c_eq :: V2) true true hok hroom
  obtain ⟨hok', _, hent⟩ := sudo_putenv_nodebug_ok P env env' _ true true hok h
  rw [← hn] at hex
  obtain ⟨f1, f2, f3⟩ := put_found_facts (N ++ c_eq :: V2) (env_entries env) hs hex
  rw [hn] at f1 f2 f3
  refine ⟨env', h, by rw [hent]; exact f1, ?_, by rw [hent]; exact f2, by rw [hent]; exact f3, ?_⟩
  · unfold env_value
    rw [indexOf_append_eq N V2 c_eq hN]
    simp
  · obtain ⟨l, junk, hv, hl⟩ := hok'
    rw [env_entries_of env' l junk hv, hl]

theorem sudo_putenv_dedup_law_witness :
    table_ok (env_init { envp := none, old_envp := none, env_size := 0, env_len := 0 }
      (some [cstr "B=0", cstr "A=1", cstr "C=2", cstr "A=3", cstr "D=4"])).2 ∧
    c_eq ∉ cstr "A" ∧
    (∃ env', sudo_putenv linux
        (env_init { envp := none, old_envp := none, env_size := 0, env_len := 0 }
          (some [cstr "B=0", cstr "A=1", cstr "C=2", cstr "A=3", cstr "D=4"])).2
        (cstr "A" ++ c_eq :: cstr "9") true true = .ok env' ∧
      (env_entries env').filter (named (cstr "A")) = [cstr "A" ++ c_eq :: cstr "9"] ∧
      env_value (cstr "A" ++ c_eq :: cstr "9") = cstr "9" ∧
      (env_entries env')[(env_entries
        (env_init { envp := none, old_envp := none, env_size := 0, env_len := 0 }
          (some [cstr "B=0", cstr "A=1", cstr "C=2", cstr "A=3", cstr "D=4"])).2).findIdx
            (named (cstr "A"))]? = some (cstr "A" ++ c_eq :: cstr "9") ∧
      (env_entries env').filter (fun e => !named (cstr "A") e) =
        (env_entries
          (env_init { envp := none, old_envp := none, env_size := 0, env_len := 0 }
            (some [cstr "B=0", cstr "A=1", cstr "C=2", cstr "A=3", cstr "D=4"])).2).filter
          (fun e => !named (cstr "A") e) ∧
      env'.env_len = (env_entries env').length) :=
  ⟨⟨_, [], rfl, rfl⟩, by decide,
    sudo_putenv_dedup_law linux _ (cstr "A") (cstr "9") ⟨_, [], rfl, rfl⟩ (by decide)
      (by decide) ⟨cstr "A=1", by decide, by decide⟩⟩

/-- **C18** (no overwrite). A well-formed table that holds an entry with the
`NAME=` prefix of `str`: `sudo_putenv(str, dupcheck = true, overwrite = false)`
succeeds (when the reallocation does not overflow) and leaves the entries and
`env_len` as they were; so does `sudo_setenv(name, value, 0)` for a name the
table holds. -/
theorem sudo_putenv_no_overwrite (P : Platform) (env : Environment)
    (hok : table_ok env) (hroom : env.env_size + 128 ≤ P.SIZE_MAX / P.sizeof_ptr) :
    (∀ str, c_eq ∈ str → (∃ e ∈ env_entries env, named (env_name str) e = true) →
      ∃ env', sudo_putenv P env str true false = .ok env' ∧
        env_entries env' = env_entries env ∧ env'.env_len = env.env_len) ∧
    (∀ name value, c_eq ∉ name → (∃ e ∈ env_entries env, named name e = true) →
      ∃ env', sudo_setenv P env name value false = .ok env' ∧
        env_entries env' = env_entries env ∧ env'.env_len = env.env_len) := by
  have main : ∀ str, c_eq ∈ str → (∃ e ∈ env_entries env, named (env_name str) e = true) →
      ∃ env', sudo_putenv P env str true false = .ok env' ∧
        env_entries env' = env_entries env ∧ env'.env_len = env.env_len := by
    intro str hs hex
    obtain ⟨env', h⟩ := sudo_putenv_nodebug_succeeds P env str true false hok hroom
    obtain ⟨hok', _, hent⟩ := sudo_putenv_nodebug_ok P env env' _ true false hok h
    have hsame : env_entries env' = env_entries env := by
      rw [hent]; unfold put_result; rw [if_pos rfl]
      exact put_entries_kept str _ hs hex
    refine ⟨env', h, hsame, ?_⟩
    obtain ⟨l, junk, hv, hl⟩ := hok'
    obtain ⟨l0, junk0, hv0, hl0⟩ := hok
    rw [hl, hl0, ← env_entries_of env' l junk hv, ← env_entries_of env l0 junk0 hv0, hsame]
  refine ⟨main, ?_⟩
  intro name value hn hex
  have := main (name ++ c_eq :: value) (by simp) (by rw [env_name_append name value hn]; exact hex)
  exact this

theorem sudo_putenv_no_overwrite_witness :
    table_ok (env_init { envp := none, old_envp := none, env_size := 0, env_len := 0 }
      (some [cstr "B=0", cstr "A=1"])).2 ∧
    ∃ env', sudo_setenv linux
        (env_init { envp := none, old_envp := none, env_size := 0, env_len := 0 }
          (some [cstr "B=0", cstr "A=1"])).2 (cstr "A") (cstr "9") false = .ok env' ∧
      env_entries env' = [cstr "B=0", cstr "A=1"] ∧ env'.env_len = 2 :=
  ⟨⟨_, [], rfl, rfl⟩,
    (sudo_putenv_no_overwrite linux _ ⟨_, [], rfl, rfl⟩ (by decide)).2 (cstr "A") (cstr "9")
      (by decide) ⟨cstr "A=1", by decide, by decide⟩⟩

theorem take_indexOf_eq_env_name (q : CStr) : q.take (q.indexOf c_eq) = env_name q := by
  unfold env_name
  induction q with
  | nil => simp
  | cons x xs ih =>
    by_cases hx : x = c_eq
    · simp [hx]
    · simp [List.takeWhile_cons, hx, List.indexOf_cons_ne _ hx, ih]

/-- An entry is named `N` when it starts with `N` and `=` follows. -/
theorem named_iff_take (N e : CStr) (hN : c_eq ∉ N) :
    named N e = true ↔ (e.take N.length = N ∧ byteAt e N.length = c_eq) := by
  rw [named_iff]
  constructor
  · rintro ⟨hm, hn⟩
    obtain ⟨v, hv⟩ := env_name_split e hm
    rw [hn] at hv
    rw [hv]
    refine ⟨by simp, ?_⟩
    unfold byteAt
    rw [List.getD_append_right _ _ _ _ (Nat.le_refl _)]
    simp
  · rintro ⟨ht, hb⟩
    have hlt : N.length < e.length := by
      by_contra hge
      unfold byteAt at hb
      rw [List.getD_eq_default _ _ (by omega)] at hb
      cases hb
    have he : e = N ++ c_eq :: e.drop (N.length + 1) := by
      conv_lhs => rw [← List.take_append_drop N.length e, ht]
      congr 1
      rw [List.drop_eq_getElem_cons hlt]
      congr 1
      unfold byteAt at hb
      rw [List.getD_eq_getElem _ _ hlt] at hb
      exact hb
    refine ⟨by rw [he]; simp, ?_⟩
    rw [he, env_name_append N _ hN]

theorem getenv_test_named (e q : CStr) :
    (strncmp_eq e q (strcspn q c_eq) && byteAt e (strcspn q c_eq) == c_eq) =
      named (env_name q) e := by
  rw [Bool.eq_iff_iff, named_iff_take _ _ (env_name_not_mem q), Bool.and_eq_true,
    strncmp_eq_iff_take, strcspn_eq_indexOf, env_name_length, take_indexOf_eq_env_name,
    beq_iff_eq]

theorem env_value_of_named (N e : CStr) (h : named N e = true) :
    e.drop (N.length + 1) = env_value e := by
  unfold env_value
  rw [← ((named_iff N e).1 h).2, env_name_length]

theorem getenv_walk_append (q : CStr) (l : List CStr) (junk : Slots) :
    getenv_walk q (strcspn q c_eq) (l.map some ++ none :: junk) =
      (l.find? (named (env_name q))).map env_value := by
  induction l with
  | nil => simp [getenv_walk]
  | cons e rest ih =>
    rw [List.map_cons, List.cons_append, getenv_walk, getenv_test_named, List.find?_cons]
    cases hn : named (env_name q) e with
    | true =>
      simp only [if_true, Option.map_some']
      rw [strcspn_eq_indexOf, ← env_name_length, env_value_of_named _ _ hn]
    | false => simpa using ih

/-- What `sudo_getenv` returns on an initialised table. -/
theorem sudo_getenv_eq (env : Environment) (q : CStr)
    (h : table_init env ∨ (env.envp = none ∧ env.env_len = 0)) :
    sudo_getenv env q = ((env_entries env).find? (named (env_name q))).map env_value := by
  unfold sudo_getenv sudo_getenv_nodebug
  rcases h with ⟨l, junk, hv, hl⟩ | ⟨hv, hl⟩
  · rw [env_entries_of env l junk hv, hv]
    by_cases h0 : env.env_len = 0
    · have : l = [] := List.length_eq_zero.1 (by omega)
      subst this
      simp [h0]
    · simp only [bne_iff_ne, ne_eq, h0, not_false_eq_true, if_true]
      exact getenv_walk_append q l junk
  · simp [hl, env_entries, hv]

theorem unset_loop_succ_some (var : CStr) (len fuel : Nat) (e : CStr) (rest : Slots) :
    unset_loop var len (fuel + 1) (some e :: rest) =
      if strncmp_eq var e len && byteAt e len == c_eq then
        unset_loop var len fuel (shift_left (some e :: rest))
      else some e :: unset_loop var len fuel rest := rfl

theorem unset_test_named (var e : CStr) (h : c_eq ∉ var) :
    (strncmp_eq var e (strlen var) && byteAt e (strlen var) == c_eq) = named var e := by
  rw [Bool.eq_iff_iff, named_iff_take _ _ h, Bool.and_eq_true, strncmp_eq_iff_take, beq_iff_eq]
  unfold strlen
  rw [List.take_length]
  constructor
  · rintro ⟨a, b⟩; exact ⟨a.symm, b⟩
  · rintro ⟨a, b⟩; exact ⟨a.symm, b⟩

theorem unset_loop_append (var : CStr) (fuel : Nat) (l : List CStr) (junk : Slots)
    (h : c_eq ∉ var) (hf : l.length ≤ fuel) :
    ∃ junk', unset_loop var (strlen var) fuel (l.map some ++ none :: junk) =
      (l.filter fun e => !named var e).map some ++ none :: junk' := by
  induction fuel generalizing l junk with
  | zero =>
    have : l = [] := List.length_eq_zero.1 (by omega)
    subst this
    exact ⟨junk, rfl⟩
  | succ f ih =>
    cases l with
    | nil => exact ⟨junk, rfl⟩
    | cons e rest =>
      have hr : rest.length ≤ f := by simp at hf; omega
      rw [List.map_cons, List.cons_append, unset_loop_succ_some, unset_test_named var e h]
      cases hn : named var e with
      | true =>
        rw [if_pos rfl, shift_left_append]
        obtain ⟨j, hj⟩ := ih rest (none :: junk) hr
        exact ⟨j, by rw [hj]; simp [List.filter_cons, hn]⟩
      | false =>
        simp only [Bool.false_eq_true, if_false]
        obtain ⟨j, hj⟩ := ih rest junk hr
        exact ⟨j, by rw [hj]; simp [List.filter_cons, hn]⟩

/-- **C20**. On an initialised table, `sudo_unsetenv(name)` for a non-empty
name without `=` returns success, also when nothing is removed; afterwards the
entries are the former entries that are not named `name`, in their order, and
`sudo_getenv(name)` returns `NULL`. -/
theorem sudo_unsetenv_spec (env : Environment) (name : CStr)
    (hi : table_init env) (hne : name ≠ []) (h0 : 0 ∉ name) (heq : c_eq ∉ name) :
    ∃ env', sudo_unsetenv env (some name) = .ok env' ∧
      env_entries env' = (env_entries env).filter (fun e => !named name e) ∧
      sudo_getenv env' name = none := by
  obtain ⟨l, junk, hv, hl⟩ := hi
  obtain ⟨j, hj⟩ := unset_loop_append name (l.map some ++ none :: junk).length l junk heq
    (by rw [List.length_append, List.length_map]; omega)
  have hb : (byteAt name 0 == 0) = false := by
    cases name with
    | nil => exact absurd rfl hne
    | cons x xs =>
      have : x ≠ 0 := fun e => h0 (by simp [e])
      simpa [byteAt] using this
  have hc : (strchr name c_eq).isSome = false := by
    rw [(strchr_eq_none name c_eq).2 heq]; rfl
  refine ⟨{ env with envp := some ((l.filter fun e => !named name e).map some ++ none :: j) },
    ?_, ?_, ?_⟩
  · unfold sudo_unsetenv sudo_unsetenv_nodebug
    rw [hv]
    simp only [hb, hc, Bool.or_self, Bool.false_eq_true, if_false, hj]
  · rw [env_entries_of env l junk hv]
    exact env_entries_of _ _ j rfl
  · have hi' : table_init
        { env with envp := some ((l.filter fun e => !named name e).map some ++ none :: j) } :=
      ⟨_, j, rfl, Nat.le_trans (List.length_filter_le _ _) hl⟩
    rw [sudo_getenv_eq _ name (Or.inl hi'), env_entries_of _ _ j rfl, Option.map_eq_none',
      List.find?_eq_none]
    intro x hx
    have hxn := (List.mem_filter.1 hx).2
    have : env_name name = name := by
      unfold env_name
      rw [List.takeWhile_eq_self_iff]
      intro y hy
      simp only [bne_iff_ne, ne_eq, decide_eq_true_eq]
      rintro rfl
      exact heq hy
    rw [this]
    simpa using hxn

theorem sudo_unsetenv_spec_witness :
    table_init (env_init { envp := none, old_envp := none, env_size := 0, env_len := 0 }
      (some [cstr "A=1", cstr "B=2", cstr "A=3", cstr "AB=4"])).2 ∧
    cstr "A" ≠ [] ∧ 0 ∉ cstr "A" ∧ c_eq ∉ cstr "A" ∧
    ∃ env', sudo_unsetenv (env_init { envp := none, old_envp := none, env_size := 0, env_len := 0 }
        (some [cstr "A=1", cstr "B=2", cstr "A=3", cstr "AB=4"])).2 (some (cstr "A")) = .ok env' ∧
      env_entries env' = [cstr "B=2", cstr "AB=4"] ∧
      sudo_getenv env' (cstr "A") = none :=
  ⟨⟨_, [], rfl, Nat.le_refl _⟩, by decide, by decide, by decide,
    sudo_unsetenv_spec _ (cstr "A") ⟨_, [], rfl, Nat.le_refl _⟩ (by decide) (by decide)
      (by decide)⟩

/-! ### C16: the clean-slate scenario -/

/-- **C16**. With the built-in lists, mode Run, EnvReset and SetLogname set, no
secure path, no seeded defaults, target `bob` (home `/home/bob`, shell
`/bin/zsh`), invoker `alice` (uid 1000, gid 1000), command `/bin/ls`, mail
directory `/var/mail` and the old environment `HOME=/home/alice`,
`PATH=/usr/bin`, `TERM=xterm`, `LD_PRELOAD=/tmp/evil.so`, `DISPLAY=:0`,
`SUDO_PS1=# `, `SHELL=/bin/bash`, `rebuild_env` succeeds and the entries of the
result are, up to their order, the fourteen the specification lists; no entry
is named `LD_PRELOAD`. -/
theorem rebuild_env_clean_slate_scenario :
    scenario_env.envp = some ([cstr "HOME=/home/alice", cstr "PATH=/usr/bin", cstr "TERM=xterm",
      cstr "LD_PRELOAD=/tmp/evil.so", cstr "DISPLAY=:0", cstr "SUDO_PS1=# ",
      cstr "SHELL=/bin/bash"].map some ++ [none]) ∧
    (builtin.sudo_mode.run = true ∧ builtin.sudo_mode.login_shell = false ∧
      builtin.def_secure_path = none ∧ builtin.plat.reads_environment = false ∧
      builtin.runas_pw.pw_name = cstr "bob" ∧ builtin.runas_pw.pw_dir = cstr "/home/bob" ∧
      builtin.runas_pw.pw_shell = cstr "/bin/zsh" ∧ builtin.user_name = cstr "alice" ∧
      builtin.user_uid = 1000 ∧ builtin.user_gid = 1000 ∧
      builtin.user_cmnd = cstr "/bin/ls" ∧ builtin.user_args = none ∧
      builtin.plat.PATH_MAILDIR = cstr "/var/mail") ∧
    ∃ env', rebuild_env { builtin with def_env_reset := true, def_set_logname := true }
        scenario_env = .ok env' ∧
      List.Perm (env_entries env')
        [cstr "DISPLAY=:0", cstr "TERM=xterm", cstr "PATH=/usr/bin", cstr "HOME=/home/bob",
         cstr "SHELL=/bin/zsh", cstr "LOGNAME=bob", cstr "USER=bob", cstr "USERNAME=bob",
         cstr "MAIL=/var/mail/bob", cstr "PS1=# ", cstr "SUDO_COMMAND=/bin/ls",
         cstr "SUDO_USER=alice", cstr "SUDO_UID=1000", cstr "SUDO_GID=1000"] ∧
      ∀ e ∈ env_entries env', env_name e ≠ cstr "LD_PRELOAD" := by
  refine ⟨rfl, by decide, ?_⟩
  refine ⟨{ envp := some ([cstr "PATH=/usr/bin", cstr "TERM=xterm", cstr "DISPLAY=:0",
              cstr "MAIL=/var/mail/bob", cstr "LOGNAME=bob", cstr "USER=bob",
              cstr "USERNAME=bob", cstr "HOME=/home/bob", cstr "SHELL=/bin/zsh",
              cstr "PS1=# ", cstr "SUDO_COMMAND=/bin/ls", cstr "SUDO_USER=alice",
              cstr "SUDO_UID=1000", cstr "SUDO_GID=1000"].map some ++ [none])
            old_envp := scenario_env.envp
            env_size := 128
            env_len := 14 }, rfl, ?_, ?_⟩
  · decide
  · decide

/-! ### C11: the variables of the command line -/

theorem env_name_of_not_mem (e : CStr) (h : c_eq ∉ e) : env_name e = e := by
  unfold env_name
  rw [List.takeWhile_eq_self_iff]
  intro x hx
  simp only [bne_iff_ne, ne_eq, decide_eq_true_eq]
  rintro rfl
  exact h hx

theorem validate_loop_cons (S : Sudoers) (ep : CStr) (rest : List CStr) (errbuf : CStr) :
    validate_loop S (ep :: rest) errbuf =
      if permitted S ep then validate_loop S rest errbuf
      else validate_loop S rest (errbuf_add errbuf (env_name ep)) := by
  have hpath : strncmp_eq ep (cstr "PATH=") 5 = decide (cstr "PATH=" <+: ep) := by
    have h5 : List.take 5 (cstr "PATH=") = cstr "PATH=" := rfl
    have hl : (cstr "PATH=").length = 5 := rfl
    rw [Bool.eq_iff_iff, strncmp_eq_iff_take, decide_eq_true_iff, List.prefix_iff_eq_take, h5, hl]
    exact eq_comm
  have fin : ∀ name, name = env_name ep →
      (if ((if (S.def_secure_path.isSome && !S.user_is_exempt &&
              decide (cstr "PATH=" <+: ep)) = true then false
            else if S.def_env_reset = true then env_should_keep S ep
            else !env_should_delete S ep) == false) = true then
          validate_loop S rest (errbuf_add errbuf name)
        else validate_loop S rest errbuf) =
      if permitted S ep then validate_loop S rest errbuf
      else validate_loop S rest (errbuf_add errbuf (env_name ep)) := by
    intro name hn
    subst hn
    unfold permitted
    cases hsp : (S.def_secure_path.isSome && !S.user_is_exempt && decide (cstr "PATH=" <+: ep))
    · cases hk : (if S.def_env_reset = true then env_should_keep S ep
        else !env_should_delete S ep)
      · simp [hk]
      · simp [hk]
    · simp
  rw [validate_loop, hpath]
  cases hc : strchr ep c_eq with
  | none =>
    exact fin ep (env_name_of_not_mem ep ((strchr_eq_none ep c_eq).1 hc)).symm
  | some eq =>
    refine fin (ep.take (strlen ep - strlen eq)) ?_
    have := strchr_len ep eq hc
    rw [← take_indexOf_eq_env_name]
    congr 1
    omega

theorem intercalate_cons_cons (sep a b : CStr) (ns : List CStr) :
    List.intercalate sep (a :: b :: ns) = a ++ sep ++ List.intercalate sep (b :: ns) := by
  simp [List.intercalate, List.intersperse]

theorem intercalate_single (sep a : CStr) : List.intercalate sep [a] = a := by
  simp [List.intercalate, List.intersperse]

theorem intercalate_merge (sep a b : CStr) (ns : List CStr) :
    List.intercalate sep (a :: b :: ns) = List.intercalate sep ((a ++ sep ++ b) :: ns) := by
  cases ns with
  | nil => rw [intercalate_cons_cons, intercalate_single, intercalate_single]
  | cons c cs =>
    rw [intercalate_cons_cons, intercalate_cons_cons, intercalate_cons_cons]
    simp [List.append_assoc]

theorem length_le_intercalate (sep a : CStr) (ns : List CStr) :
    a.length ≤ (List.intercalate sep (a :: ns)).length := by
  cases ns with
  | nil => rw [intercalate_single]
  | cons c cs => rw [intercalate_cons_cons]; simp only [List.length_append]; omega

theorem byteAt_append_zero (a b : CStr) (h : byteAt a 0 ≠ 0) :
    byteAt (a ++ b) 0 = byteAt a 0 := by
  cases a with
  | nil => exact absurd rfl h
  | cons x xs => rfl

theorem byteAt_take_zero (a : CStr) (k : Nat) : byteAt (a.take (k + 1)) 0 = byteAt a 0 := by
  cases a with
  | nil => rfl
  | cons x xs => rfl

/-- Once a name is in `errbuf` its first byte stays. -/
theorem errbuf_add_live (errbuf name : CStr) (h : byteAt errbuf 0 ≠ 0) :
    byteAt (errbuf_add errbuf name) 0 ≠ 0 := by
  unfold errbuf_add strlcat
  simp only [bne_iff_ne, ne_eq, h, not_false_eq_true, if_true]
  have h1 : byteAt (errbuf ++ (cstr ", ").take (4096 - 1 - strlen errbuf)) 0 ≠ 0 := by
    rw [byteAt_append_zero _ _ h]; exact h
  split
  · rw [byteAt_append_zero, byteAt_take_zero, byteAt_append_zero _ _ h1]
    · exact h1
    · rw [byteAt_take_zero, byteAt_append_zero _ _ h1]; exact h1
  · rw [byteAt_append_zero _ _ h1]; exact h1

theorem errbuf_add_nil_live (name : CStr) (h : byteAt name 0 ≠ 0) :
    byteAt (errbuf_add [] name) 0 ≠ 0 := by
  unfold errbuf_add strlcat
  have h0 : (byteAt ([] : CStr) 0 != 0) = false := rfl
  simp only [h0, Bool.false_eq_true, if_false, List.nil_append, strlen, List.length_nil,
    Nat.sub_zero, Nat.zero_add]
  split
  · rw [byteAt_append_zero, byteAt_take_zero, byteAt_take_zero]
    · exact h
    · rw [byteAt_take_zero, byteAt_take_zero]; exact h
  · rw [byteAt_take_zero]; exact h

theorem errbuf_add_eq (errbuf name : CStr) (h : byteAt errbuf 0 ≠ 0)
    (hl : errbuf.length + 2 + name.length < 4096) :
    errbuf_add errbuf name = errbuf ++ cstr ", " ++ name := by
  unfold errbuf_add strlcat
  simp only [bne_iff_ne, ne_eq, h, not_false_eq_true, if_true]
  have h2 : (cstr ", ").length = 2 := rfl
  have ht : (cstr ", ").take (4096 - 1 - strlen errbuf) = cstr ", " := by
    apply List.take_of_length_le
    unfold strlen; omega
  rw [ht]
  have hlen : strlen (errbuf ++ cstr ", ") = errbuf.length + 2 := by
    unfold strlen; rw [List.length_append, h2]
  rw [hlen]
  have : ¬ (errbuf.length + 2 + strlen name ≥ 4096) := by unfold strlen; omega
  rw [if_neg this]
  rw [List.take_of_length_le (by omega)]

theorem errbuf_add_nil_eq (name : CStr) (hl : name.length < 4096) :
    errbuf_add [] name = name := by
  unfold errbuf_add strlcat
  have h0 : (byteAt ([] : CStr) 0 != 0) = false := rfl
  simp only [h0, Bool.false_eq_true, if_false, List.nil_append, strlen, List.length_nil,
    Nat.sub_zero, Nat.zero_add]
  rw [if_neg (by omega), List.take_of_length_le (by omega)]

theorem validate_loop_live (S : Sudoers) (l : List CStr) (errbuf : CStr)
    (h : byteAt errbuf 0 ≠ 0) : byteAt (validate_loop S l errbuf) 0 ≠ 0 := by
  induction l generalizing errbuf with
  | nil => exact h
  | cons ep rest ih =>
    rw [validate_loop_cons]
    split
    · exact ih errbuf h
    · exact ih _ (errbuf_add_live errbuf _ h)

theorem validate_loop_nil_iff (S : Sudoers) (l : List CStr)
    (hn : ∀ e ∈ l, byteAt (env_name e) 0 ≠ 0) :
    byteAt (validate_loop S l []) 0 = 0 ↔ ∀ e ∈ l, permitted S e = true := by
  induction l with
  | nil => simp [validate_loop, byteAt]
  | cons ep rest ih =>
    rw [validate_loop_cons]
    have hr : ∀ e ∈ rest, byteAt (env_name e) 0 ≠ 0 := fun e he =>
      hn e (List.mem_cons_of_mem _ he)
    by_cases hp : permitted S ep = true
    · rw [if_pos hp, ih hr]
      constructor
      · intro h e he
        rcases List.mem_cons.1 he with rfl | he
        · exact hp
        · exact h e he
      · intro h e he
        exact h e (List.mem_cons_of_mem _ he)
    · rw [if_neg hp]
      constructor
      · intro h
        exact absurd h (validate_loop_live S rest _ (errbuf_add_nil_live _ (hn ep (by simp))))
      · intro h
        exact absurd (h ep (by simp)) hp

theorem validate_loop_exact_live (S : Sudoers) (l : List CStr) (errbuf : CStr)
    (h : byteAt errbuf 0 ≠ 0)
    (hl : (List.intercalate (cstr ", ")
      (errbuf :: (l.filter fun e => !permitted S e).map env_name)).length < 4096) :
    validate_loop S l errbuf = List.intercalate (cstr ", ")
      (errbuf :: (l.filter fun e => !permitted S e).map env_name) := by
  induction l generalizing errbuf with
  | nil => simp [validate_loop, intercalate_single]
  | cons ep rest ih =>
    rw [validate_loop_cons]
    cases hp : permitted S ep with
    | true =>
      simp only [if_true, List.filter_cons, hp, Bool.not_true, Bool.false_eq_true, if_false]
      simp only [List.filter_cons, hp, Bool.not_true, Bool.false_eq_true, if_false] at hl
      exact ih errbuf h hl
    | false =>
      simp only [Bool.false_eq_true, if_false, List.filter_cons, hp, Bool.not_false, if_true,
        List.map_cons]
      simp only [List.filter_cons, hp, Bool.not_false, if_true, List.map_cons] at hl
      rw [intercalate_merge] at hl ⊢
      have hle := length_le_intercalate (cstr ", ") (errbuf ++ cstr ", " ++ env_name ep)
        ((rest.filter fun e => !permitted S e).map env_name)
      have h2 : (cstr ", ").length = 2 := rfl
      have hb : errbuf.length + 2 + (env_name ep).length < 4096 := by
        rw [List.length_append, List.length_append, h2] at hle
        omega
      rw [errbuf_add_eq errbuf _ h hb]
      apply ih
      · rw [List.append_assoc, byteAt_append_zero _ _ h]; exact h
      · exact hl

theorem validate_loop_exact (S : Sudoers) (l : List CStr)
    (hn : ∀ e ∈ l, byteAt (env_name e) 0 ≠ 0)
    (hl : (rejected_names S l).length < 4096) :
    validate_loop S l [] = rejected_names S l := by
  unfold rejected_names at hl ⊢
  induction l with
  | nil => rfl
  | cons ep rest ih =>
    have hr : ∀ e ∈ rest, byteAt (env_name e) 0 ≠ 0 := fun e he =>
      hn e (List.mem_cons_of_mem _ he)
    rw [validate_loop_cons]
    cases hp : permitted S ep with
    | true =>
      simp only [if_true, List.filter_cons, hp, Bool.not_true, Bool.false_eq_true, if_false]
      simp only [List.filter_cons, hp, Bool.not_true, Bool.false_eq_true, if_false] at hl
      exact ih hr hl
    | false =>
      simp only [Bool.false_eq_true, if_false, List.filter_cons, hp, Bool.not_false, if_true,
        List.map_cons]
      simp only [List.filter_cons, hp, Bool.not_false, if_true, List.map_cons] at hl
      have hle := length_le_intercalate (cstr ", ") (env_name ep)
        ((rest.filter fun e => !permitted S e).map env_name)
      rw [errbuf_add_nil_eq _ (by omega)]
      exact validate_loop_exact_live S rest _ (hn ep (by simp)) hl

theorem byteAt_name_ne_zero (e : CStr) (h0 : 0 ∉ e) (hne : env_name e ≠ []) :
    byteAt (env_name e) 0 ≠ 0 := by
  cases hx : env_name e with
  | nil => exact absurd hx hne
  | cons x xs =>
    have hm : x ∈ e := (env_name_starts e).subset (by rw [hx]; simp)
    intro hz
    have : x = 0 := hz
    exact h0 (this ▸ hm)

theorem errbuf_add_nil_long (name : CStr) (h : 4096 ≤ name.length) :
    errbuf_add [] name = name.take 4092 ++ cstr "..." := by
  unfold errbuf_add strlcat
  have h0 : (byteAt ([] : CStr) 0 != 0) = false := rfl
  simp only [h0, Bool.false_eq_true, if_false, List.nil_append, strlen, List.length_nil,
    Nat.sub_zero, Nat.zero_add]
  rw [if_pos (by omega), List.take_take]
  have h1 : min (4096 - 4) (4096 - 1) = 4092 := rfl
  have h2 : (name.take 4092).length = 4092 := by rw [List.length_take]; omega
  rw [h1, h2]
  rfl

/-- **C11**, as amended. For a list of entries that are C strings with a
non-empty name, `validate_env_vars` returns `true` exactly when every entry is
permitted; and when the names of the entries that are not permitted, joined by
`, `, take fewer than 4096 bytes, these names, in input order and without their
values, are what it reports (nothing when every entry is permitted). With the
built-in lists and the environment reset, the entries `LD_LIBRARY_PATH=/tmp`,
`TERM=xterm`, `TZ=/etc/shadow` give `false` and the report
`LD_LIBRARY_PATH, TZ`. -/
theorem validate_env_vars_spec (S : Sudoers) (l : List CStr)
    (h0 : ∀ e ∈ l, 0 ∉ e) (hname : ∀ e ∈ l, env_name e ≠ []) :
    ((validate_env_vars S (some l)).1 = true ↔ ∀ e ∈ l, permitted S e = true) ∧
    ((rejected_names S l).length < 4096 →
      (validate_env_vars S (some l)).2 =
        if l.all (permitted S) then none else some (rejected_names S l)) ∧
    validate_env_vars { builtin with def_env_reset := true }
        (some [cstr "LD_LIBRARY_PATH=/tmp", cstr "TERM=xterm", cstr "TZ=/etc/shadow"]) =
      (false, some (cstr "LD_LIBRARY_PATH, TZ")) := by
  have hn : ∀ e ∈ l, byteAt (env_name e) 0 ≠ 0 := fun e he =>
    byteAt_name_ne_zero e (h0 e he) (hname e he)
  have hiff := validate_loop_nil_iff S l hn
  refine ⟨?_, ?_, by decide⟩
  · unfold validate_env_vars
    simp only
    by_cases hz : byteAt (validate_loop S l []) 0 = 0
    · simp only [hz, bne_self_eq_false, Bool.false_eq_true, if_false, true_iff]
      exact hiff.1 hz
    · simp only [bne_iff_ne, ne_eq, hz, not_false_eq_true, if_true, Bool.false_eq_true,
        false_iff]
      exact fun h => hz (hiff.2 h)
  · intro hl
    unfold validate_env_vars
    simp only
    by_cases hz : byteAt (validate_loop S l []) 0 = 0
    · have hall : l.all (permitted S) = true := by
        rw [List.all_eq_true]; exact hiff.1 hz
      simp only [hz, bne_self_eq_false, Bool.false_eq_true, if_false, hall, if_true]
    · have hall : ¬ l.all (permitted S) = true := by
        rw [List.all_eq_true]; exact fun h => hz (hiff.2 h)
      have hb : (byteAt (validate_loop S l []) 0 != 0) = true := by simpa using hz
      rw [if_pos hb, if_neg hall, validate_loop_exact S l hn hl]

theorem validate_env_vars_spec_witness :
    (∀ e ∈ [cstr "LD_LIBRARY_PATH=/tmp", cstr "TERM=xterm", cstr "TZ=/etc/shadow"], 0 ∉ e) ∧
    (∀ e ∈ [cstr "LD_LIBRARY_PATH=/tmp", cstr "TERM=xterm", cstr "TZ=/etc/shadow"],
      env_name e ≠ []) ∧
    (rejected_names { builtin with def_env_reset := true }
      [cstr "LD_LIBRARY_PATH=/tmp", cstr "TERM=xterm", cstr "TZ=/etc/shadow"]).length < 4096 ∧
    (validate_env_vars { builtin with def_env_reset := true }
      (some [cstr "LD_LIBRARY_PATH=/tmp", cstr "TERM=xterm", cstr "TZ=/etc/shadow"])).2 =
      if [cstr "LD_LIBRARY_PATH=/tmp", cstr "TERM=xterm", cstr "TZ=/etc/shadow"].all
          (permitted { builtin with def_env_reset := true }) then none
      else some (rejected_names { builtin with def_env_reset := true }
        [cstr "LD_LIBRARY_PATH=/tmp", cstr "TERM=xterm", cstr "TZ=/etc/shadow"]) :=
  ⟨by decide, by decide, by decide,
    (validate_env_vars_spec { builtin with def_env_reset := true }
      [cstr "LD_LIBRARY_PATH=/tmp", cstr "TERM=xterm", cstr "TZ=/etc/shadow"]
      (by decide) (by decide)).2.1 (by decide)⟩

/-- The report is cut: with no list at all and the environment reset, the one
entry whose name is 4096 times `A` is rejected, and what is reported is 4092
times `A` followed by `...`, not its name. -/
theorem validate_env_vars_truncation_counterexample :
    permitted { bare with def_env_reset := true } (List.replicate 4096 65 ++ cstr "=1") = false ∧
    env_name (List.replicate 4096 65 ++ cstr "=1") = List.replicate 4096 65 ∧
    (validate_env_vars { bare with def_env_reset := true }
      (some [List.replicate 4096 65 ++ cstr "=1"])).2 =
      some (List.replicate 4092 65 ++ cstr "...") ∧
    (validate_env_vars { bare with def_env_reset := true }
      (some [List.replicate 4096 65 ++ cstr "=1"])).2 ≠
      some (rejected_names { bare with def_env_reset := true }
        [List.replicate 4096 65 ++ cstr "=1"]) := by
  have hp : ∀ e, permitted { bare with def_env_reset := true } e = false := by
    intro e
    simp [permitted, env_should_keep, matches_env_check, matches_env_keep, matches_env_list,
      bare]
  generalize hS : ({ bare with def_env_reset := true } : Sudoers) = S at hp ⊢
  have hlen : (List.replicate 4096 65 : CStr).length = 4096 := List.length_replicate _ _
  have hmem : c_eq ∉ (List.replicate 4096 65 : CStr) := by
    intro h
    have := List.eq_of_mem_replicate h
    cases this
  have hname : env_name (List.replicate 4096 65 ++ cstr "=1") = List.replicate 4096 65 :=
    env_name_append _ (cstr "1") hmem
  generalize hN : (List.replicate 4096 65 : CStr) = name at hlen hmem hname ⊢
  have h65 : byteAt (name.take 4092 ++ cstr "...") 0 = 65 := by
    rw [← hN, List.take_replicate]
    rfl
  have hrep : (validate_env_vars S (some [name ++ cstr "=1"])).2 =
      some (name.take 4092 ++ cstr "...") := by
    unfold validate_env_vars
    simp only
    rw [validate_loop_cons, hp, if_neg Bool.false_ne_true, hname,
      errbuf_add_nil_long _ (by omega), validate_loop]
    have hb : (byteAt (name.take 4092 ++ cstr "...") 0 != 0) = true := by
      rw [h65]; rfl
    rw [if_pos hb]
  have htake : name.take 4092 = List.replicate 4092 65 := by
    rw [← hN, List.take_replicate]; rfl
  refine ⟨hp _, hname, by rw [hrep, htake], ?_⟩
  rw [hrep]
  unfold rejected_names
  simp only [List.filter_cons, hp, Bool.not_false, if_true, List.filter_nil, List.map_cons,
    List.map_nil, intercalate_single, hname]
  intro h
  have := congrArg List.length (Option.some.inj h)
  rw [List.length_append, List.length_take, hlen] at this
  exact absurd this (by decide)

/-! ### The rebuild on the entries -/

theorem put_view (S : Sudoers) (r r' : Rebuild) (str : CStr) (d o : Bool)
    (hok : table_ok r.env) (h : CHECK_PUTENV S r str d o = .ok r') :
    table_ok r'.env ∧ view r' = v_put (view r) str d o := by
  obtain ⟨k1, k2, k3, k4, _, k6⟩ := CHECK_PUTENV_ok S r r' str d o hok h
  refine ⟨k1, ?_⟩
  unfold view v_put
  rw [k2, k3, k4, k6]

theorem set_view (S : Sudoers) (r r' : Rebuild) (var val : CStr) (d o : Bool)
    (hok : table_ok r.env) (h : CHECK_SETENV2 S r var val d o = .ok r') :
    table_ok r'.env ∧ view r' = v_set (view r) var val d o :=
  put_view S r r' _ d o hok h

theorem when_view (c : Bool) (f : Rebuild → Except Fault Rebuild) (F : View → View)
    (r r' : Rebuild) (hok : table_ok r.env)
    (hf : ∀ r', f r = .ok r' → table_ok r'.env ∧ view r' = F (view r))
    (h : when c f r = .ok r') :
    table_ok r'.env ∧ view r' = if c then F (view r) else view r := by
  unfold SudoEnv.when at h
  cases c with
  | true => simpa using hf r' h
  | false =>
    simp only [Bool.false_eq_true, if_false] at h
    cases h
    exact ⟨hok, rfl⟩

theorem final_steps_view (S : Sudoers) (r r' : Rebuild) (hok : table_ok r.env)
    (h : final_steps S r = .ok r') :
    table_ok r'.env ∧ view r' = v_final_steps S (view r) := by
  unfold final_steps at h
  obtain ⟨r1, h1, h⟩ := (bind_ok _ _ _).1 h
  obtain ⟨r2, h2, h⟩ := (bind_ok _ _ _).1 h
  obtain ⟨r3, h3, h⟩ := (bind_ok _ _ _).1 h
  obtain ⟨r4, h4, h⟩ := (bind_ok _ _ _).1 h
  obtain ⟨r5, h5, h⟩ := (bind_ok _ _ _).1 h
  obtain ⟨r6, h6, h⟩ := (bind_ok _ _ _).1 h
  obtain ⟨r7, h7, h⟩ := (bind_ok _ _ _).1 h
  obtain ⟨r8, h8, h⟩ := (bind_ok _ _ _).1 h
  obtain ⟨t1, e1⟩ := when_view (view r).reset_home _
    (fun v => v_set v (cstr "HOME") S.runas_pw.pw_dir true true)
    r r1 hok (fun r' h => set_view S r r' _ _ _ _ hok h) h1
  obtain ⟨t2, e2⟩ := when_view (!ISSET (view r1).didvar DID_SHELL) _
    (fun v => v_set v (cstr "SHELL") S.runas_pw.pw_shell false false)
    r1 r2 t1 (fun r' h => set_view S r1 r' _ _ _ _ t1 h) h2
  obtain ⟨t3, e3⟩ := when_view (!ISSET (view r2).didvar DID_TERM) _
    (fun v => v_put v (cstr "TERM=unknown") false false)
    r2 r3 t2 (fun r' h => put_view S r2 r' _ _ _ t2 h) h3
  obtain ⟨t4, e4⟩ := when_view (!ISSET (view r3).didvar DID_PATH) _
    (fun v => v_set v (cstr "PATH") S.plat.PATH_STDPATH false true)
    r3 r4 t3 (fun r' h => set_view S r3 r' _ _ _ _ t3 h) h4
  have s5 : table_ok r5.env ∧ view r5 =
      (match (view r4).ps1 with
       | some ps1 => v_put (view r4) ps1 true true
       | none => view r4) := by
    cases hp : r4.ps1 with
    | none =>
      rw [hp] at h5
      cases h5
      have : (view r4).ps1 = none := hp
      rw [this]
      exact ⟨t4, rfl⟩
    | some p =>
      rw [hp] at h5
      have : (view r4).ps1 = some p := hp
      rw [this]
      exact put_view S r4 r5 p true true t4 h5
  obtain ⟨t5, e5⟩ := s5
  have s6 : table_ok r6.env ∧ view r6 =
      (match S.user_args with
       | some args => v_put (view r5) (cstr "SUDO_COMMAND=" ++ S.user_cmnd ++ 32 :: args) true true
       | none => v_set (view r5) (cstr "SUDO_COMMAND") S.user_cmnd true true) := by
    cases ha : S.user_args with
    | none => rw [ha] at h6; exact set_view S r5 r6 _ _ _ _ t5 h6
    | some args => rw [ha] at h6; exact put_view S r5 r6 _ _ _ t5 h6
  obtain ⟨t6, e6⟩ := s6
  obtain ⟨t7, e7⟩ := set_view S r6 r7 _ _ _ _ t6 h7
  obtain ⟨t8, e8⟩ := set_view S r7 r8 _ _ _ _ t7 h8
  obtain ⟨t9, e9⟩ := set_view S r8 r' _ _ _ _ t8 h
  refine ⟨t9, ?_⟩
  rw [e9, e8, e7, e6, e5, e4, e3, e2, e1]
  rfl

theorem logname_step_view (S : Sudoers) (r r' : Rebuild) (hok : table_ok r.env)
    (h : logname_step S r = .ok r') :
    table_ok r'.env ∧ view r' = v_logname_step S (view r) := by
  have hget : ∀ q, sudo_getenv r.env q = v_getenv (view r).entries q := fun q =>
    sudo_getenv_eq r.env q (Or.inl (table_ok_init _ hok))
  unfold logname_step at h
  unfold v_logname_step
  have hd : (view r).didvar = r.didvar := rfl
  rw [hd]
  split at h
  · rw [if_pos (by assumption)]
    split at h
    · rw [if_pos (by assumption)]
      obtain ⟨r1, h1, h⟩ := (bind_ok _ _ _).1 h
      obtain ⟨r2, h2, h⟩ := (bind_ok _ _ _).1 h
      obtain ⟨t1, e1⟩ := set_view S r r1 _ _ _ _ hok h1
      obtain ⟨t2, e2⟩ := set_view S r1 r2 _ _ _ _ t1 h2
      obtain ⟨t3, e3⟩ := set_view S r2 r' _ _ _ _ t2 h
      exact ⟨t3, by rw [e3, e2, e1]⟩
    · rw [if_neg (by assumption)]
      split at h
      · rw [if_pos (by assumption)]
        simp only [hget] at h
        generalize (if ISSET r.didvar KEPT_LOGNAME = true then
            v_getenv (view r).entries (cstr "LOGNAME")
          else if ISSET r.didvar KEPT_USER = true then v_getenv (view r).entries (cstr "USER")
          else if ISSET r.didvar KEPT_USERNAME = true then
            v_getenv (view r).entries (cstr "USERNAME")
          else none) = cp at h ⊢
        cases cp with
        | none => cases h; exact ⟨hok, rfl⟩
        | some cp =>
          dsimp only at h ⊢
          obtain ⟨r1, h1, h⟩ := (bind_ok _ _ _).1 h
          obtain ⟨r2, h2, h⟩ := (bind_ok _ _ _).1 h
          obtain ⟨t1, e1⟩ := when_view (!ISSET (view r).didvar KEPT_LOGNAME) _
            (fun v => v_set v (cstr "LOGNAME") cp true true)
            r r1 hok (fun r' h => set_view S r r' _ _ _ _ hok h) h1
          obtain ⟨t2, e2⟩ := when_view (!ISSET (view r1).didvar KEPT_USER) _
            (fun v => v_set v (cstr "USER") cp true true)
            r1 r2 t1 (fun r' h => set_view S r1 r' _ _ _ _ t1 h) h2
          obtain ⟨t3, e3⟩ := when_view (!ISSET (view r2).didvar KEPT_USERNAME) _
            (fun v => v_set v (cstr "USERNAME") cp true true)
            r2 r' t2 (fun r' h => set_view S r2 r' _ _ _ _ t2 h) h
          refine ⟨t3, ?_⟩
          rw [e3, e2, e1]
          rfl
      · rw [if_neg (by assumption)]
        cases h; exact ⟨hok, rfl⟩
  · rw [if_neg (by assumption)]
    cases h; exact ⟨hok, rfl⟩

theorem secure_path_step_view (S : Sudoers) (r r' : Rebuild) (hok : table_ok r.env)
    (h : secure_path_step S r = .ok r') :
    table_ok r'.env ∧ view r' = v_secure_path_step S (view r) := by
  unfold secure_path_step at h
  unfold v_secure_path_step
  cases hsp : S.def_secure_path with
  | none => rw [hsp] at h; cases h; exact ⟨hok, rfl⟩
  | some sp =>
    rw [hsp] at h
    dsimp only at h ⊢
    split at h
    · rw [if_pos (by assumption)]
      obtain ⟨r1, h1, h⟩ := (bind_ok _ _ _).1 h
      obtain ⟨t1, e1⟩ := set_view S r r1 _ _ _ _ hok h1
      obtain ⟨_, k2, _⟩ := CHECK_PUTENV_ok S r r1 _ _ _ hok h1
      cases h
      refine ⟨t1, ?_⟩
      show ({ view r1 with didvar := SET r1.didvar DID_PATH } : View) = _
      rw [e1, k2]
      rfl
    · rw [if_neg (by assumption)]
      cases h; exact ⟨hok, rfl⟩

theorem keep_loop_view (S : Sudoers) (old : List CStr) (r r' : Rebuild) (hok : table_ok r.env)
    (h : keep_loop S old r = .ok r') :
    table_ok r'.env ∧ view r' = v_keep_loop S old (view r) := by
  induction old generalizing r with
  | nil => cases h; exact ⟨hok, rfl⟩
  | cons ep rest ih =>
    unfold keep_loop at h
    unfold v_keep_loop
    dsimp only at h ⊢
    generalize hr1 : (if strncmp_eq ep (cstr "SUDO_PS1=") 8 = true then
        { r with ps1 := some (ep.drop 5) } else r : Rebuild) = r1 at h
    have hv1 : (if strncmp_eq ep (cstr "SUDO_PS1=") 8 = true then
        { view r with ps1 := some (ep.drop 5) } else view r : View) = view r1 := by
      rw [← hr1]; split <;> rfl
    have t1 : table_ok r1.env := by
      rw [← hr1]; split <;> exact hok
    rw [hv1]
    by_cases hk : env_should_keep S ep = true
    · simp only [hk, if_true] at h ⊢
      cases hp : CHECK_PUTENV S r1 ep true false with
      | error f => rw [hp] at h; simp at h
      | ok r2 =>
        rw [hp] at h
        obtain ⟨t2, e2⟩ := put_view S r1 r2 _ _ _ t1 hp
        obtain ⟨_, k2, _⟩ := CHECK_PUTENV_ok S r1 r2 _ _ _ t1 hp
        dsimp only at h
        obtain ⟨t3, e3⟩ := ih { r2 with didvar := env_update_didvar ep r2.didvar } t2 h
        refine ⟨t3, ?_⟩
        have e4 : view { r2 with didvar := env_update_didvar ep r2.didvar } =
            { v_put (view r1) ep true false with
              didvar := env_update_didvar ep (view r1).didvar } := by
          show ({ view r2 with didvar := env_update_didvar ep r2.didvar } : View) = _
          rw [e2, k2]
          rfl
        rw [e3, e4]
    · simp only [hk, Bool.false_eq_true, if_false] at h ⊢
      exact ih r1 t1 h

theorem delete_loop_view (S : Sudoers) (old : List CStr) (r r' : Rebuild) (hok : table_ok r.env)
    (h : delete_loop S old r = .ok r') :
    table_ok r'.env ∧ view r' = v_delete_loop S old (view r) := by
  induction old generalizing r with
  | nil => cases h; exact ⟨hok, rfl⟩
  | cons ep rest ih =>
    unfold delete_loop at h
    unfold v_delete_loop
    by_cases hd : env_should_delete S ep = true
    · simp only [hd, Bool.not_true, Bool.false_eq_true, if_false] at h ⊢
      exact ih r hok h
    · have hd' : env_should_delete S ep = false := by simpa using hd
      simp only [hd', Bool.not_false, if_true] at h ⊢
      generalize hr1 : (if strncmp_eq ep (cstr "SUDO_PS1=") 9 = true then
          { r with ps1 := some (ep.drop 5) }
        else if strncmp_eq ep (cstr "SHELL=") 6 = true then
          { r with didvar := SET r.didvar DID_SHELL }
        else if strncmp_eq ep (cstr "PATH=") 5 = true then
          { r with didvar := SET r.didvar DID_PATH }
        else if strncmp_eq ep (cstr "TERM=") 5 = true then
          { r with didvar := SET r.didvar DID_TERM }
        else r : Rebuild) = r1 at h
      have hv1 : (if strncmp_eq ep (cstr "SUDO_PS1=") 9 = true then
          { view r with ps1 := some (ep.drop 5) }
        else if strncmp_eq ep (cstr "SHELL=") 6 = true then
          { view r with didvar := SET (view r).didvar DID_SHELL }
        else if strncmp_eq ep (cstr "PATH=") 5 = true then
          { view r with didvar := SET (view r).didvar DID_PATH }
        else if strncmp_eq ep (cstr "TERM=") 5 = true then
          { view r with didvar := SET (view r).didvar DID_TERM }
        else view r : View) = view r1 := by
        rw [← hr1]
        split
        · rfl
        · split
          · rfl
          · split
            · rfl
            · split <;> rfl
      have t1 : table_ok r1.env := by
        rw [← hr1]
        split
        · exact hok
        · split
          · exact hok
          · split
            · exact hok
            · split <;> exact hok
      rw [hv1]
      cases hp : CHECK_PUTENV S r1 ep true false with
      | error f => rw [hp] at h; simp at h
      | ok r2 =>
        rw [hp] at h
        obtain ⟨t2, e2⟩ := put_view S r1 r2 _ _ _ t1 hp
        obtain ⟨t3, e3⟩ := ih r2 t2 h
        exact ⟨t3, by rw [e3, e2]⟩

theorem seed_defaults_view (S : Sudoers) (r r' : Rebuild) (hok : table_ok r.env)
    (h : seed_defaults S r = .ok r') :
    table_ok r'.env ∧ view r' = v_seed (env_entries r'.env) (view r) ∧
      (S.plat.reads_environment = false → env_entries r'.env = env_entries r.env) := by
  unfold seed_defaults at h
  dsimp only at h
  split at h
  · simp at h
  · rename_i r1 hs
    have h1 : table_ok r1.env ∧ r1.didvar = r.didvar ∧ r1.ps1 = r.ps1 ∧
        r1.reset_home = r.reset_home ∧
        (S.plat.reads_environment = false → r1.env = r.env) := by
      split at hs
      · rename_i hre
        split at hs
        · simp at hs
        · rename_i p hp
          cases hs
          refine ⟨?_, rfl, rfl, rfl, fun hf => by rw [hf] at hre; cases hre⟩
          unfold read_env_file at hp
          cases hf : S.environment_file with
          | none => rw [hf] at hp; cases hp; exact hok
          | some lines =>
            rw [hf] at hp
            exact (read_env_lines_keeps (Q := fun _ => True) (A := fun _ => True)
              (fun _ _ _ _ _ _ => trivial) (fun _ _ => trivial) S.plat true lines r.env p.2 p.1
              hok trivial hp).1
      · cases hs; exact ⟨hok, rfl, rfl, rfl, fun _ => rfl⟩
    obtain ⟨t1, k2, k3, k4, k5⟩ := h1
    split at h
    · simp at h
    · rename_i v hv
      cases h
      refine ⟨t1, ?_, fun hf => by rw [k5 hf]⟩
      unfold view v_seed env_entries
      simp only [hv, k2, k3, k4]

theorem reset_defaults_view (S : Sudoers) (r r' : Rebuild) (hok : table_ok r.env)
    (h : reset_defaults S r = .ok r') :
    table_ok r'.env ∧ view r' = v_reset_defaults S (view r) := by
  unfold reset_defaults at h
  unfold v_reset_defaults
  split at h
  · rw [if_pos (by assumption)]
    obtain ⟨r1, h1, h⟩ := (bind_ok _ _ _).1 h
    obtain ⟨r2, h2, h⟩ := (bind_ok _ _ _).1 h
    obtain ⟨r3, h3, h⟩ := (bind_ok _ _ _).1 h
    obtain ⟨t1, e1⟩ := set_view S r r1 (cstr "SHELL") S.runas_pw.pw_shell
      (ISSET (view r).didvar DID_SHELL) true hok h1
    obtain ⟨t2, e2⟩ := set_view S r1 r2 (cstr "LOGNAME") S.runas_pw.pw_name
      (ISSET (view r1).didvar DID_LOGNAME) true t1 h2
    obtain ⟨t3, e3⟩ := set_view S r2 r3 (cstr "USER") S.runas_pw.pw_name
      (ISSET (view r2).didvar DID_USER) true t2 h3
    obtain ⟨t4, e4⟩ := set_view S r3 r' (cstr "USERNAME") S.runas_pw.pw_name
      (ISSET (view r3).didvar DID_USERNAME) true t3 h
    refine ⟨t4, ?_⟩
    rw [e4, e3, e2, e1]
  · rw [if_neg (by assumption)]
    split at h
    · rw [if_pos (by assumption)]
      obtain ⟨r1, h1, h⟩ := (bind_ok _ _ _).1 h
      obtain ⟨r2, h2, h⟩ := (bind_ok _ _ _).1 h
      obtain ⟨t1, e1⟩ := when_view (!ISSET (view r).didvar DID_LOGNAME) _
        (fun v => v_set v (cstr "LOGNAME") S.user_name false true)
        r r1 hok (fun r' h => set_view S r r' _ _ _ _ hok h) h1
      obtain ⟨t2, e2⟩ := when_view (!ISSET (view r1).didvar DID_USER) _
        (fun v => v_set v (cstr "USER") S.user_name false true)
        r1 r2 t1 (fun r' h => set_view S r1 r' _ _ _ _ t1 h) h2
      obtain ⟨t3, e3⟩ := when_view (!ISSET (view r2).didvar DID_USERNAME) _
        (fun v => v_set v (cstr "USERNAME") S.user_name false true)
        r2 r' t2 (fun r' h => set_view S r2 r' _ _ _ _ t2 h) h
      refine ⟨t3, ?_⟩
      rw [e3, e2, e1]
    · rw [if_neg (by assumption)]
      cases h; exact ⟨hok, rfl⟩

theorem reset_mail_view (S : Sudoers) (r r' : Rebuild) (hok : table_ok r.env)
    (h : reset_mail S r = .ok r') :
    table_ok r'.env ∧ view r' = v_reset_mail S (view r) := by
  unfold reset_mail at h
  unfold v_reset_mail
  have hd : (view r).didvar = r.didvar := rfl
  rw [hd]
  split at h
  · rw [if_pos (by assumption)]
    exact put_view S r r' _ _ _ hok h
  · rw [if_neg (by assumption)]
    cases h; exact ⟨hok, rfl⟩

theorem reset_branch_view (S : Sudoers) (old : List CStr) (r r' : Rebuild)
    (hok : table_ok r.env) (h : reset_branch S old r = .ok r') :
    ∃ l0, (S.plat.reads_environment = false → l0 = env_entries r.env) ∧
      table_ok r'.env ∧ view r' = v_reset_branch S old l0 (view r) := by
  unfold reset_branch at h
  obtain ⟨r2, h12, h⟩ := (bind_ok _ _ _).1 h
  obtain ⟨r1, h1, h2⟩ := (bind_ok _ _ _).1 h12
  obtain ⟨r4, h34, h⟩ := (bind_ok _ _ _).1 h
  obtain ⟨r3, h3, h4⟩ := (bind_ok _ _ _).1 h34
  obtain ⟨r5, h5, h6⟩ := (bind_ok _ _ _).1 h
  have s1 : ∃ l0, (S.plat.reads_environment = false → l0 = env_entries r.env) ∧
      table_ok r1.env ∧
      view r1 = if !S.sudo_mode.login_shell then v_seed l0 (view r) else view r := by
    unfold SudoEnv.when at h1
    by_cases hl : (!S.sudo_mode.login_shell) = true
    · rw [if_pos hl] at h1
      obtain ⟨a, b, c⟩ := seed_defaults_view S r r1 hok h1
      exact ⟨env_entries r1.env, c, a, by rw [if_pos hl]; exact b⟩
    · rw [if_neg hl] at h1
      cases h1
      exact ⟨env_entries r.env, fun _ => rfl, hok, by rw [if_neg hl]⟩
  obtain ⟨l0, hl0, t1, e1⟩ := s1
  obtain ⟨t2, e2⟩ := keep_loop_view S old r1 r2 t1 h2
  cases h3
  have t3 : table_ok ({ r2 with didvar := (r2.didvar ||| (r2.didvar <<< 8)) % 2 ^ 32 } :
      Rebuild).env := t2
  obtain ⟨t4, e4⟩ := reset_defaults_view S _ r4 t3 h4
  cases h5
  have t5 : table_ok (if (!ISSET r4.didvar KEPT_HOME) = true then
      { r4 with reset_home := true } else r4 : Rebuild).env := by
    split <;> exact t4
  obtain ⟨t6, e6⟩ := reset_mail_view S _ r' t5 h6
  refine ⟨l0, hl0, t6, ?_⟩
  rw [e6]
  unfold v_reset_branch
  dsimp only
  rw [← e1, ← e2]
  have e3 : ({ view r2 with didvar := ((view r2).didvar ||| ((view r2).didvar <<< 8)) % 2 ^ 32 } :
      View) = view { r2 with didvar := (r2.didvar ||| (r2.didvar <<< 8)) % 2 ^ 32 } := rfl
  rw [e3, ← e4]
  congr 1
  have hd : (view r4).didvar = r4.didvar := rfl
  rw [hd]
  split <;> rfl

/-- A successful `rebuild_env` leaves the entries its counterpart on the entries
computes. -/
theorem rebuild_env_view (S : Sudoers) (env env' : Environment)
    (h : rebuild_env S env = .ok env') :
    ∃ oldv l0, env.envp = some oldv ∧ (S.plat.reads_environment = false → l0 = []) ∧
      table_ok env' ∧ env_entries env' = (v_rebuild S (walk oldv) l0).entries := by
  unfold rebuild_env at h
  split at h
  · simp at h
  · rename_i oldv hv
    dsimp only at h
    obtain ⟨r4, h4, he⟩ := map_ok _ _ _ h
    obtain ⟨r3, h3, h4⟩ := (bind_ok _ _ _).1 h4
    obtain ⟨r2, h2, h3⟩ := (bind_ok _ _ _).1 h3
    obtain ⟨r1, h1, h2⟩ := (bind_ok _ _ _).1 h2
    generalize hr0 : (⟨⟨some [none], env.envp, 128, 0⟩, 0, none,
        S.sudo_mode.run &&
          (S.def_always_set_home || (S.sudo_mode.reset_home || S.sudo_mode.login_shell) ||
            (S.sudo_mode.shell && S.def_set_home))⟩ : Rebuild) = r0 at h1
    have t0 : table_ok r0.env := by
      rw [← hr0]; exact ⟨[], [], rfl, rfl⟩
    have hv0 : view r0 = ⟨[], 0, none,
        S.sudo_mode.run &&
          (S.def_always_set_home || (S.sudo_mode.reset_home || S.sudo_mode.login_shell) ||
            (S.sudo_mode.shell && S.def_set_home))⟩ := by
      rw [← hr0]; rfl
    have s1 : ∃ l0, (S.plat.reads_environment = false → l0 = []) ∧ table_ok r1.env ∧
        view r1 = if S.def_env_reset || S.sudo_mode.login_shell then
          v_reset_branch S (walk oldv) l0 (view r0) else v_delete_loop S (walk oldv) (view r0) := by
      split at h1
      · rename_i hc
        obtain ⟨l0, a, b, c⟩ := reset_branch_view S (walk oldv) r0 r1 t0 h1
        refine ⟨l0, fun hf => ?_, b, by rw [if_pos hc]; exact c⟩
        rw [a hf, ← hr0]; rfl
      · rename_i hc
        obtain ⟨b, c⟩ := delete_loop_view S (walk oldv) r0 r1 t0 h1
        exact ⟨[], fun _ => rfl, b, by rw [if_neg hc]; exact c⟩
    obtain ⟨l0, hl0, t1, e1⟩ := s1
    obtain ⟨t2, e2⟩ := secure_path_step_view S r1 r2 t1 h2
    obtain ⟨t3, e3⟩ := logname_step_view S r2 r3 t2 h3
    obtain ⟨t4, e4⟩ := final_steps_view S r3 r4 t3 h4
    refine ⟨oldv, l0, hv, hl0, by rw [← he]; exact t4, ?_⟩
    rw [← he]
    show (view r4).entries = _
    rw [e4, e3, e2, e1, hv0]
    rfl

/-! ### Puts and the entries of one name -/

theorem named_set (N M val : CStr) (hM : c_eq ∉ M) :
    named N (M ++ c_eq :: val) = decide (M = N) := by
  rw [Bool.eq_iff_iff, named_iff, env_name_append M val hM, decide_eq_true_iff]
  simp

/-- A put changes nothing among the entries a test `p` selects, when `p`
rejects the new entry and every entry the put may remove. -/
theorem put_entries_filter (p : CStr → Bool) (str : CStr) (len : Nat) (o : Bool)
    (l : List CStr) (hs : p str = false)
    (ht : ∀ x ∈ l, strncmp_eq str x len = true → p x = false) :
    (put_entries str len o l).filter p = l.filter p := by
  induction l with
  | nil => simp [put_entries, List.filter_cons, hs]
  | cons e rest ih =>
    have hr : ∀ x ∈ rest, strncmp_eq str x len = true → p x = false :=
      fun x hx => ht x (List.mem_cons_of_mem _ hx)
    unfold put_entries
    by_cases hm : strncmp_eq str e len = true
    · rw [if_pos hm]
      have he : p e = false := ht e (by simp) hm
      cases o with
      | false => simp
      | true =>
        simp only [if_true, List.filter_cons, hs, he, Bool.false_eq_true, if_false]
        rw [List.filter_filter]
        apply List.filter_congr
        intro x hx
        cases hx1 : strncmp_eq str x len with
        | false => simp
        | true => simp [hr x hx hx1]
    · rw [if_neg hm]
      simp only [List.filter_cons, ih hr]

/-- What the duplicate test of a put says of an entry it matches. -/
theorem dup_test_cases (str x : CStr) (h : strncmp_eq str x (str.indexOf c_eq + 1) = true) :
    (c_eq ∈ str ∧ named (env_name str) x = true) ∨ (c_eq ∉ str ∧ x = str) := by
  by_cases hs : c_eq ∈ str
  · exact Or.inl ⟨hs, by rw [← dup_test_named str x hs]; exact h⟩
  · refine Or.inr ⟨hs, ?_⟩
    rw [strncmp_eq_iff_take, List.indexOf_eq_length.2 hs] at h
    rw [List.take_of_length_le (Nat.le_succ _)] at h
    have hl : x.length ≤ str.length := by
      by_contra hc
      have := congrArg List.length h
      rw [List.length_take] at this
      omega
    rw [List.take_of_length_le (by omega)] at h
    exact h.symm

/-- A put leaves the entries of any other name as they are. -/
theorem named_put_other (N : CStr) (l : List CStr) (str : CStr) (d o : Bool)
    (h : named N str = false) :
    (put_result l str d o).filter (named N) = l.filter (named N) := by
  unfold put_result
  cases d with
  | false => simp [List.filter_append, List.filter_cons, h]
  | true =>
    rw [if_pos rfl]
    apply put_entries_filter _ _ _ _ _ h
    intro x _ hx
    rcases dup_test_cases str x hx with ⟨hs, hn⟩ | ⟨_, rfl⟩
    · cases hN : named N x with
      | false => rfl
      | true =>
        have h1 := (named_iff _ _).1 hn
        have h2 := (named_iff _ _).1 hN
        have : named N str = true := (named_iff _ _).2 ⟨hs, by rw [← h2.2, h1.2]⟩
        rw [h] at this; cases this
    · exact h

/-- An overwriting put leaves one entry of its name. -/
theorem named_put_same (l : List CStr) (str : CStr) (hs : c_eq ∈ str) :
    (put_result l str true true).filter (named (env_name str)) = [str] := by
  have hstr : named (env_name str) str = true := (named_iff _ _).2 ⟨hs, rfl⟩
  unfold put_result
  rw [if_pos rfl]
  induction l with
  | nil => simp [put_entries, List.filter_cons, hstr]
  | cons e rest ih =>
    unfold put_entries
    rw [dup_test_named str e hs]
    cases hn : named (env_name str) e with
    | true =>
      simp only [if_true, List.filter_cons, hstr]
      rw [List.filter_filter]
      congr 1
      apply List.filter_eq_nil_iff.2
      intro x _
      rw [dup_test_named str x hs]
      cases named (env_name str) x <;> simp
    | false =>
      simp only [Bool.false_eq_true, if_false, List.filter_cons, hn]
      exact ih

theorem named_set_same (l : List CStr) (N val : CStr) (hN : c_eq ∉ N) :
    (put_result l (N ++ c_eq :: val) true true).filter (named N) = [N ++ c_eq :: val] := by
  have := named_put_same l (N ++ c_eq :: val) (by simp)
  rw [env_name_append N val hN] at this
  exact this

/-- A put removes no name from the list. -/
theorem has_entry_put (N : CStr) (l : List CStr) (str : CStr) (d o : Bool)
    (h : has_entry l N) : has_entry (put_result l str d o) N := by
  by_cases hs : named N str = true
  · unfold put_result
    cases d with
    | false => exact ⟨str, by simp, hs⟩
    | true =>
      rw [if_pos rfl]
      clear h
      induction l with
      | nil => exact ⟨str, by simp [put_entries], hs⟩
      | cons e rest ih =>
        unfold put_entries
        by_cases hm : strncmp_eq str e (str.indexOf c_eq + 1) = true
        · rw [if_pos hm]
          cases o with
          | true => exact ⟨str, by simp, hs⟩
          | false =>
            refine ⟨e, by simp, ?_⟩
            rcases dup_test_cases str e hm with ⟨_, hn⟩ | ⟨_, rfl⟩
            · have h1 := (named_iff _ _).1 hn
              have h2 := (named_iff _ _).1 hs
              exact (named_iff _ _).2 ⟨h1.1, by rw [h1.2, h2.2]⟩
            · exact hs
        · rw [if_neg hm]
          obtain ⟨x, hx, hxn⟩ := ih
          exact ⟨x, List.mem_cons_of_mem _ hx, hxn⟩
  · have hs' : named N str = false := by simpa using hs
    obtain ⟨x, hx, hxn⟩ := h
    have hf : x ∈ (put_result l str d o).filter (named N) := by
      rw [named_put_other N l str d o hs']
      exact List.mem_filter.2 ⟨hx, hxn⟩
    exact ⟨x, (List.mem_filter.1 hf).1, hxn⟩

/-- A put of an entry named `N` leaves the list with an entry named `N`. -/
theorem has_entry_put_self (N : CStr) (l : List CStr) (str : CStr) (d o : Bool)
    (hs : named N str = true) : has_entry (put_result l str d o) N := by
  by_cases hl : has_entry l N
  · exact has_entry_put N l str d o hl
  · unfold put_result
    cases d with
    | false => exact ⟨str, by simp, hs⟩
    | true =>
      rw [if_pos rfl]
      have hsm := ((named_iff _ _).1 hs)
      have : ∀ x ∈ l, strncmp_eq str x (str.indexOf c_eq + 1) = false := by
        intro x hx
        cases hc : strncmp_eq str x (str.indexOf c_eq + 1) with
        | false => rfl
        | true =>
          rw [dup_test_named str x hsm.1, hsm.2] at hc
          exact absurd ⟨x, hx, hc⟩ hl
      clear hl
      induction l with
      | nil => exact ⟨str, by simp [put_entries], hs⟩
      | cons e rest ih =>
        unfold put_entries
        rw [this e (by simp)]
        simp only [Bool.false_eq_true, if_false]
        obtain ⟨x, hx, hxn⟩ := ih (fun x hx => this x (List.mem_cons_of_mem _ hx))
        exact ⟨x, List.mem_cons_of_mem _ hx, hxn⟩

/-! ### C13: the `SUDO_*` variables -/

theorem idbuf_eq_decimal (n : Nat) (h : n < 2 ^ 32) : idbuf n = decimal n := by
  unfold idbuf decimal cstr
  rw [Nat.mod_eq_of_lt h]
  rfl

theorem v_put_entries (v : View) (str : CStr) (d o : Bool) :
    (v_put v str d o).entries = put_result v.entries str d o := rfl

theorem v_set_entries (v : View) (var val : CStr) (d o : Bool) :
    (v_set v var val d o).entries = put_result v.entries (var ++ c_eq :: val) d o := rfl

theorem sudo_vars_tail (S : Sudoers) (l : List CStr) (c : CStr) :
    (v_set (v_set (v_set ⟨put_result l (cstr "SUDO_COMMAND" ++ c_eq :: c) true true, 0, none, false⟩
      (cstr "SUDO_USER") S.user_name true true)
      (cstr "SUDO_UID") (idbuf S.user_uid) true true)
      (cstr "SUDO_GID") (idbuf S.user_gid) true true).entries.filter
        (named (cstr "SUDO_COMMAND")) = [cstr "SUDO_COMMAND" ++ c_eq :: c] ∧
    (v_set (v_set (v_set ⟨put_result l (cstr "SUDO_COMMAND" ++ c_eq :: c) true true, 0, none, false⟩
      (cstr "SUDO_USER") S.user_name true true)
      (cstr "SUDO_UID") (idbuf S.user_uid) true true)
      (cstr "SUDO_GID") (idbuf S.user_gid) true true).entries.filter
        (named (cstr "SUDO_USER")) = [cstr "SUDO_USER" ++ c_eq :: S.user_name] ∧
    (v_set (v_set (v_set ⟨put_result l (cstr "SUDO_COMMAND" ++ c_eq :: c) true true, 0, none, false⟩
      (cstr "SUDO_USER") S.user_name true true)
      (cstr "SUDO_UID") (idbuf S.user_uid) true true)
      (cstr "SUDO_GID") (idbuf S.user_gid) true true).entries.filter
        (named (cstr "SUDO_UID")) = [cstr "SUDO_UID" ++ c_eq :: idbuf S.user_uid] ∧
    (v_set (v_set (v_set ⟨put_result l (cstr "SUDO_COMMAND" ++ c_eq :: c) true true, 0, none, false⟩
      (cstr "SUDO_USER") S.user_name true true)
      (cstr "SUDO_UID") (idbuf S.user_uid) true true)
      (cstr "SUDO_GID") (idbuf S.user_gid) true true).entries.filter
        (named (cstr "SUDO_GID")) = [cstr "SUDO_GID" ++ c_eq :: idbuf S.user_gid] := by
  simp only [v_set_entries]
  refine ⟨?_, ?_, ?_, ?_⟩
  · rw [named_put_other _ _ _ _ _ (by rw [named_set _ _ _ (by decide)]; decide),
      named_put_other _ _ _ _ _ (by rw [named_set _ _ _ (by decide)]; decide),
      named_put_other _ _ _ _ _ (by rw [named_set _ _ _ (by decide)]; decide)]
    exact named_set_same _ _ _ (by decide)
  · rw [named_put_other _ _ _ _ _ (by rw [named_set _ _ _ (by decide)]; decide),
      named_put_other _ _ _ _ _ (by rw [named_set _ _ _ (by decide)]; decide)]
    exact named_set_same _ _ _ (by decide)
  · rw [named_put_other _ _ _ _ _ (by rw [named_set _ _ _ (by decide)]; decide)]
    exact named_set_same _ _ _ (by decide)
  · exact named_set_same _ _ _ (by decide)

/-- The last four puts of `rebuild_env` leave one entry for each `SUDO_*` name. -/
theorem v_sudo_vars_entries (S : Sudoers) (x : View) :
    (v_sudo_vars S x).entries.filter (named (cstr "SUDO_COMMAND")) =
      [cstr "SUDO_COMMAND" ++ c_eq ::
        (match S.user_args with
         | some args => S.user_cmnd ++ 32 :: args
         | none => S.user_cmnd)] ∧
    (v_sudo_vars S x).entries.filter (named (cstr "SUDO_USER")) =
      [cstr "SUDO_USER" ++ c_eq :: S.user_name] ∧
    (v_sudo_vars S x).entries.filter (named (cstr "SUDO_UID")) =
      [cstr "SUDO_UID" ++ c_eq :: idbuf S.user_uid] ∧
    (v_sudo_vars S x).entries.filter (named (cstr "SUDO_GID")) =
      [cstr "SUDO_GID" ++ c_eq :: idbuf S.user_gid] := by
  unfold v_sudo_vars
  cases S.user_args with
  | none => exact sudo_vars_tail S x.entries S.user_cmnd
  | some args =>
    have e : cstr "SUDO_COMMAND=" ++ S.user_cmnd ++ 32 :: args =
        cstr "SUDO_COMMAND" ++ c_eq :: (S.user_cmnd ++ 32 :: args) := by
      have : cstr "SUDO_COMMAND=" = cstr "SUDO_COMMAND" ++ [c_eq] := by decide
      rw [this]; simp
    dsimp only
    rw [e]
    exact sudo_vars_tail S x.entries (S.user_cmnd ++ 32 :: args)

/-- **C13**. After a successful `rebuild_env`, whatever the invoker's
environment holds, the table has exactly one entry named `SUDO_COMMAND`, the
command followed by a space and the arguments when there are arguments and the
command alone otherwise; exactly one named `SUDO_USER`, the invoker's name; and
exactly one each named `SUDO_UID` and `SUDO_GID`, the invoker's uid and gid
(values of the 32-bit types `uid_t` and `gid_t`) in decimal. -/
theorem rebuild_env_sudo_entries (S : Sudoers) (env env' : Environment)
    (h : rebuild_env S env = .ok env')
    (huid : S.user_uid < 2 ^ 32) (hgid : S.user_gid < 2 ^ 32) :
    (env_entries env').filter (named (cstr "SUDO_COMMAND")) =
      [cstr "SUDO_COMMAND" ++ c_eq ::
        (match S.user_args with
         | some args => S.user_cmnd ++ 32 :: args
         | none => S.user_cmnd)] ∧
    (env_entries env').filter (named (cstr "SUDO_USER")) =
      [cstr "SUDO_USER" ++ c_eq :: S.user_name] ∧
    (env_entries env').filter (named (cstr "SUDO_UID")) =
      [cstr "SUDO_UID" ++ c_eq :: decimal S.user_uid] ∧
    (env_entries env').filter (named (cstr "SUDO_GID")) =
      [cstr "SUDO_GID" ++ c_eq :: decimal S.user_gid] := by
  obtain ⟨oldv, l0, _, _, _, he⟩ := rebuild_env_view S env env' h
  rw [he, ← idbuf_eq_decimal _ huid, ← idbuf_eq_decimal _ hgid]
  exact v_sudo_vars_entries S _

theorem rebuild_env_sudo_entries_witness :
    (init_envtables { bare with def_env_reset := true, def_env_keep := [cstr "SUDO_*", cstr "FOO"],
                                user_args := some (cstr "-l /tmp") }).user_uid < 2 ^ 32 ∧
    (env_entries
      { envp := some ([cstr "FOO", cstr "SUDO_USER=alice", cstr "SUDO_UID=1000",
          cstr "SUDO_COMMAND=/bin/ls -l /tmp", cstr "TERM=xterm", cstr "LOGNAME=alice",
          cstr "USER=alice", cstr "USERNAME=alice", cstr "MAIL=/var/mail/bob",
          cstr "HOME=/home/bob", cstr "SHELL=/bin/zsh",
          cstr "PATH=/usr/bin:/bin:/usr/sbin:/sbin", cstr "SUDO_GID=1000"].map some ++ [none]),
        old_envp := some ([cstr "FOO", cstr "SUDO_USER=mallory", cstr "SUDO_UID=0",
          cstr "SUDO_COMMAND=/bin/true", cstr "TERM=xterm"].map some ++ [none]),
        env_size := 128, env_len := 13 }).filter (named (cstr "SUDO_COMMAND")) =
      [cstr "SUDO_COMMAND" ++ c_eq :: (cstr "/bin/ls" ++ 32 :: cstr "-l /tmp")] ∧
    (env_entries
      { envp := some ([cstr "FOO", cstr "SUDO_USER=alice", cstr "SUDO_UID=1000",
          cstr "SUDO_COMMAND=/bin/ls -l /tmp", cstr "TERM=xterm", cstr "LOGNAME=alice",
          cstr "USER=alice", cstr "USERNAME=alice", cstr "MAIL=/var/mail/bob",
          cstr "HOME=/home/bob", cstr "SHELL=/bin/zsh",
          cstr "PATH=/usr/bin:/bin:/usr/sbin:/sbin", cstr "SUDO_GID=1000"].map some ++ [none]),
        old_envp := some ([cstr "FOO", cstr "SUDO_USER=mallory", cstr "SUDO_UID=0",
          cstr "SUDO_COMMAND=/bin/true", cstr "TERM=xterm"].map some ++ [none]),
        env_size := 128, env_len := 13 }).filter (named (cstr "SUDO_UID")) =
      [cstr "SUDO_UID" ++ c_eq :: decimal 1000] :=
  ⟨by decide,
    (rebuild_env_sudo_entries
      (init_envtables { bare with def_env_reset := true, def_env_keep := [cstr "SUDO_*", cstr "FOO"],
                                  user_args := some (cstr "-l /tmp") })
      (env_init { envp := none, old_envp := none, env_size := 0, env_len := 0 }
        (some [cstr "FOO", cstr "SUDO_USER=mallory", cstr "SUDO_UID=0",
          cstr "SUDO_COMMAND=/bin/true", cstr "TERM=xterm"])).2
      _ rfl (by decide) (by decide)).1,
    (rebuild_env_sudo_entries
      (init_envtables { bare with def_env_reset := true, def_env_keep := [cstr "SUDO_*", cstr "FOO"],
                                  user_args := some (cstr "-l /tmp") })
      (env_init { envp := none, old_envp := none, env_size := 0, env_len := 0 }
        (some [cstr "FOO", cstr "SUDO_USER=mallory", cstr "SUDO_UID=0",
          cstr "SUDO_COMMAND=/bin/true", cstr "TERM=xterm"])).2
      _ rfl (by decide) (by decide)).2.2.1⟩

/-! ### Sequences of puts -/

theorem Puts.trans {A : CStr → Prop} {l1 l2 l3 : List CStr}
    (h1 : Puts A l1 l2) (h2 : Puts A l2 l3) : Puts A l1 l3 := by
  induction h2 with
  | refl => exact h1
  | put l' str d o _ hA ih => exact Puts.put _ _ _ _ _ ih hA

theorem Puts.mono {A B : CStr → Prop} {l1 l2 : List CStr} (hAB : ∀ s, A s → B s)
    (h : Puts A l1 l2) : Puts B l1 l2 := by
  induction h with
  | refl => exact Puts.refl _
  | put l' str d o _ hA ih => exact Puts.put _ _ _ _ _ ih (hAB _ hA)

theorem Puts.has {A : CStr → Prop} {l1 l2 : List CStr} (N : CStr)
    (h : Puts A l1 l2) (h1 : has_entry l1 N) : has_entry l2 N := by
  induction h with
  | refl => exact h1
  | put l' str d o _ _ ih => exact has_entry_put N _ _ _ _ ih

theorem Puts.filter {A : CStr → Prop} {l1 l2 : List CStr} (N : CStr)
    (h : Puts A l1 l2) (hA : ∀ s, A s → named N s = false) :
    l2.filter (named N) = l1.filter (named N) := by
  induction h with
  | refl => rfl
  | put l' str d o _ hs ih => rw [named_put_other N _ _ _ _ (hA _ hs), ih]

theorem puts_put {A : CStr → Prop} (l : List CStr) (v : View) (str : CStr)
    (d o : Bool) (h : Puts A l v.entries) (hA : A str) :
    Puts A l (v_put v str d o).entries := Puts.put _ _ _ _ _ h hA

theorem puts_set {A : CStr → Prop} (l : List CStr) (v : View) (var val : CStr)
    (d o : Bool) (h : Puts A l v.entries) (hA : A (var ++ c_eq :: val)) :
    Puts A l (v_set v var val d o).entries := Puts.put _ _ _ _ _ h hA

theorem puts_when {A : CStr → Prop} (l : List CStr) (v : View) (c : Bool) (str : CStr)
    (d o : Bool) (h : Puts A l v.entries) (hA : A str) :
    Puts A l (if c then v_put v str d o else v).entries := by
  cases c with
  | true => exact Puts.put _ _ _ _ _ h hA
  | false => exact h

theorem puts_when_set {A : CStr → Prop} (l : List CStr) (v : View) (c : Bool) (var val : CStr)
    (d o : Bool) (h : Puts A l v.entries) (hA : A (var ++ c_eq :: val)) :
    Puts A l (if c then v_set v var val d o else v).entries :=
  puts_when l v c _ d o h hA

theorem sets_mk (ns : List CStr) (n val : CStr) (h : n ∈ ns) : sets ns (n ++ c_eq :: val) :=
  ⟨n, h, val, rfl⟩

theorem sets_not_named (ns : List CStr) (N s : CStr) (hns : ∀ n ∈ ns, c_eq ∉ n) (hN : N ∉ ns)
    (h : sets ns s) : named N s = false := by
  obtain ⟨n, hn, val, rfl⟩ := h
  rw [named_set N n val (hns n hn)]
  simp only [decide_eq_false_iff_not]
  rintro rfl
  exact hN hn

theorem v_defaults_puts (S : Sudoers) (v : View) :
    Puts (sets [cstr "HOME", cstr "SHELL", cstr "TERM", cstr "PATH"])
      v.entries (v_defaults S v).entries := by
  unfold v_defaults
  dsimp only
  have e : cstr "TERM=unknown" = cstr "TERM" ++ c_eq :: cstr "unknown" := by decide
  rw [e]
  refine puts_when_set _ _ _ _ _ _ _ ?_ (sets_mk _ _ _ (by decide))
  refine puts_when _ _ _ _ _ _ ?_ (sets_mk _ _ _ (by decide))
  refine puts_when_set _ _ _ _ _ _ _ ?_ (sets_mk _ _ _ (by decide))
  exact puts_when_set _ _ _ _ _ _ _ (Puts.refl _) (sets_mk _ _ _ (by decide))

theorem v_sudo_vars_puts (S : Sudoers) (v : View) :
    Puts (sets [cstr "SUDO_COMMAND", cstr "SUDO_USER", cstr "SUDO_UID", cstr "SUDO_GID"])
      v.entries (v_sudo_vars S v).entries := by
  unfold v_sudo_vars
  dsimp only
  refine puts_set _ _ _ _ _ _ ?_ (sets_mk _ _ _ (by decide))
  refine puts_set _ _ _ _ _ _ ?_ (sets_mk _ _ _ (by decide))
  refine puts_set _ _ _ _ _ _ ?_ (sets_mk _ _ _ (by decide))
  cases S.user_args with
  | none => exact puts_set _ _ _ _ _ _ (Puts.refl _) (sets_mk _ _ _ (by decide))
  | some args =>
    have e : cstr "SUDO_COMMAND=" ++ S.user_cmnd ++ 32 :: args =
        cstr "SUDO_COMMAND" ++ c_eq :: (S.user_cmnd ++ 32 :: args) := by
      have : cstr "SUDO_COMMAND=" = cstr "SUDO_COMMAND" ++ [c_eq] := by decide
      rw [this]; simp
    dsimp only
    rw [e]
    exact puts_put _ _ _ _ _ (Puts.refl _) (sets_mk _ _ _ (by decide))

theorem v_ps1_puts (v : View) :
    Puts (fun s => v.ps1 = some s) v.entries (v_ps1 v).entries := by
  unfold v_ps1
  cases h : v.ps1 with
  | none => exact Puts.refl _
  | some p => exact puts_put _ _ _ _ _ (Puts.refl _) rfl

theorem v_reset_mail_puts (S : Sudoers) (v : View) :
    Puts (sets [cstr "MAIL"]) v.entries (v_reset_mail S v).entries := by
  unfold v_reset_mail
  have e : ∀ x : CStr, cstr "MAIL=" ++ x = cstr "MAIL" ++ c_eq :: x := fun x => rfl
  split
  · dsimp only
    refine puts_put _ _ _ _ _ (Puts.refl _) ?_
    split
    · rw [List.append_assoc, e]; exact sets_mk _ _ _ (by decide)
    · rw [List.append_assoc, e]; exact sets_mk _ _ _ (by decide)
  · exact Puts.refl _

theorem v_secure_path_step_puts (S : Sudoers) (v : View) :
    Puts (sets [cstr "PATH"]) v.entries (v_secure_path_step S v).entries := by
  unfold v_secure_path_step
  cases S.def_secure_path with
  | none => exact Puts.refl _
  | some sp =>
    dsimp only
    split
    · show Puts _ _ (v_set v (cstr "PATH") sp true true).entries
      refine puts_set _ v _ _ _ _ (Puts.refl _) ?_
      exact sets_mk _ _ _ (by decide)
    · exact Puts.refl _

theorem v_reset_defaults_puts (S : Sudoers) (v : View) :
    Puts (sets [cstr "SHELL", cstr "LOGNAME", cstr "USER", cstr "USERNAME"])
      v.entries (v_reset_defaults S v).entries := by
  unfold v_reset_defaults
  split
  · dsimp only
    refine puts_set _ _ _ _ _ _ ?_ (sets_mk _ _ _ (by decide))
    refine puts_set _ _ _ _ _ _ ?_ (sets_mk _ _ _ (by decide))
    refine puts_set _ _ _ _ _ _ ?_ (sets_mk _ _ _ (by decide))
    exact puts_set _ _ _ _ _ _ (Puts.refl _) (sets_mk _ _ _ (by decide))
  · split
    · dsimp only
      refine puts_when_set _ _ _ _ _ _ _ ?_ (sets_mk _ _ _ (by decide))
      refine puts_when_set _ _ _ _ _ _ _ ?_ (sets_mk _ _ _ (by decide))
      exact puts_when_set _ _ _ _ _ _ _ (Puts.refl _) (sets_mk _ _ _ (by decide))
    · exact Puts.refl _

theorem v_logname_step_puts (S : Sudoers) (v : View) :
    Puts (sets [cstr "LOGNAME", cstr "USER", cstr "USERNAME"])
      v.entries (v_logname_step S v).entries := by
  unfold v_logname_step
  split
  · split
    · dsimp only
      refine puts_set _ _ _ _ _ _ ?_ (sets_mk _ _ _ (by decide))
      refine puts_set _ _ _ _ _ _ ?_ (sets_mk _ _ _ (by decide))
      exact puts_set _ _ _ _ _ _ (Puts.refl _) (sets_mk _ _ _ (by decide))
    · split
      · dsimp only
        split
        · refine puts_when_set _ _ _ _ _ _ _ ?_ (sets_mk _ _ _ (by decide))
          refine puts_when_set _ _ _ _ _ _ _ ?_ (sets_mk _ _ _ (by decide))
          exact puts_when_set _ _ _ _ _ _ _ (Puts.refl _) (sets_mk _ _ _ (by decide))
        · exact Puts.refl _
      · exact Puts.refl _
  · exact Puts.refl _

theorem v_keep_loop_puts (S : Sudoers) (old : List CStr) (v : View) :
    Puts (fun s => s ∈ old ∧ env_should_keep S s = true) v.entries
      (v_keep_loop S old v).entries := by
  induction old generalizing v with
  | nil => exact Puts.refl _
  | cons ep rest ih =>
    unfold v_keep_loop
    dsimp only
    have hm : ∀ {l1 l2 : List CStr}, Puts (fun s => s ∈ rest ∧ env_should_keep S s = true) l1 l2 →
        Puts (fun s => s ∈ ep :: rest ∧ env_should_keep S s = true) l1 l2 :=
      fun h => Puts.mono (fun s hs => ⟨List.mem_cons_of_mem _ hs.1, hs.2⟩) h
    have h0 : (if strncmp_eq ep (cstr "SUDO_PS1=") 8 = true then
        { v with ps1 := some (ep.drop 5) } else v : View).entries = v.entries := by
      split <;> rfl
    by_cases hk : env_should_keep S ep = true
    · rw [if_pos hk]
      refine Puts.trans ?_ (hm (ih _))
      show Puts _ _ (put_result _ ep true false)
      rw [h0]
      exact Puts.put _ _ _ _ _ (Puts.refl _) ⟨List.mem_cons_self _ _, hk⟩
    · rw [if_neg hk]
      refine Puts.trans ?_ (hm (ih _))
      rw [h0]
      exact Puts.refl _

theorem v_delete_loop_puts (S : Sudoers) (old : List CStr) (v : View) :
    Puts (fun s => s ∈ old ∧ env_should_delete S s = false) v.entries
      (v_delete_loop S old v).entries := by
  induction old generalizing v with
  | nil => exact Puts.refl _
  | cons ep rest ih =>
    unfold v_delete_loop
    have hm : ∀ {l1 l2 : List CStr},
        Puts (fun s => s ∈ rest ∧ env_should_delete S s = false) l1 l2 →
        Puts (fun s => s ∈ ep :: rest ∧ env_should_delete S s = false) l1 l2 :=
      fun h => Puts.mono (fun s hs => ⟨List.mem_cons_of_mem _ hs.1, hs.2⟩) h
    by_cases hk : env_should_delete S ep = true
    · simp only [hk, Bool.not_true, Bool.false_eq_true, if_false]
      exact hm (ih _)
    · have hk' : env_should_delete S ep = false := by simpa using hk
      simp only [hk', Bool.not_false, if_true]
      refine Puts.trans ?_ (hm (ih _))
      have h0 : (if strncmp_eq ep (cstr "SUDO_PS1=") 9 = true then
          { v with ps1 := some (ep.drop 5) }
        else if strncmp_eq ep (cstr "SHELL=") 6 = true then
          { v with didvar := SET v.didvar DID_SHELL }
        else if strncmp_eq ep (cstr "PATH=") 5 = true then
          { v with didvar := SET v.didvar DID_PATH }
        else if strncmp_eq ep (cstr "TERM=") 5 = true then
          { v with didvar := SET v.didvar DID_TERM }
        else v : View).entries = v.entries := by
        split
        · rfl
        · split
          · rfl
          · split
            · rfl
            · split <;> rfl
      show Puts _ _ (put_result _ ep true false)
      rw [h0]
      exact Puts.put _ _ _ _ _ (Puts.refl _) ⟨List.mem_cons_self _ _, hk'⟩

theorem ite_fields (c : Bool) (a b : View) (hd : a.didvar = b.didvar) (hp : a.ps1 = b.ps1)
    (hr : a.reset_home = b.reset_home) :
    (if c then a else b).didvar = b.didvar ∧ (if c then a else b).ps1 = b.ps1 ∧
      (if c then a else b).reset_home = b.reset_home := by
  cases c with
  | true => exact ⟨hd, hp, hr⟩
  | false => exact ⟨rfl, rfl, rfl⟩

theorem v_defaults_fields (S : Sudoers) (v : View) :
    (v_defaults S v).didvar = v.didvar ∧ (v_defaults S v).ps1 = v.ps1 ∧
      (v_defaults S v).reset_home = v.reset_home := by
  unfold v_defaults
  dsimp only
  repeat' split
  all_goals exact ⟨rfl, rfl, rfl⟩

theorem v_reset_defaults_fields (S : Sudoers) (v : View) :
    (v_reset_defaults S v).didvar = v.didvar ∧ (v_reset_defaults S v).ps1 = v.ps1 ∧
      (v_reset_defaults S v).reset_home = v.reset_home := by
  unfold v_reset_defaults
  dsimp only
  repeat' split
  all_goals exact ⟨rfl, rfl, rfl⟩

theorem v_reset_mail_fields (S : Sudoers) (v : View) :
    (v_reset_mail S v).didvar = v.didvar ∧ (v_reset_mail S v).ps1 = v.ps1 ∧
      (v_reset_mail S v).reset_home = v.reset_home := by
  unfold v_reset_mail
  dsimp only
  split
  all_goals exact ⟨rfl, rfl, rfl⟩

theorem v_logname_step_fields (S : Sudoers) (v : View) :
    (v_logname_step S v).didvar = v.didvar ∧ (v_logname_step S v).ps1 = v.ps1 ∧
      (v_logname_step S v).reset_home = v.reset_home := by
  unfold v_logname_step
  dsimp only
  repeat' split
  all_goals exact ⟨rfl, rfl, rfl⟩

/-! ### C14: the prompt -/

theorem strncmp_lit (e lit : CStr) (n : Nat) (hn : n ≤ lit.length) :
    strncmp_eq e lit n = decide (lit.take n <+: e) := by
  rw [Bool.eq_iff_iff, strncmp_eq_iff_take, decide_eq_true_iff, List.prefix_iff_eq_take,
    List.length_take, Nat.min_eq_left hn]
  exact eq_comm

theorem v_secure_path_step_fields (S : Sudoers) (v : View) :
    (v_secure_path_step S v).ps1 = v.ps1 ∧
      (v_secure_path_step S v).reset_home = v.reset_home := by
  unfold v_secure_path_step
  cases S.def_secure_path with
  | none => exact ⟨rfl, rfl⟩
  | some sp =>
    dsimp only
    split <;> exact ⟨rfl, rfl⟩

theorem v_reset_branch_ps1 (S : Sudoers) (old l0 : List CStr) (v : View) :
    (v_reset_branch S old l0 v).ps1 =
      (v_keep_loop S old (if !S.sudo_mode.login_shell then v_seed l0 v else v)).ps1 := by
  unfold v_reset_branch
  dsimp only
  rw [(v_reset_mail_fields S _).2.1]
  have : ∀ (c : Bool) (x : View), (if c then { x with reset_home := true } else x).ps1 = x.ps1 := by
    intro c x; cases c <;> rfl
  rw [this, (v_reset_defaults_fields S _).2.1]

theorem or_eq_zero_iff (x y : Nat) : x ||| y = 0 ↔ x = 0 ∧ y = 0 := by
  constructor
  · intro h
    have hb : ∀ i, (x.testBit i || y.testBit i) = false := by
      intro i
      rw [← Nat.testBit_or, h, Nat.zero_testBit]
    constructor
    · apply Nat.zero_of_testBit_eq_false
      intro i
      have := hb i
      simp only [Bool.or_eq_false_iff] at this
      exact this.1
    · apply Nat.zero_of_testBit_eq_false
      intro i
      have := hb i
      simp only [Bool.or_eq_false_iff] at this
      exact this.2
  · rintro ⟨rfl, rfl⟩
    rfl

theorem ISSET_SET_or (d f g : Nat) : ISSET (SET d f) g = (ISSET d g || ISSET f g) := by
  unfold ISSET SET
  rw [Nat.and_comm, Nat.and_or_distrib_left, Nat.and_comm g d, Nat.and_comm g f,
    Bool.eq_iff_iff]
  simp only [bne_iff_ne, ne_eq, Bool.or_eq_true, or_eq_zero_iff]
  tauto

theorem ISSET_or (d a b : Nat) : ISSET d (a ||| b) = (ISSET d a || ISSET d b) := by
  unfold ISSET
  rw [Nat.and_or_distrib_left, Bool.eq_iff_iff]
  simp only [bne_iff_ne, ne_eq, Bool.or_eq_true, or_eq_zero_iff]
  tauto

theorem SET_lt (d f : Nat) (hd : d < 256) (hf : f < 256) : SET d f < 256 :=
  Nat.or_lt_two_pow (n := 8) hd hf

set_option maxRecDepth 1000000 in
/-- What the promotion `didvar |= didvar << 8` does to the flags. -/
theorem shift_flags : ∀ d < 256,
    (∀ f ∈ [DID_TERM, DID_PATH, DID_HOME, DID_SHELL, DID_LOGNAME, DID_USER, DID_USERNAME,
        DID_MAIL], ISSET ((d ||| (d <<< 8)) % 2 ^ 32) f = ISSET d f) ∧
    ISSET ((d ||| (d <<< 8)) % 2 ^ 32) KEPT_HOME = ISSET d DID_HOME ∧
    ISSET ((d ||| (d <<< 8)) % 2 ^ 32) KEPT_MAIL = ISSET d DID_MAIL ∧
    ISSET ((d ||| (d <<< 8)) % 2 ^ 32) KEPT_LOGNAME = ISSET d DID_LOGNAME ∧
    ISSET ((d ||| (d <<< 8)) % 2 ^ 32) KEPT_USER = ISSET d DID_USER ∧
    ISSET ((d ||| (d <<< 8)) % 2 ^ 32) KEPT_USERNAME = ISSET d DID_USERNAME ∧
    ((((d ||| (d <<< 8)) % 2 ^ 32) &&& (KEPT_LOGNAME ||| KEPT_USER ||| KEPT_USERNAME)) !=
        (KEPT_LOGNAME ||| KEPT_USER ||| KEPT_USERNAME)) =
      !(ISSET d DID_LOGNAME && ISSET d DID_USER && ISSET d DID_USERNAME) ∧
    (((SET ((d ||| (d <<< 8)) % 2 ^ 32) DID_PATH) &&&
        (KEPT_LOGNAME ||| KEPT_USER ||| KEPT_USERNAME)) !=
        (KEPT_LOGNAME ||| KEPT_USER ||| KEPT_USERNAME)) =
      !(ISSET d DID_LOGNAME && ISSET d DID_USER && ISSET d DID_USERNAME) := by
  decide

set_option maxRecDepth 1000000 in
/-- Without the promotion no `KEPT_*` flag is set. -/
theorem low_flags : ∀ d < 256,
    ISSET d (KEPT_LOGNAME ||| KEPT_USER ||| KEPT_USERNAME) = false ∧
    ISSET (SET d DID_PATH) (KEPT_LOGNAME ||| KEPT_USER ||| KEPT_USERNAME) = false := by
  decide

theorem strncmp_head (ep lit : CStr) (n : Nat) (h : strncmp_eq ep lit (n + 1) = true)
    (hl : lit ≠ []) : byteAt ep 0 = byteAt lit 0 := by
  cases lit with
  | nil => exact absurd rfl hl
  | cons c cs =>
    cases ep with
    | nil => simp [strncmp_eq] at h
    | cons x xs =>
      simp only [strncmp_eq, Bool.and_eq_true, beq_iff_eq] at h
      exact h.1

theorem did_fold_flag (ep : CStr) (L : List (Nat × CStr × Nat)) (d g : Nat) :
    ISSET (L.foldl (fun acc t => if strncmp_eq ep t.2.1 t.2.2 then SET acc t.1 else acc) d) g =
      (ISSET d g || L.any (fun t => strncmp_eq ep t.2.1 t.2.2 && ISSET t.1 g)) := by
  induction L generalizing d with
  | nil => simp
  | cons t rest ih =>
    rw [List.foldl_cons, ih, List.any_cons]
    cases strncmp_eq ep t.2.1 t.2.2 with
    | false => simp
    | true => simp [ISSET_SET_or, Bool.or_assoc]

theorem did_fold_lt (ep : CStr) (L : List (Nat × CStr × Nat)) (d : Nat) (hd : d < 256)
    (hL : ∀ t ∈ L, t.1 < 256) :
    L.foldl (fun acc t => if strncmp_eq ep t.2.1 t.2.2 then SET acc t.1 else acc) d < 256 := by
  induction L generalizing d with
  | nil => exact hd
  | cons t rest ih =>
    rw [List.foldl_cons]
    apply ih _ _ (fun x hx => hL x (List.mem_cons_of_mem _ hx))
    split
    · exact SET_lt d t.1 hd (hL t (List.mem_cons_self _ _))
    · exact hd

/-- The function `env_update_didvar` sets the flag of each comparison that
holds. -/
theorem env_update_didvar_fold (ep : CStr) (d : Nat) :
    env_update_didvar ep d =
      did_lit.foldl (fun acc t => if strncmp_eq ep t.2.1 t.2.2 then SET acc t.1 else acc) d := by
  have key : ∀ (lit : CStr) (n : Nat), lit ≠ [] → byteAt ep 0 ≠ byteAt lit 0 →
      strncmp_eq ep lit (n + 1) = false := by
    intro lit n hl hne
    cases h : strncmp_eq ep lit (n + 1) with
    | false => rfl
    | true => exact absurd (strncmp_head ep lit n h hl) hne
  unfold env_update_didvar did_lit
  simp only [List.foldl_cons, List.foldl_nil]
  generalize hc : byteAt ep 0 = c at key
  have kH := key (cstr "HOME=") 4 (by decide)
  have kL := key (cstr "LOGNAME=") 7 (by decide)
  have kM := key (cstr "MAIL=") 4 (by decide)
  have kP := key (cstr "PATH=") 4 (by decide)
  have kS := key (cstr "SHELL=") 5 (by decide)
  have kT := key (cstr "TERM=") 4 (by decide)
  have kU := key (cstr "USER=") 4 (by decide)
  have kN := key (cstr "USERNAME=") 4 (by decide)
  by_cases h1 : c = 72
  · subst h1
    simp [kL (by decide), kM (by decide), kP (by decide), kS (by decide), kT (by decide),
      kU (by decide), kN (by decide)]
  by_cases h2 : c = 76
  · subst h2
    simp [kH (by decide), kM (by decide), kP (by decide), kS (by decide), kT (by decide),
      kU (by decide), kN (by decide)]
  by_cases h3 : c = 77
  · subst h3
    simp [kH (by decide), kL (by decide), kP (by decide), kS (by decide), kT (by decide),
      kU (by decide), kN (by decide)]
  by_cases h4 : c = 80
  · subst h4
    simp [kH (by decide), kL (by decide), kM (by decide), kS (by decide), kT (by decide),
      kU (by decide), kN (by decide)]
  by_cases h5 : c = 83
  · subst h5
    simp [kH (by decide), kL (by decide), kM (by decide), kP (by decide), kT (by decide),
      kU (by decide), kN (by decide)]
  by_cases h6 : c = 84
  · subst h6
    simp [kH (by decide), kL (by decide), kM (by decide), kP (by decide), kS (by decide),
      kU (by decide), kN (by decide)]
  by_cases h7 : c = 85
  · subst h7
    simp [kH (by decide), kL (by decide), kM (by decide), kP (by decide), kS (by decide),
      kT (by decide)]
  · have e : ∀ x : Nat, byteAt (cstr "HOME=") 0 = 72 := fun _ => rfl
    simp [h1, h2, h3, h4, h5, h6, h7, kH (by simpa using h1), kL (by simpa using h2),
      kM (by simpa using h3), kP (by simpa using h4), kS (by simpa using h5),
      kT (by simpa using h6), kU (by simpa using h7), kN (by simpa using h7)]

set_option maxRecDepth 100000 in
theorem did_lit_pairs : ∀ t ∈ did_lit, t.1 < 256 ∧
    ∀ g ∈ [DID_TERM, DID_PATH, DID_HOME, DID_SHELL, DID_LOGNAME, DID_USER, DID_USERNAME,
      DID_MAIL], ISSET t.1 g = (t.1 == g) := by
  decide

/-- What `env_update_didvar` does to each flag. -/
theorem env_update_didvar_flag (ep : CStr) (d g : Nat)
    (hg : g ∈ [DID_TERM, DID_PATH, DID_HOME, DID_SHELL, DID_LOGNAME, DID_USER, DID_USERNAME,
      DID_MAIL]) :
    ISSET (env_update_didvar ep d) g = (ISSET d g || did_test g ep) := by
  have hany : ∀ (L : List (Nat × CStr × Nat)) (f h : Nat × CStr × Nat → Bool),
      (∀ t ∈ L, f t = h t) → L.any f = L.any h := by
    intro L f h hfh
    induction L with
    | nil => rfl
    | cons t rest ih =>
      rw [List.any_cons, List.any_cons, hfh t (List.mem_cons_self _ _),
        ih (fun x hx => hfh x (List.mem_cons_of_mem _ hx))]
  rw [env_update_didvar_fold, did_fold_flag]
  congr 1
  unfold did_test
  apply hany
  intro t ht
  rw [(did_lit_pairs t ht).2 g hg, Bool.and_comm]

theorem env_update_didvar_lt (ep : CStr) (d : Nat) (hd : d < 256) :
    env_update_didvar ep d < 256 := by
  rw [env_update_didvar_fold]
  exact did_fold_lt ep did_lit d hd (fun t ht => (did_lit_pairs t ht).1)

/-! ### C12: the variables that are always there -/

theorem strncmp_name (ep N : CStr) (hN : c_eq ∉ N) :
    strncmp_eq ep (N ++ [c_eq]) (N.length + 1) = named N ep := by
  have h := dup_test_named (N ++ [c_eq]) ep (by simp)
  rw [indexOf_append_eq N [] c_eq hN, env_name_append N [] hN] at h
  rw [← h, Bool.eq_iff_iff, strncmp_eq_iff_take, strncmp_eq_iff_take]
  exact eq_comm

theorem did_test_named (ep : CStr) :
    ∀ p ∈ flag_names, did_test p.1 ep = named p.2 ep := by
  have e : ∀ (N : CStr) (hN : c_eq ∉ N), strncmp_eq ep (N ++ [c_eq]) (N.length + 1) = named N ep :=
    fun N hN => strncmp_name ep N hN
  have eT := e (cstr "TERM") (by decide)
  have eP := e (cstr "PATH") (by decide)
  have eH := e (cstr "HOME") (by decide)
  have eS := e (cstr "SHELL") (by decide)
  have eL := e (cstr "LOGNAME") (by decide)
  have eU := e (cstr "USER") (by decide)
  have eM := e (cstr "MAIL") (by decide)
  intro p hp
  simp only [flag_names, List.mem_cons, List.mem_singleton, List.mem_nil_iff, or_false] at hp
  rcases hp with rfl | rfl | rfl | rfl | rfl | rfl | rfl
  · rw [← eT]; simp [did_test, did_lit, DID_TERM, DID_PATH, DID_HOME, DID_SHELL, DID_LOGNAME, DID_USER,
      DID_USERNAME, DID_MAIL]; rfl
  · rw [← eP]; simp [did_test, did_lit, DID_TERM, DID_PATH, DID_HOME, DID_SHELL, DID_LOGNAME, DID_USER,
      DID_USERNAME, DID_MAIL]; rfl
  · rw [← eH]; simp [did_test, did_lit, DID_TERM, DID_PATH, DID_HOME, DID_SHELL, DID_LOGNAME, DID_USER,
      DID_USERNAME, DID_MAIL]; rfl
  · rw [← eS]; simp [did_test, did_lit, DID_TERM, DID_PATH, DID_HOME, DID_SHELL, DID_LOGNAME, DID_USER,
      DID_USERNAME, DID_MAIL]; rfl
  · rw [← eL]; simp [did_test, did_lit, DID_TERM, DID_PATH, DID_HOME, DID_SHELL, DID_LOGNAME, DID_USER,
      DID_USERNAME, DID_MAIL]; rfl
  · rw [← eU]; simp [did_test, did_lit, DID_TERM, DID_PATH, DID_HOME, DID_SHELL, DID_LOGNAME, DID_USER,
      DID_USERNAME, DID_MAIL]; rfl
  · rw [← eM]; simp [did_test, did_lit, DID_TERM, DID_PATH, DID_HOME, DID_SHELL, DID_LOGNAME, DID_USER,
      DID_USERNAME, DID_MAIL]; rfl

theorem Seen_puts {A : CStr → Prop} (fl : List (Nat × CStr)) (v v' : View)
    (hp : Puts A v.entries v'.entries) (hd : v'.didvar = v.didvar) (h : Seen fl v) :
    Seen fl v' := by
  intro p hpf hset
  rw [hd] at hset
  exact hp.has p.2 (h p hpf hset)

theorem Seen_mono (fl fl' : List (Nat × CStr)) (v : View) (hsub : ∀ p ∈ fl', p ∈ fl)
    (h : Seen fl v) : Seen fl' v :=
  fun p hp hset => h p (hsub p hp) hset

/-- A put of `ep` followed by `env_update_didvar` keeps `Seen`. -/
theorem seen_update (fl : List (Nat × CStr)) (ep : CStr) (v : View) (d o : Bool)
    (hfl : ∀ p ∈ fl, p.1 ∈ [DID_TERM, DID_PATH, DID_HOME, DID_SHELL, DID_LOGNAME, DID_USER,
      DID_USERNAME, DID_MAIL] ∧ (did_test p.1 ep = true → named p.2 ep = true))
    (h : Seen fl v) :
    Seen fl { v_put v ep d o with didvar := env_update_didvar ep v.didvar } := by
  intro p hp hset
  have hset' : ISSET (env_update_didvar ep v.didvar) p.1 = true := hset
  rw [env_update_didvar_flag ep _ _ (hfl p hp).1, Bool.or_eq_true] at hset'
  rcases hset' with h1 | h1
  · exact has_entry_put p.2 _ _ _ _ (h p hp h1)
  · exact has_entry_put_self p.2 _ _ _ _ ((hfl p hp).2 h1)

/-- A put of an entry named `N` after the flag of `N` is set keeps `Seen`. -/
theorem seen_set (fl : List (Nat × CStr)) (v : View) (f : Nat) (N ep : CStr) (d o : Bool)
    (hN : named N ep = true) (hfl : ∀ p ∈ fl, ISSET f p.1 = true → p.2 = N)
    (h : Seen fl v) :
    Seen fl (v_put { v with didvar := SET v.didvar f } ep d o) := by
  intro p hp hset
  have hset' : ISSET (SET v.didvar f) p.1 = true := hset
  rw [ISSET_SET_or, Bool.or_eq_true] at hset'
  rcases hset' with h1 | h1
  · exact has_entry_put p.2 _ _ _ _ (h p hp h1)
  · rw [hfl p hp h1]
    exact has_entry_put_self N _ _ _ _ hN

theorem v_keep_loop_seen (S : Sudoers) (old : List CStr) (fl : List (Nat × CStr)) (v : View)
    (hfl : ∀ p ∈ fl, p.1 ∈ [DID_TERM, DID_PATH, DID_HOME, DID_SHELL, DID_LOGNAME, DID_USER,
      DID_USERNAME, DID_MAIL] ∧
      ∀ ep ∈ old, env_should_keep S ep = true → did_test p.1 ep = true → named p.2 ep = true)
    (h : Seen fl v) : Seen fl (v_keep_loop S old v) := by
  induction old generalizing v with
  | nil => exact h
  | cons ep rest ih =>
    have hr : ∀ p ∈ fl, p.1 ∈ [DID_TERM, DID_PATH, DID_HOME, DID_SHELL, DID_LOGNAME, DID_USER,
        DID_USERNAME, DID_MAIL] ∧
        ∀ ep ∈ rest, env_should_keep S ep = true → did_test p.1 ep = true →
          named p.2 ep = true :=
      fun p hp => ⟨(hfl p hp).1, fun e he => (hfl p hp).2 e (List.mem_cons_of_mem _ he)⟩
    rw [v_keep_loop]
    dsimp only
    have h1 : Seen fl (if strncmp_eq ep (cstr "SUDO_PS1=") 8 = true then
        { v with ps1 := some (ep.drop 5) } else v) := by
      split
      · exact h
      · exact h
    by_cases hk : env_should_keep S ep = true
    · rw [if_pos hk]
      apply ih _ hr
      exact seen_update fl ep _ true false
        (fun p hp => ⟨(hfl p hp).1, (hfl p hp).2 ep (List.mem_cons_self _ _) hk⟩) h1
    · rw [if_neg hk]
      exact ih _ hr h1

theorem v_keep_loop_lt (S : Sudoers) (old : List CStr) (v : View) (h : v.didvar < 256) :
    (v_keep_loop S old v).didvar < 256 := by
  induction old generalizing v with
  | nil => exact h
  | cons ep rest ih =>
    rw [v_keep_loop]
    dsimp only
    have h1 : (if strncmp_eq ep (cstr "SUDO_PS1=") 8 = true then
        { v with ps1 := some (ep.drop 5) } else v : View).didvar < 256 := by
      split
      · exact h
      · exact h
    split
    · exact ih _ (env_update_didvar_lt ep _ h1)
    · exact ih _ h1

theorem seed_fold_seen (fl : List (Nat × CStr)) (L l : List CStr) (d : Nat)
    (hfl : ∀ p ∈ fl, p.1 ∈ [DID_TERM, DID_PATH, DID_HOME, DID_SHELL, DID_LOGNAME, DID_USER,
      DID_USERNAME, DID_MAIL] ∧ ∀ ep ∈ l, did_test p.1 ep = true → named p.2 ep = true)
    (hl : ∀ e ∈ l, e ∈ L)
    (h : ∀ p ∈ fl, ISSET d p.1 = true → has_entry L p.2) :
    ∀ p ∈ fl, ISSET (l.foldl (fun d ep => env_update_didvar ep d) d) p.1 = true →
      has_entry L p.2 := by
  induction l generalizing d with
  | nil => exact h
  | cons e rest ih =>
    rw [List.foldl_cons]
    apply ih
    · exact fun p hp => ⟨(hfl p hp).1, fun x hx => (hfl p hp).2 x (List.mem_cons_of_mem _ hx)⟩
    · exact fun x hx => hl x (List.mem_cons_of_mem _ hx)
    · intro p hp hset
      rw [env_update_didvar_flag e _ _ (hfl p hp).1, Bool.or_eq_true] at hset
      rcases hset with h1 | h1
      · exact h p hp h1
      · exact ⟨e, hl e (List.mem_cons_self _ _), (hfl p hp).2 e (List.mem_cons_self _ _) h1⟩

theorem seed_fold_lt (l : List CStr) (d : Nat) (h : d < 256) :
    l.foldl (fun d ep => env_update_didvar ep d) d < 256 := by
  induction l generalizing d with
  | nil => exact h
  | cons e rest ih =>
    rw [List.foldl_cons]
    exact ih _ (env_update_didvar_lt e d h)

theorem v_delete_loop_seen (S : Sudoers) (old : List CStr) (v : View)
    (h : Seen [(DID_SHELL, cstr "SHELL"), (DID_PATH, cstr "PATH"), (DID_TERM, cstr "TERM")] v) :
    Seen [(DID_SHELL, cstr "SHELL"), (DID_PATH, cstr "PATH"), (DID_TERM, cstr "TERM")]
      (v_delete_loop S old v) := by
  induction old generalizing v with
  | nil => exact h
  | cons ep rest ih =>
    rw [v_delete_loop]
    split
    · apply ih
      dsimp only
      split
      · exact fun p hp hset => has_entry_put p.2 v.entries ep true false (h p hp hset)
      · split
        · rename_i ht
          exact seen_set _ v DID_SHELL (cstr "SHELL") ep true false
            (by rw [← strncmp_name ep (cstr "SHELL") (by decide)]; exact ht) (by decide) h
        · split
          · rename_i ht
            exact seen_set _ v DID_PATH (cstr "PATH") ep true false
              (by rw [← strncmp_name ep (cstr "PATH") (by decide)]; exact ht) (by decide) h
          · split
            · rename_i ht
              exact seen_set _ v DID_TERM (cstr "TERM") ep true false
                (by rw [← strncmp_name ep (cstr "TERM") (by decide)]; exact ht) (by decide) h
            · exact fun p hp hset => has_entry_put p.2 v.entries ep true false (h p hp hset)
    · exact ih _ h

theorem v_delete_loop_lt (S : Sudoers) (old : List CStr) (v : View) (h : v.didvar < 256) :
    (v_delete_loop S old v).didvar < 256 := by
  induction old generalizing v with
  | nil => exact h
  | cons ep rest ih =>
    rw [v_delete_loop]
    split
    · apply ih
      show (if _ then _ else _ : View).didvar < 256
      split
      · exact h
      · split
        · exact SET_lt _ _ h (by decide)
        · split
          · exact SET_lt _ _ h (by decide)
          · split
            · exact SET_lt _ _ h (by decide)
            · exact h
    · exact ih _ h

set_option maxRecDepth 1000000 in
theorem shift_table : ∀ d < 256,
    ∀ f ∈ [DID_TERM, DID_PATH, DID_HOME, DID_SHELL, DID_LOGNAME, DID_USER, DID_USERNAME,
      DID_MAIL],
      ISSET ((d ||| (d <<< 8)) % 2 ^ 32) f = ISSET d f ∧
      ISSET ((d ||| (d <<< 8)) % 2 ^ 32) (f <<< 8) = ISSET d f := by
  decide

theorem shift_seen (fl : List (Nat × CStr)) (v : View) (hd : v.didvar < 256)
    (hfl : ∀ p ∈ fl, p.1 ∈ [DID_TERM, DID_PATH, DID_HOME, DID_SHELL, DID_LOGNAME, DID_USER,
      DID_USERNAME, DID_MAIL])
    (h : Seen fl v) :
    Seen (fl ++ fl.map fun p => (p.1 <<< 8, p.2))
      { v with didvar := (v.didvar ||| (v.didvar <<< 8)) % 2 ^ 32 } := by
  intro p hp hset
  have hset' : ISSET ((v.didvar ||| (v.didvar <<< 8)) % 2 ^ 32) p.1 = true := hset
  rcases List.mem_append.1 hp with hp | hp
  · rw [(shift_table v.didvar hd p.1 (hfl p hp)).1] at hset'
    exact h p hp hset'
  · obtain ⟨q, hq, rfl⟩ := List.mem_map.1 hp
    rw [(shift_table v.didvar hd q.1 (hfl q hq)).2] at hset'
    exact h q hq hset'

theorem has_entry_set (l : List CStr) (N val : CStr) (d o : Bool) (hN : c_eq ∉ N) :
    has_entry (put_result l (N ++ c_eq :: val) d o) N :=
  has_entry_put_self N l _ d o (by rw [named_set _ _ _ hN]; simp)

theorem has_v_set (v : View) (N val : CStr) (d o : Bool) (hN : c_eq ∉ N) :
    has_entry (v_set v N val d o).entries N :=
  has_entry_set v.entries N val d o hN

theorem has_v_put (v : View) (N str : CStr) (d o : Bool) (h : has_entry v.entries N) :
    has_entry (v_put v str d o).entries N :=
  has_entry_put N v.entries str d o h

theorem has_v_set_other (v : View) (N M val : CStr) (d o : Bool) (h : has_entry v.entries N) :
    has_entry (v_set v M val d o).entries N :=
  has_entry_put N v.entries _ d o h

/-- What the clean-slate branch leaves. -/
theorem v_reset_branch_facts (S : Sudoers) (old l0 : List CStr) (fl : List (Nat × CStr))
    (v0 : View) (h0 : v0.didvar = 0)
    (hfl : ∀ p ∈ fl, p.1 ∈ [DID_TERM, DID_PATH, DID_HOME, DID_SHELL, DID_LOGNAME, DID_USER,
        DID_USERNAME, DID_MAIL] ∧
      (∀ ep ∈ old, env_should_keep S ep = true → did_test p.1 ep = true →
        named p.2 ep = true) ∧
      (S.sudo_mode.login_shell = false → ∀ ep ∈ l0, did_test p.1 ep = true →
        named p.2 ep = true))
    (hsub : ∀ p ∈ flag_names, p ∈ fl) :
    Seen (fl ++ fl.map fun p => (p.1 <<< 8, p.2)) (v_reset_branch S old l0 v0) ∧
    ((v_reset_branch S old l0 v0).reset_home = true ∨
      has_entry (v_reset_branch S old l0 v0).entries (cstr "HOME")) ∧
    has_entry (v_reset_branch S old l0 v0).entries (cstr "MAIL") ∧
    ((S.sudo_mode.login_shell = true ∨
        (S.def_set_logname = false ∧ (DID_USERNAME, cstr "USERNAME") ∈ fl)) →
      has_entry (v_reset_branch S old l0 v0).entries (cstr "LOGNAME") ∧
      has_entry (v_reset_branch S old l0 v0).entries (cstr "USER") ∧
      has_entry (v_reset_branch S old l0 v0).entries (cstr "USERNAME")) := by
  unfold v_reset_branch
  dsimp only
  -- the seeding
  generalize hvs : (if (!S.sudo_mode.login_shell) = true then v_seed l0 v0 else v0) = vs
  have hs : Seen fl vs ∧ vs.didvar < 256 := by
    rw [← hvs]
    by_cases hl : (!S.sudo_mode.login_shell) = true
    · rw [if_pos hl]
      have hl' : S.sudo_mode.login_shell = false := by simpa using hl
      refine ⟨?_, ?_⟩
      · intro p hp hset
        refine seed_fold_seen fl l0 l0 v0.didvar
          (fun q hq => ⟨(hfl q hq).1, (hfl q hq).2.2 hl'⟩) (fun e he => he) ?_ p hp hset
        intro q _ hq
        rw [h0] at hq
        simp [ISSET] at hq
      · show List.foldl _ v0.didvar l0 < 256
        exact seed_fold_lt l0 _ (by rw [h0]; decide)
    · rw [if_neg hl]
      refine ⟨?_, by rw [h0]; decide⟩
      intro q _ hq
      rw [h0] at hq
      simp [ISSET] at hq
  -- the loop
  generalize hvk : v_keep_loop S old vs = vk
  have hk : Seen fl vk ∧ vk.didvar < 256 := by
    rw [← hvk]
    exact ⟨v_keep_loop_seen S old fl vs (fun p hp => ⟨(hfl p hp).1, (hfl p hp).2.1⟩) hs.1,
      v_keep_loop_lt S old vs hs.2⟩
  -- the promotion of the flags
  generalize hvh : ({ vk with didvar := (vk.didvar ||| (vk.didvar <<< 8)) % 2 ^ 32 } : View) = vh
  have hh : Seen (fl ++ fl.map fun p => (p.1 <<< 8, p.2)) vh := by
    rw [← hvh]
    exact shift_seen fl vk hk.2 (fun p hp => (hfl p hp).1) hk.1
  -- the defaults
  generalize hvd : v_reset_defaults S vh = vd
  have hdf := v_reset_defaults_fields S vh
  have hdp := v_reset_defaults_puts S vh
  rw [hvd] at hdf hdp
  have hd : Seen (fl ++ fl.map fun p => (p.1 <<< 8, p.2)) vd := Seen_puts _ vh vd hdp hdf.1 hh
  have hid : (S.sudo_mode.login_shell = true ∨
      (S.def_set_logname = false ∧ (DID_USERNAME, cstr "USERNAME") ∈ fl)) →
      has_entry vd.entries (cstr "LOGNAME") ∧ has_entry vd.entries (cstr "USER") ∧
      has_entry vd.entries (cstr "USERNAME") := by
    intro hc
    rw [← hvd]
    unfold v_reset_defaults
    by_cases hl : S.sudo_mode.login_shell = true
    · rw [if_pos hl]
      dsimp only
      refine ⟨?_, ?_, ?_⟩
      · exact has_v_set_other _ _ _ _ _ _ (has_v_set_other _ _ _ _ _ _
          (has_v_set _ (cstr "LOGNAME") _ _ _ (by decide)))
      · exact has_v_set_other _ _ _ _ _ _ (has_v_set _ (cstr "USER") _ _ _ (by decide))
      · exact has_v_set _ (cstr "USERNAME") _ _ _ (by decide)
    · rw [if_neg hl]
      rcases hc with hc | ⟨hc, hN⟩
      · exact absurd hc hl
      · have hns : (!S.def_set_logname) = true := by rw [hc]; rfl
        rw [if_pos hns]
        dsimp only
        have sL : ISSET vh.didvar DID_LOGNAME = true → has_entry vh.entries (cstr "LOGNAME") :=
          hh (DID_LOGNAME, cstr "LOGNAME")
            (List.mem_append_left _ (hsub _ (by decide)))
        have sU : ISSET vh.didvar DID_USER = true → has_entry vh.entries (cstr "USER") :=
          hh (DID_USER, cstr "USER") (List.mem_append_left _ (hsub _ (by decide)))
        have sN : ISSET vh.didvar DID_USERNAME = true → has_entry vh.entries (cstr "USERNAME") :=
          hh (DID_USERNAME, cstr "USERNAME") (List.mem_append_left _ hN)
        generalize ha : (if (!ISSET vh.didvar DID_LOGNAME) = true then
            v_set vh (cstr "LOGNAME") S.user_name false true else vh) = a
        have fa : a.didvar = vh.didvar ∧ has_entry a.entries (cstr "LOGNAME") ∧
            Puts (fun _ => True) vh.entries a.entries := by
          rw [← ha]
          by_cases hc1 : (!ISSET vh.didvar DID_LOGNAME) = true
          · rw [if_pos hc1]
            exact ⟨rfl, has_v_set _ (cstr "LOGNAME") _ _ _ (by decide),
              puts_set _ vh _ _ _ _ (Puts.refl _) trivial⟩
          · rw [if_neg hc1]
            exact ⟨rfl, sL (by simpa using hc1), Puts.refl _⟩
        generalize hb : (if (!ISSET a.didvar DID_USER) = true then
            v_set a (cstr "USER") S.user_name false true else a) = b
        have fb : b.didvar = vh.didvar ∧ has_entry b.entries (cstr "LOGNAME") ∧
            has_entry b.entries (cstr "USER") ∧ Puts (fun _ => True) vh.entries b.entries := by
          rw [← hb]
          by_cases hc1 : (!ISSET a.didvar DID_USER) = true
          · rw [if_pos hc1]
            exact ⟨fa.1, has_v_set_other _ _ _ _ _ _ fa.2.1,
              has_v_set _ (cstr "USER") _ _ _ (by decide),
              puts_set _ a _ _ _ _ fa.2.2 trivial⟩
          · rw [if_neg hc1]
            rw [fa.1] at hc1
            exact ⟨fa.1, fa.2.1, fa.2.2.has _ (sU (by simpa using hc1)), fa.2.2⟩
        by_cases hc1 : (!ISSET b.didvar DID_USERNAME) = true
        · rw [if_pos hc1]
          exact ⟨has_v_set_other _ _ _ _ _ _ fb.2.1, has_v_set_other _ _ _ _ _ _ fb.2.2.1,
            has_v_set _ (cstr "USERNAME") _ _ _ (by decide)⟩
        · rw [if_neg hc1]
          rw [fb.1] at hc1
          exact ⟨fb.2.1, fb.2.2.1, fb.2.2.2.has _ (sN (by simpa using hc1))⟩
  -- `reset_home`
  generalize hvr : (if (!ISSET vd.didvar KEPT_HOME) = true then
      { vd with reset_home := true } else vd) = vr
  have hr : vr.entries = vd.entries ∧ vr.didvar = vd.didvar ∧
      (vr.reset_home = true ∨ has_entry vd.entries (cstr "HOME")) := by
    rw [← hvr]
    by_cases hc : (!ISSET vd.didvar KEPT_HOME) = true
    · rw [if_pos hc]; exact ⟨rfl, rfl, Or.inl rfl⟩
    · rw [if_neg hc]
      refine ⟨rfl, rfl, Or.inr ?_⟩
      exact hd (DID_HOME <<< 8, cstr "HOME")
        (List.mem_append_right _ (List.mem_map.2 ⟨(DID_HOME, cstr "HOME"),
          hsub _ (by decide), rfl⟩)) (by simpa using hc)
  -- `MAIL`
  have hmf := v_reset_mail_fields S vr
  have hmp := v_reset_mail_puts S vr
  have hvrp : Puts (sets [cstr "MAIL"]) vd.entries (v_reset_mail S vr).entries := by
    rw [← hr.1]; exact hmp
  refine ⟨Seen_puts _ vd _ hvrp (by rw [hmf.1, hr.2.1]) hd, ?_, ?_, ?_⟩
  · rw [hmf.2.2]
    rcases hr.2.2 with h1 | h1
    · exact Or.inl h1
    · exact Or.inr (hvrp.has _ h1)
  · unfold v_reset_mail
    by_cases hc : (S.sudo_mode.login_shell || !ISSET vr.didvar KEPT_MAIL) = true
    · rw [if_pos hc]
      dsimp only
      have e : ∀ x : CStr, cstr "MAIL=" ++ x = cstr "MAIL" ++ c_eq :: x := fun x => rfl
      split
      · rw [List.append_assoc, e]; exact has_v_set _ (cstr "MAIL") _ _ _ (by decide)
      · rw [List.append_assoc, e]; exact has_v_set _ (cstr "MAIL") _ _ _ (by decide)
    · rw [if_neg hc, hr.1]
      have hc' : ISSET vd.didvar KEPT_MAIL = true := by
        rw [hr.2.1] at hc
        simp only [Bool.or_eq_true, Bool.not_eq_true', not_or, Bool.not_eq_false] at hc
        exact hc.2
      exact hd (DID_MAIL <<< 8, cstr "MAIL")
        (List.mem_append_right _ (List.mem_map.2 ⟨(DID_MAIL, cstr "MAIL"),
          hsub _ (by decide), rfl⟩)) hc'
  · intro hc
    obtain ⟨a, b, c⟩ := hid hc
    exact ⟨hvrp.has _ a, hvrp.has _ b, hvrp.has _ c⟩

theorem v_secure_path_step_seen (S : Sudoers) (fl : List (Nat × CStr)) (v : View)
    (hfl : ∀ p ∈ fl, ISSET DID_PATH p.1 = true → p.2 = cstr "PATH") (h : Seen fl v) :
    Seen fl (v_secure_path_step S v) := by
  unfold v_secure_path_step
  cases S.def_secure_path with
  | none => exact h
  | some sp =>
    dsimp only
    split
    · intro p hp hset
      have hset' : ISSET (SET v.didvar DID_PATH) p.1 = true := hset
      rw [ISSET_SET_or, Bool.or_eq_true] at hset'
      show has_entry (v_set v (cstr "PATH") sp true true).entries p.2
      rcases hset' with h1 | h1
      · exact has_v_set_other v _ _ _ _ _ (h p hp h1)
      · rw [hfl p hp h1]
        exact has_v_set v (cstr "PATH") sp true true (by decide)
    · exact h

theorem v_secure_path_step_didvar (S : Sudoers) (v : View) :
    (v_secure_path_step S v).didvar = v.didvar ∨
      (v_secure_path_step S v).didvar = SET v.didvar DID_PATH := by
  unfold v_secure_path_step
  cases S.def_secure_path with
  | none => exact Or.inl rfl
  | some sp =>
    dsimp only
    split
    · exact Or.inr rfl
    · exact Or.inl rfl

theorem v_getenv_some (l : List CStr) (N : CStr) (hN : c_eq ∉ N) (h : has_entry l N) :
    ∃ cp, v_getenv l N = some cp := by
  unfold v_getenv
  rw [env_name_of_not_mem N hN]
  obtain ⟨e, he, hn⟩ := h
  cases hf : l.find? (named N) with
  | none => exact absurd hn (by simpa using List.find?_eq_none.1 hf e he)
  | some x => exact ⟨env_value x, rfl⟩

theorem ISSET_of_and_eq (d M K : Nat) (h : d &&& M = M) (hK : M &&& K = K) (hK0 : K ≠ 0) :
    ISSET d K = true := by
  unfold ISSET
  have : d &&& K = K := by
    rw [← hK, ← Nat.and_assoc, h]
  rw [this]
  simpa using hK0

/-- The step that sets `LOGNAME`, `USER` and `USERNAME` leaves all three, when
no `KEPT_*` flag of theirs is set or each such flag has its entry. -/
theorem v_logname_step_has (S : Sudoers) (v : View) (hset : S.def_set_logname = true)
    (hlogin : S.sudo_mode.login_shell = false)
    (h : ISSET v.didvar (KEPT_LOGNAME ||| KEPT_USER ||| KEPT_USERNAME) = false ∨
      Seen [(KEPT_LOGNAME, cstr "LOGNAME"), (KEPT_USER, cstr "USER"),
        (KEPT_USERNAME, cstr "USERNAME")] v) :
    has_entry (v_logname_step S v).entries (cstr "LOGNAME") ∧
    has_entry (v_logname_step S v).entries (cstr "USER") ∧
    has_entry (v_logname_step S v).entries (cstr "USERNAME") := by
  unfold v_logname_step
  rw [if_pos (by rw [hset, hlogin]; rfl)]
  by_cases hnone : (!ISSET v.didvar (KEPT_LOGNAME ||| KEPT_USER ||| KEPT_USERNAME)) = true
  · rw [if_pos hnone]
    dsimp only
    exact ⟨has_v_set_other _ _ _ _ _ _ (has_v_set_other _ _ _ _ _ _
        (has_v_set _ (cstr "LOGNAME") _ _ _ (by decide))),
      has_v_set_other _ _ _ _ _ _ (has_v_set _ (cstr "USER") _ _ _ (by decide)),
      has_v_set _ (cstr "USERNAME") _ _ _ (by decide)⟩
  · rw [if_neg hnone]
    have hsome : ISSET v.didvar (KEPT_LOGNAME ||| KEPT_USER ||| KEPT_USERNAME) = true := by
      simpa using hnone
    have hs : Seen [(KEPT_LOGNAME, cstr "LOGNAME"), (KEPT_USER, cstr "USER"),
        (KEPT_USERNAME, cstr "USERNAME")] v := by
      rcases h with h | h
      · rw [h] at hsome; cases hsome
      · exact h
    have sL : ISSET v.didvar KEPT_LOGNAME = true → has_entry v.entries (cstr "LOGNAME") :=
      hs (KEPT_LOGNAME, cstr "LOGNAME") (by decide)
    have sU : ISSET v.didvar KEPT_USER = true → has_entry v.entries (cstr "USER") :=
      hs (KEPT_USER, cstr "USER") (by decide)
    have sN : ISSET v.didvar KEPT_USERNAME = true → has_entry v.entries (cstr "USERNAME") :=
      hs (KEPT_USERNAME, cstr "USERNAME") (by decide)
    by_cases hall : ((v.didvar &&& (KEPT_LOGNAME ||| KEPT_USER ||| KEPT_USERNAME)) !=
        (KEPT_LOGNAME ||| KEPT_USER ||| KEPT_USERNAME)) = true
    · rw [if_pos hall]
      dsimp only
      have hcp : ∃ cp, (if ISSET v.didvar KEPT_LOGNAME = true then
            v_getenv v.entries (cstr "LOGNAME")
          else if ISSET v.didvar KEPT_USER = true then v_getenv v.entries (cstr "USER")
          else if ISSET v.didvar KEPT_USERNAME = true then v_getenv v.entries (cstr "USERNAME")
          else none) = some cp := by
        rw [ISSET_or, ISSET_or, Bool.or_eq_true, Bool.or_eq_true] at hsome
        by_cases h1 : ISSET v.didvar KEPT_LOGNAME = true
        · rw [if_pos h1]; exact v_getenv_some _ _ (by decide) (sL h1)
        · rw [if_neg h1]
          by_cases h2 : ISSET v.didvar KEPT_USER = true
          · rw [if_pos h2]; exact v_getenv_some _ _ (by decide) (sU h2)
          · rw [if_neg h2]
            have h3 : ISSET v.didvar KEPT_USERNAME = true := by tauto
            rw [if_pos h3]; exact v_getenv_some _ _ (by decide) (sN h3)
      obtain ⟨cp, hcp⟩ := hcp
      rw [hcp]
      dsimp only
      generalize ha : (if (!ISSET v.didvar KEPT_LOGNAME) = true then
          v_set v (cstr "LOGNAME") cp true true else v) = a
      have fa : a.didvar = v.didvar ∧ has_entry a.entries (cstr "LOGNAME") ∧
          Puts (fun _ => True) v.entries a.entries := by
        rw [← ha]
        by_cases hc1 : (!ISSET v.didvar KEPT_LOGNAME) = true
        · rw [if_pos hc1]
          exact ⟨rfl, has_v_set _ (cstr "LOGNAME") _ _ _ (by decide),
            puts_set _ v _ _ _ _ (Puts.refl _) trivial⟩
        · rw [if_neg hc1]
          exact ⟨rfl, sL (by simpa using hc1), Puts.refl _⟩
      generalize hb : (if (!ISSET a.didvar KEPT_USER) = true then
          v_set a (cstr "USER") cp true true else a) = b
      have fb : b.didvar = v.didvar ∧ has_entry b.entries (cstr "LOGNAME") ∧
          has_entry b.entries (cstr "USER") ∧ Puts (fun _ => True) v.entries b.entries := by
        rw [← hb]
        by_cases hc1 : (!ISSET a.didvar KEPT_USER) = true
        · rw [if_pos hc1]
          exact ⟨fa.1, has_v_set_other _ _ _ _ _ _ fa.2.1,
            has_v_set _ (cstr "USER") _ _ _ (by decide),
            puts_set _ a _ _ _ _ fa.2.2 trivial⟩
        · rw [if_neg hc1]
          rw [fa.1] at hc1
          exact ⟨fa.1, fa.2.1, fa.2.2.has _ (sU (by simpa using hc1)), fa.2.2⟩
      by_cases hc1 : (!ISSET b.didvar KEPT_USERNAME) = true
      · rw [if_pos hc1]
        exact ⟨has_v_set_other _ _ _ _ _ _ fb.2.1, has_v_set_other _ _ _ _ _ _ fb.2.2.1,
          has_v_set _ (cstr "USERNAME") _ _ _ (by decide)⟩
      · rw [if_neg hc1]
        rw [fb.1] at hc1
        exact ⟨fb.2.1, fb.2.2.1, fb.2.2.2.has _ (sN (by simpa using hc1))⟩
    · rw [if_neg hall]
      have heq : v.didvar &&& (KEPT_LOGNAME ||| KEPT_USER ||| KEPT_USERNAME) =
          KEPT_LOGNAME ||| KEPT_USER ||| KEPT_USERNAME := by
        simpa using hall
      exact ⟨sL (ISSET_of_and_eq _ _ _ heq (by decide) (by decide)),
        sU (ISSET_of_and_eq _ _ _ heq (by decide) (by decide)),
        sN (ISSET_of_and_eq _ _ _ heq (by decide) (by decide))⟩

/-- The defaults `rebuild_env` sets at its end. -/
theorem v_defaults_has (S : Sudoers) (v : View)
    (hs : Seen [(DID_SHELL, cstr "SHELL"), (DID_PATH, cstr "PATH"), (DID_TERM, cstr "TERM")] v) :
    has_entry (v_defaults S v).entries (cstr "SHELL") ∧
    has_entry (v_defaults S v).entries (cstr "TERM") ∧
    has_entry (v_defaults S v).entries (cstr "PATH") ∧
    ((v.reset_home = true ∨ has_entry v.entries (cstr "HOME")) →
      has_entry (v_defaults S v).entries (cstr "HOME")) := by
  have sS : ISSET v.didvar DID_SHELL = true → has_entry v.entries (cstr "SHELL") :=
    hs (DID_SHELL, cstr "SHELL") (by decide)
  have sP : ISSET v.didvar DID_PATH = true → has_entry v.entries (cstr "PATH") :=
    hs (DID_PATH, cstr "PATH") (by decide)
  have sT : ISSET v.didvar DID_TERM = true → has_entry v.entries (cstr "TERM") :=
    hs (DID_TERM, cstr "TERM") (by decide)
  unfold v_defaults
  dsimp only
  generalize ha : (if v.reset_home = true then
      v_set v (cstr "HOME") S.runas_pw.pw_dir true true else v) = a
  have fa : a.didvar = v.didvar ∧ Puts (fun _ => True) v.entries a.entries ∧
      ((v.reset_home = true ∨ has_entry v.entries (cstr "HOME")) →
        has_entry a.entries (cstr "HOME")) := by
    rw [← ha]
    by_cases hc : v.reset_home = true
    · rw [if_pos hc]
      exact ⟨rfl, puts_set _ v _ _ _ _ (Puts.refl _) trivial,
        fun _ => has_v_set _ (cstr "HOME") _ _ _ (by decide)⟩
    · rw [if_neg hc]
      refine ⟨rfl, Puts.refl _, fun h => ?_⟩
      rcases h with h | h
      · exact absurd h hc
      · exact h
  generalize hb : (if (!ISSET a.didvar DID_SHELL) = true then
      v_set a (cstr "SHELL") S.runas_pw.pw_shell false false else a) = b
  have fb : b.didvar = v.didvar ∧ Puts (fun _ => True) v.entries b.entries ∧
      has_entry b.entries (cstr "SHELL") ∧ Puts (fun _ => True) a.entries b.entries := by
    rw [← hb]
    by_cases hc : (!ISSET a.didvar DID_SHELL) = true
    · rw [if_pos hc]
      exact ⟨fa.1, puts_set _ a _ _ _ _ fa.2.1 trivial,
        has_v_set _ (cstr "SHELL") _ _ _ (by decide),
        puts_set _ a _ _ _ _ (Puts.refl _) trivial⟩
    · rw [if_neg hc]
      rw [fa.1] at hc
      exact ⟨fa.1, fa.2.1, fa.2.1.has _ (sS (by simpa using hc)), Puts.refl _⟩
  have e : cstr "TERM=unknown" = cstr "TERM" ++ c_eq :: cstr "unknown" := by decide
  generalize hc : (if (!ISSET b.didvar DID_TERM) = true then
      v_put b (cstr "TERM=unknown") false false else b) = c
  have fc : c.didvar = v.didvar ∧ Puts (fun _ => True) v.entries c.entries ∧
      has_entry c.entries (cstr "TERM") ∧ Puts (fun _ => True) b.entries c.entries := by
    rw [← hc]
    by_cases hc1 : (!ISSET b.didvar DID_TERM) = true
    · rw [if_pos hc1]
      refine ⟨fb.1, puts_put _ b _ _ _ fb.2.1 trivial, ?_, puts_put _ b _ _ _ (Puts.refl _) trivial⟩
      rw [e]
      exact has_v_set b (cstr "TERM") _ _ _ (by decide)
    · rw [if_neg hc1]
      rw [fb.1] at hc1
      exact ⟨fb.1, fb.2.1, fb.2.1.has _ (sT (by simpa using hc1)), Puts.refl _⟩
  by_cases hc1 : (!ISSET c.didvar DID_PATH) = true
  · rw [if_pos hc1]
    exact ⟨has_v_set_other _ _ _ _ _ _ (fc.2.2.2.has _ fb.2.2.1),
      has_v_set_other _ _ _ _ _ _ fc.2.2.1,
      has_v_set _ (cstr "PATH") _ _ _ (by decide),
      fun h => has_v_set_other _ _ _ _ _ _ (fc.2.2.2.has _ (fb.2.2.2.has _ (fa.2.2 h)))⟩
  · rw [if_neg hc1]
    rw [fc.1] at hc1
    exact ⟨fc.2.2.2.has _ fb.2.2.1, fc.2.2.1, fc.2.1.has _ (sP (by simpa using hc1)),
      fun h => fc.2.2.2.has _ (fb.2.2.2.has _ (fa.2.2 h))⟩

theorem has_of_filter (l : List CStr) (N x : CStr) (h : l.filter (named N) = [x]) :
    has_entry l N := by
  have hx : x ∈ l.filter (named N) := by rw [h]; exact List.mem_singleton.2 rfl
  exact ⟨x, (List.mem_filter.1 hx).1, (List.mem_filter.1 hx).2⟩

theorem Puts.top {A : CStr → Prop} {l1 l2 : List CStr} (h : Puts A l1 l2) :
    Puts (fun _ => True) l1 l2 :=
  Puts.mono (fun _ _ => trivial) h

theorem did_test_username (ep : CStr) :
    did_test DID_USERNAME ep = decide (cstr "USERN" <+: ep) := by
  have e : decide (cstr "USERN" <+: ep) = strncmp_eq ep (cstr "USERNAME=") 5 :=
    (strncmp_lit ep (cstr "USERNAME=") 5 (by decide)).symm
  rw [e]
  simp [did_test, did_lit, DID_TERM, DID_PATH, DID_HOME, DID_SHELL, DID_LOGNAME, DID_USER,
    DID_USERNAME, DID_MAIL]

/-! ### C15: `LOGNAME`, `USER` and `USERNAME` -/

theorem put_entries_absent (str : CStr) (l : List CStr) (o : Bool) (hs : c_eq ∈ str)
    (h : ∀ x ∈ l, named (env_name str) x = false) :
    put_entries str (str.indexOf c_eq + 1) o l = l ++ [str] := by
  induction l with
  | nil => rfl
  | cons e rest ih =>
    unfold put_entries
    rw [dup_test_named str e hs, h e (List.mem_cons_self _ _)]
    simp only [Bool.false_eq_true, if_false, List.cons_append]
    rw [ih (fun x hx => h x (List.mem_cons_of_mem _ hx))]

/-- A put that does not overwrite adds its entry when the name is new. -/
theorem named_put_keep (l : List CStr) (str N : CStr) (hs : named N str = true) :
    (put_result l str true false).filter (named N) =
      if l.filter (named N) = [] then [str] else l.filter (named N) := by
  obtain ⟨hm, hn⟩ := (named_iff _ _).1 hs
  unfold put_result
  rw [if_pos rfl]
  by_cases hf : l.filter (named N) = []
  · rw [if_pos hf]
    have hno : ∀ x ∈ l, named (env_name str) x = false := by
      intro x hx
      rw [hn]
      have := List.filter_eq_nil_iff.1 hf x hx
      simpa using this
    rw [put_entries_absent str l false hm hno, List.filter_append, hf]
    simp [List.filter_cons, hs]
  · rw [if_neg hf]
    have hex : ∃ e ∈ l, named (env_name str) e = true := by
      rw [hn]
      cases hfl : l.filter (named N) with
      | nil => exact absurd hfl hf
      | cons x xs =>
        have hx : x ∈ l.filter (named N) := by rw [hfl]; exact List.mem_cons_self _ _
        exact ⟨x, (List.mem_filter.1 hx).1, (List.mem_filter.1 hx).2⟩
    rw [put_entries_kept str l hm hex]

theorem v_keep_loop_filter (S : Sudoers) (N : CStr) (rest pre : List CStr) (v : View)
    (h : v.entries.filter (named N) =
      ((pre.filter (env_should_keep S)).find? (named N)).toList) :
    (v_keep_loop S rest v).entries.filter (named N) =
      (((pre ++ rest).filter (env_should_keep S)).find? (named N)).toList := by
  induction rest generalizing pre v with
  | nil => simpa using h
  | cons ep rest ih =>
    rw [v_keep_loop]
    dsimp only
    have e1 : (if strncmp_eq ep (cstr "SUDO_PS1=") 8 = true then
        { v with ps1 := some (ep.drop 5) } else v : View).entries = v.entries := by
      split <;> rfl
    have hpre : pre ++ ep :: rest = (pre ++ [ep]) ++ rest := by simp
    rw [hpre]
    by_cases hk : env_should_keep S ep = true
    · rw [if_pos hk]
      apply ih
      show (put_result _ ep true false).filter (named N) = _
      rw [e1, List.filter_append, List.find?_append]
      simp only [List.filter_cons, hk, if_true, List.filter_nil, List.find?_cons, List.find?_nil]
      by_cases hn : named N ep = true
      · rw [named_put_keep _ _ _ hn, h, hn]
        cases (pre.filter (env_should_keep S)).find? (named N) with
        | none => simp
        | some x => simp
      · have hn' : named N ep = false := by simpa using hn
        rw [named_put_other N _ _ _ _ hn', h, hn']
        cases (pre.filter (env_should_keep S)).find? (named N) with
        | none => simp
        | some x => simp
    · rw [if_neg hk]
      apply ih
      rw [e1, h, List.filter_append]
      simp [List.filter_cons, hk]

theorem v_keep_loop_flag (S : Sudoers) (old : List CStr) (v : View) (g : Nat)
    (hg : g ∈ [DID_TERM, DID_PATH, DID_HOME, DID_SHELL, DID_LOGNAME, DID_USER, DID_USERNAME,
      DID_MAIL]) :
    ISSET (v_keep_loop S old v).didvar g =
      (ISSET v.didvar g || (old.filter (env_should_keep S)).any (did_test g)) := by
  induction old generalizing v with
  | nil => simp [v_keep_loop]
  | cons ep rest ih =>
    rw [v_keep_loop]
    dsimp only
    have e1 : (if strncmp_eq ep (cstr "SUDO_PS1=") 8 = true then
        { v with ps1 := some (ep.drop 5) } else v : View).didvar = v.didvar := by
      split <;> rfl
    by_cases hk : env_should_keep S ep = true
    · rw [if_pos hk, ih]
      show (ISSET (env_update_didvar ep _) g || _) = _
      rw [e1, env_update_didvar_flag ep _ _ hg]
      simp [List.filter_cons, hk, Bool.or_assoc]
    · rw [if_neg hk, ih, e1]
      simp [List.filter_cons, hk]

theorem v_keep_loop_ps1_starts (S : Sudoers) (old : List CStr) (v : View)
    (h : ∀ p, v.ps1 = some p → cstr "PS1" <+: p) :
    ∀ p, (v_keep_loop S old v).ps1 = some p → cstr "PS1" <+: p := by
  induction old generalizing v with
  | nil => exact h
  | cons ep rest ih =>
    rw [v_keep_loop]
    dsimp only
    have h1 : ∀ p, (if strncmp_eq ep (cstr "SUDO_PS1=") 8 = true then
        { v with ps1 := some (ep.drop 5) } else v : View).ps1 = some p → cstr "PS1" <+: p := by
      split
      · rename_i ht
        intro p hp
        have hp : ep.drop 5 = p := by simpa using hp
        rw [← hp, drop_of_starts ep (cstr "SUDO_PS1=") 8 5 (by decide) ht (by decide)]
        exact ⟨_, rfl⟩
      · exact h
    split
    · exact ih _ h1
    · exact ih _ h1

theorem v_delete_loop_ps1_starts (S : Sudoers) (old : List CStr) (v : View)
    (h : ∀ p, v.ps1 = some p → cstr "PS1" <+: p) :
    ∀ p, (v_delete_loop S old v).ps1 = some p → cstr "PS1" <+: p := by
  induction old generalizing v with
  | nil => exact h
  | cons ep rest ih =>
    rw [v_delete_loop]
    split
    · apply ih
      have h1 : ∀ p, (if strncmp_eq ep (cstr "SUDO_PS1=") 9 = true then
          { v with ps1 := some (ep.drop 5) }
        else if strncmp_eq ep (cstr "SHELL=") 6 = true then
          { v with didvar := SET v.didvar DID_SHELL }
        else if strncmp_eq ep (cstr "PATH=") 5 = true then
          { v with didvar := SET v.didvar DID_PATH }
        else if strncmp_eq ep (cstr "TERM=") 5 = true then
          { v with didvar := SET v.didvar DID_TERM }
        else v : View).ps1 = some p → cstr "PS1" <+: p := by
        split
        · rename_i ht
          intro p hp
          have hp : ep.drop 5 = p := by simpa using hp
          rw [← hp, drop_of_starts ep (cstr "SUDO_PS1=") 9 5 (by decide) ht (by decide)]
          exact ⟨_, rfl⟩
        · split
          · exact h
          · split
            · exact h
            · split <;> exact h
      exact h1
    · exact ih _ h

theorem not_named_of_ps1 (N p : CStr) (hp : cstr "PS1" <+: p) (hN : N ≠ [])
    (h0 : byteAt N 0 ≠ 80) : named N p = false := by
  cases hn : named N p with
  | false => rfl
  | true =>
    exfalso
    have h1 := (named_iff _ _).1 hn
    have h2 : N <+: p := h1.2 ▸ env_name_starts p
    obtain ⟨t, rfl⟩ := hp
    obtain ⟨u, hu⟩ := h2
    cases N with
    | nil => exact hN rfl
    | cons x xs =>
      have : x = 80 := by
        have := congrArg (fun l => byteAt l 0) hu
        simpa [byteAt, cstr] using this
      exact h0 (by simpa [byteAt] using this)

theorem find?_eq_of_filter (l : List CStr) (p : CStr → Bool) (k : Option CStr)
    (h : l.filter p = k.toList) : l.find? p = k := by
  induction l with
  | nil =>
    cases k with
    | none => rfl
    | some x => simp at h
  | cons e rest ih =>
    rw [List.find?_cons]
    rw [List.filter_cons] at h
    cases hp : p e with
    | true =>
      rw [hp] at h
      cases k with
      | none => simp at h
      | some x =>
        simp only [if_true, Option.toList_some, List.cons.injEq] at h
        rw [h.1]
    | false =>
      rw [hp] at h
      exact ih (by simpa using h)

theorem v_getenv_of_filter (l : List CStr) (N : CStr) (k : Option CStr) (hN : c_eq ∉ N)
    (h : l.filter (named N) = k.toList) : v_getenv l N = k.map env_value := by
  unfold v_getenv
  rw [env_name_of_not_mem N hN, find?_eq_of_filter l _ k h]

/-- The step that sets `LOGNAME`, `USER` and `USERNAME`, when the flags
`KEPT_*` tell which of the three have an entry: the ones without an entry are
set to the value of the first one with an entry, or to the target user. -/
theorem v_logname_step_eq (S : Sudoers) (v : View) (hset : S.def_set_logname = true)
    (hlogin : S.sudo_mode.login_shell = false) (kL kU kN : Option CStr)
    (fL : v.entries.filter (named (cstr "LOGNAME")) = kL.toList)
    (fU : v.entries.filter (named (cstr "USER")) = kU.toList)
    (fN : v.entries.filter (named (cstr "USERNAME")) = kN.toList)
    (bL : ISSET v.didvar KEPT_LOGNAME = kL.isSome)
    (bU : ISSET v.didvar KEPT_USER = kU.isSome)
    (bN : ISSET v.didvar KEPT_USERNAME = kN.isSome)
    (bM : ((v.didvar &&& (KEPT_LOGNAME ||| KEPT_USER ||| KEPT_USERNAME)) !=
        (KEPT_LOGNAME ||| KEPT_USER ||| KEPT_USERNAME)) =
      !(kL.isSome && kU.isSome && kN.isSome))
    (val : CStr)
    (hval : val = (((kL.orElse fun _ => kU).orElse fun _ => kN).map env_value).getD
      S.runas_pw.pw_name) :
    v_logname_step S v =
      (if kN.isNone then v_set (if kU.isNone then v_set (if kL.isNone then
          v_set v (cstr "LOGNAME") val true true else v) (cstr "USER") val true true
        else (if kL.isNone then v_set v (cstr "LOGNAME") val true true else v))
        (cstr "USERNAME") val true true
      else (if kU.isNone then v_set (if kL.isNone then
          v_set v (cstr "LOGNAME") val true true else v) (cstr "USER") val true true
        else (if kL.isNone then v_set v (cstr "LOGNAME") val true true else v))) := by
  have gL := v_getenv_of_filter _ _ kL (by decide) fL
  have gU := v_getenv_of_filter _ _ kU (by decide) fU
  have gN := v_getenv_of_filter _ _ kN (by decide) fN
  have bA : ISSET v.didvar (KEPT_LOGNAME ||| KEPT_USER ||| KEPT_USERNAME) =
      (kL.isSome || kU.isSome || kN.isSome) := by
    rw [ISSET_or, ISSET_or, bL, bU, bN]
  have e0 : (S.def_set_logname && !S.sudo_mode.login_shell) = true := by
    rw [hset, hlogin]; rfl
  have ed : ∀ (w : View) (a b : CStr) (x y : Bool), (v_set w a b x y).didvar = w.didvar :=
    fun _ _ _ _ _ => rfl
  unfold v_logname_step
  rw [if_pos e0, bA, bM, gL, gU, gN, bL, bU, bN]
  subst hval
  cases kL <;> cases kU <;> cases kN <;>
    simp [ed, bL, bU, bN]

theorem filter_when_same (v : View) (c : Bool) (X val : CStr) (hX : c_eq ∉ X) :
    (if c then v_set v X val true true else v).entries.filter (named X) =
      if c then [X ++ c_eq :: val] else v.entries.filter (named X) := by
  cases c with
  | true => exact named_set_same _ _ _ hX
  | false => rfl

theorem filter_when_other (v : View) (c : Bool) (X Y val : CStr) (d o : Bool) (hY : c_eq ∉ Y)
    (hXY : Y ≠ X) :
    (if c then v_set v Y val d o else v).entries.filter (named X) =
      v.entries.filter (named X) := by
  cases c with
  | true =>
    exact named_put_other X _ _ _ _ (by rw [named_set _ _ _ hY]; simpa using hXY)
  | false => rfl

theorem v_logname_step_none (S : Sudoers) (v : View) (hset : S.def_set_logname = true)
    (hlogin : S.sudo_mode.login_shell = false)
    (h : ISSET v.didvar (KEPT_LOGNAME ||| KEPT_USER ||| KEPT_USERNAME) = false) :
    v_logname_step S v =
      v_set (v_set (v_set v (cstr "LOGNAME") S.runas_pw.pw_name true true)
        (cstr "USER") S.runas_pw.pw_name true true)
        (cstr "USERNAME") S.runas_pw.pw_name true true := by
  unfold v_logname_step
  rw [if_pos (by rw [hset, hlogin]; rfl), h]
  rfl

/-- The last steps of `rebuild_env` leave `LOGNAME`, `USER` and `USERNAME` as
they are. -/
theorem v_final_steps_identity (S : Sudoers) (v : View) (N : CStr)
    (hN : N ∈ [cstr "LOGNAME", cstr "USER", cstr "USERNAME"])
    (hps : ∀ p, v.ps1 = some p → cstr "PS1" <+: p) :
    (v_final_steps S v).entries.filter (named N) = v.entries.filter (named N) := by
  have h1 : N ∉ [cstr "SUDO_COMMAND", cstr "SUDO_USER", cstr "SUDO_UID", cstr "SUDO_GID"] := by
    revert N; decide
  have h2 : N ∉ [cstr "HOME", cstr "SHELL", cstr "TERM", cstr "PATH"] := by
    revert N; decide
  have h3 : N ≠ [] ∧ byteAt N 0 ≠ 80 := by
    revert N; decide
  unfold v_final_steps
  rw [(v_sudo_vars_puts S _).filter N (fun s hs => sets_not_named _ _ _ (by decide) h1 hs),
    (v_ps1_puts _).filter N (fun s hs => not_named_of_ps1 N s
      (hps s (by rw [← (v_defaults_fields S v).2.1]; exact hs)) h3.1 h3.2),
    (v_defaults_puts S v).filter N (fun s hs => sets_not_named _ _ _ (by decide) h2 hs)]

theorem identity_entry_eq (S : Sudoers) (old : List CStr) (N : CStr) :
    identity_entry S old N =
      (kept_entry S old N).getD (N ++ c_eq ::
        ((((kept_entry S old (cstr "LOGNAME")).orElse fun _ =>
          kept_entry S old (cstr "USER")).orElse fun _ =>
          kept_entry S old (cstr "USERNAME")).map env_value).getD S.runas_pw.pw_name) := by
  have hv : identity_value S old =
      ((((kept_entry S old (cstr "LOGNAME")).orElse fun _ =>
          kept_entry S old (cstr "USER")).orElse fun _ =>
          kept_entry S old (cstr "USERNAME")).map env_value).getD S.runas_pw.pw_name := by
    unfold identity_value
    cases kept_entry S old (cstr "LOGNAME") <;> cases kept_entry S old (cstr "USER") <;>
      cases kept_entry S old (cstr "USERNAME") <;> rfl
  unfold identity_entry
  rw [hv]
  cases kept_entry S old N <;> rfl

theorem any_eq_isSome (l : List CStr) (p : CStr → Bool) : l.any p = (l.find? p).isSome := by
  induction l with
  | nil => rfl
  | cons e rest ih =>
    rw [List.any_cons, List.find?_cons, ih]
    cases p e <;> rfl

theorem any_congr_mem (l : List CStr) (p q : CStr → Bool) (h : ∀ x ∈ l, p x = q x) :
    l.any p = l.any q := by
  induction l with
  | nil => rfl
  | cons e rest ih =>
    rw [List.any_cons, List.any_cons, h e (List.mem_cons_self _ _),
      ih (fun x hx => h x (List.mem_cons_of_mem _ hx))]

theorem named_username_starts (x : CStr) (h : named (cstr "USERNAME") x = true) :
    cstr "USERN" <+: x := by
  obtain ⟨hm, hn⟩ := (named_iff _ _).1 h
  obtain ⟨val, hv⟩ := env_name_split x hm
  rw [hn] at hv
  rw [hv]
  exact ⟨cstr "AME" ++ c_eq :: val, rfl⟩

/-- **C15**, as amended. After a successful `rebuild_env` with `set_logname`
outside a login shell, the table has exactly one entry for each of `LOGNAME`,
`USER` and `USERNAME`. In the filter-only branch all three hold the name of the
target user. In the clean-slate branch (no seeded defaults, and every kept entry
that begins with `USERN` is named `USERNAME`) each of the three that was kept
from the invoker's environment is the kept entry, and each that was not kept
holds the value of a kept one, taken in the order `LOGNAME`, `USER`,
`USERNAME`, or the name of the target user when none was kept. -/
theorem rebuild_env_identity (S : Sudoers) (env env' : Environment)
    (h : rebuild_env S env = .ok env') (hset : S.def_set_logname = true)
    (hlogin : S.sudo_mode.login_shell = false) :
    (S.def_env_reset = false →
      ∀ N ∈ [cstr "LOGNAME", cstr "USER", cstr "USERNAME"],
        (env_entries env').filter (named N) = [N ++ c_eq :: S.runas_pw.pw_name]) ∧
    (S.def_env_reset = true → S.plat.reads_environment = false →
      (∀ e ∈ env_entries env, env_should_keep S e = true → cstr "USERN" <+: e →
        named (cstr "USERNAME") e = true) →
      ∀ N ∈ [cstr "LOGNAME", cstr "USER", cstr "USERNAME"],
        (env_entries env').filter (named N) = [identity_entry S (env_entries env) N]) := by
  obtain ⟨oldv, l0, hv, hl0, _, he⟩ := rebuild_env_view S env env' h
  have hw : env_entries env = walk oldv := by unfold env_entries; rw [hv]
  rw [he, hw]
  generalize walk oldv = old
  unfold v_rebuild
  dsimp only
  generalize hv0 : (⟨[], 0, none, S.sudo_mode.run &&
      (S.def_always_set_home || (S.sudo_mode.reset_home || S.sudo_mode.login_shell) ||
        (S.sudo_mode.shell && S.def_set_home))⟩ : View) = v0
  have h0 : v0.didvar = 0 ∧ v0.ps1 = none ∧ v0.entries = [] := by
    rw [← hv0]; exact ⟨rfl, rfl, rfl⟩
  have hnops : ∀ p, v0.ps1 = some p → cstr "PS1" <+: p := by
    intro p hp; rw [h0.2.1] at hp; cases hp
  have ps3 : ∀ x : View, (v_logname_step S (v_secure_path_step S x)).ps1 = x.ps1 := by
    intro x
    rw [(v_logname_step_fields S _).2.1, (v_secure_path_step_fields S x).1]
  constructor
  · -- the filter-only branch
    intro hreset N hN
    rw [if_neg (by rw [hreset, hlogin]; simp)]
    have hps1 := v_delete_loop_ps1_starts S old v0 hnops
    have hd1 := v_delete_loop_lt S old v0 (by rw [h0.1]; decide)
    generalize v_delete_loop S old v0 = v1 at hps1 hd1 ⊢
    have hM : ISSET (v_secure_path_step S v1).didvar
        (KEPT_LOGNAME ||| KEPT_USER ||| KEPT_USERNAME) = false := by
      rcases v_secure_path_step_didvar S v1 with e | e
      · rw [e]; exact (low_flags _ hd1).1
      · rw [e]; exact (low_flags _ hd1).2
    rw [v_final_steps_identity S _ N hN (by rw [ps3]; exact hps1),
      v_logname_step_none S _ hset hlogin hM]
    simp only [List.mem_cons, List.mem_singleton, List.mem_nil_iff, or_false] at hN
    rcases hN with rfl | rfl | rfl
    · rw [v_set_entries, named_put_other _ _ _ _ _ (by rw [named_set _ _ _ (by decide)]; decide),
        v_set_entries, named_put_other _ _ _ _ _ (by rw [named_set _ _ _ (by decide)]; decide),
        v_set_entries]
      exact named_set_same _ _ _ (by decide)
    · rw [v_set_entries, named_put_other _ _ _ _ _ (by rw [named_set _ _ _ (by decide)]; decide),
        v_set_entries]
      exact named_set_same _ _ _ (by decide)
    · rw [v_set_entries]
      exact named_set_same _ _ _ (by decide)
  · -- the clean-slate branch
    intro hreset hseed hslip N hN
    rw [if_pos (by rw [hreset]; simp)]
    have hl0' : l0 = [] := hl0 hseed
    subst hl0'
    unfold v_reset_branch
    dsimp only
    have es : (if (!S.sudo_mode.login_shell) = true then v_seed [] v0 else v0) = v0 := by
      rw [hlogin, ← hv0]; rfl
    have erd : ∀ x, v_reset_defaults S x = x := by
      intro x
      unfold v_reset_defaults
      rw [hlogin, hset]
      rfl
    rw [es, erd]
    -- the loop
    have kf : ∀ X, (v_keep_loop S old v0).entries.filter (named X) =
        (kept_entry S old X).toList := by
      intro X
      have := v_keep_loop_filter S X old [] v0 (by rw [h0.2.2]; rfl)
      simpa [kept_entry] using this
    have kd := v_keep_loop_lt S old v0 (by rw [h0.1]; decide)
    have kflag : ∀ g ∈ [DID_TERM, DID_PATH, DID_HOME, DID_SHELL, DID_LOGNAME, DID_USER,
        DID_USERNAME, DID_MAIL], ISSET (v_keep_loop S old v0).didvar g =
        (old.filter (env_should_keep S)).any (did_test g) := by
      intro g hg
      rw [v_keep_loop_flag S old v0 g hg, h0.1]
      simp [ISSET]
    have kps := v_keep_loop_ps1_starts S old v0 hnops
    have kL : ISSET (v_keep_loop S old v0).didvar DID_LOGNAME =
        (kept_entry S old (cstr "LOGNAME")).isSome := by
      rw [kflag _ (by decide), kept_entry, ← any_eq_isSome]
      exact any_congr_mem _ _ _
        (fun x _ => did_test_named x (DID_LOGNAME, cstr "LOGNAME") (by decide))
    have kU : ISSET (v_keep_loop S old v0).didvar DID_USER =
        (kept_entry S old (cstr "USER")).isSome := by
      rw [kflag _ (by decide), kept_entry, ← any_eq_isSome]
      exact any_congr_mem _ _ _
        (fun x _ => did_test_named x (DID_USER, cstr "USER") (by decide))
    have kN : ISSET (v_keep_loop S old v0).didvar DID_USERNAME =
        (kept_entry S old (cstr "USERNAME")).isSome := by
      rw [kflag _ (by decide), kept_entry, ← any_eq_isSome]
      apply any_congr_mem
      intro x hx
      rw [did_test_username, Bool.eq_iff_iff, decide_eq_true_iff]
      obtain ⟨hxo, hxk⟩ := List.mem_filter.1 hx
      exact ⟨hslip x hxo hxk, named_username_starts x⟩
    generalize v_keep_loop S old v0 = vk at kf kd kL kU kN kps ⊢
    have sh := shift_flags vk.didvar kd
    -- up to the secure path
    generalize hv1 : v_reset_mail S (if (!ISSET ({ vk with didvar :=
        (vk.didvar ||| (vk.didvar <<< 8)) % 2 ^ 32 } : View).didvar KEPT_HOME) = true then
        { ({ vk with didvar := (vk.didvar ||| (vk.didvar <<< 8)) % 2 ^ 32 } : View) with
          reset_home := true }
      else { vk with didvar := (vk.didvar ||| (vk.didvar <<< 8)) % 2 ^ 32 }) = v1
    have f1 : v1.didvar = (vk.didvar ||| (vk.didvar <<< 8)) % 2 ^ 32 ∧ v1.ps1 = vk.ps1 ∧
        Puts (sets [cstr "MAIL"]) vk.entries v1.entries := by
      rw [← hv1]
      refine ⟨?_, ?_, ?_⟩
      · rw [(v_reset_mail_fields S _).1]; split <;> rfl
      · rw [(v_reset_mail_fields S _).2.1]; split <;> rfl
      · have := v_reset_mail_puts S (if (!ISSET ({ vk with didvar :=
            (vk.didvar ||| (vk.didvar <<< 8)) % 2 ^ 32 } : View).didvar KEPT_HOME) = true then
            { ({ vk with didvar := (vk.didvar ||| (vk.didvar <<< 8)) % 2 ^ 32 } : View) with
              reset_home := true }
          else { vk with didvar := (vk.didvar ||| (vk.didvar <<< 8)) % 2 ^ 32 })
        have e : (if (!ISSET ({ vk with didvar :=
            (vk.didvar ||| (vk.didvar <<< 8)) % 2 ^ 32 } : View).didvar KEPT_HOME) = true then
            { ({ vk with didvar := (vk.didvar ||| (vk.didvar <<< 8)) % 2 ^ 32 } : View) with
              reset_home := true }
          else { vk with didvar := (vk.didvar ||| (vk.didvar <<< 8)) % 2 ^ 32 } : View).entries =
            vk.entries := by
          split <;> rfl
        rw [e] at this
        exact this
    generalize hv2 : v_secure_path_step S v1 = v2
    have p12 : Puts (sets [cstr "PATH"]) v1.entries v2.entries := by
      rw [← hv2]; exact v_secure_path_step_puts S v1
    have f2 : ∀ X ∈ [cstr "LOGNAME", cstr "USER", cstr "USERNAME"],
        v2.entries.filter (named X) = (kept_entry S old X).toList := by
      intro X hX
      rw [p12.filter X (fun s hs => sets_not_named _ _ _ (by decide) (by revert X; decide) hs),
        f1.2.2.filter X (fun s hs => sets_not_named _ _ _ (by decide) (by revert X; decide) hs)]
      exact kf X
    have b2 : ISSET v2.didvar KEPT_LOGNAME = (kept_entry S old (cstr "LOGNAME")).isSome ∧
        ISSET v2.didvar KEPT_USER = (kept_entry S old (cstr "USER")).isSome ∧
        ISSET v2.didvar KEPT_USERNAME = (kept_entry S old (cstr "USERNAME")).isSome ∧
        ((v2.didvar &&& (KEPT_LOGNAME ||| KEPT_USER ||| KEPT_USERNAME)) !=
          (KEPT_LOGNAME ||| KEPT_USER ||| KEPT_USERNAME)) =
          !((kept_entry S old (cstr "LOGNAME")).isSome &&
            (kept_entry S old (cstr "USER")).isSome &&
            (kept_entry S old (cstr "USERNAME")).isSome) := by
      rw [← kL, ← kU, ← kN, ← hv2]
      rcases v_secure_path_step_didvar S v1 with e | e
      · rw [e, f1.1]
        exact ⟨sh.2.2.2.1, sh.2.2.2.2.1, sh.2.2.2.2.2.1, sh.2.2.2.2.2.2.1⟩
      · rw [e, f1.1, ISSET_SET_or, ISSET_SET_or, ISSET_SET_or]
        refine ⟨?_, ?_, ?_, sh.2.2.2.2.2.2.2⟩
        · rw [sh.2.2.2.1]; simp +decide
        · rw [sh.2.2.2.2.1]; simp +decide
        · rw [sh.2.2.2.2.2.1]; simp +decide
    have hps2 : ∀ p, (v_logname_step S v2).ps1 = some p → cstr "PS1" <+: p := by
      rw [← hv2, ps3, f1.2.1]; exact kps
    rw [v_final_steps_identity S _ N hN hps2,
      v_logname_step_eq S v2 hset hlogin _ _ _ (f2 _ (by decide)) (f2 _ (by decide))
        (f2 _ (by decide)) b2.1 b2.2.1 b2.2.2.1 b2.2.2.2
        (((((kept_entry S old (cstr "LOGNAME")).orElse fun _ =>
          kept_entry S old (cstr "USER")).orElse fun _ =>
          kept_entry S old (cstr "USERNAME")).map env_value).getD S.runas_pw.pw_name) rfl,
      identity_entry_eq]
    have fL := f2 (cstr "LOGNAME") (by decide)
    have fU := f2 (cstr "USER") (by decide)
    have fN := f2 (cstr "USERNAME") (by decide)
    generalize ((((kept_entry S old (cstr "LOGNAME")).orElse fun _ =>
          kept_entry S old (cstr "USER")).orElse fun _ =>
          kept_entry S old (cstr "USERNAME")).map env_value).getD S.runas_pw.pw_name = val
    simp only [List.mem_cons, List.mem_singleton, List.mem_nil_iff, or_false] at hN
    rcases hN with rfl | rfl | rfl
    · rw [filter_when_other _ _ (cstr "LOGNAME") (cstr "USERNAME") _ _ _ (by decide) (by decide),
        filter_when_other _ _ (cstr "LOGNAME") (cstr "USER") _ _ _ (by decide) (by decide),
        filter_when_same _ _ _ _ (by decide), fL]
      cases kept_entry S old (cstr "LOGNAME") <;> rfl
    · rw [filter_when_other _ _ (cstr "USER") (cstr "USERNAME") _ _ _ (by decide) (by decide),
        filter_when_same _ _ _ _ (by decide),
        filter_when_other _ _ (cstr "USER") (cstr "LOGNAME") _ _ _ (by decide) (by decide), fU]
      cases kept_entry S old (cstr "USER") <;> rfl
    · rw [filter_when_same _ _ _ _ (by decide),
        filter_when_other _ _ (cstr "USERNAME") (cstr "USER") _ _ _ (by decide) (by decide),
        filter_when_other _ _ (cstr "USERNAME") (cstr "LOGNAME") _ _ _ (by decide) (by decide), fN]
      cases kept_entry S old (cstr "USERNAME") <;> rfl

theorem rebuild_env_identity_witness :
    rebuild_env
      (init_envtables { bare with def_env_reset := true, def_set_logname := true, def_env_keep := [cstr "USER", cstr "FOO"] })
      (env_init { envp := none, old_envp := none, env_size := 0, env_len := 0 }
        (some [cstr "FOO", cstr "USER=carol", cstr "LOGNAME=alice"])).2 =
      .ok { envp := some ([cstr "FOO", cstr "USER=carol", cstr "MAIL=/var/mail/bob",
              cstr "LOGNAME=carol", cstr "USERNAME=carol", cstr "HOME=/home/bob", cstr "SHELL=/bin/zsh",
              cstr "TERM=unknown", cstr "PATH=/usr/bin:/bin:/usr/sbin:/sbin",
              cstr "SUDO_COMMAND=/bin/ls", cstr "SUDO_USER=alice", cstr "SUDO_UID=1000",
              cstr "SUDO_GID=1000"].map some ++ [none])
            old_envp := some ([cstr "FOO", cstr "USER=carol", cstr "LOGNAME=alice"].map some ++ [none])
            env_size := 128
            env_len := 13 } ∧
    (∀ N ∈ [cstr "LOGNAME", cstr "USER", cstr "USERNAME"],
      (env_entries
        { envp := some ([cstr "FOO", cstr "USER=carol", cstr "MAIL=/var/mail/bob",
              cstr "LOGNAME=carol", cstr "USERNAME=carol", cstr "HOME=/home/bob", cstr "SHELL=/bin/zsh",
              cstr "TERM=unknown", cstr "PATH=/usr/bin:/bin:/usr/sbin:/sbin",
              cstr "SUDO_COMMAND=/bin/ls", cstr "SUDO_USER=alice", cstr "SUDO_UID=1000",
              cstr "SUDO_GID=1000"].map some ++ [none])
          old_envp := some ([cstr "FOO", cstr "USER=carol", cstr "LOGNAME=alice"].map some ++ [none])
          env_size := 128
          env_len := 13 }).filter (named N) =
        [identity_entry
          (init_envtables { bare with def_env_reset := true, def_set_logname := true, def_env_keep := [cstr "USER", cstr "FOO"] })
          (env_entries (env_init { envp := none, old_envp := none, env_size := 0, env_len := 0 }
            (some [cstr "FOO", cstr "USER=carol", cstr "LOGNAME=alice"])).2) N]) ∧
    [cstr "LOGNAME", cstr "USER", cstr "USERNAME"].map
      (identity_entry
        (init_envtables { bare with def_env_reset := true, def_set_logname := true, def_env_keep := [cstr "USER", cstr "FOO"] })
        (env_entries (env_init { envp := none, old_envp := none, env_size := 0, env_len := 0 }
          (some [cstr "FOO", cstr "USER=carol", cstr "LOGNAME=alice"])).2)) =
      [cstr "LOGNAME=carol", cstr "USER=carol", cstr "USERNAME=carol"] :=
  ⟨rfl,
    (rebuild_env_identity
      (init_envtables { bare with def_env_reset := true, def_set_logname := true, def_env_keep := [cstr "USER", cstr "FOO"] })
      (env_init { envp := none, old_envp := none, env_size := 0, env_len := 0 }
        (some [cstr "FOO", cstr "USER=carol", cstr "LOGNAME=alice"])).2 _ rfl rfl rfl).2 rfl rfl
      (by decide),
    by decide⟩

/-- Two kept with different values: with `USER` and `USERNAME` on the keep list
and the invoker's `USER=carol`, `USERNAME=dave`, only `LOGNAME` was not kept;
the result has `LOGNAME=carol`, `USER=carol` and `USERNAME=dave`, so the three
do not hold one common value. -/
theorem rebuild_env_identity_two_kept_counterexample :
    ∃ env', rebuild_env
        (init_envtables { bare with def_env_reset := true, def_set_logname := true, def_env_keep := [cstr "USER", cstr "USERNAME"] })
        (env_init { envp := none, old_envp := none, env_size := 0, env_len := 0 }
          (some [cstr "USER=carol", cstr "USERNAME=dave"])).2 = .ok env' ∧
      ([cstr "LOGNAME", cstr "USER", cstr "USERNAME"].map fun N =>
        (env_entries
          (env_init { envp := none, old_envp := none, env_size := 0, env_len := 0 }
            (some [cstr "USER=carol", cstr "USERNAME=dave"])).2).filter fun e =>
          env_should_keep
            (init_envtables { bare with def_env_reset := true, def_set_logname := true, def_env_keep := [cstr "USER", cstr "USERNAME"] }) e && named N e) =
        [[], [cstr "USER=carol"], [cstr "USERNAME=dave"]] ∧
      ([cstr "LOGNAME", cstr "USER", cstr "USERNAME"].map fun N =>
        (env_entries env').filter (named N)) =
        [[cstr "LOGNAME=carol"], [cstr "USER=carol"], [cstr "USERNAME=dave"]] ∧
      ¬ ∃ val, ∀ N ∈ [cstr "LOGNAME", cstr "USER", cstr "USERNAME"],
        (env_entries env').filter (named N) = [N ++ c_eq :: val] := by
  refine ⟨{ envp := some ([cstr "USER=carol", cstr "USERNAME=dave", cstr "MAIL=/var/mail/bob",
              cstr "LOGNAME=carol", cstr "HOME=/home/bob", cstr "SHELL=/bin/zsh",
              cstr "TERM=unknown", cstr "PATH=/usr/bin:/bin:/usr/sbin:/sbin",
              cstr "SUDO_COMMAND=/bin/ls", cstr "SUDO_USER=alice", cstr "SUDO_UID=1000",
              cstr "SUDO_GID=1000"].map some ++ [none])
            old_envp := some ([cstr "USER=carol", cstr "USERNAME=dave"].map some ++ [none])
            env_size := 128
            env_len := 12 }, rfl, by decide, ?_⟩
  have key : ∀ l : List CStr,
      ([cstr "LOGNAME", cstr "USER", cstr "USERNAME"].map fun N => l.filter (named N)) =
        [[cstr "LOGNAME=carol"], [cstr "USER=carol"], [cstr "USERNAME=dave"]] →
      ¬ ∃ val, ∀ N ∈ [cstr "LOGNAME", cstr "USER", cstr "USERNAME"],
        l.filter (named N) = [N ++ c_eq :: val] := by
    rintro l hl ⟨val, hval⟩
    simp only [List.map_cons, List.map_nil, List.cons.injEq, and_true] at hl
    obtain ⟨-, hU, hN⟩ := hl
    have h1 := hval (cstr "USER") (by decide)
    have h2 := hval (cstr "USERNAME") (by decide)
    rw [hU, show cstr "USER=carol" = cstr "USER" ++ c_eq :: cstr "carol" from by decide] at h1
    rw [hN, show cstr "USERNAME=dave" = cstr "USERNAME" ++ c_eq :: cstr "dave" from by decide]
      at h2
    have v1 := (List.cons.inj (List.append_cancel_left (List.cons.inj h1).1)).2
    have v2 := (List.cons.inj (List.append_cancel_left (List.cons.inj h2).1)).2
    rw [← v1] at v2
    exact absurd v2 (by decide)
  exact (and_iff_left_of_imp (key _)).2 (by decide)

/-! ### Invalid names -/

theorem strcspn_append (name rest : CStr) (c : Nat) (h : c ∉ name) :
    strcspn (name ++ c :: rest) c = name.length := by
  rw [strcspn_eq_indexOf, indexOf_append_eq name rest c h]

theorem strcspn_of_not_mem (name : CStr) (c : Nat) (h : c ∉ name) :
    strcspn name c = name.length := by
  rw [strcspn_eq_indexOf]
  exact List.indexOf_eq_length.2 h

/-- C21 fails as stated: `sudo_setenv` accepts the empty name (it inserts `=x`)
and a name that holds `=` (it inserts `A=B=c`), and the set of the `setenv` hook
accepts the name `A=B`, for which it sets `A`. -/
theorem sudo_setenv_invalid_name_counterexample :
    (∃ env', sudo_setenv linux
        (env_init { envp := none, old_envp := none, env_size := 0, env_len := 0 }
          (some [cstr "A=1"])).2 [] (cstr "x") true = .ok env' ∧
      env_entries env' = [cstr "A=1", cstr "=x"]) ∧
    (∃ env', sudo_setenv linux
        (env_init { envp := none, old_envp := none, env_size := 0, env_len := 0 }
          (some [cstr "A=1"])).2 (cstr "A=B") (cstr "c") true = .ok env' ∧
      env_entries env' = [cstr "A=B=c"]) ∧
    (∃ env', sudo_setenv_nodebug linux
        (env_init { envp := none, old_envp := none, env_size := 0, env_len := 0 }
          (some [cstr "A=1"])).2 (some (cstr "A=B")) (some (cstr "c")) true = .ok env' ∧
      env_entries env' = [cstr "A=c"]) :=
  ⟨⟨⟨some [some (cstr "A=1"), some (cstr "=x"), none], none, 130, 2⟩, rfl, rfl⟩,
    ⟨⟨some [some (cstr "A=B=c"), none], none, 130, 1⟩, rfl, rfl⟩,
    ⟨⟨some [some (cstr "A=c"), none], none, 130, 1⟩, rfl, rfl⟩⟩

theorem env_name_eq_take (s : CStr) : env_name s = s.take (strcspn s c_eq) := by
  rw [strcspn_eq_indexOf]
  exact (take_indexOf_eq_env_name s).symm

/-- **C21**, as amended. On every table `sudo_unsetenv` returns its error
indicator (the table stays as it was) when the name is `NULL`, empty or holds
`=`. The set of the `setenv` hook returns its error indicator when the name is
`NULL` or empty; a name that holds `=` it does not refuse: it hands the part of
the name before the first `=`, followed by `=` and the value, to
`sudo_putenv_nodebug`. `sudo_setenv` makes no test of the name: it hands
`name=value` to `sudo_putenv`. -/
theorem invalid_name_rejected (P : Platform) (env : Environment) (name value : CStr)
    (val : Option CStr) (overwrite : Bool) (hinv : name = [] ∨ c_eq ∈ name) :
    sudo_unsetenv env (some name) = .error .failure ∧
    sudo_unsetenv env none = .error .failure ∧
    sudo_setenv_nodebug P env (some []) val overwrite = .error .failure ∧
    sudo_setenv_nodebug P env none val overwrite = .error .failure ∧
    (0 ∉ name → name ≠ [] → sudo_setenv_nodebug P env (some name) val overwrite =
      sudo_putenv_nodebug P env (env_name name ++ c_eq :: val.getD []) true overwrite) ∧
    sudo_setenv P env name value overwrite =
      sudo_putenv P env (name ++ c_eq :: value) true overwrite := by
  refine ⟨?_, ?_, rfl, rfl, ?_, rfl⟩
  · unfold sudo_unsetenv sudo_unsetenv_nodebug
    cases hv : env.envp with
    | none => rfl
    | some v =>
      dsimp only
      rcases hinv with rfl | h
      · rfl
      · have : (strchr name c_eq).isSome = true := by
          cases hs : strchr name c_eq with
          | none => exact absurd h ((strchr_eq_none name c_eq).1 hs)
          | some t => rfl
        rw [this, Bool.or_true, if_pos rfl]
  · unfold sudo_unsetenv sudo_unsetenv_nodebug
    cases env.envp <;> rfl
  · intro h0 hne
    have hb : (byteAt name 0 == 0) = false := by
      cases name with
      | nil => exact absurd rfl hne
      | cons x xs =>
        have : x ≠ 0 := fun e => h0 (by simp [e])
        simpa [byteAt] using this
    unfold sudo_setenv_nodebug
    dsimp only
    rw [hb, env_name_eq_take]
    rfl

theorem invalid_name_rejected_witness :
    (cstr "A=B" = [] ∨ c_eq ∈ cstr "A=B") ∧
    sudo_unsetenv scenario_env (some (cstr "A=B")) = .error .failure ∧
    sudo_unsetenv scenario_env none = .error .failure ∧
    sudo_setenv_nodebug linux scenario_env (some []) (some (cstr "c")) true = .error .failure ∧
    sudo_setenv_nodebug linux scenario_env none (some (cstr "c")) true = .error .failure ∧
    (0 ∉ cstr "A=B" → cstr "A=B" ≠ [] →
      sudo_setenv_nodebug linux scenario_env (some (cstr "A=B")) (some (cstr "c")) true =
        sudo_putenv_nodebug linux scenario_env
          (env_name (cstr "A=B") ++ c_eq :: (some (cstr "c")).getD []) true true) ∧
    sudo_setenv linux scenario_env (cstr "A=B") (cstr "c") true =
      sudo_putenv linux scenario_env (cstr "A=B" ++ c_eq :: cstr "c") true true :=
  ⟨Or.inr (by decide),
    invalid_name_rejected linux scenario_env (cstr "A=B") (cstr "c") (some (cstr "c")) true
      (Or.inr (by decide))⟩

/-! ### The table invariant -/

/-- **C22** at its failing input. After `env_init` with the one entry `A=1`,
`sudo_unsetenv("A")` empties the vector and leaves `env_len` at 1; the
`sudo_setenv("B", "2", 1)` that follows stores `B=2` in slot 1, behind the
`NULL` of slot 0, so that a walk of the vector sees no entry and
`sudo_getenv("B")` returns `NULL`. -/
theorem sudo_unsetenv_keeps_env_len :
    ∃ e1 e2,
      sudo_unsetenv
        (env_init { envp := none, old_envp := none, env_size := 0, env_len := 0 }
          (some [cstr "A=1"])).2 (some (cstr "A")) = .ok e1 ∧
      e1.envp = some [none, none] ∧ e1.env_len = 1 ∧
      sudo_setenv linux e1 (cstr "B") (cstr "2") true = .ok e2 ∧
      e2.envp = some [none, some (cstr "B=2"), none] ∧ e2.env_len = 2 ∧
      env_entries e2 = [] ∧ sudo_getenv e2 (cstr "B") = none :=
  ⟨⟨some [none, none], none, 130, 1⟩, ⟨some [none, some (cstr "B=2"), none], none, 130, 2⟩,
    rfl, rfl, rfl, rfl, rfl, rfl, rfl, rfl⟩

/-! ### `env_init` and `env_swap_old` -/

theorem table_ok_env_init (env : Environment) (E : List CStr) :
    table_ok (env_init env (some E)).2 :=
  ⟨E, [], rfl, rfl⟩

theorem env_name_idem (s : CStr) : env_name (env_name s) = env_name s :=
  env_name_of_not_mem _ (env_name_not_mem s)

/-- C23 fails as stated: after `env_init` with `A=1`, `A=2`, the entry `A=2`
has the name `A` and the value `2`, and `sudo_getenv("A")` returns `1`. -/
theorem env_init_round_trip_counterexample :
    cstr "A=2" ∈ [cstr "A=1", cstr "A=2"] ∧
    (env_init { envp := none, old_envp := none, env_size := 0, env_len := 0 }
      (some [cstr "A=1", cstr "A=2"])).1 = true ∧
    env_name (cstr "A=2") = cstr "A" ∧ env_value (cstr "A=2") = cstr "2" ∧
    sudo_getenv
      (env_init { envp := none, old_envp := none, env_size := 0, env_len := 0 }
        (some [cstr "A=1", cstr "A=2"])).2 (cstr "A") = some (cstr "1") ∧
    some (cstr "1") ≠ some (cstr "2") := by
  refine ⟨by decide, rfl, by decide, by decide, by decide, by decide⟩

/-- **C23**, as amended. For every invoker environment `E`, `env_init(E)`
succeeds, and for each entry `X` of `E` that is the first entry of `E` with its
name (so that it holds `=`), `sudo_getenv` of the name of `X` returns the value
of `X`. -/
theorem env_init_round_trip (env : Environment) (E : List CStr) (X : CStr)
    (hfirst : E.find? (named (env_name X)) = some X) :
    (env_init env (some E)).1 = true ∧
    sudo_getenv (env_init env (some E)).2 (env_name X) = some (env_value X) := by
  refine ⟨rfl, ?_⟩
  rw [sudo_getenv_eq _ _ (Or.inl (table_ok_init _ (table_ok_env_init env E))), env_name_idem]
  have : env_entries (env_init env (some E)).2 = E := env_entries_of _ E [] rfl
  rw [this, hfirst]
  rfl

theorem env_init_round_trip_witness :
    [cstr "A=1", cstr "B=2", cstr "A=3"].find? (named (env_name (cstr "B=2"))) =
      some (cstr "B=2") ∧
    (env_init scenario_env (some [cstr "A=1", cstr "B=2", cstr "A=3"])).1 = true ∧
    sudo_getenv (env_init scenario_env (some [cstr "A=1", cstr "B=2", cstr "A=3"])).2
      (env_name (cstr "B=2")) = some (env_value (cstr "B=2")) :=
  ⟨by decide, env_init_round_trip scenario_env [cstr "A=1", cstr "B=2", cstr "A=3"]
    (cstr "B=2") (by decide)⟩

/-- C24 fails as stated: after `env_init` with a non-null environment on a
table that holds a vector, `old` is `NULL` and `env_swap_old` returns `false`,
leaving the new vector current. -/
theorem env_init_drops_old_counterexample :
    scenario_env.envp ≠ none ∧
    (env_init scenario_env (some [cstr "A=1"])).1 = true ∧
    (env_init scenario_env (some [cstr "A=1"])).2.old_envp = none ∧
    env_swap_old (env_init scenario_env (some [cstr "A=1"])).2 =
      (false, (env_init scenario_env (some [cstr "A=1"])).2) ∧
    (env_swap_old (env_init scenario_env (some [cstr "A=1"])).2).2.envp ≠ scenario_env.envp := by
  refine ⟨by decide, rfl, rfl, rfl, by decide⟩

/-- **C24**, as amended. `env_init` with a non-null environment of `n` entries
succeeds, sets the capacity to `n + 129` and the used length to `n`, makes the
copy of the entries (with its terminator) the current vector and sets `old` to
`NULL`, so that a following `env_swap_old` fails and changes nothing. It is
`env_init(NULL)` that retains the vector that was current in `old`: when that
vector is not `NULL`, a following `env_swap_old` succeeds and makes it current
again. -/
theorem env_init_capacity (env : Environment) (l : List CStr) :
    (env_init env (some l)).1 = true ∧
    (env_init env (some l)).2.env_size = l.length + 129 ∧
    (env_init env (some l)).2.env_len = l.length ∧
    env_entries (env_init env (some l)).2 = l ∧
    (env_init env (some l)).2.old_envp = none ∧
    env_swap_old (env_init env (some l)).2 = (false, (env_init env (some l)).2) ∧
    (env_init env none).1 = true ∧
    (env_init env none).2.old_envp = env.envp ∧
    (∀ v, env.envp = some v →
      (env_swap_old (env_init env none).2).1 = true ∧
      (env_swap_old (env_init env none).2).2.envp = some v) := by
  refine ⟨rfl, rfl, rfl, env_entries_of _ l [] rfl, rfl, rfl, rfl, rfl, ?_⟩
  intro v hv
  simp [env_swap_old, env_init, hv]

theorem env_init_capacity_witness :
    (env_init scenario_env (some [cstr "A=1", cstr "B=2"])).2.env_size = 2 + 129 ∧
    (env_init scenario_env (some [cstr "A=1", cstr "B=2"])).2.env_len = 2 ∧
    (env_swap_old (env_init scenario_env (some [cstr "A=1", cstr "B=2"])).2).1 = false ∧
    (env_swap_old (env_init scenario_env none).2).2.envp = scenario_env.envp :=
  ⟨(env_init_capacity scenario_env [cstr "A=1", cstr "B=2"]).2.1,
    (env_init_capacity scenario_env [cstr "A=1", cstr "B=2"]).2.2.1,
    congrArg Prod.fst (env_init_capacity scenario_env [cstr "A=1", cstr "B=2"]).2.2.2.2.2.1,
    ((env_init_capacity scenario_env [cstr "A=1", cstr "B=2"]).2.2.2.2.2.2.2.2 _ rfl).2⟩

/-! ### The environment file -/

/-- **C25** at its failing input. For the line `FOO='`, whose raw value is one
quote character, the test `val[0] == val[val_len - 1]` holds and `val_len -= 2`
wraps: the string handed to `sudo_putenv` has no terminator, and the entry
`FOO='` is not inserted. The file of the claim inserts `FOO=bar baz` and
`BAZ=qux`. -/
theorem read_env_file_single_quote :
    parse_env_line linux (cstr "FOO='") = .error .undefined ∧
    read_env_file linux (some [cstr "FOO='"]) true
      { envp := some [none], old_envp := none, env_size := 128, env_len := 0 } =
      .error .undefined ∧
    read_env_file linux
      (some [cstr "export FOO='bar baz'", cstr "", cstr "BAD", cstr "BAZ=\"qux\""]) true
      { envp := some [none], old_envp := none, env_size := 128, env_len := 0 } =
      .ok (true, { envp := some [some (cstr "FOO=bar baz"), some (cstr "BAZ=qux"), none]
                   old_envp := none
                   env_size := 128
                   env_len := 2 }) :=
  ⟨rfl, rfl, rfl⟩

/-! ### Name-only patterns and bash functions -/

theorem pattern_len_le (cur : CStr) : pattern_len cur ≤ cur.length := by
  unfold pattern_len strlen
  split <;> omega

/-- A pattern that matches with a consumed length beyond the first `=` of the
entry holds that `=` itself. -/
theorem full_match_pattern_has_eq (var cur : CStr) (ht : pattern_test var cur = true)
    (hl : pattern_len cur > strcspn var c_eq + 1) : c_eq ∈ cur := by
  unfold pattern_test at ht
  rw [Bool.and_eq_true, strncmp_eq_iff_take] at ht
  have h1 := ht.1
  have hle := pattern_len_le cur
  rw [strcspn_eq_indexOf] at hl
  generalize pattern_len cur = L at h1 hl hle
  by_cases hk : c_eq ∈ var
  · have hm : c_eq ∈ var.take L := by
      obtain ⟨value, hv⟩ := env_name_split var hk
      have hlen := env_name_length var
      rw [hv, List.take_append_eq_append_take]
      have : L - (env_name var).length = (L - (env_name var).length - 1) + 1 := by omega
      rw [this, List.take_succ_cons]
      simp
    rw [← h1] at hm
    exact List.mem_of_mem_take hm
  · exfalso
    have hidx : var.indexOf c_eq = var.length := List.indexOf_eq_length.2 hk
    have := congrArg List.length h1
    simp only [List.length_take] at this
    omega

theorem matches_env_list_full_match_has_eq (var : CStr) (list : List CStr) (fm : Bool)
    (h : matches_env_list var list fm = (true, true)) :
    ∃ pre P post, list = pre ++ P :: post ∧ (∀ Q ∈ pre, pattern_test var Q = false) ∧
      pattern_test var P = true ∧ c_eq ∈ P := by
  induction list with
  | nil => simp [matches_env_list] at h
  | cons cur rest ih =>
    rw [matches_env_list_cons] at h
    by_cases ht : pattern_test var cur = true
    · rw [if_pos ht] at h
      have h2 : pattern_len cur > strcspn var c_eq + 1 := by
        simpa using (Prod.mk.inj h).2
      exact ⟨[], cur, rest, rfl, by simp, ht, full_match_pattern_has_eq var cur ht h2⟩
    · rw [if_neg ht] at h
      obtain ⟨pre, P, post, h1, h2, h3, h4⟩ := ih h
      refine ⟨cur :: pre, P, post, by simp [h1], ?_, h3, h4⟩
      intro Q hQ
      rcases List.mem_cons.1 hQ with rfl | hQ
      · simpa using ht
      · exact h2 Q hQ

theorem matches_env_list_snd_name_only (var : CStr) (list : List CStr)
    (hp : ∀ P ∈ list, c_eq ∉ P) : (matches_env_list var list false).2 = false := by
  cases h1 : (matches_env_list var list false).1 with
  | false => exact matches_env_list_snd_of_no_match var list false h1
  | true =>
    cases h2 : (matches_env_list var list false).2 with
    | false => rfl
    | true =>
      exfalso
      have h : matches_env_list var list false = (true, true) := Prod.ext h1 h2
      obtain ⟨pre, P, post, e, _, _, hP⟩ := matches_env_list_full_match_has_eq var list false h
      exact hp P (by rw [e]; simp) hP

/-- **C29**. `matches_env_list` sets `full_match` only when the pattern that
matches, the first one of the list that does, itself holds `=`. Hence when no
pattern of `env_check` and of `env_keep` holds `=`, `env_should_keep` is false
for every entry `NAME=VALUE` whose value starts with `()`, whatever the mode
(Shell mode and the name `SHELL` included). -/
theorem name_only_patterns_reject_functions (S : Sudoers) (name value : CStr)
    (hpat : ∀ P ∈ S.def_env_check ++ S.def_env_keep, c_eq ∉ P) (hn : c_eq ∉ name)
    (hv : cstr "()" <+: value) :
    (∀ var list fm, matches_env_list var list fm = (true, true) →
      ∃ pre P post, list = pre ++ P :: post ∧ (∀ Q ∈ pre, pattern_test var Q = false) ∧
        pattern_test var P = true ∧ c_eq ∈ P) ∧
    env_should_keep S (name ++ c_eq :: value) = false := by
  refine ⟨matches_env_list_full_match_has_eq, ?_⟩
  have hb : bash_function_value (name ++ c_eq :: value) = true :=
    (bash_function_value_iff name value hn).2 hv
  have hc : (matches_env_check S (name ++ c_eq :: value) false).2 = false := by
    rw [matches_env_check_snd]
    exact matches_env_list_snd_name_only _ _ (fun P hP => hpat P (List.mem_append_left _ hP))
  have hk : (matches_env_keep S (name ++ c_eq :: value) false).2 = false := by
    unfold matches_env_keep
    split
    · rfl
    · have := matches_env_list_snd_name_only (name ++ c_eq :: value) S.def_env_keep
        (fun P hP => hpat P (List.mem_append_right _ hP))
      dsimp only
      split <;> exact this
  unfold env_should_keep
  simp only [hb, if_true]
  generalize hr : matches_env_check S (name ++ c_eq :: value) false = r at hc
  obtain ⟨r1, r2⟩ := r
  simp only at hc
  subst hc
  generalize hq : matches_env_keep S (name ++ c_eq :: value) false = q at hk
  obtain ⟨q1, q2⟩ := q
  simp only at hk
  subst hk
  by_cases h1 : r1 = -1
  · subst h1
    cases q1 <;> simp
  · have : (r1 == -1) = false := by simpa using h1
    simp only [this, Bool.false_eq_true, if_false, Bool.not_false, Bool.and_true]
    by_cases h0 : r1 = 0
    · subst h0; simp
    · have : (r1 != 0) = true := by simpa using h0
      simp [this]

theorem name_only_patterns_reject_functions_witness :
    (∀ P ∈ builtin.def_env_check ++ builtin.def_env_keep, c_eq ∉ P) ∧
    c_eq ∉ cstr "SHELL" ∧ cstr "()" <+: cstr "() id" ∧
    env_should_keep
      { builtin with sudo_mode := { run := true, shell := true, login_shell := false, reset_home := false } }
      (cstr "SHELL" ++ c_eq :: cstr "() id") = false :=
  ⟨by decide, by decide, by decide,
    (name_only_patterns_reject_functions
      { builtin with sudo_mode := { run := true, shell := true, login_shell := false, reset_home := false } }
      (cstr "SHELL") (cstr "() id") (by decide) (by decide) (by decide)).2⟩

/-! ### The clean slate and the uniqueness of names, at their failing inputs -/

/-- **C27** at its failing input. With the built-in lists and the environment
reset, the invoker's one entry `SUDO_PS1X=boo` is not kept (`env_should_keep` is
false for it) and its name is not `SUDO_PS1`, yet the test
`strncmp(*ep, "SUDO_PS1=", 8)` holds for it: the result has the entry
`PS1X=boo`, of a name the invoker's environment does not hold. -/
theorem rebuild_env_sudo_ps1x :
    env_should_keep { builtin with def_env_reset := true } (cstr "SUDO_PS1X=boo") = false ∧
    named (cstr "SUDO_PS1") (cstr "SUDO_PS1X=boo") = false ∧
    named (cstr "PS1X") (cstr "SUDO_PS1X=boo") = false ∧
    ∃ env', rebuild_env { builtin with def_env_reset := true }
        (env_init { envp := none, old_envp := none, env_size := 0, env_len := 0 }
          (some [cstr "SUDO_PS1X=boo"])).2 = .ok env' ∧
      env_entries env' =
        [cstr "LOGNAME=alice", cstr "USER=alice", cstr "USERNAME=alice",
          cstr "MAIL=/var/mail/bob", cstr "HOME=/home/bob", cstr "SHELL=/bin/zsh",
          cstr "TERM=unknown", cstr "PATH=/usr/bin:/bin:/usr/sbin:/sbin", cstr "PS1X=boo",
          cstr "SUDO_COMMAND=/bin/ls", cstr "SUDO_USER=alice", cstr "SUDO_UID=1000",
          cstr "SUDO_GID=1000"] ∧
      (env_entries env').filter (named (cstr "PS1X")) = [cstr "PS1X=boo"] := by
  refine ⟨by decide, by decide, by decide, ?_⟩
  refine ⟨{ envp := some ([cstr "LOGNAME=alice", cstr "USER=alice", cstr "USERNAME=alice",
              cstr "MAIL=/var/mail/bob", cstr "HOME=/home/bob", cstr "SHELL=/bin/zsh",
              cstr "TERM=unknown", cstr "PATH=/usr/bin:/bin:/usr/sbin:/sbin", cstr "PS1X=boo",
              cstr "SUDO_COMMAND=/bin/ls", cstr "SUDO_USER=alice", cstr "SUDO_UID=1000",
              cstr "SUDO_GID=1000"].map some ++ [none])
            old_envp := some ([cstr "SUDO_PS1X=boo"].map some ++ [none])
            env_size := 128
            env_len := 13 }, rfl, rfl, by decide⟩

/-- **C28** at its failing input. With the built-in lists in the mode of a login
shell and the invoker's environment `TERM=xterm`, `rebuild_env` succeeds and the
result holds the entry `SHELL=/bin/zsh` twice: once from the defaults of the
login shell, once more from the default for a `SHELL` that is not set, which is
appended without a duplicate check because `DID_SHELL` is still clear. -/
theorem rebuild_env_login_shell_twice :
    ∃ env', rebuild_env
        { builtin with sudo_mode := { run := true, shell := false, login_shell := true, reset_home := false } }
        (env_init { envp := none, old_envp := none, env_size := 0, env_len := 0 }
          (some [cstr "TERM=xterm"])).2 = .ok env' ∧
      env_entries env' =
        [cstr "TERM=xterm", cstr "SHELL=/bin/zsh", cstr "LOGNAME=bob", cstr "USER=bob",
          cstr "USERNAME=bob", cstr "MAIL=/var/mail/bob", cstr "HOME=/home/bob",
          cstr "SHELL=/bin/zsh", cstr "PATH=/usr/bin:/bin:/usr/sbin:/sbin",
          cstr "SUDO_COMMAND=/bin/ls", cstr "SUDO_USER=alice", cstr "SUDO_UID=1000",
          cstr "SUDO_GID=1000"] ∧
      (env_entries env').filter (named (cstr "SHELL")) =
        [cstr "SHELL=/bin/zsh", cstr "SHELL=/bin/zsh"] ∧
      ¬ ((env_entries env').map env_name).Nodup := by
  refine ⟨{ envp := some ([cstr "TERM=xterm", cstr "SHELL=/bin/zsh", cstr "LOGNAME=bob",
              cstr "USER=bob", cstr "USERNAME=bob", cstr "MAIL=/var/mail/bob",
              cstr "HOME=/home/bob", cstr "SHELL=/bin/zsh",
              cstr "PATH=/usr/bin:/bin:/usr/sbin:/sbin", cstr "SUDO_COMMAND=/bin/ls",
              cstr "SUDO_USER=alice", cstr "SUDO_UID=1000",
              cstr "SUDO_GID=1000"].map some ++ [none])
            old_envp := some ([cstr "TERM=xterm"].map some ++ [none])
            env_size := 128
            env_len := 13 }, rfl, rfl, by decide, by decide⟩

/-! ### C26: the filter-only branch -/

theorem named_unique (M N s : CStr) (hM : named M s = true) (hN : named N s = true) : M = N := by
  rw [← ((named_iff _ _).1 hM).2, ← ((named_iff _ _).1 hN).2]

theorem other_entry_false (names : List CStr) (M s : CStr) (hM : M ∈ names)
    (hs : named M s = true) : other_entry names s = false := by
  unfold other_entry
  simp only [Bool.not_eq_false', List.any_eq_true]
  exact ⟨M, hM, hs⟩

/-- A put of an entry that has one of the names `names` changes nothing among
the other entries. -/
theorem other_put (names : List CStr) (l : List CStr) (str : CStr) (d o : Bool)
    (h : ∃ M ∈ names, named M str = true) :
    (put_result l str d o).filter (other_entry names) = l.filter (other_entry names) := by
  obtain ⟨M, hM, hs⟩ := h
  have h1 := other_entry_false names M str hM hs
  unfold put_result
  cases d with
  | false => simp [List.filter_append, List.filter_cons, h1]
  | true =>
    rw [if_pos rfl]
    apply put_entries_filter _ _ _ _ _ h1
    intro x _ hx
    rw [dup_test_named str x ((named_iff _ _).1 hs).1, ((named_iff _ _).1 hs).2] at hx
    exact other_entry_false names M x hM hx

theorem Puts.filter_other {A : CStr → Prop} {l1 l2 : List CStr} (names : List CStr)
    (h : Puts A l1 l2) (hA : ∀ s, A s → ∃ M ∈ names, named M s = true) :
    l2.filter (other_entry names) = l1.filter (other_entry names) := by
  induction h with
  | refl => rfl
  | put l' str d o _ hs ih => rw [other_put names _ _ _ _ (hA _ hs), ih]

theorem sets_named (ns : List CStr) (s : CStr) (hns : ∀ n ∈ ns, c_eq ∉ n) (h : sets ns s) :
    ∃ M ∈ ns, named M s = true := by
  obtain ⟨n, hn, val, rfl⟩ := h
  exact ⟨n, hn, by rw [named_set n n val (hns n hn)]; simp⟩

theorem v_delete_loop_ps1_named (S : Sudoers) (old : List CStr) (v : View)
    (h : ∀ p, v.ps1 = some p → named (cstr "PS1") p = true) :
    ∀ p, (v_delete_loop S old v).ps1 = some p → named (cstr "PS1") p = true := by
  induction old generalizing v with
  | nil => exact h
  | cons ep rest ih =>
    rw [v_delete_loop]
    split
    · apply ih
      have h1 : ∀ p, (if strncmp_eq ep (cstr "SUDO_PS1=") 9 = true then
          { v with ps1 := some (ep.drop 5) }
        else if strncmp_eq ep (cstr "SHELL=") 6 = true then
          { v with didvar := SET v.didvar DID_SHELL }
        else if strncmp_eq ep (cstr "PATH=") 5 = true then
          { v with didvar := SET v.didvar DID_PATH }
        else if strncmp_eq ep (cstr "TERM=") 5 = true then
          { v with didvar := SET v.didvar DID_TERM }
        else v : View).ps1 = some p → named (cstr "PS1") p = true := by
        split
        · rename_i ht
          intro p hp
          have hp : ep.drop 5 = p := by simpa using hp
          rw [← hp, drop_of_starts ep (cstr "SUDO_PS1=") 9 5 (by decide) ht (by decide)]
          have e : ((cstr "SUDO_PS1=").take 9).drop 5 ++ ep.drop 9 =
              cstr "PS1" ++ c_eq :: ep.drop 9 := by
            have : ((cstr "SUDO_PS1=").take 9).drop 5 = cstr "PS1" ++ [c_eq] := by decide
            rw [this]; simp
          rw [e, named_set _ _ _ (by decide)]
          simp
        · repeat' split
          all_goals exact h
      exact h1
    · exact ih _ h

/-- The steps of `rebuild_env` that follow the walk of the old environment put
entries of the names `filter_only_names` only, when a pending `ps1` is an entry
named `PS1`. -/
theorem v_tail_puts (S : Sudoers) (v : View)
    (hps : ∀ p, v.ps1 = some p → named (cstr "PS1") p = true) :
    Puts (fun s => ∃ M ∈ filter_only_names, named M s = true) v.entries
      (v_final_steps S (v_logname_step S (v_secure_path_step S v))).entries := by
  have hps3 : ∀ p, (v_defaults S (v_logname_step S (v_secure_path_step S v))).ps1 = some p →
      named (cstr "PS1") p = true := by
    rw [(v_defaults_fields S _).2.1, (v_logname_step_fields S _).2.1,
      (v_secure_path_step_fields S v).1]
    exact hps
  have sub : ∀ ns : List CStr, (∀ n ∈ ns, c_eq ∉ n) → (∀ n ∈ ns, n ∈ filter_only_names) →
      ∀ s, sets ns s → ∃ M ∈ filter_only_names, named M s = true := by
    intro ns h1 h2 s hs
    obtain ⟨M, hM, hn⟩ := sets_named ns s h1 hs
    exact ⟨M, h2 M hM, hn⟩
  unfold v_final_steps
  have p1 := (v_secure_path_step_puts S v).mono (sub _ (by decide) (by decide))
  have p2 := (v_logname_step_puts S (v_secure_path_step S v)).mono
    (sub _ (by decide) (by decide))
  have p3 := (v_defaults_puts S (v_logname_step S (v_secure_path_step S v))).mono
    (sub _ (by decide) (by decide))
  have p4 := (v_ps1_puts (v_defaults S (v_logname_step S (v_secure_path_step S v)))).mono
    (fun s hs => (⟨cstr "PS1", by decide, hps3 s hs⟩ :
      ∃ M ∈ filter_only_names, named M s = true))
  have p5 := (v_sudo_vars_puts S
    (v_ps1 (v_defaults S (v_logname_step S (v_secure_path_step S v))))).mono
    (sub _ (by decide) (by decide))
  exact (((p1.trans p2).trans p3).trans p4).trans p5

theorem put_keep_cases (l : List CStr) (str : CStr) (len : Nat) :
    put_entries str len false l = l ∨ put_entries str len false l = l ++ [str] := by
  induction l with
  | nil => exact Or.inr rfl
  | cons e rest ih =>
    unfold put_entries
    split
    · exact Or.inl rfl
    · rcases ih with h | h
      · exact Or.inl (by rw [h])
      · exact Or.inr (by rw [h]; rfl)

/-- The walk of the filter-only branch appends, in their order, entries of the
old environment that `env_should_delete` lets pass. -/
theorem v_delete_loop_sublist (S : Sudoers) (old : List CStr) (v : View) :
    ∃ t, (v_delete_loop S old v).entries = v.entries ++ t ∧
      t.Sublist (old.filter fun e => !env_should_delete S e) := by
  induction old generalizing v with
  | nil => exact ⟨[], by simp [v_delete_loop], List.Sublist.refl _⟩
  | cons ep rest ih =>
    rw [v_delete_loop]
    by_cases hk : env_should_delete S ep = true
    · rw [if_neg (by simp [hk])]
      obtain ⟨t, h1, h2⟩ := ih v
      refine ⟨t, h1, ?_⟩
      rw [List.filter_cons, if_neg (by simp [hk])]
      exact h2
    · have hk' : env_should_delete S ep = false := by simpa using hk
      rw [if_pos (by simp [hk'])]
      dsimp only
      generalize hw : (if strncmp_eq ep (cstr "SUDO_PS1=") 9 = true then
          { v with ps1 := some (ep.drop 5) }
        else if strncmp_eq ep (cstr "SHELL=") 6 = true then
          { v with didvar := SET v.didvar DID_SHELL }
        else if strncmp_eq ep (cstr "PATH=") 5 = true then
          { v with didvar := SET v.didvar DID_PATH }
        else if strncmp_eq ep (cstr "TERM=") 5 = true then
          { v with didvar := SET v.didvar DID_TERM }
        else v : View) = w
      have ew : w.entries = v.entries := by
        rw [← hw]
        repeat' split
        all_goals rfl
      obtain ⟨t, h1, h2⟩ := ih (v_put w ep true false)
      rw [List.filter_cons, if_pos (by simp [hk'])]
      have hc : (v_put w ep true false).entries = v.entries ∨
          (v_put w ep true false).entries = v.entries ++ [ep] := by
        rw [v_put_entries, ew]
        unfold put_result
        rw [if_pos rfl]
        exact put_keep_cases _ _ _
      rcases hc with hc | hc
      · exact ⟨t, by rw [h1, hc], h2.cons _⟩
      · exact ⟨ep :: t, by rw [h1, hc]; simp, h2.cons₂ _⟩

theorem v_delete_loop_filter (S : Sudoers) (N : CStr) (rest pre : List CStr) (v : View)
    (h : v.entries.filter (named N) =
      ((pre.filter fun e => !env_should_delete S e).find? (named N)).toList) :
    (v_delete_loop S rest v).entries.filter (named N) =
      (((pre ++ rest).filter fun e => !env_should_delete S e).find? (named N)).toList := by
  induction rest generalizing pre v with
  | nil => simpa [v_delete_loop] using h
  | cons ep rest ih =>
    rw [v_delete_loop]
    have hpre : pre ++ ep :: rest = (pre ++ [ep]) ++ rest := by simp
    rw [hpre]
    by_cases hk : env_should_delete S ep = true
    · rw [if_neg (by simp [hk])]
      apply ih
      rw [h, List.filter_append]
      simp [List.filter_cons, hk]
    · have hk' : env_should_delete S ep = false := by simpa using hk
      rw [if_pos (by simp [hk'])]
      dsimp only
      generalize hw : (if strncmp_eq ep (cstr "SUDO_PS1=") 9 = true then
          { v with ps1 := some (ep.drop 5) }
        else if strncmp_eq ep (cstr "SHELL=") 6 = true then
          { v with didvar := SET v.didvar DID_SHELL }
        else if strncmp_eq ep (cstr "PATH=") 5 = true then
          { v with didvar := SET v.didvar DID_PATH }
        else if strncmp_eq ep (cstr "TERM=") 5 = true then
          { v with didvar := SET v.didvar DID_TERM }
        else v : View) = w
      have ew : w.entries = v.entries := by
        rw [← hw]
        repeat' split
        all_goals rfl
      apply ih
      show (put_result _ ep true false).filter (named N) = _
      rw [ew, List.filter_append, List.find?_append]
      simp only [List.filter_cons, hk', Bool.not_false, if_true, List.filter_nil,
        List.find?_cons, List.find?_nil]
      by_cases hn : named N ep = true
      · rw [named_put_keep _ _ _ hn, h, hn]
        cases (pre.filter fun e => !env_should_delete S e).find? (named N) with
        | none => simp
        | some x => simp
      · have hn' : named N ep = false := by simpa using hn
        rw [named_put_other N _ _ _ _ hn', h, hn']
        cases (pre.filter fun e => !env_should_delete S e).find? (named N) with
        | none => simp
        | some x => simp

theorem has_entry_iff_filter (l : List CStr) (N : CStr) :
    has_entry l N ↔ l.filter (named N) ≠ [] := by
  unfold has_entry
  rw [Ne, List.filter_eq_nil_iff]
  simp

theorem not_named_of_other (names : List CStr) (N s : CStr) (hN : N ∉ names)
    (h : ∃ M ∈ names, named M s = true) : named N s = false := by
  obtain ⟨M, hM, hs⟩ := h
  cases hn : named N s with
  | false => rfl
  | true => exact absurd (named_unique M N s hs hn ▸ hM) hN

/-- **C26**. After a successful `rebuild_env` in the filter-only branch
(`env_reset` off, no login shell), for every name `N` other than `PATH`,
`LOGNAME`, `USER`, `USERNAME`, `HOME`, `SHELL`, `TERM`, `PS1`, `SUDO_COMMAND`,
`SUDO_USER`, `SUDO_UID` and `SUDO_GID`: the entries named `N` of the result are
the first entry named `N` of the old environment that `env_should_delete` lets
pass, or none when there is no such entry; so the result holds an entry named
`N` exactly when the old environment holds one that is not deleted. The entries
of the result with other names than those twelve are, in their order, entries of
the old environment that `env_should_delete` lets pass. -/
theorem rebuild_env_filter_only (S : Sudoers) (env env' : Environment)
    (h : rebuild_env S env = .ok env') (hreset : S.def_env_reset = false)
    (hlogin : S.sudo_mode.login_shell = false) :
    (∀ N, N ∉ filter_only_names →
      (env_entries env').filter (named N) =
        (((env_entries env).filter fun e => !env_should_delete S e).find? (named N)).toList) ∧
    (∀ N, N ∉ filter_only_names →
      (has_entry (env_entries env') N ↔
        ∃ e ∈ env_entries env, named N e = true ∧ env_should_delete S e = false)) ∧
    ((env_entries env').filter (other_entry filter_only_names)).Sublist
      ((env_entries env).filter fun e => !env_should_delete S e) := by
  obtain ⟨oldv, l0, hv, _, _, he⟩ := rebuild_env_view S env env' h
  have hw : env_entries env = walk oldv := by unfold env_entries; rw [hv]
  rw [he, hw]
  generalize walk oldv = old
  unfold v_rebuild
  dsimp only
  rw [if_neg (by rw [hreset, hlogin]; simp)]
  generalize hv0 : (⟨[], 0, none, S.sudo_mode.run &&
      (S.def_always_set_home || (S.sudo_mode.reset_home || S.sudo_mode.login_shell) ||
        (S.sudo_mode.shell && S.def_set_home))⟩ : View) = v0
  have h0 : v0.ps1 = none ∧ v0.entries = [] := by
    rw [← hv0]; exact ⟨rfl, rfl⟩
  have hps := v_delete_loop_ps1_named S old v0 (by rw [h0.1]; intro p hp; cases hp)
  have tail := v_tail_puts S (v_delete_loop S old v0) hps
  have hfirst : ∀ N, N ∉ filter_only_names →
      (v_final_steps S (v_logname_step S (v_secure_path_step S
        (v_delete_loop S old v0)))).entries.filter (named N) =
        ((old.filter fun e => !env_should_delete S e).find? (named N)).toList := by
    intro N hN
    rw [tail.filter N (fun s hs => not_named_of_other _ N s hN hs)]
    have := v_delete_loop_filter S N old [] v0 (by rw [h0.2]; rfl)
    simpa using this
  refine ⟨hfirst, ?_, ?_⟩
  · intro N hN
    rw [has_entry_iff_filter, hfirst N hN]
    cases hf : (old.filter fun e => !env_should_delete S e).find? (named N) with
    | none =>
      simp only [Option.toList_none, ne_eq, not_true_eq_false, false_iff, not_exists, not_and]
      intro e he1 hn hd
      have := List.find?_eq_none.1 hf e (List.mem_filter.2 ⟨he1, by simp [hd]⟩)
      exact this hn
    | some x =>
      simp only [Option.toList_some, ne_eq, List.cons_ne_self, not_false_eq_true, true_iff]
      have hx := List.mem_of_find?_eq_some hf
      have hnx := List.find?_some hf
      obtain ⟨hx1, hx2⟩ := List.mem_filter.1 hx
      exact ⟨x, hx1, hnx, by simpa using hx2⟩
  · rw [tail.filter_other filter_only_names (fun s hs => hs)]
    obtain ⟨t, h1, h2⟩ := v_delete_loop_sublist S old v0
    rw [h1, h0.2, List.nil_append]
    exact (List.filter_sublist t).trans h2

theorem rebuild_env_filter_only_witness :
    rebuild_env builtin
      (env_init { envp := none, old_envp := none, env_size := 0, env_len := 0 }
        (some [cstr "FOO=1", cstr "LD_PRELOAD=x", cstr "BAR=2", cstr "FOO=3",
          cstr "TERM=xterm"])).2 =
      .ok { envp := some ([cstr "FOO=1", cstr "BAR=2", cstr "TERM=xterm", cstr "SHELL=/bin/zsh",
              cstr "PATH=/usr/bin:/bin:/usr/sbin:/sbin", cstr "SUDO_COMMAND=/bin/ls",
              cstr "SUDO_USER=alice", cstr "SUDO_UID=1000",
              cstr "SUDO_GID=1000"].map some ++ [none])
            old_envp := some ([cstr "FOO=1", cstr "LD_PRELOAD=x", cstr "BAR=2", cstr "FOO=3",
              cstr "TERM=xterm"].map some ++ [none])
            env_size := 128
            env_len := 9 } ∧
    cstr "FOO" ∉ filter_only_names ∧
    (env_entries
      { envp := some ([cstr "FOO=1", cstr "BAR=2", cstr "TERM=xterm", cstr "SHELL=/bin/zsh",
            cstr "PATH=/usr/bin:/bin:/usr/sbin:/sbin", cstr "SUDO_COMMAND=/bin/ls",
            cstr "SUDO_USER=alice", cstr "SUDO_UID=1000",
            cstr "SUDO_GID=1000"].map some ++ [none])
        old_envp := some ([cstr "FOO=1", cstr "LD_PRELOAD=x", cstr "BAR=2", cstr "FOO=3",
          cstr "TERM=xterm"].map some ++ [none])
        env_size := 128
        env_len := 9 }).filter (named (cstr "FOO")) =
      (((env_entries
        (env_init { envp := none, old_envp := none, env_size := 0, env_len := 0 }
          (some [cstr "FOO=1", cstr "LD_PRELOAD=x", cstr "BAR=2", cstr "FOO=3",
            cstr "TERM=xterm"])).2).filter
        fun e => !env_should_delete builtin e).find? (named (cstr "FOO"))).toList ∧
    (((env_entries
      (env_init { envp := none, old_envp := none, env_size := 0, env_len := 0 }
        (some [cstr "FOO=1", cstr "LD_PRELOAD=x", cstr "BAR=2", cstr "FOO=3",
          cstr "TERM=xterm"])).2).filter
      fun e => !env_should_delete builtin e).find? (named (cstr "FOO"))).toList =
      [cstr "FOO=1"] :=
  ⟨rfl, by decide,
    (rebuild_env_filter_only builtin
      (env_init { envp := none, old_envp := none, env_size := 0, env_len := 0 }
        (some [cstr "FOO=1", cstr "LD_PRELOAD=x", cstr "BAR=2", cstr "FOO=3",
          cstr "TERM=xterm"])).2 _ rfl rfl rfl).1 (cstr "FOO") (by decide),
    by decide⟩

/-! ### The lines of the environment file -/

theorem skip_spaces_eq (P : Platform) (s : CStr) : skip_spaces P s = s.dropWhile P.isspace := by
  induction s with
  | nil => rfl
  | cons c rest ih =>
    unfold skip_spaces
    by_cases hc : P.isspace c = true
    · rw [if_pos hc, ih, List.dropWhile_cons_of_pos hc]
    · rw [if_neg hc, List.dropWhile_cons_of_neg hc]

theorem byteAt_zero_nil (s : CStr) (h0 : 0 ∉ s) : (byteAt s 0 == 0) = decide (s = []) := by
  cases s with
  | nil => rfl
  | cons x xs =>
    have : x ≠ 0 := fun e => h0 (by simp [e])
    simpa [byteAt] using this

theorem byteAt_head (s : CStr) (c : Nat) (hc : c ≠ 0) :
    (byteAt s 0 == c) = decide (s.head? = some c) := by
  cases s with
  | nil => simpa [byteAt] using hc.symm
  | cons x xs => by_cases h : x = c <;> simp [byteAt, h]

theorem byteAt_last (s : CStr) (hs : s ≠ []) :
    some (byteAt s (strlen s - 1)) = s.getLast? := by
  unfold byteAt strlen
  have hlt : s.length - 1 < s.length := by
    have := List.length_pos.2 hs; omega
  rw [List.getD_eq_getElem _ _ hlt, List.getLast?_eq_getLast _ hs, List.getLast_eq_getElem]

theorem env_value_append (name value : CStr) (h : c_eq ∉ name) :
    env_value (name ++ c_eq :: value) = value := by
  unfold env_value
  rw [indexOf_append_eq name value c_eq h]
  simp

theorem byteAt_append_eq (name value : CStr) (c : Nat) :
    byteAt (name ++ c :: value) name.length = c :=
  getD_append_length name value c

theorem parse_env_line_eq (P : Platform) (line : CStr) :
    parse_env_line P line =
      if byteAt line 0 == 0 then .ok none
      else parse_entry
        (if strncmp_eq line (cstr "export") 6 && P.isspace (byteAt line 6) then
          skip_spaces P (line.drop 7) else line) := rfl

theorem parse_entry_split (name value : CStr) (hn : c_eq ∉ name) (hne : name ≠ []) :
    parse_entry (name ++ c_eq :: value) =
      if (byteAt value 0 == 39 || byteAt value 0 == 34) &&
          byteAt value 0 == byteAt value (strlen value - 1) then
        (if strlen value < 2 then .error .undefined
         else .ok (some (name ++ c_eq :: (value.drop 1).take (strlen value - 2))))
      else .ok (some (name ++ c_eq :: value)) := by
  have hlen : (name.length == 0) = false := by simpa using hne
  have hd : (name ++ c_eq :: value).drop (name.length + 1) = value := by simp
  have ht : ∀ x : CStr, (name ++ c_eq :: value).take (name.length + 1) ++ x =
      name ++ c_eq :: x := by
    intro x
    rw [List.take_append_eq_append_take]; simp
  unfold parse_entry
  simp only [strcspn_append name value c_eq hn, byteAt_append_eq, hlen, hd, ht, bne_self_eq_false,
    Bool.or_self, Bool.false_eq_true, if_false]

theorem parse_entry_none (var : CStr) (h : c_eq ∉ var ∨ env_name var = []) :
    parse_entry var = .ok none := by
  unfold parse_entry
  dsimp only
  rw [if_pos]
  rcases h with h | h
  · have hb : byteAt var var.length = 0 := by
      unfold byteAt
      simp
    rw [strcspn_of_not_mem var c_eq h, hb]
    simp
  · have : strcspn var c_eq = 0 := by
      rw [strcspn_eq_indexOf, ← env_name_length, h]; rfl
    rw [this]
    simp

theorem quote_test_eq (value : CStr) :
    ((byteAt value 0 == 39 || byteAt value 0 == 34) &&
        byteAt value 0 == byteAt value (strlen value - 1)) =
      decide (value ≠ [] ∧ (value.head? = some 39 ∨ value.head? = some 34) ∧
        value.getLast? = value.head?) := by
  cases value with
  | nil => simp [byteAt]
  | cons a t =>
    have hlast := byteAt_last (a :: t) (by simp)
    have hb : byteAt (a :: t) 0 = a := rfl
    rw [hb, Bool.eq_iff_iff]
    simp only [Bool.and_eq_true, Bool.or_eq_true, beq_iff_eq, decide_eq_true_iff, ne_eq,
      List.cons_ne_self, not_false_eq_true, true_and, List.head?_cons, Option.some.injEq,
      reduceCtorEq]
    rw [← hlast, Option.some.injEq]
    constructor
    · rintro ⟨h1, h2⟩
      exact ⟨h1, h2.symm⟩
    · rintro ⟨h1, h2⟩
      exact ⟨h1, h2.symm⟩

/-- Apart from a raw value that is one quote character, `read_env_file` hands
to `sudo_putenv` the entry the line stands for, and skips the line when it
stands for none. -/
theorem parse_env_line_spec (P : Platform) (line : CStr) (h0 : 0 ∉ line)
    (hq : env_file_entry P line = none ∨
      (env_value (strip_export P line) ≠ [39] ∧ env_value (strip_export P line) ≠ [34])) :
    parse_env_line P line = .ok (env_file_entry P line) := by
  rw [parse_env_line_eq, byteAt_zero_nil line h0]
  by_cases hl : line = []
  · subst hl
    rfl
  rw [decide_eq_false hl, if_neg (by simp)]
  have hvar : (if (strncmp_eq line (cstr "export") 6 && P.isspace (byteAt line 6)) = true then
      skip_spaces P (line.drop 7) else line) = strip_export P line := by
    unfold strip_export
    rw [strncmp_lit line (cstr "export") 6 (by decide), skip_spaces_eq]
    have e : (cstr "export").take 6 = cstr "export" := by decide
    rw [e]
    by_cases hp : cstr "export" <+: line <;> by_cases hs : P.isspace (byteAt line 6) = true <;>
      simp [hp, hs]
  unfold env_file_entry at hq ⊢
  dsimp only at hq ⊢
  rw [hvar]
  generalize strip_export P line = rest at hq ⊢
  by_cases hc : c_eq ∈ rest
  · by_cases hne : env_name rest = []
    · rw [parse_entry_none rest (Or.inr hne), if_pos (Or.inr (Or.inl hne))]
    have hrest : rest ≠ [] := by
      rintro rfl
      exact hne rfl
    rw [if_neg (by simp [hrest, hne, hc])] at hq ⊢
    obtain ⟨value, hv⟩ := env_name_split rest hc
    have hn := env_name_not_mem rest
    have hval : env_value rest = value := by
      rw [hv]; exact env_value_append _ _ hn
    rw [hval] at hq ⊢
    generalize env_name rest = name at hv hn hne
    subst hv
    have hq' : value ≠ [39] ∧ value ≠ [34] := by
      rcases hq with hq | hq
      · simp at hq
      · exact hq
    rw [parse_entry_split name value hn hne, quote_test_eq]
    unfold unquote
    by_cases hpair : (value.head? = some 39 ∨ value.head? = some 34) ∧
        value.getLast? = value.head?
    · have hv2 : 2 ≤ value.length := by
        match value, hq', hpair with
        | [], _, hp => simp at hp
        | [a], hq', hp =>
          exfalso
          rcases hp.1 with e | e
          · exact hq'.1 (by simpa using e)
          · exact hq'.2 (by simpa using e)
        | a :: b :: t, _, _ => simp
      have hvne : value ≠ [] := by
        rintro rfl
        simp at hv2
      rw [if_pos (by simpa using ⟨hvne, hpair⟩), if_neg (by unfold strlen; omega),
        if_pos ⟨hv2, hpair⟩, List.dropLast_eq_take]
      unfold strlen
      rw [List.length_drop]
      rfl
    · rw [if_neg (by simp only [decide_eq_true_iff]; exact fun h => hpair h.2),
        if_neg (fun h => hpair h.2)]
  · rw [parse_entry_none rest (Or.inl hc), if_pos (Or.inr (Or.inr hc))]

/-- The one case apart: a line that stands for an entry whose raw value is one
quote character. -/
theorem parse_env_line_one_quote (P : Platform) (line : CStr) (h0 : 0 ∉ line)
    (he : env_file_entry P line ≠ none)
    (hq : env_value (strip_export P line) = [39] ∨ env_value (strip_export P line) = [34]) :
    parse_env_line P line = .error .undefined := by
  rw [parse_env_line_eq, byteAt_zero_nil line h0]
  by_cases hl : line = []
  · subst hl
    exact absurd rfl he
  rw [decide_eq_false hl, if_neg (by simp)]
  have hvar : (if (strncmp_eq line (cstr "export") 6 && P.isspace (byteAt line 6)) = true then
      skip_spaces P (line.drop 7) else line) = strip_export P line := by
    unfold strip_export
    rw [strncmp_lit line (cstr "export") 6 (by decide), skip_spaces_eq]
    have e : (cstr "export").take 6 = cstr "export" := by decide
    rw [e]
    by_cases hp : cstr "export" <+: line <;> by_cases hs : P.isspace (byteAt line 6) = true <;>
      simp [hp, hs]
  unfold env_file_entry at he
  dsimp only at he
  rw [hvar]
  generalize strip_export P line = rest at he hq
  have hcond : ¬ (rest = [] ∨ env_name rest = [] ∨ c_eq ∉ rest) := by
    intro h
    rw [if_pos h] at he
    exact he rfl
  have hc : c_eq ∈ rest := by
    by_contra h
    exact hcond (Or.inr (Or.inr h))
  have hne : env_name rest ≠ [] := fun h => hcond (Or.inr (Or.inl h))
  obtain ⟨value, hv⟩ := env_name_split rest hc
  have hn := env_name_not_mem rest
  have hval : env_value rest = value := by
    rw [hv]; exact env_value_append _ _ hn
  rw [hval] at hq
  generalize env_name rest = name at hv hn hne
  subst hv
  rw [parse_entry_split name value hn hne]
  rcases hq with rfl | rfl <;> rfl

/-! ### The clean slate, apart from the entries that begin with `SUDO_PS1` -/

theorem v_keep_loop_ps1_named (S : Sudoers) (old : List CStr) (v : View)
    (hold : ∀ e ∈ old, cstr "SUDO_PS1" <+: e → named (cstr "SUDO_PS1") e = true)
    (h : ∀ p, v.ps1 = some p → named (cstr "PS1") p = true) :
    ∀ p, (v_keep_loop S old v).ps1 = some p → named (cstr "PS1") p = true := by
  induction old generalizing v with
  | nil => exact h
  | cons ep rest ih =>
    rw [v_keep_loop]
    dsimp only
    have hrest : ∀ e ∈ rest, cstr "SUDO_PS1" <+: e → named (cstr "SUDO_PS1") e = true :=
      fun e he => hold e (List.mem_cons_of_mem _ he)
    have h1 : ∀ p, (if strncmp_eq ep (cstr "SUDO_PS1=") 8 = true then
        { v with ps1 := some (ep.drop 5) } else v : View).ps1 = some p →
        named (cstr "PS1") p = true := by
      split
      · rename_i ht
        intro p hp
        have hp : ep.drop 5 = p := by simpa using hp
        have hst : cstr "SUDO_PS1" <+: ep := by
          have := strncmp_lit ep (cstr "SUDO_PS1=") 8 (by decide)
          rw [ht] at this
          have e : (cstr "SUDO_PS1=").take 8 = cstr "SUDO_PS1" := by decide
          rw [e] at this
          simpa using this.symm
        have hnm := hold ep (List.mem_cons_self _ _) hst
        obtain ⟨hm, hname⟩ := (named_iff _ _).1 hnm
        obtain ⟨value, hv⟩ := env_name_split ep hm
        rw [hname] at hv
        rw [← hp, hv]
        have e : (cstr "SUDO_PS1" ++ c_eq :: value).drop 5 = cstr "PS1" ++ c_eq :: value := rfl
        rw [e, named_set _ _ _ (by decide)]
        simp
      · exact h
    split
    · exact ih _ hrest h1
    · exact ih _ hrest h1

/-- The walk of the clean-slate branch appends, in their order, entries of the
old environment that `env_should_keep` accepts. -/
theorem v_keep_loop_sublist (S : Sudoers) (old : List CStr) (v : View) :
    ∃ t, (v_keep_loop S old v).entries = v.entries ++ t ∧
      t.Sublist (old.filter (env_should_keep S)) := by
  induction old generalizing v with
  | nil => exact ⟨[], by simp [v_keep_loop], List.Sublist.refl _⟩
  | cons ep rest ih =>
    rw [v_keep_loop]
    dsimp only
    generalize hw : (if strncmp_eq ep (cstr "SUDO_PS1=") 8 = true then
        { v with ps1 := some (ep.drop 5) } else v : View) = w
    have ew : w.entries = v.entries := by
      rw [← hw]; split <;> rfl
    by_cases hk : env_should_keep S ep = true
    · rw [if_pos hk, List.filter_cons, if_pos hk]
      obtain ⟨t, h1, h2⟩ := ih { v_put w ep true false with
        didvar := env_update_didvar ep w.didvar }
      have hc : (v_put w ep true false).entries = v.entries ∨
          (v_put w ep true false).entries = v.entries ++ [ep] := by
        rw [v_put_entries, ew]
        unfold put_result
        rw [if_pos rfl]
        exact put_keep_cases _ _ _
      have h1' : (v_keep_loop S rest { v_put w ep true false with
          didvar := env_update_didvar ep w.didvar }).entries =
          (v_put w ep true false).entries ++ t := h1
      rcases hc with hc | hc
      · exact ⟨t, by rw [h1', hc], h2.cons _⟩
      · exact ⟨ep :: t, by rw [h1', hc]; simp, h2.cons₂ _⟩
    · rw [if_neg hk, List.filter_cons, if_neg hk]
      obtain ⟨t, h1, h2⟩ := ih w
      exact ⟨t, by rw [h1, ew], h2⟩

/-- After its walk the clean-slate branch puts entries named `SHELL`, `LOGNAME`,
`USER`, `USERNAME` and `MAIL` only. -/
theorem v_reset_branch_puts (S : Sudoers) (old l0 : List CStr) (v : View) :
    Puts (fun s => ∃ M ∈ clean_slate_names, named M s = true)
      (v_keep_loop S old (if !S.sudo_mode.login_shell then v_seed l0 v else v)).entries
      (v_reset_branch S old l0 v).entries := by
  have sub : ∀ ns : List CStr, (∀ n ∈ ns, c_eq ∉ n) → (∀ n ∈ ns, n ∈ clean_slate_names) →
      ∀ s, sets ns s → ∃ M ∈ clean_slate_names, named M s = true := by
    intro ns h1 h2 s hs
    obtain ⟨M, hM, hn⟩ := sets_named ns s h1 hs
    exact ⟨M, h2 M hM, hn⟩
  unfold v_reset_branch
  dsimp only
  generalize v_keep_loop S old (if (!S.sudo_mode.login_shell) = true then v_seed l0 v else v) = vk
  have p1 := (v_reset_defaults_puts S
    { vk with didvar := (vk.didvar ||| (vk.didvar <<< 8)) % 2 ^ 32 }).mono
    (sub _ (by decide) (by decide))
  generalize v_reset_defaults S
    { vk with didvar := (vk.didvar ||| (vk.didvar <<< 8)) % 2 ^ 32 } = vd at p1 ⊢
  have p2 := (v_reset_mail_puts S
    (if (!ISSET vd.didvar KEPT_HOME) = true then { vd with reset_home := true } else vd)).mono
    (sub _ (by decide) (by decide))
  have e : (if (!ISSET vd.didvar KEPT_HOME) = true then { vd with reset_home := true }
      else vd : View).entries = vd.entries := by
    split <;> rfl
  rw [e] at p2
  exact p1.trans p2

/-- The claim of C27, for an old environment in which every entry that begins
with `SUDO_PS1` is named `SUDO_PS1`: after a successful `rebuild_env` in the
clean-slate branch without seeded defaults, the entries of the result named `N`,
for `N` outside the thirteen names, are the first entry named `N` that
`env_should_keep` accepts, or none; and the entries of the result with other
names than the thirteen are, in their order, kept entries of the old
environment. -/
theorem rebuild_env_clean_slate_others (S : Sudoers) (env env' : Environment)
    (h : rebuild_env S env = .ok env')
    (hbranch : (S.def_env_reset || S.sudo_mode.login_shell) = true)
    (hseed : S.plat.reads_environment = false)
    (hps : ∀ e ∈ env_entries env, cstr "SUDO_PS1" <+: e → named (cstr "SUDO_PS1") e = true) :
    (∀ N, N ∉ clean_slate_names →
      (env_entries env').filter (named N) = (kept_entry S (env_entries env) N).toList) ∧
    ((env_entries env').filter (other_entry clean_slate_names)).Sublist
      ((env_entries env).filter (env_should_keep S)) := by
  obtain ⟨oldv, l0, hv, hl0, _, he⟩ := rebuild_env_view S env env' h
  have hw : env_entries env = walk oldv := by unfold env_entries; rw [hv]
  rw [he]
  rw [hw] at hps ⊢
  generalize walk oldv = old at hps ⊢
  have hl0' : l0 = [] := hl0 hseed
  subst hl0'
  unfold v_rebuild
  dsimp only
  rw [if_pos hbranch]
  generalize hv0 : (⟨[], 0, none, S.sudo_mode.run &&
      (S.def_always_set_home || (S.sudo_mode.reset_home || S.sudo_mode.login_shell) ||
        (S.sudo_mode.shell && S.def_set_home))⟩ : View) = v0
  have es : (if (!S.sudo_mode.login_shell) = true then v_seed [] v0 else v0) = v0 := by
    rw [← hv0]
    split <;> rfl
  have h0 : v0.ps1 = none ∧ v0.entries = [] := by
    rw [← hv0]; exact ⟨rfl, rfl⟩
  have hk := v_keep_loop_ps1_named S old v0 hps (by rw [h0.1]; intro p hp; cases hp)
  have hps1 : ∀ p, (v_reset_branch S old [] v0).ps1 = some p → named (cstr "PS1") p = true := by
    rw [v_reset_branch_ps1, es]
    exact hk
  have hsub : ∀ M ∈ filter_only_names, M ∈ clean_slate_names := by decide
  have tail := (v_tail_puts S (v_reset_branch S old [] v0) hps1).mono
    (fun s (hs : ∃ M ∈ filter_only_names, named M s = true) =>
      (hs.elim fun M hM => ⟨M, hsub M hM.1, hM.2⟩ :
        ∃ M ∈ clean_slate_names, named M s = true))
  have mid := v_reset_branch_puts S old [] v0
  rw [es] at mid
  have all := mid.trans tail
  constructor
  · intro N hN
    rw [all.filter N (fun s hs => not_named_of_other _ N s hN hs)]
    have := v_keep_loop_filter S N old [] v0 (by rw [h0.2]; rfl)
    simpa [kept_entry] using this
  · rw [all.filter_other clean_slate_names (fun s hs => hs)]
    obtain ⟨t, h1, h2⟩ := v_keep_loop_sublist S old v0
    rw [h1, h0.2, List.nil_append]
    exact (List.filter_sublist t).trans h2

/-! ### The uniqueness of names -/

theorem has_entry_put_inv (N : CStr) (l : List CStr) (str : CStr) (d o : Bool)
    (h : has_entry (put_result l str d o) N) : has_entry l N ∨ named N str = true := by
  obtain ⟨x, hx, hn⟩ := h
  rcases mem_put_result l str d o x hx with rfl | hx
  · exact Or.inr hn
  · exact Or.inl ⟨x, hx, hn⟩

/-- A put with the duplicate check keeps a name single. -/
theorem count_put_dup (N : CStr) (l : List CStr) (str : CStr) (o : Bool)
    (h : (l.filter (named N)).length ≤ 1) :
    ((put_result l str true o).filter (named N)).length ≤ 1 := by
  by_cases hs : named N str = true
  · obtain ⟨hm, hn⟩ := (named_iff _ _).1 hs
    cases o with
    | true =>
      subst hn
      rw [named_put_same l str hm]
      exact Nat.le_refl _
    | false =>
      rw [named_put_keep l str N hs]
      split
      · exact Nat.le_refl _
      · exact h
  · rw [named_put_other N l str true o (by simpa using hs)]
    exact h

/-- A put without the duplicate check keeps a name single when the table holds
no entry of the name of the new one. -/
theorem count_put_new (N : CStr) (l : List CStr) (str : CStr) (o : Bool)
    (h : (l.filter (named N)).length ≤ 1)
    (hnew : named N str = true → ¬ has_entry l N) :
    ((put_result l str false o).filter (named N)).length ≤ 1 := by
  unfold put_result
  rw [if_neg (by simp), List.filter_append]
  by_cases hs : named N str = true
  · have : l.filter (named N) = [] := by
      rw [List.filter_eq_nil_iff]
      intro x hx hnx
      exact hnew hs ⟨x, hx, hnx⟩
    rw [this]
    simp [List.filter_cons, hs]
  · simp only [List.filter_cons, hs, Bool.false_eq_true, if_false, List.filter_nil,
      List.append_nil]
    exact h

theorem count_put (N : CStr) (l : List CStr) (str : CStr) (d o : Bool)
    (h : (l.filter (named N)).length ≤ 1)
    (hnew : d = false → named N str = true → ¬ has_entry l N) :
    ((put_result l str d o).filter (named N)).length ≤ 1 := by
  cases d with
  | true => exact count_put_dup N l str o h
  | false => exact count_put_new N l str o h (hnew rfl)

theorem marked_sub (fl fl' : List (Nat × CStr)) (v : View) (h : Marked fl v)
    (hs : ∀ p ∈ fl', p ∈ fl) : Marked fl' v :=
  fun p hp => h p (hs p hp)

/-- A put keeps the marks when the flag of the name put, if it is one of `fl`,
is set afterwards and no flag is cleared. -/
theorem marked_put (fl : List (Nat × CStr)) (v : View) (str : CStr) (d o : Bool) (d' : Nat)
    (h : Marked fl v)
    (hnew : ∀ p ∈ fl, named p.2 str = true → ISSET d' p.1 = true)
    (hold : ∀ p ∈ fl, ISSET v.didvar p.1 = true → ISSET d' p.1 = true) :
    Marked fl { v_put v str d o with didvar := d' } := by
  intro p hp hhas
  rcases has_entry_put_inv p.2 v.entries str d o hhas with h1 | h1
  · exact hold p hp (h p hp h1)
  · exact hnew p hp h1

theorem marked_put_other (fl : List (Nat × CStr)) (v : View) (str : CStr) (d o : Bool)
    (h : Marked fl v) (hnew : ∀ p ∈ fl, named p.2 str = false) :
    Marked fl (v_put v str d o) := by
  intro p hp hhas
  rcases has_entry_put_inv p.2 v.entries str d o hhas with h1 | h1
  · exact h p hp h1
  · rw [hnew p hp] at h1
    cases h1

theorem marked_set_other (fl : List (Nat × CStr)) (v : View) (X val : CStr) (d o : Bool)
    (hX : c_eq ∉ X) (h : Marked fl v) (hnew : ∀ p ∈ fl, p.2 ≠ X) :
    Marked fl (v_set v X val d o) :=
  marked_put_other fl v _ d o h (fun p hp => by
    rw [named_set _ _ _ hX]
    simpa using (hnew p hp).symm)

theorem not_has_of_marked (g : Nat) (X : CStr) (fl : List (Nat × CStr)) (v : View)
    (h : Marked fl v) (hm : (g, X) ∈ fl) (hc : ISSET v.didvar g = false) :
    ¬ has_entry v.entries X := by
  intro hh
  have := h (g, X) hm hh
  rw [hc] at this
  cases this

theorem named_did_test (ep : CStr) :
    ∀ p ∈ did_names, named p.2 ep = true → did_test p.1 ep = true := by
  intro p hp hn
  rcases List.mem_append.1 hp with h | h
  · rw [did_test_named ep p h]; exact hn
  · have : p = (DID_USERNAME, cstr "USERNAME") := by simpa using h
    subst this
    rw [did_test_username]
    simpa using named_username_starts ep hn

theorem did_names_flags : ∀ p ∈ did_names,
    p.1 ∈ [DID_TERM, DID_PATH, DID_HOME, DID_SHELL, DID_LOGNAME, DID_USER, DID_USERNAME,
      DID_MAIL] := by
  decide

theorem v_keep_loop_single (S : Sudoers) (N : CStr) (old : List CStr) (v : View)
    (hc : (v.entries.filter (named N)).length ≤ 1) (hm : Marked did_names v) :
    ((v_keep_loop S old v).entries.filter (named N)).length ≤ 1 ∧
      Marked did_names (v_keep_loop S old v) := by
  induction old generalizing v with
  | nil => exact ⟨hc, hm⟩
  | cons ep rest ih =>
    rw [v_keep_loop]
    dsimp only
    generalize hw : (if strncmp_eq ep (cstr "SUDO_PS1=") 8 = true then
        { v with ps1 := some (ep.drop 5) } else v : View) = w
    have ew : w.entries = v.entries ∧ w.didvar = v.didvar := by
      rw [← hw]; split <;> exact ⟨rfl, rfl⟩
    have hcw : (w.entries.filter (named N)).length ≤ 1 := by rw [ew.1]; exact hc
    have hmw : Marked did_names w := by
      intro p hp hh
      rw [ew.2]
      exact hm p hp (by rw [← ew.1]; exact hh)
    split
    · apply ih
      · exact count_put_dup N w.entries ep false hcw
      · apply marked_put did_names w ep true false _ hmw
        · intro p hp hn
          rw [env_update_didvar_flag ep _ _ (did_names_flags p hp), named_did_test ep p hp hn,
            Bool.or_true]
        · intro p hp hs
          rw [env_update_didvar_flag ep _ _ (did_names_flags p hp), hs, Bool.true_or]
    · exact ih w hcw hmw

theorem v_delete_loop_single (S : Sudoers) (N : CStr) (old : List CStr) (v : View)
    (hc : (v.entries.filter (named N)).length ≤ 1)
    (hm : Marked [(DID_SHELL, cstr "SHELL"), (DID_PATH, cstr "PATH"), (DID_TERM, cstr "TERM")] v) :
    ((v_delete_loop S old v).entries.filter (named N)).length ≤ 1 ∧
      Marked [(DID_SHELL, cstr "SHELL"), (DID_PATH, cstr "PATH"), (DID_TERM, cstr "TERM")]
        (v_delete_loop S old v) := by
  induction old generalizing v with
  | nil => exact ⟨hc, hm⟩
  | cons ep rest ih =>
    rw [v_delete_loop]
    split
    · dsimp only
      have e9 := strncmp_name ep (cstr "SUDO_PS1") (by decide)
      have e6 := strncmp_name ep (cstr "SHELL") (by decide)
      have e5 := strncmp_name ep (cstr "PATH") (by decide)
      have e4 := strncmp_name ep (cstr "TERM") (by decide)
      have r9 : strncmp_eq ep (cstr "SUDO_PS1=") 9 = named (cstr "SUDO_PS1") ep := e9
      have r6 : strncmp_eq ep (cstr "SHELL=") 6 = named (cstr "SHELL") ep := e6
      have r5 : strncmp_eq ep (cstr "PATH=") 5 = named (cstr "PATH") ep := e5
      have r4 : strncmp_eq ep (cstr "TERM=") 5 = named (cstr "TERM") ep := e4
      rw [r9, r6, r5, r4]
      generalize hw : (if named (cstr "SUDO_PS1") ep = true then
          { v with ps1 := some (ep.drop 5) }
        else if named (cstr "SHELL") ep = true then
          { v with didvar := SET v.didvar DID_SHELL }
        else if named (cstr "PATH") ep = true then
          { v with didvar := SET v.didvar DID_PATH }
        else if named (cstr "TERM") ep = true then
          { v with didvar := SET v.didvar DID_TERM }
        else v : View) = w
      have ew : w.entries = v.entries := by
        rw [← hw]
        repeat' split
        all_goals rfl
      have hold : ∀ g, ISSET v.didvar g = true → ISSET w.didvar g = true := by
        intro g hg
        rw [← hw]
        repeat' split
        all_goals first | exact hg | (show ISSET (SET _ _) g = true; rw [ISSET_SET_or, hg]; rfl)
      have hnew : ∀ p ∈ [(DID_SHELL, cstr "SHELL"), (DID_PATH, cstr "PATH"),
          (DID_TERM, cstr "TERM")], named p.2 ep = true → ISSET w.didvar p.1 = true := by
        intro p hp hn
        have hne : ∀ M, M ≠ p.2 → named M ep = false := by
          intro M hM
          cases hx : named M ep with
          | false => rfl
          | true => exact absurd (named_unique M p.2 ep hx hn) hM
        simp only [List.mem_cons, List.mem_singleton, List.mem_nil_iff, or_false] at hp
        rcases hp with rfl | rfl | rfl
        · rw [← hw, hne (cstr "SUDO_PS1") (by decide), if_neg (by simp), if_pos hn]
          show ISSET (SET _ _) _ = true
          rw [ISSET_SET_or]; simp +decide
        · rw [← hw, hne (cstr "SUDO_PS1") (by decide), if_neg (by simp),
            hne (cstr "SHELL") (by decide), if_neg (by simp), if_pos hn]
          show ISSET (SET _ _) _ = true
          rw [ISSET_SET_or]; simp +decide
        · rw [← hw, hne (cstr "SUDO_PS1") (by decide), if_neg (by simp),
            hne (cstr "SHELL") (by decide), if_neg (by simp),
            hne (cstr "PATH") (by decide), if_neg (by simp), if_pos hn]
          show ISSET (SET _ _) _ = true
          rw [ISSET_SET_or]; simp +decide
      apply ih
      · show ((put_result w.entries ep true false).filter (named N)).length ≤ 1
        rw [ew]
        exact count_put_dup N v.entries ep false hc
      · intro p hp hhas
        show ISSET w.didvar p.1 = true
        have hhas' : has_entry (put_result v.entries ep true false) p.2 := by
          rw [← ew]; exact hhas
        rcases has_entry_put_inv p.2 v.entries ep true false hhas' with h1 | h1
        · exact hold _ (hm p hp h1)
        · exact hnew p hp h1
    · exact ih v hc hm

theorem named_set_eq (N X val : CStr) (hX : c_eq ∉ X) (h : named N (X ++ c_eq :: val) = true) :
    N = X := by
  rw [named_set N X val hX] at h
  exact (of_decide_eq_true h).symm

/-- One put: the name `N` stays single when the put checks for duplicates or no
entry of the name put exists, and the marks of `fl'` stay when the put is of
another name. -/
theorem step_put (N : CStr) (fl fl' : List (Nat × CStr)) (v : View) (str : CStr) (d o : Bool)
    (hc : (v.entries.filter (named N)).length ≤ 1) (hm : Marked fl v)
    (hsub : ∀ p ∈ fl', p ∈ fl ∧ named p.2 str = false)
    (hnew : d = false → named N str = true → ¬ has_entry v.entries N) :
    ((v_put v str d o).entries.filter (named N)).length ≤ 1 ∧ Marked fl' (v_put v str d o) :=
  ⟨count_put N v.entries str d o hc hnew,
    marked_put_other fl' v str d o (marked_sub fl fl' v hm (fun p hp => (hsub p hp).1))
      (fun p hp => (hsub p hp).2)⟩

theorem step_when (N : CStr) (fl fl' : List (Nat × CStr)) (v : View) (c : Bool) (str : CStr)
    (d o : Bool) (hc : (v.entries.filter (named N)).length ≤ 1) (hm : Marked fl v)
    (hsub : ∀ p ∈ fl', p ∈ fl ∧ named p.2 str = false)
    (hnew : c = true → d = false → named N str = true → ¬ has_entry v.entries N) :
    ((if c then v_put v str d o else v).entries.filter (named N)).length ≤ 1 ∧
      Marked fl' (if c then v_put v str d o else v) := by
  cases c with
  | true => exact step_put N fl fl' v str d o hc hm hsub (hnew rfl)
  | false => exact ⟨hc, marked_sub fl fl' v hm (fun p hp => (hsub p hp).1)⟩

theorem sub_other (fl fl' : List (Nat × CStr)) (X val : CStr) (hX : c_eq ∉ X)
    (h : ∀ p ∈ fl', p ∈ fl ∧ p.2 ≠ X) :
    ∀ p ∈ fl', p ∈ fl ∧ named p.2 (X ++ c_eq :: val) = false := by
  intro p hp
  refine ⟨(h p hp).1, ?_⟩
  rw [named_set _ _ _ hX]
  simpa using (h p hp).2.symm

/-- The put of `X=val` that checks for duplicates exactly when the flag `g` of
`X` is set. -/
theorem step_set_flag (N : CStr) (fl fl' : List (Nat × CStr)) (v : View) (g : Nat)
    (X val : CStr) (o : Bool) (hX : c_eq ∉ X)
    (hc : (v.entries.filter (named N)).length ≤ 1) (hm : Marked fl v) (hg : (g, X) ∈ fl)
    (hsub : ∀ p ∈ fl', p ∈ fl ∧ p.2 ≠ X) :
    ((v_set v X val (ISSET v.didvar g) o).entries.filter (named N)).length ≤ 1 ∧
      Marked fl' (v_set v X val (ISSET v.didvar g) o) :=
  step_put N fl fl' v _ _ o hc hm (sub_other fl fl' X val hX hsub)
    (fun hd hn => by
      rw [named_set_eq N X val hX hn]
      exact not_has_of_marked g X fl v hm hg hd)

/-- The put of `X=val` without a duplicate check that is made when the flag `g`
of `X` is clear. -/
theorem step_unless_flag (N : CStr) (fl fl' : List (Nat × CStr)) (v : View) (g : Nat)
    (X val : CStr) (o : Bool) (hX : c_eq ∉ X)
    (hc : (v.entries.filter (named N)).length ≤ 1) (hm : Marked fl v)
    (hg : N = X → (g, X) ∈ fl) (hsub : ∀ p ∈ fl', p ∈ fl ∧ p.2 ≠ X) :
    ((if !ISSET v.didvar g then v_set v X val false o else v).entries.filter
        (named N)).length ≤ 1 ∧
      Marked fl' (if !ISSET v.didvar g then v_set v X val false o else v) :=
  step_when N fl fl' v _ _ false o hc hm (sub_other fl fl' X val hX hsub)
    (fun hcnd _ hn => by
      have hNX := named_set_eq N X val hX hn
      rw [hNX]
      exact not_has_of_marked g X fl v hm (hg hNX) (by simpa using hcnd))

theorem v_reset_defaults_single (S : Sudoers) (N : CStr) (v : View)
    (hc : (v.entries.filter (named N)).length ≤ 1) (hm : Marked did_names v) :
    ((v_reset_defaults S v).entries.filter (named N)).length ≤ 1 ∧
      Marked [(DID_TERM, cstr "TERM"), (DID_PATH, cstr "PATH"), (DID_MAIL, cstr "MAIL")]
        (v_reset_defaults S v) ∧
      (S.sudo_mode.login_shell = false →
        Marked [(DID_SHELL, cstr "SHELL")] (v_reset_defaults S v)) := by
  unfold v_reset_defaults
  by_cases hl : S.sudo_mode.login_shell = true
  · rw [if_pos hl]
    dsimp only
    obtain ⟨c1, m1⟩ := step_set_flag N did_names
      [(DID_TERM, cstr "TERM"), (DID_PATH, cstr "PATH"), (DID_MAIL, cstr "MAIL"),
        (DID_LOGNAME, cstr "LOGNAME"), (DID_USER, cstr "USER"),
        (DID_USERNAME, cstr "USERNAME")]
      v DID_SHELL (cstr "SHELL") S.runas_pw.pw_shell true (by decide) hc hm (by decide)
      (by decide)
    generalize v_set v (cstr "SHELL") S.runas_pw.pw_shell (ISSET v.didvar DID_SHELL) true = v1
      at c1 m1 ⊢
    obtain ⟨c2, m2⟩ := step_set_flag N _
      [(DID_TERM, cstr "TERM"), (DID_PATH, cstr "PATH"), (DID_MAIL, cstr "MAIL"),
        (DID_USER, cstr "USER"), (DID_USERNAME, cstr "USERNAME")]
      v1 DID_LOGNAME (cstr "LOGNAME") S.runas_pw.pw_name true (by decide) c1 m1 (by decide)
      (by decide)
    generalize v_set v1 (cstr "LOGNAME") S.runas_pw.pw_name (ISSET v1.didvar DID_LOGNAME) true
      = v2 at c2 m2 ⊢
    obtain ⟨c3, m3⟩ := step_set_flag N _
      [(DID_TERM, cstr "TERM"), (DID_PATH, cstr "PATH"), (DID_MAIL, cstr "MAIL"),
        (DID_USERNAME, cstr "USERNAME")]
      v2 DID_USER (cstr "USER") S.runas_pw.pw_name true (by decide) c2 m2 (by decide)
      (by decide)
    generalize v_set v2 (cstr "USER") S.runas_pw.pw_name (ISSET v2.didvar DID_USER) true
      = v3 at c3 m3 ⊢
    obtain ⟨c4, m4⟩ := step_set_flag N _
      [(DID_TERM, cstr "TERM"), (DID_PATH, cstr "PATH"), (DID_MAIL, cstr "MAIL")]
      v3 DID_USERNAME (cstr "USERNAME") S.runas_pw.pw_name true (by decide) c3 m3 (by decide)
      (by decide)
    exact ⟨c4, m4, fun h => by rw [hl] at h; cases h⟩
  · rw [if_neg hl]
    by_cases hs : (!S.def_set_logname) = true
    · rw [if_pos hs]
      dsimp only
      obtain ⟨c1, m1⟩ := step_unless_flag N did_names
        [(DID_TERM, cstr "TERM"), (DID_PATH, cstr "PATH"), (DID_MAIL, cstr "MAIL"),
          (DID_SHELL, cstr "SHELL"), (DID_USER, cstr "USER"), (DID_USERNAME, cstr "USERNAME")]
        v DID_LOGNAME (cstr "LOGNAME") S.user_name true (by decide) hc hm
        (fun _ => by decide) (by decide)
      generalize (if (!ISSET v.didvar DID_LOGNAME) = true then
        v_set v (cstr "LOGNAME") S.user_name false true else v) = v1 at c1 m1 ⊢
      obtain ⟨c2, m2⟩ := step_unless_flag N _
        [(DID_TERM, cstr "TERM"), (DID_PATH, cstr "PATH"), (DID_MAIL, cstr "MAIL"),
          (DID_SHELL, cstr "SHELL"), (DID_USERNAME, cstr "USERNAME")]
        v1 DID_USER (cstr "USER") S.user_name true (by decide) c1 m1
        (fun _ => by decide) (by decide)
      generalize (if (!ISSET v1.didvar DID_USER) = true then
        v_set v1 (cstr "USER") S.user_name false true else v1) = v2 at c2 m2 ⊢
      obtain ⟨c3, m3⟩ := step_unless_flag N _
        [(DID_TERM, cstr "TERM"), (DID_PATH, cstr "PATH"), (DID_MAIL, cstr "MAIL"),
          (DID_SHELL, cstr "SHELL")]
        v2 DID_USERNAME (cstr "USERNAME") S.user_name true (by decide) c2 m2
        (fun _ => by decide) (by decide)
      exact ⟨c3, marked_sub _ _ _ m3 (by decide), fun _ => marked_sub _ _ _ m3 (by decide)⟩
    · rw [if_neg hs]
      exact ⟨hc, marked_sub _ _ _ hm (by decide), fun _ => marked_sub _ _ _ hm (by decide)⟩

theorem v_reset_mail_single (S : Sudoers) (N : CStr) (fl : List (Nat × CStr)) (v : View)
    (hc : (v.entries.filter (named N)).length ≤ 1)
    (hm : Marked [(DID_TERM, cstr "TERM"), (DID_PATH, cstr "PATH"), (DID_MAIL, cstr "MAIL")] v)
    (hs : Marked fl v) (hfl : ∀ p ∈ fl, p.2 ≠ cstr "MAIL") :
    ((v_reset_mail S v).entries.filter (named N)).length ≤ 1 ∧
      Marked [(DID_PATH, cstr "PATH"), (DID_TERM, cstr "TERM")] (v_reset_mail S v) ∧
      Marked fl (v_reset_mail S v) := by
  unfold v_reset_mail
  have e : ∀ x : CStr, cstr "MAIL=" ++ x = cstr "MAIL" ++ c_eq :: x := fun x => rfl
  split
  · dsimp only
    have key : ∀ val : CStr,
        ((v_set v (cstr "MAIL") val (ISSET v.didvar DID_MAIL) true).entries.filter
          (named N)).length ≤ 1 ∧
        Marked [(DID_PATH, cstr "PATH"), (DID_TERM, cstr "TERM")]
          (v_set v (cstr "MAIL") val (ISSET v.didvar DID_MAIL) true) ∧
        Marked fl (v_set v (cstr "MAIL") val (ISSET v.didvar DID_MAIL) true) := by
      intro val
      obtain ⟨c1, m1⟩ := step_set_flag N _ [(DID_PATH, cstr "PATH"), (DID_TERM, cstr "TERM")]
        v DID_MAIL (cstr "MAIL") val true (by decide) hc hm (by decide) (by decide)
      exact ⟨c1, m1, marked_set_other fl v _ val _ true (by decide) hs hfl⟩
    split
    · rw [List.append_assoc, e]
      exact key _
    · rw [List.append_assoc, e]
      exact key _
  · exact ⟨hc, marked_sub _ _ _ hm (by decide), hs⟩

theorem marked_flags (fl : List (Nat × CStr)) (v w : View) (he : w.entries = v.entries)
    (hd : ∀ p ∈ fl, ISSET v.didvar p.1 = true → ISSET w.didvar p.1 = true)
    (h : Marked fl v) : Marked fl w := by
  intro p hp hh
  rw [he] at hh
  exact hd p hp (h p hp hh)

theorem v_secure_path_step_single (S : Sudoers) (N : CStr) (fl : List (Nat × CStr)) (v : View)
    (hc : (v.entries.filter (named N)).length ≤ 1) (hm : Marked fl v)
    (hfl : ∀ p ∈ fl, p.2 = cstr "PATH" → p.1 = DID_PATH) :
    ((v_secure_path_step S v).entries.filter (named N)).length ≤ 1 ∧
      Marked fl (v_secure_path_step S v) := by
  unfold v_secure_path_step
  cases S.def_secure_path with
  | none => exact ⟨hc, hm⟩
  | some sp =>
    dsimp only
    split
    · refine ⟨count_put_dup N v.entries _ true hc, ?_⟩
      apply marked_put fl v (cstr "PATH" ++ c_eq :: sp) true true _ hm
      · intro p hp hn
        have : p.2 = cstr "PATH" := named_set_eq p.2 _ sp (by decide) hn
        rw [hfl p hp this, ISSET_SET_or]
        simp +decide
      · intro p hp hs
        rw [ISSET_SET_or, hs, Bool.true_or]
    · exact ⟨hc, hm⟩

theorem v_logname_step_count (S : Sudoers) (N : CStr) (v : View)
    (hc : (v.entries.filter (named N)).length ≤ 1) :
    ((v_logname_step S v).entries.filter (named N)).length ≤ 1 := by
  have one : ∀ (w : View) (X val : CStr), (w.entries.filter (named N)).length ≤ 1 →
      ((v_set w X val true true).entries.filter (named N)).length ≤ 1 :=
    fun w X val h => count_put_dup N w.entries _ true h
  have opt : ∀ (w : View) (c : Bool) (X val : CStr), (w.entries.filter (named N)).length ≤ 1 →
      ((if c then v_set w X val true true else w).entries.filter (named N)).length ≤ 1 := by
    intro w c X val h
    cases c with
    | true => exact one w X val h
    | false => exact h
  unfold v_logname_step
  split
  · split
    · dsimp only
      exact one _ _ _ (one _ _ _ (one _ _ _ hc))
    · split
      · dsimp only
        split
        · exact opt _ _ _ _ (opt _ _ _ _ (opt _ _ _ _ hc))
        · exact hc
      · exact hc
  · exact hc

theorem v_logname_step_marked (S : Sudoers) (fl : List (Nat × CStr)) (v : View)
    (hm : Marked fl v)
    (hfl : ∀ p ∈ fl, p.2 ∉ [cstr "LOGNAME", cstr "USER", cstr "USERNAME"]) :
    Marked fl (v_logname_step S v) := by
  intro p hp hh
  rw [(v_logname_step_fields S v).1]
  apply hm p hp
  rw [has_entry_iff_filter] at hh ⊢
  rw [(v_logname_step_puts S v).filter p.2
    (fun s hs => sets_not_named _ _ _ (by decide) (hfl p hp) hs)] at hh
  exact hh

theorem v_defaults_single (S : Sudoers) (N : CStr) (v : View)
    (hc : (v.entries.filter (named N)).length ≤ 1)
    (hm : Marked [(DID_PATH, cstr "PATH"), (DID_TERM, cstr "TERM")] v)
    (hs : N = cstr "SHELL" → Marked [(DID_SHELL, cstr "SHELL")] v) :
    ((v_defaults S v).entries.filter (named N)).length ≤ 1 := by
  unfold v_defaults
  dsimp only
  -- HOME
  have mS : N = cstr "SHELL" → Marked [(DID_SHELL, cstr "SHELL")]
      (if v.reset_home = true then v_set v (cstr "HOME") S.runas_pw.pw_dir true true else v) := by
    intro hN
    have := hs hN
    split
    · exact marked_set_other _ v _ _ true true (by decide) this (by decide)
    · exact this
  obtain ⟨c1, m1⟩ := step_when N _ [(DID_PATH, cstr "PATH"), (DID_TERM, cstr "TERM")] v
    v.reset_home (cstr "HOME" ++ c_eq :: S.runas_pw.pw_dir) true true hc hm
    (sub_other _ _ _ _ (by decide) (by decide)) (fun _ hd => by cases hd)
  have e1 : (if v.reset_home = true then
      v_put v (cstr "HOME" ++ c_eq :: S.runas_pw.pw_dir) true true else v) =
      (if v.reset_home = true then v_set v (cstr "HOME") S.runas_pw.pw_dir true true else v) :=
    rfl
  rw [e1] at c1 m1
  generalize (if v.reset_home = true then
    v_set v (cstr "HOME") S.runas_pw.pw_dir true true else v) = v1 at c1 m1 mS ⊢
  -- SHELL
  have c2 : ((if (!ISSET v1.didvar DID_SHELL) = true then
      v_set v1 (cstr "SHELL") S.runas_pw.pw_shell false false else v1).entries.filter
      (named N)).length ≤ 1 := by
    by_cases hN : N = cstr "SHELL"
    · exact (step_unless_flag N _ [] v1 DID_SHELL (cstr "SHELL") S.runas_pw.pw_shell false
        (by decide) c1 (mS hN) (fun _ => by decide) (by simp)).1
    · split
      · apply count_put_new N v1.entries _ false c1
        intro hn
        exact absurd (named_set_eq N _ _ (by decide) hn) hN
      · exact c1
  have m2 : Marked [(DID_PATH, cstr "PATH"), (DID_TERM, cstr "TERM")]
      (if (!ISSET v1.didvar DID_SHELL) = true then
        v_set v1 (cstr "SHELL") S.runas_pw.pw_shell false false else v1) := by
    split
    · exact marked_set_other _ v1 _ _ false false (by decide) m1 (by decide)
    · exact m1
  generalize (if (!ISSET v1.didvar DID_SHELL) = true then
    v_set v1 (cstr "SHELL") S.runas_pw.pw_shell false false else v1) = v2 at c2 m2 ⊢
  -- TERM
  have eT : cstr "TERM=unknown" = cstr "TERM" ++ c_eq :: cstr "unknown" := by decide
  rw [eT]
  obtain ⟨c3, m3⟩ := step_unless_flag N _ [(DID_PATH, cstr "PATH")] v2 DID_TERM (cstr "TERM")
    (cstr "unknown") false (by decide) c2 m2 (fun _ => by decide) (by decide)
  have e3 : (if (!ISSET v2.didvar DID_TERM) = true then
      v_set v2 (cstr "TERM") (cstr "unknown") false false else v2) =
      (if (!ISSET v2.didvar DID_TERM) = true then
        v_put v2 (cstr "TERM" ++ c_eq :: cstr "unknown") false false else v2) := rfl
  rw [e3] at c3 m3
  generalize (if (!ISSET v2.didvar DID_TERM) = true then
    v_put v2 (cstr "TERM" ++ c_eq :: cstr "unknown") false false else v2) = v3 at c3 m3 ⊢
  -- PATH
  exact (step_unless_flag N _ [] v3 DID_PATH (cstr "PATH") S.plat.PATH_STDPATH true
    (by decide) c3 m3 (fun _ => by decide) (by simp)).1

theorem v_ps1_count (N : CStr) (v : View) (hc : (v.entries.filter (named N)).length ≤ 1) :
    ((v_ps1 v).entries.filter (named N)).length ≤ 1 := by
  unfold v_ps1
  cases v.ps1 with
  | none => exact hc
  | some p => exact count_put_dup N v.entries p true hc

theorem v_sudo_vars_count (S : Sudoers) (N : CStr) (v : View)
    (hc : (v.entries.filter (named N)).length ≤ 1) :
    ((v_sudo_vars S v).entries.filter (named N)).length ≤ 1 := by
  have one : ∀ (w : View) (str : CStr), (w.entries.filter (named N)).length ≤ 1 →
      ((v_put w str true true).entries.filter (named N)).length ≤ 1 :=
    fun w str h => count_put_dup N w.entries str true h
  unfold v_sudo_vars
  dsimp only
  apply one
  apply one
  apply one
  cases S.user_args with
  | none => exact one _ _ hc
  | some args => exact one _ _ hc

/-- The steps of `rebuild_env` that follow the walk of the old environment keep
the name `N` single, when the flags of `PATH` and `TERM`, and for `N` the name
`SHELL` the flag of `SHELL`, mark the entries of those names. -/
theorem v_tail_single (S : Sudoers) (N : CStr) (v : View)
    (hc : (v.entries.filter (named N)).length ≤ 1)
    (hm : Marked [(DID_PATH, cstr "PATH"), (DID_TERM, cstr "TERM")] v)
    (hs : N = cstr "SHELL" → Marked [(DID_SHELL, cstr "SHELL")] v) :
    ((v_final_steps S (v_logname_step S (v_secure_path_step S v))).entries.filter
      (named N)).length ≤ 1 := by
  obtain ⟨c1, m1⟩ := v_secure_path_step_single S N _ v hc hm (by decide)
  have s1 : N = cstr "SHELL" → Marked [(DID_SHELL, cstr "SHELL")] (v_secure_path_step S v) :=
    fun hN => (v_secure_path_step_single S N _ v hc (hs hN) (by decide)).2
  have c2 := v_logname_step_count S N _ c1
  have m2 := v_logname_step_marked S _ _ m1 (by decide)
  have s2 : N = cstr "SHELL" →
      Marked [(DID_SHELL, cstr "SHELL")] (v_logname_step S (v_secure_path_step S v)) :=
    fun hN => v_logname_step_marked S _ _ (s1 hN) (by decide)
  unfold v_final_steps
  exact v_sudo_vars_count S N _ (v_ps1_count N _ (v_defaults_single S N _ c2 m2 s2))

theorem v_reset_branch_single (S : Sudoers) (N : CStr) (old : List CStr) (v0 : View)
    (h0 : v0.entries = [] ∧ v0.didvar = 0)
    (hN : N = cstr "SHELL" → S.sudo_mode.login_shell = true →
      ∃ e ∈ old, env_should_keep S e = true ∧ named (cstr "SHELL") e = true) :
    ((v_reset_branch S old [] v0).entries.filter (named N)).length ≤ 1 ∧
      Marked [(DID_PATH, cstr "PATH"), (DID_TERM, cstr "TERM")] (v_reset_branch S old [] v0) ∧
      (N = cstr "SHELL" → Marked [(DID_SHELL, cstr "SHELL")] (v_reset_branch S old [] v0)) := by
  unfold v_reset_branch
  dsimp only
  generalize hvs : (if (!S.sudo_mode.login_shell) = true then v_seed [] v0 else v0) = vs
  have hs0 : vs.entries = [] ∧ vs.didvar = 0 := by
    rw [← hvs]
    split
    · exact ⟨rfl, h0.2⟩
    · exact h0
  obtain ⟨ck, mk⟩ := v_keep_loop_single S N old vs (by rw [hs0.1]; simp)
    (fun p _ hh => by
      obtain ⟨x, hx, _⟩ := hh
      rw [hs0.1] at hx
      cases hx)
  have kd := v_keep_loop_lt S old vs (by rw [hs0.2]; decide)
  have kf := v_keep_loop_flag S old vs DID_SHELL (by decide)
  generalize v_keep_loop S old vs = vk at ck mk kd kf ⊢
  have sh := (shift_flags vk.didvar kd).1
  have m2 : Marked did_names { vk with didvar := (vk.didvar ||| (vk.didvar <<< 8)) % 2 ^ 32 } :=
    marked_flags did_names vk _ rfl
      (fun p hp hs => by
        show ISSET ((vk.didvar ||| (vk.didvar <<< 8)) % 2 ^ 32) p.1 = true
        rw [sh p.1 (did_names_flags p hp)]; exact hs) mk
  have f2 : ISSET ({ vk with didvar := (vk.didvar ||| (vk.didvar <<< 8)) % 2 ^ 32 } :
      View).didvar DID_SHELL = ISSET vk.didvar DID_SHELL := sh DID_SHELL (by decide)
  have c2 : (({ vk with didvar := (vk.didvar ||| (vk.didvar <<< 8)) % 2 ^ 32 } :
      View).entries.filter (named N)).length ≤ 1 := ck
  generalize ({ vk with didvar := (vk.didvar ||| (vk.didvar <<< 8)) % 2 ^ 32 } : View) = v2
    at m2 f2 c2 ⊢
  obtain ⟨cd, md, sd⟩ := v_reset_defaults_single S N v2 c2 m2
  have fd : (v_reset_defaults S v2).didvar = v2.didvar := (v_reset_defaults_fields S v2).1
  generalize v_reset_defaults S v2 = vd at cd md sd fd ⊢
  generalize hvh : (if (!ISSET vd.didvar KEPT_HOME) = true then { vd with reset_home := true }
    else vd : View) = vh
  have eh : vh.entries = vd.entries ∧ vh.didvar = vd.didvar := by
    rw [← hvh]
    split <;> exact ⟨rfl, rfl⟩
  have ch : (vh.entries.filter (named N)).length ≤ 1 := by rw [eh.1]; exact cd
  have mh : Marked [(DID_TERM, cstr "TERM"), (DID_PATH, cstr "PATH"), (DID_MAIL, cstr "MAIL")]
      vh := marked_flags _ vd vh eh.1 (fun p _ hs => by rw [eh.2]; exact hs) md
  -- the flag of `SHELL` marks its entries: outside a login shell the branch
  -- sets no `SHELL`, in a login shell a kept `SHELL` has set the flag
  have msh : N = cstr "SHELL" → Marked [(DID_SHELL, cstr "SHELL")] vh := by
    intro hNS
    by_cases hl : S.sudo_mode.login_shell = true
    · obtain ⟨e, he, hk, hn⟩ := hN hNS hl
      have hflag : ISSET vh.didvar DID_SHELL = true := by
        rw [eh.2, fd, f2, kf, Bool.or_eq_true]
        right
        rw [List.any_eq_true]
        exact ⟨e, List.mem_filter.2 ⟨he, hk⟩,
          by rw [did_test_named e (DID_SHELL, cstr "SHELL") (by decide)]; exact hn⟩
      intro p hp _
      have : p = (DID_SHELL, cstr "SHELL") := by simpa using hp
      rw [this]
      exact hflag
    · exact marked_flags _ vd vh eh.1 (fun p _ hs => by rw [eh.2]; exact hs)
        (sd (by simpa using hl))
  by_cases hNS : N = cstr "SHELL"
  · obtain ⟨cm, mm, sm⟩ := v_reset_mail_single S N [(DID_SHELL, cstr "SHELL")] vh ch mh
      (msh hNS) (by decide)
    exact ⟨cm, mm, fun _ => sm⟩
  · obtain ⟨cm, mm, _⟩ := v_reset_mail_single S N [] vh ch mh
      (fun p hp => by cases hp) (by simp)
    exact ⟨cm, mm, fun h => absurd h hNS⟩

/-- The claim of C28 apart from the `SHELL` of a login shell: after a
successful `rebuild_env` without seeded defaults the result holds at most one
entry named `N`, for every name `N`; for `N` the name `SHELL` in the mode of a
login shell this needs an entry named `SHELL` that is kept from the old
environment. -/
theorem rebuild_env_single_names (S : Sudoers) (env env' : Environment)
    (h : rebuild_env S env = .ok env') (hseed : S.plat.reads_environment = false)
    (N : CStr)
    (hN : N = cstr "SHELL" → S.sudo_mode.login_shell = true →
      ∃ e ∈ env_entries env, env_should_keep S e = true ∧ named (cstr "SHELL") e = true) :
    ((env_entries env').filter (named N)).length ≤ 1 := by
  obtain ⟨oldv, l0, hv, hl0, _, he⟩ := rebuild_env_view S env env' h
  have hw : env_entries env = walk oldv := by unfold env_entries; rw [hv]
  rw [he]
  rw [hw] at hN
  generalize walk oldv = old at hN ⊢
  have hl0' : l0 = [] := hl0 hseed
  subst hl0'
  unfold v_rebuild
  dsimp only
  generalize hv0 : (⟨[], 0, none, S.sudo_mode.run &&
      (S.def_always_set_home || (S.sudo_mode.reset_home || S.sudo_mode.login_shell) ||
        (S.sudo_mode.shell && S.def_set_home))⟩ : View) = v0
  have h0 : v0.entries = [] ∧ v0.didvar = 0 := by
    rw [← hv0]; exact ⟨rfl, rfl⟩
  split
  · obtain ⟨c, m, s⟩ := v_reset_branch_single S N old v0 h0 hN
    exact v_tail_single S N _ c m s
  · obtain ⟨c, m⟩ := v_delete_loop_single S N old v0 (by rw [h0.1]; simp)
      (fun p _ hh => by
        obtain ⟨x, hx, _⟩ := hh
        rw [h0.1] at hx
        cases hx)
    exact v_tail_single S N _ c (marked_sub _ _ _ m (by decide))
      (fun _ => marked_sub _ _ _ m (by decide))

/-! ### C3: the secure path -/

theorem own_names_not_path :
    ∀ n ∈ own_names, ∀ val, named (cstr "PATH") (n ++ c_eq :: val) = false := by
  intro n hn val
  have : c_eq ∉ n ∧ n ≠ cstr "PATH" := by
    revert n
    decide
  rw [named_set _ _ _ this.1]
  exact decide_eq_false this.2

theorem ps1_not_path (v : CStr) : env_name (cstr "PS1" ++ v) ≠ cstr "PATH" := by
  have e : cstr "PS1" ++ v = 80 :: 83 :: 49 :: v := rfl
  have e2 : cstr "PATH" = [80, 65, 84, 72] := by decide
  rw [e, e2]
  unfold env_name
  simp [List.takeWhile_cons]

/-- Among entries none of which is the bare string `N`, the entries whose name
(the bytes before the first `=`) is `N` are the entries that read `N=...`. -/
theorem filter_name_eq_named (N : CStr) (l : List CStr) (h : N ∉ l) :
    l.filter (fun e => decide (env_name e = N)) = l.filter (named N) := by
  apply List.filter_congr
  intro e he
  rw [Bool.eq_iff_iff, decide_eq_true_iff, named_iff]
  constructor
  · intro hn
    refine ⟨?_, hn⟩
    by_contra hc
    rw [env_name_of_not_mem e hc] at hn
    exact h (hn ▸ he)
  · exact fun h => h.2

/-- The secure path replaces every `PATH=...` entry and marks `DID_PATH`. -/
theorem secure_path_step_forces {B : CStr → Prop} (S : Sudoers) (sp : CStr) (r r' : Rebuild)
    (hsp : S.def_secure_path = some sp) (hex : S.user_is_exempt = false)
    (hI : RInv (fun _ => True) B (fun _ => True) r)
    (h : secure_path_step S r = .ok r') :
    RInv (fun l => l.filter (named (cstr "PATH")) = [cstr "PATH" ++ c_eq :: sp]) B
      (fun d => ISSET d DID_PATH = true) r' := by
  unfold secure_path_step at h
  rw [hsp] at h
  simp only [hex, Bool.not_false, if_true] at h
  obtain ⟨r1, h1, h2⟩ := (bind_ok _ _ _).1 h
  rw [CHECK_SETENV2_eq] at h1
  obtain ⟨k1, k2, k3, _, _, k6⟩ := CHECK_PUTENV_ok S r r1 _ _ _ hI.1 h1
  cases h2
  refine ⟨k1, ?_, ?_, ISSET_SET _ _ (by decide)⟩
  · show (env_entries r1.env).filter _ = _
    rw [k6]
    exact named_set_same _ _ _ (by decide)
  · intro p hp
    exact hI.2.2.1 p (by rw [← k3]; exact hp)

/-- No step of `rebuild_env` inserts the bare string `PATH`: it is in the result
only if the invoker's environment holds it. -/
theorem rebuild_env_bare_path (S : Sudoers) (env env' : Environment)
    (h : rebuild_env S env = .ok env') (hP : cstr "PATH" ∉ env_entries env) :
    cstr "PATH" ∉ env_entries env' := by
  obtain ⟨oldv, r0, r1, r2, r3, r4, hv, he, _, hp, h1, h2, h3, h4, h5⟩ :=
    rebuild_env_ok _ env env' h
  have hold : ∀ ep ∈ walk oldv, ep ≠ cstr "PATH" := by
    intro ep hep e
    apply hP
    unfold env_entries
    rw [hv, ← e]
    exact hep
  have hput : ∀ (l : List CStr) (str : CStr) (d o : Bool), cstr "PATH" ∉ l →
      str ≠ cstr "PATH" → cstr "PATH" ∉ put_result l str d o := by
    intro l str d o hl hs hm
    rcases mem_put_result l str d o _ hm with e | e
    · exact hs e.symm
    · exact hl e
  have hA : ∀ s : CStr, c_eq ∈ s → s ≠ cstr "PATH" := by
    intro s hs e
    rw [e] at hs
    revert hs
    decide
  have hown : ∀ n ∈ own_names, ∀ val, n ++ c_eq :: val ≠ cstr "PATH" :=
    fun n _ val => hA _ (by simp)
  have hps : ∀ p : CStr, (∃ v, p = cstr "PS1" ++ v) → p ≠ cstr "PATH" := by
    rintro p ⟨v, rfl⟩ e
    have e1 : cstr "PS1" ++ v = 80 :: 83 :: 49 :: v := rfl
    have e2 : cstr "PATH" = [80, 65, 84, 72] := by decide
    rw [e1, e2] at e
    simp at e
  have I0 : RInv (fun l => cstr "PATH" ∉ l) (fun p => ∃ v, p = cstr "PS1" ++ v)
      (fun _ => True) r0 := RInv_start r0 _ he hp (by simp)
  have I1 : RInv (fun l => cstr "PATH" ∉ l) (fun p => ∃ v, p = cstr "PS1" ++ v)
      (fun _ => True) r1 := by
    split at h1
    · exact reset_branch_keeps hput hA (fun v => ⟨v, rfl⟩) S (walk oldv)
        (fun ep hep _ => hold ep hep) r0 r1 I0 h1
    · exact delete_loop_keeps hput S (walk oldv) (fun ep hep _ => hold ep hep)
        (fun v => ⟨cstr "=" ++ v, rfl⟩) r0 r1 I0 h1
  have I2 := secure_path_step_keeps hput S (fun _ => hA _ (by simp)) r1 r2 I1 h2
  have I3 := logname_step_keeps hput S hown r2 r3 I2 h3
  have I4 := final_steps_keeps hput S hown (fun _ _ _ => hA _ (by simp)) hps r3 r4 I3 h4
  rw [← h5]
  exact I4.2.1

/-- C3. When a secure path `sp` is configured and the invoker is not exempt, a
successful `rebuild_env` leaves, in every mode and under every other setting and
for every invoker environment, exactly one entry that reads `PATH=...`, and it is
`PATH=sp`. When no entry of the invoker's environment is the bare string `PATH`,
and so whenever each of its entries holds a `=`, `PATH=sp` is also the only entry
whose name, the bytes before the first `=`, is `PATH`. -/
theorem rebuild_env_secure_path (S : Sudoers) (env env' : Environment) (sp : CStr)
    (hsp : S.def_secure_path = some sp) (hex : S.user_is_exempt = false)
    (h : rebuild_env S env = .ok env') :
    (env_entries env').filter (named (cstr "PATH")) = [cstr "PATH" ++ c_eq :: sp] ∧
    (cstr "PATH" ∉ env_entries env →
      (env_entries env').filter (fun e => decide (env_name e = cstr "PATH")) =
        [cstr "PATH" ++ c_eq :: sp]) := by
  have main : (env_entries env').filter (named (cstr "PATH")) =
      [cstr "PATH" ++ c_eq :: sp] := by
    obtain ⟨oldv, r0, r1, r2, r3, r4, _, he, _, hp, h1, h2, h3, h4, h5⟩ :=
      rebuild_env_ok _ env env' h
    -- up to the secure path: a pending `ps1` starts with `PS1`
    have hput1 : ∀ (l : List CStr) (str : CStr) (d o : Bool), True → True → True :=
      fun _ _ _ _ _ _ => trivial
    have I0 : RInv (fun _ => True) (fun p => ∃ v, p = cstr "PS1" ++ v)
        (fun _ => True) r0 := RInv_start r0 _ he hp trivial
    have I1 : RInv (fun _ => True) (fun p => ∃ v, p = cstr "PS1" ++ v)
        (fun _ => True) r1 := by
      split at h1
      · exact reset_branch_keeps (A := fun _ => True) hput1 (fun _ _ => trivial)
          (fun v => ⟨v, rfl⟩) S (walk oldv) (fun _ _ _ => trivial) r0 r1 I0 h1
      · exact delete_loop_keeps (A := fun _ => True) hput1 S (walk oldv)
          (fun _ _ _ => trivial) (fun v => ⟨cstr "=" ++ v, rfl⟩) r0 r1 I0 h1
    -- from the secure path on: one `PATH=...` entry, `DID_PATH` set
    have I2 := secure_path_step_forces S sp r1 r2 hsp hex I1 h2
    have hput2 : ∀ (l : List CStr) (str : CStr) (d o : Bool),
        l.filter (named (cstr "PATH")) = [cstr "PATH" ++ c_eq :: sp] →
        named (cstr "PATH") str = false →
        (put_result l str d o).filter (named (cstr "PATH")) =
          [cstr "PATH" ++ c_eq :: sp] := by
      intro l str d o hl hs
      rw [named_put_other (cstr "PATH") l str d o hs]
      exact hl
    have I3 := logname_step_keeps hput2 S own_names_not_path r2 r3 I2 h3
    have I4 := final_steps_keeps hput2 S own_names_not_path
      (fun d hd hn => by rw [hd] at hn; cases hn)
      (fun p hp => by
        obtain ⟨v, rfl⟩ := hp
        cases hn : named (cstr "PATH") (cstr "PS1" ++ v) with
        | false => rfl
        | true => exact absurd ((named_iff _ _).1 hn).2 (ps1_not_path v)) r3 r4 I3 h4
    rw [← h5]
    exact I4.2.1
  refine ⟨main, fun hP => ?_⟩
  rw [filter_name_eq_named _ _ (rebuild_env_bare_path S env env' h hP)]
  exact main

theorem rebuild_env_secure_path_witness :
    (init_envtables { bare with def_secure_path := some (cstr "/sbin:/bin") }).def_secure_path =
      some (cstr "/sbin:/bin") ∧
    (env_entries
      { envp := some ([cstr "FOO", cstr "PATH=/sbin:/bin", cstr "TERM=xterm",
          cstr "SHELL=/bin/zsh", cstr "SUDO_COMMAND=/bin/ls", cstr "SUDO_USER=alice",
          cstr "SUDO_UID=1000", cstr "SUDO_GID=1000"].map some ++ [none]),
        old_envp := some ([cstr "FOO", cstr "PATH=/tmp/bad:/bin", cstr "PATH=/tmp/worse",
          cstr "IFS=x", cstr "TERM=xterm"].map some ++ [none]),
        env_size := 128, env_len := 8 }).filter (named (cstr "PATH")) =
      [cstr "PATH" ++ c_eq :: cstr "/sbin:/bin"] ∧
    (cstr "PATH" ∉ env_entries
        (env_init { envp := none, old_envp := none, env_size := 0, env_len := 0 }
          (some [cstr "FOO", cstr "PATH=/tmp/bad:/bin", cstr "PATH=/tmp/worse", cstr "IFS=x",
            cstr "TERM=xterm"])).2 →
      (env_entries
        { envp := some ([cstr "FOO", cstr "PATH=/sbin:/bin", cstr "TERM=xterm",
            cstr "SHELL=/bin/zsh", cstr "SUDO_COMMAND=/bin/ls", cstr "SUDO_USER=alice",
            cstr "SUDO_UID=1000", cstr "SUDO_GID=1000"].map some ++ [none]),
          old_envp := some ([cstr "FOO", cstr "PATH=/tmp/bad:/bin", cstr "PATH=/tmp/worse",
            cstr "IFS=x", cstr "TERM=xterm"].map some ++ [none]),
          env_size := 128, env_len := 8 }).filter
          (fun e => decide (env_name e = cstr "PATH")) =
        [cstr "PATH" ++ c_eq :: cstr "/sbin:/bin"]) :=
  ⟨rfl, rebuild_env_secure_path
    (init_envtables { bare with def_secure_path := some (cstr "/sbin:/bin") })
    (env_init { envp := none, old_envp := none, env_size := 0, env_len := 0 }
      (some [cstr "FOO", cstr "PATH=/tmp/bad:/bin", cstr "PATH=/tmp/worse", cstr "IFS=x",
        cstr "TERM=xterm"])).2
    _ (cstr "/sbin:/bin") rfl rfl rfl⟩

/-- The bare string `PATH` is not an entry `PATH=...`: the secure path does not
replace it. With the built-in lists and without `env_reset` the environment
`PATH`, `PATH=/tmp/bad:/bin` is rebuilt to a table that holds `PATH` next to
`PATH=/sbin:/bin`. -/
theorem rebuild_env_secure_path_bare :
    rebuild_env (init_envtables { bare with def_secure_path := some (cstr "/sbin:/bin") })
      (env_init { envp := none, old_envp := none, env_size := 0, env_len := 0 }
        (some [cstr "PATH", cstr "PATH=/tmp/bad:/bin"])).2 =
      .ok { envp := some ([cstr "PATH", cstr "PATH=/sbin:/bin", cstr "SHELL=/bin/zsh",
              cstr "TERM=unknown", cstr "SUDO_COMMAND=/bin/ls", cstr "SUDO_USER=alice",
              cstr "SUDO_UID=1000", cstr "SUDO_GID=1000"].map some ++ [none]),
            old_envp := some ([cstr "PATH", cstr "PATH=/tmp/bad:/bin"].map some ++ [none]),
            env_size := 128, env_len := 8 } := rfl

/-! ### C12: the variables that are present -/

theorem v_delete_loop_reset_home (S : Sudoers) (old : List CStr) (v : View) :
    (v_delete_loop S old v).reset_home = v.reset_home := by
  induction old generalizing v with
  | nil => rfl
  | cons ep rest ih =>
    unfold v_delete_loop
    split
    · dsimp only
      rw [ih]
      show (if strncmp_eq ep (cstr "SUDO_PS1=") 9 = true then { v with ps1 := some (ep.drop 5) }
        else if strncmp_eq ep (cstr "SHELL=") 6 = true then
          { v with didvar := SET v.didvar DID_SHELL }
        else if strncmp_eq ep (cstr "PATH=") 5 = true then
          { v with didvar := SET v.didvar DID_PATH }
        else if strncmp_eq ep (cstr "TERM=") 5 = true then
          { v with didvar := SET v.didvar DID_TERM }
        else v : View).reset_home = v.reset_home
      split
      · rfl
      · split
        · rfl
        · split
          · rfl
          · split <;> rfl
    · exact ih v

/-- An entry of the invoker that `env_should_keep` accepts leaves an entry of
its name in the table the clean-slate loop builds. -/
theorem v_keep_loop_has (S : Sudoers) (N : CStr) (old : List CStr) (v : View)
    (h : ∃ e ∈ old, env_should_keep S e = true ∧ named N e = true) :
    has_entry (v_keep_loop S old v).entries N := by
  induction old generalizing v with
  | nil => obtain ⟨e, he, _⟩ := h; cases he
  | cons ep rest ih =>
    obtain ⟨e, he, hk, hn⟩ := h
    unfold v_keep_loop
    dsimp only
    by_cases hkep : env_should_keep S ep = true
    · rw [if_pos hkep]
      by_cases hnep : named N ep = true
      · refine (v_keep_loop_puts S rest _).has N ?_
        exact has_entry_put_self N _ ep true false hnep
      · rcases List.mem_cons.1 he with rfl | hr
        · exact absurd hn hnep
        · exact ih _ ⟨e, hr, hk, hn⟩
    · rw [if_neg hkep]
      rcases List.mem_cons.1 he with rfl | hr
      · exact absurd hk hkep
      · exact ih _ ⟨e, hr, hk, hn⟩

/-- An entry of the invoker that `env_should_delete` lets pass leaves an entry
of its name in the table the filter-only loop builds. -/
theorem v_delete_loop_has (S : Sudoers) (N : CStr) (old : List CStr) (v : View)
    (h : ∃ e ∈ old, env_should_delete S e = false ∧ named N e = true) :
    has_entry (v_delete_loop S old v).entries N := by
  induction old generalizing v with
  | nil => obtain ⟨e, he, _⟩ := h; cases he
  | cons ep rest ih =>
    obtain ⟨e, he, hk, hn⟩ := h
    unfold v_delete_loop
    by_cases hdep : env_should_delete S ep = true
    · rw [if_neg (by simp [hdep])]
      rcases List.mem_cons.1 he with rfl | hr
      · rw [hk] at hdep; cases hdep
      · exact ih _ ⟨e, hr, hk, hn⟩
    · rw [if_pos (by simpa using hdep)]
      dsimp only
      by_cases hnep : named N ep = true
      · refine (v_delete_loop_puts S rest _).has N ?_
        exact has_entry_put_self N _ ep true false hnep
      · rcases List.mem_cons.1 he with rfl | hr
        · exact absurd hn hnep
        · exact ih _ ⟨e, hr, hk, hn⟩

/-- **C12**, as amended. After a successful `rebuild_env`, whatever the
invoker's environment, the mode and the policy, the table has an entry for each
of `SUDO_COMMAND`, `SUDO_USER`, `SUDO_UID`, `SUDO_GID`, `PATH`, `SHELL` and
`TERM`; it has `HOME` when the clean-slate branch was taken or `reset_home` is
set at the start (mode `MODE_RUN` with `always_set_home`, `MODE_RESET_HOME` or
`MODE_LOGIN_SHELL`, or with `MODE_SHELL` and `set_home`); it has `MAIL` when the
clean-slate branch was taken; it has `LOGNAME`, `USER` and `USERNAME` in a login
shell, in the filter-only branch with `set_logname`, and in the clean-slate
branch without seeded defaults when every kept entry that begins with `USERN` is
named `USERNAME`; and in either branch it has an entry of every name of which
the invoker's environment holds an entry that passes the filter of the branch
(`env_should_keep`, or not `env_should_delete`). -/
theorem rebuild_env_present (S : Sudoers) (env env' : Environment)
    (h : rebuild_env S env = .ok env') :
    (∀ N ∈ [cstr "SUDO_COMMAND", cstr "SUDO_USER", cstr "SUDO_UID", cstr "SUDO_GID",
        cstr "PATH", cstr "SHELL", cstr "TERM"], has_entry (env_entries env') N) ∧
    (((S.def_env_reset || S.sudo_mode.login_shell) = true ∨
      (S.sudo_mode.run &&
        (S.def_always_set_home || (S.sudo_mode.reset_home || S.sudo_mode.login_shell) ||
          (S.sudo_mode.shell && S.def_set_home))) = true) →
      has_entry (env_entries env') (cstr "HOME")) ∧
    ((S.def_env_reset || S.sudo_mode.login_shell) = true →
      has_entry (env_entries env') (cstr "MAIL")) ∧
    ((S.sudo_mode.login_shell = true ∨
      ((S.def_env_reset || S.sudo_mode.login_shell) = false ∧ S.def_set_logname = true) ∨
      (S.def_env_reset = true ∧ S.plat.reads_environment = false ∧
        ∀ e ∈ env_entries env, env_should_keep S e = true → cstr "USERN" <+: e →
          named (cstr "USERNAME") e = true)) →
      has_entry (env_entries env') (cstr "LOGNAME") ∧
      has_entry (env_entries env') (cstr "USER") ∧
      has_entry (env_entries env') (cstr "USERNAME")) ∧
    (∀ N, (∃ e ∈ env_entries env, named N e = true ∧
        (if (S.def_env_reset || S.sudo_mode.login_shell) = true then env_should_keep S e
          else !env_should_delete S e) = true) →
      has_entry (env_entries env') N) := by
  obtain ⟨oldv, l0, hv, hl0, _, he⟩ := rebuild_env_view S env env' h
  have hw : env_entries env = walk oldv := by unfold env_entries; rw [hv]
  have hw0 := hw
  rw [he, hw]
  unfold v_rebuild v_final_steps
  dsimp only
  generalize hv0 : (⟨[], 0, none, S.sudo_mode.run &&
      (S.def_always_set_home || (S.sudo_mode.reset_home || S.sudo_mode.login_shell) ||
        (S.sudo_mode.shell && S.def_set_home))⟩ : View) = v0
  have h0 : v0.didvar = 0 := by rw [← hv0]
  generalize hold : walk oldv = old
  generalize hv1 : (if (S.def_env_reset || S.sudo_mode.login_shell) = true then
      v_reset_branch S old l0 v0 else v_delete_loop S old v0) = v1
  generalize hv2 : v_secure_path_step S v1 = v2
  generalize hv3 : v_logname_step S v2 = v3
  generalize hv4 : v_defaults S v3 = v4
  generalize hv5 : v_ps1 v4 = v5
  -- the puts of each step
  have p12 : Puts (fun _ => True) v1.entries v2.entries := by
    rw [← hv2]; exact (v_secure_path_step_puts S v1).top
  have p23 : Puts (fun _ => True) v2.entries v3.entries := by
    rw [← hv3]; exact (v_logname_step_puts S v2).top
  have p34 : Puts (fun _ => True) v3.entries v4.entries := by
    rw [← hv4]; exact (v_defaults_puts S v3).top
  have p45 : Puts (fun _ => True) v4.entries v5.entries := by
    rw [← hv5]; exact (v_ps1_puts v4).top
  have p56 : Puts (fun _ => True) v5.entries (v_sudo_vars S v5).entries :=
    (v_sudo_vars_puts S v5).top
  have p46 := p45.trans p56
  have p36 := p34.trans p46
  have p16 := (p12.trans p23).trans p36
  -- the flags of the loop that was taken
  have hfl7 : ∀ p ∈ flag_names, p.1 ∈ [DID_TERM, DID_PATH, DID_HOME, DID_SHELL, DID_LOGNAME,
      DID_USER, DID_USERNAME, DID_MAIL] := by decide
  have facts7 := v_reset_branch_facts S old l0 flag_names v0 h0
    (fun p hp => ⟨hfl7 p hp, fun ep _ _ ht => by rw [← did_test_named ep p hp]; exact ht,
      fun _ ep _ ht => by rw [← did_test_named ep p hp]; exact ht⟩) (fun _ hp => hp)
  have s1 : Seen [(DID_SHELL, cstr "SHELL"), (DID_PATH, cstr "PATH"), (DID_TERM, cstr "TERM")]
      v1 := by
    rw [← hv1]
    by_cases hc : (S.def_env_reset || S.sudo_mode.login_shell) = true
    · rw [if_pos hc]
      exact Seen_mono _ _ _ (by decide) facts7.1
    · rw [if_neg hc]
      apply v_delete_loop_seen
      intro p _ hset
      rw [h0] at hset
      simp [ISSET] at hset
  have s2 : Seen [(DID_SHELL, cstr "SHELL"), (DID_PATH, cstr "PATH"), (DID_TERM, cstr "TERM")]
      v2 := by
    rw [← hv2]; exact v_secure_path_step_seen S _ v1 (by decide) s1
  have s3 : Seen [(DID_SHELL, cstr "SHELL"), (DID_PATH, cstr "PATH"), (DID_TERM, cstr "TERM")]
      v3 := by
    rw [← hv3]
    exact Seen_puts _ v2 _ (v_logname_step_puts S v2) (v_logname_step_fields S v2).1 s2
  have d4 := v_defaults_has S v3 s3
  rw [hv4] at d4
  have sv := v_sudo_vars_entries S v5
  have r3 : v3.reset_home = v1.reset_home := by
    rw [← hv3, (v_logname_step_fields S v2).2.2, ← hv2, (v_secure_path_step_fields S v1).2]
  refine ⟨?_, ?_, ?_, ?_, ?_⟩
  · intro N hN
    simp only [List.mem_cons, List.mem_singleton, List.mem_nil_iff, or_false] at hN
    rcases hN with rfl | rfl | rfl | rfl | rfl | rfl | rfl
    · exact has_of_filter _ _ _ sv.1
    · exact has_of_filter _ _ _ sv.2.1
    · exact has_of_filter _ _ _ sv.2.2.1
    · exact has_of_filter _ _ _ sv.2.2.2
    · exact p46.has _ d4.2.2.1
    · exact p46.has _ d4.1
    · exact p46.has _ d4.2.1
  · intro hc
    refine p46.has _ (d4.2.2.2 ?_)
    by_cases hb : (S.def_env_reset || S.sudo_mode.login_shell) = true
    · have hv1' : v1 = v_reset_branch S old l0 v0 := by rw [← hv1, if_pos hb]
      have f2 := facts7.2.1
      rw [← hv1'] at f2
      rcases f2 with f2 | f2
      · exact Or.inl (by rw [r3]; exact f2)
      · exact Or.inr ((p12.trans p23).has _ f2)
    · have hv1' : v1 = v_delete_loop S old v0 := by rw [← hv1, if_neg hb]
      have hr0 : v0.reset_home = true := by
        rcases hc with hc | hc
        · exact absurd hc hb
        · rw [← hv0]; exact hc
      exact Or.inl (by rw [r3, hv1', v_delete_loop_reset_home, hr0])
  · intro hc
    have hv1' : v1 = v_reset_branch S old l0 v0 := by rw [← hv1, if_pos hc]
    have f3 := facts7.2.2.1
    rw [← hv1'] at f3
    exact p16.has _ f3
  · intro hc
    have fin : (has_entry v3.entries (cstr "LOGNAME") ∧ has_entry v3.entries (cstr "USER") ∧
        has_entry v3.entries (cstr "USERNAME")) →
        has_entry (v_sudo_vars S v5).entries (cstr "LOGNAME") ∧
        has_entry (v_sudo_vars S v5).entries (cstr "USER") ∧
        has_entry (v_sudo_vars S v5).entries (cstr "USERNAME") :=
      fun ⟨a, b, c⟩ => ⟨p36.has _ a, p36.has _ b, p36.has _ c⟩
    have from1 : (has_entry v1.entries (cstr "LOGNAME") ∧ has_entry v1.entries (cstr "USER") ∧
        has_entry v1.entries (cstr "USERNAME")) →
        has_entry v3.entries (cstr "LOGNAME") ∧ has_entry v3.entries (cstr "USER") ∧
        has_entry v3.entries (cstr "USERNAME") :=
      fun ⟨a, b, c⟩ => ⟨(p12.trans p23).has _ a, (p12.trans p23).has _ b,
        (p12.trans p23).has _ c⟩
    apply fin
    by_cases hlogin : S.sudo_mode.login_shell = true
    · -- a login shell: the defaults of the clean-slate branch set all three
      have hb : (S.def_env_reset || S.sudo_mode.login_shell) = true := by rw [hlogin]; simp
      have hv1' : v1 = v_reset_branch S old l0 v0 := by rw [← hv1, if_pos hb]
      have f4 := facts7.2.2.2 (Or.inl hlogin)
      rw [← hv1'] at f4
      exact from1 f4
    · have hlogin' : S.sudo_mode.login_shell = false := by simpa using hlogin
      rcases hc with hc | ⟨hb, hset⟩ | ⟨hreset, hseed, hslip⟩
      · exact absurd hc hlogin
      · -- the filter-only branch: no `KEPT_*` flag is ever set
        have hv1' : v1 = v_delete_loop S old v0 := by
          rw [← hv1, if_neg (by rw [hb]; simp)]
        have hd1 : v1.didvar < 256 := by
          rw [hv1']; exact v_delete_loop_lt S old v0 (by rw [h0]; decide)
        have hd2 : ISSET v2.didvar (KEPT_LOGNAME ||| KEPT_USER ||| KEPT_USERNAME) = false := by
          rw [← hv2]
          rcases v_secure_path_step_didvar S v1 with e | e
          · rw [e]; exact (low_flags _ hd1).1
          · rw [e]; exact (low_flags _ hd1).2
        rw [← hv3]
        exact v_logname_step_has S v2 hset hlogin' (Or.inl hd2)
      · -- the clean-slate branch
        have hb : (S.def_env_reset || S.sudo_mode.login_shell) = true := by rw [hreset]; simp
        have hv1' : v1 = v_reset_branch S old l0 v0 := by rw [← hv1, if_pos hb]
        have hl0' : l0 = [] := hl0 hseed
        have facts8 := v_reset_branch_facts S old l0
          (flag_names ++ [(DID_USERNAME, cstr "USERNAME")]) v0 h0
          (by
            intro p hp
            rcases List.mem_append.1 hp with hp | hp
            · exact ⟨hfl7 p hp, fun ep _ _ ht => by rw [← did_test_named ep p hp]; exact ht,
                fun _ ep _ ht => by rw [← did_test_named ep p hp]; exact ht⟩
            · have : p = (DID_USERNAME, cstr "USERNAME") := by simpa using hp
              subst this
              refine ⟨by decide, ?_, ?_⟩
              · intro ep hep hk ht
                rw [did_test_username, decide_eq_true_iff] at ht
                exact hslip ep hep hk ht
              · intro _ ep hep
                rw [hl0'] at hep
                cases hep)
          (fun p hp => List.mem_append_left _ hp)
        rw [← hv1'] at facts8
        by_cases hset : S.def_set_logname = true
        · have s8 : Seen [(KEPT_LOGNAME, cstr "LOGNAME"), (KEPT_USER, cstr "USER"),
              (KEPT_USERNAME, cstr "USERNAME")] v2 := by
            rw [← hv2]
            exact Seen_mono _ _ _ (by decide)
              (v_secure_path_step_seen S _ v1 (by decide) facts8.1)
          rw [← hv3]
          exact v_logname_step_has S v2 hset hlogin' (Or.inr s8)
        · have hset' : S.def_set_logname = false := by simpa using hset
          exact from1 (facts8.2.2.2 (Or.inr ⟨hset', by simp⟩))
  · rintro N ⟨e, he, hn, hpass⟩
    apply p16.has
    rw [← hv1]
    by_cases hb : (S.def_env_reset || S.sudo_mode.login_shell) = true
    · rw [if_pos hb] at hpass ⊢
      exact (v_reset_branch_puts S old l0 v0).has N (v_keep_loop_has S N old _ ⟨e, he, hpass, hn⟩)
    · rw [if_neg hb] at hpass ⊢
      exact v_delete_loop_has S N old _ ⟨e, he, by simpa using hpass, hn⟩

theorem rebuild_env_present_witness :
    (∀ N ∈ [cstr "SUDO_COMMAND", cstr "SUDO_USER", cstr "SUDO_UID", cstr "SUDO_GID",
        cstr "PATH", cstr "SHELL", cstr "TERM"],
      has_entry (env_entries
        { envp := some ([cstr "FOO", cstr "HOME=/home/bob", cstr "TERM=xterm",
            cstr "LOGNAME=alice", cstr "SHELL=/bin/zsh",
            cstr "PATH=/usr/bin:/bin:/usr/sbin:/sbin", cstr "SUDO_COMMAND=/bin/ls",
            cstr "SUDO_USER=alice", cstr "SUDO_UID=1000",
            cstr "SUDO_GID=1000"].map some ++ [none]),
          old_envp := some ([cstr "FOO", cstr "HOME=/home/alice", cstr "TERM=xterm",
            cstr "LOGNAME=alice"].map some ++ [none]),
          env_size := 128, env_len := 10 }) N) ∧
    has_entry (env_entries
        { envp := some ([cstr "FOO", cstr "HOME=/home/bob", cstr "TERM=xterm",
            cstr "LOGNAME=alice", cstr "SHELL=/bin/zsh",
            cstr "PATH=/usr/bin:/bin:/usr/sbin:/sbin", cstr "SUDO_COMMAND=/bin/ls",
            cstr "SUDO_USER=alice", cstr "SUDO_UID=1000",
            cstr "SUDO_GID=1000"].map some ++ [none]),
          old_envp := some ([cstr "FOO", cstr "HOME=/home/alice", cstr "TERM=xterm",
            cstr "LOGNAME=alice"].map some ++ [none]),
          env_size := 128, env_len := 10 }) (cstr "HOME") ∧
    has_entry (env_entries
        { envp := some ([cstr "FOO", cstr "HOME=/home/bob", cstr "TERM=xterm",
            cstr "LOGNAME=alice", cstr "SHELL=/bin/zsh",
            cstr "PATH=/usr/bin:/bin:/usr/sbin:/sbin", cstr "SUDO_COMMAND=/bin/ls",
            cstr "SUDO_USER=alice", cstr "SUDO_UID=1000",
            cstr "SUDO_GID=1000"].map some ++ [none]),
          old_envp := some ([cstr "FOO", cstr "HOME=/home/alice", cstr "TERM=xterm",
            cstr "LOGNAME=alice"].map some ++ [none]),
          env_size := 128, env_len := 10 }) (cstr "LOGNAME") :=
  ⟨(rebuild_env_present { builtin with def_always_set_home := true }
      (env_init { envp := none, old_envp := none, env_size := 0, env_len := 0 }
        (some [cstr "FOO", cstr "HOME=/home/alice", cstr "TERM=xterm",
          cstr "LOGNAME=alice"])).2 _ rfl).1,
    (rebuild_env_present { builtin with def_always_set_home := true }
      (env_init { envp := none, old_envp := none, env_size := 0, env_len := 0 }
        (some [cstr "FOO", cstr "HOME=/home/alice", cstr "TERM=xterm",
          cstr "LOGNAME=alice"])).2 _ rfl).2.1 (Or.inr (by decide)),
    (rebuild_env_present { builtin with def_always_set_home := true }
      (env_init { envp := none, old_envp := none, env_size := 0, env_len := 0 }
        (some [cstr "FOO", cstr "HOME=/home/alice", cstr "TERM=xterm",
          cstr "LOGNAME=alice"])).2 _ rfl).2.2.2.2 (cstr "LOGNAME")
      ⟨cstr "LOGNAME=alice", by decide, by decide, by decide⟩⟩

/-- No `HOME`, `LOGNAME`, `USER` or `USERNAME`: with the built-in lists and no
flag set the filter-only branch is taken, and from the invoker's environment
`TERM=xterm` the result has none of the four. -/
theorem rebuild_env_present_filter_counterexample :
    ∃ env', rebuild_env builtin
        (env_init { envp := none, old_envp := none, env_size := 0, env_len := 0 }
          (some [cstr "TERM=xterm"])).2 = .ok env' ∧
      ∀ e ∈ env_entries env', named (cstr "HOME") e = false ∧
        named (cstr "LOGNAME") e = false ∧ named (cstr "USER") e = false ∧
        named (cstr "USERNAME") e = false := by
  refine ⟨{ envp := some ([cstr "TERM=xterm", cstr "SHELL=/bin/zsh",
              cstr "PATH=/usr/bin:/bin:/usr/sbin:/sbin", cstr "SUDO_COMMAND=/bin/ls",
              cstr "SUDO_USER=alice", cstr "SUDO_UID=1000",
              cstr "SUDO_GID=1000"].map some ++ [none])
            old_envp := some ([cstr "TERM=xterm"].map some ++ [none])
            env_size := 128
            env_len := 7 }, rfl, by decide⟩

/-! ### C19: `sudo_getenv` on every table -/

/-- On the table `B=0`, `A=1`, `A=3` the query `A=x` returns the value of the
first entry named `A`. -/
theorem sudo_getenv_first_entry_example :
    sudo_getenv (env_init { envp := none, old_envp := none, env_size := 0, env_len := 0 }
        (some [cstr "B=0", cstr "A=1", cstr "A=3"])).2 (cstr "A=x") = some (cstr "1") := by
  decide

/-! ### `rebuild_env` succeeds -/

/-- A put grows the vector by 128 slots at most. -/
theorem sudo_putenv_nodebug_size (P : Platform) (env env' : Environment) (str : CStr)
    (dup ow : Bool) (h : sudo_putenv_nodebug P env str dup ow = .ok env') :
    env'.env_size ≤ env.env_size + 128 := by
  unfold sudo_putenv_nodebug at h
  generalize hg : (if (decide (env.env_size > 2) && decide (env.env_len > env.env_size - 2)) = true then
      if env.env_size > P.SIZE_MAX - 128 then Except.error Fault.failure
      else if env.env_size + 128 > P.SIZE_MAX / P.sizeof_ptr then Except.error Fault.failure
      else Except.ok { env with env_size := env.env_size + 128 }
    else Except.ok env : Except Fault Environment) = grown at h
  cases grown with
  | error f => simp at h
  | ok e1 =>
    have he1 : e1.env_size ≤ env.env_size + 128 := by
      split at hg
      · split at hg
        · simp at hg
        · split at hg
          · simp at hg
          · cases hg; simp
      · cases hg; simp
    dsimp only at h
    split at h
    · simp at h
    · split at h
      · split at h
        · split at h
          · cases h; exact he1
          · cases h; exact he1
        · cases h; exact he1
      · cases h; exact he1

/-- A put succeeds on a well-formed table when one more reallocation fits. -/
theorem sudo_putenv_runs (P : Platform) (env : Environment) (str : CStr) (dup ow : Bool)
    (n : Nat) (hok : table_ok env)
    (hroom : env.env_size + 128 * (n + 1) ≤ P.SIZE_MAX / P.sizeof_ptr) :
    ∃ env', sudo_putenv_nodebug P env str dup ow = .ok env' ∧ table_ok env' ∧
      env'.env_size + 128 * n ≤ P.SIZE_MAX / P.sizeof_ptr := by
  obtain ⟨env', h⟩ := sudo_putenv_nodebug_succeeds P env str dup ow hok (by omega)
  have hs := sudo_putenv_nodebug_size P env env' str dup ow h
  exact ⟨env', h, (sudo_putenv_nodebug_ok P env env' str dup ow hok h).1, by omega⟩

theorem fits_mono {S : Sudoers} {n m : Nat} {r : Rebuild} (h : n ≤ m) (hF : Fits S m r) :
    Fits S n r := by
  refine ⟨hF.1, ?_⟩
  have := hF.2
  have : 128 * n ≤ 128 * m := Nat.mul_le_mul_left _ h
  omega

theorem put_runs (S : Sudoers) (r : Rebuild) (str : CStr) (d o : Bool) (n : Nat)
    (hF : Fits S (n + 1) r) :
    ∃ r', CHECK_PUTENV S r str d o = .ok r' ∧ Fits S n r' ∧ r'.didvar = r.didvar ∧
      r'.ps1 = r.ps1 ∧ r'.reset_home = r.reset_home := by
  obtain ⟨env', h, t, s⟩ := sudo_putenv_runs S.plat r.env str d o n hF.1 hF.2
  refine ⟨{ r with env := env' }, ?_, ⟨t, s⟩, rfl, rfl, rfl⟩
  unfold CHECK_PUTENV sudo_putenv
  rw [h]

theorem runs_put (S : Sudoers) (str : Rebuild → CStr) (d o : Rebuild → Bool) :
    Runs S 1 (fun r => CHECK_PUTENV S r (str r) (d r) (o r)) := by
  intro r n hF
  obtain ⟨r', h, F, _⟩ := put_runs S r (str r) (d r) (o r) n hF
  exact ⟨r', h, F⟩

theorem runs_set (S : Sudoers) (var : CStr) (val : Rebuild → CStr) (d o : Rebuild → Bool) :
    Runs S 1 (fun r => CHECK_SETENV2 S r var (val r) (d r) (o r)) :=
  runs_put S (fun r => var ++ c_eq :: val r) d o

theorem runs_bind {S : Sudoers} (a b : Nat) {f g : Rebuild → Except Fault Rebuild}
    (hf : Runs S a f) (hg : Runs S b g) : Runs S (a + b) (fun r => f r >>= g) := by
  intro r n hF
  obtain ⟨r1, h1, F1⟩ := hf r (n + b) (fits_mono (by omega) hF)
  obtain ⟨r2, h2, F2⟩ := hg r1 n F1
  exact ⟨r2, (bind_ok _ _ _).2 ⟨r1, h1, h2⟩, F2⟩

theorem runs_mono {S : Sudoers} {a b : Nat} {f : Rebuild → Except Fault Rebuild}
    (h : a ≤ b) (hf : Runs S a f) : Runs S b f :=
  fun r n hF => hf r n (fits_mono (by omega) hF)

theorem runs_when {S : Sudoers} {a : Nat} {f : Rebuild → Except Fault Rebuild}
    (c : Rebuild → Bool) (hf : Runs S a f) : Runs S a (fun r => when (c r) f r) := by
  intro r n hF
  by_cases hc : c r = true
  · simp only [SudoEnv.when, hc, if_true]
    exact hf r n hF
  · simp only [SudoEnv.when, hc, if_false]
    exact ⟨r, rfl, fits_mono (by omega) hF⟩

theorem runs_pure {S : Sudoers} (u : Rebuild → Rebuild) (hu : ∀ r, (u r).env = r.env) :
    Runs S 0 (fun r => .ok (u r)) := by
  intro r n hF
  refine ⟨u r, rfl, ?_⟩
  unfold Fits
  rw [hu]
  exact hF

theorem final_steps_runs (S : Sudoers) : Runs S 9 (final_steps S) := by
  unfold final_steps
  refine runs_bind 1 8 ?_ (runs_bind 1 7 ?_ (runs_bind 1 6 ?_ (runs_bind 1 5 ?_ (runs_bind 1 4 ?_
    (runs_bind 1 3 ?_ (runs_bind 1 2 ?_ (runs_bind 1 1 ?_ ?_)))))))
  · exact runs_when _ (runs_set S _ (fun _ => _) (fun _ => _) (fun _ => _))
  · exact runs_when _ (runs_set S _ (fun _ => _) (fun _ => _) (fun _ => _))
  · exact runs_when _ (runs_put S (fun _ => _) (fun _ => _) (fun _ => _))
  · exact runs_when _ (runs_set S _ (fun _ => _) (fun _ => _) (fun _ => _))
  · intro r n hF
    dsimp only
    cases r.ps1 with
    | none => exact ⟨r, rfl, fits_mono (by omega) hF⟩
    | some p =>
      obtain ⟨r', h, F, _⟩ := put_runs S r p true true n hF
      exact ⟨r', h, F⟩
  · intro r n hF
    dsimp only
    cases S.user_args with
    | none =>
      obtain ⟨r', h, F, _⟩ := put_runs S r _ true true n hF
      exact ⟨r', h, F⟩
    | some args =>
      obtain ⟨r', h, F, _⟩ := put_runs S r _ true true n hF
      exact ⟨r', h, F⟩
  · exact runs_set S _ (fun _ => _) (fun _ => _) (fun _ => _)
  · exact runs_set S _ (fun _ => _) (fun _ => _) (fun _ => _)
  · exact runs_set S _ (fun _ => _) (fun _ => _) (fun _ => _)

theorem logname_step_runs (S : Sudoers) : Runs S 3 (logname_step S) := by
  have three : ∀ val : CStr, Runs S 3 (fun r =>
      CHECK_SETENV2 S r (cstr "LOGNAME") val true true
      >>= fun r => CHECK_SETENV2 S r (cstr "USER") val true true
      >>= fun r => CHECK_SETENV2 S r (cstr "USERNAME") val true true) := fun val =>
    runs_bind 1 2 (runs_set S _ (fun _ => _) (fun _ => _) (fun _ => _))
      (runs_bind 1 1 (runs_set S _ (fun _ => _) (fun _ => _) (fun _ => _))
        (runs_set S _ (fun _ => _) (fun _ => _) (fun _ => _)))
  have some3 : ∀ cp : CStr, Runs S 3 (fun r =>
      when (!ISSET r.didvar KEPT_LOGNAME)
        (fun r => CHECK_SETENV2 S r (cstr "LOGNAME") cp true true) r
      >>= fun r => when (!ISSET r.didvar KEPT_USER)
        (fun r => CHECK_SETENV2 S r (cstr "USER") cp true true) r
      >>= fun r => when (!ISSET r.didvar KEPT_USERNAME)
        (fun r => CHECK_SETENV2 S r (cstr "USERNAME") cp true true) r) := fun cp =>
    runs_bind 1 2 (runs_when _ (runs_set S _ (fun _ => _) (fun _ => _) (fun _ => _)))
      (runs_bind 1 1 (runs_when _ (runs_set S _ (fun _ => _) (fun _ => _) (fun _ => _)))
        (runs_when _ (runs_set S _ (fun _ => _) (fun _ => _) (fun _ => _))))
  intro r n hF
  unfold logname_step
  split
  · split
    · exact three _ r n hF
    · split
      · dsimp only
        generalize (if ISSET r.didvar KEPT_LOGNAME = true then sudo_getenv r.env (cstr "LOGNAME")
          else if ISSET r.didvar KEPT_USER = true then sudo_getenv r.env (cstr "USER")
          else if ISSET r.didvar KEPT_USERNAME = true then sudo_getenv r.env (cstr "USERNAME")
          else none) = cp
        cases cp with
        | none => exact ⟨r, rfl, fits_mono (by omega) hF⟩
        | some cp => exact some3 cp r n hF
      · exact ⟨r, rfl, fits_mono (by omega) hF⟩
  · exact ⟨r, rfl, fits_mono (by omega) hF⟩

theorem secure_path_step_runs (S : Sudoers) : Runs S 1 (secure_path_step S) := by
  intro r n hF
  unfold secure_path_step
  split
  · split
    · obtain ⟨r', h, F, _⟩ := put_runs S r _ true true n hF
      exact ⟨_, (bind_ok _ _ _).2 ⟨r', h, rfl⟩, F⟩
    · exact ⟨r, rfl, fits_mono (by omega) hF⟩
  · exact ⟨r, rfl, fits_mono (by omega) hF⟩

theorem delete_loop_runs (S : Sudoers) (old : List CStr) :
    Runs S old.length (delete_loop S old) := by
  induction old with
  | nil => intro r n hF; exact ⟨r, rfl, hF⟩
  | cons ep rest ih =>
    intro r n hF
    unfold delete_loop
    split
    · dsimp only
      have key : ∀ r1 : Rebuild, r1.env = r.env →
          ∃ r', (match CHECK_PUTENV S r1 ep true false with
            | .error f => Except.error f
            | .ok r => delete_loop S rest r) = Except.ok r' ∧ Fits S n r' := by
        intro r1 he
        have hF1 : Fits S (n + rest.length + 1) r1 := by
          unfold Fits; rw [he]; exact hF
        obtain ⟨r2, h2, F2, _⟩ := put_runs S r1 ep true false (n + rest.length) hF1
        rw [h2]
        exact ih r2 n F2
      apply key
      split
      · rfl
      · split
        · rfl
        · split
          · rfl
          · split <;> rfl
    · exact ih r n (fits_mono (by simp) hF)

theorem keep_loop_runs (S : Sudoers) (old : List CStr) :
    Runs S old.length (keep_loop S old) := by
  induction old with
  | nil => intro r n hF; exact ⟨r, rfl, hF⟩
  | cons ep rest ih =>
    intro r n hF
    unfold keep_loop
    dsimp only
    have key : ∀ r1 : Rebuild, r1.env = r.env →
        ∃ r', (if env_should_keep S ep = true then
            match CHECK_PUTENV S r1 ep true false with
            | .error f => Except.error f
            | .ok r => keep_loop S rest { r with didvar := env_update_didvar ep r.didvar }
          else keep_loop S rest r1) = Except.ok r' ∧ Fits S n r' := by
      intro r1 he
      have hF1 : Fits S (n + rest.length + 1) r1 := by
        unfold Fits; rw [he]; exact hF
      split
      · obtain ⟨r2, h2, F2, _⟩ := put_runs S r1 ep true false (n + rest.length) hF1
        rw [h2]
        exact ih _ n F2
      · exact ih r1 n (fits_mono (by omega) hF1)
    apply key
    split <;> rfl

/-- The only fault of a line of the environment file is the value of one quote
character. -/
theorem parse_env_line_not_failure (P : Platform) (line : CStr) :
    parse_env_line P line ≠ .error .failure := by
  unfold parse_env_line
  dsimp only
  generalize (if (strncmp_eq line (cstr "export") 6 && P.isspace (byteAt line 6)) = true then
      skip_spaces P (line.drop 7) else line) = var
  intro h
  split at h
  · cases h
  · split at h
    · cases h
    · split at h
      · split at h <;> cases h
      · cases h

theorem read_env_lines_runs (P : Platform) (ow : Bool) (lines : List CStr) (env : Environment)
    (n : Nat) (hok : table_ok env)
    (hroom : env.env_size + 128 * (n + lines.length) ≤ P.SIZE_MAX / P.sizeof_ptr)
    (hfile : ∀ line ∈ lines, parse_env_line P line ≠ .error .undefined) :
    ∃ p, read_env_lines P ow lines env = .ok p ∧ table_ok p.2 ∧
      p.2.env_size + 128 * n ≤ P.SIZE_MAX / P.sizeof_ptr := by
  induction lines generalizing env with
  | nil => exact ⟨(true, env), rfl, hok, hroom⟩
  | cons line rest ih =>
    have hrest : ∀ l ∈ rest, parse_env_line P l ≠ .error .undefined :=
      fun l hl => hfile l (List.mem_cons_of_mem _ hl)
    have hroom1 : env.env_size + 128 * (n + rest.length) ≤ P.SIZE_MAX / P.sizeof_ptr := by
      simp only [List.length_cons] at hroom
      omega
    unfold read_env_lines
    cases hp : parse_env_line P line with
    | error f =>
      cases f with
      | undefined => exact absurd hp (hfile line (List.mem_cons_self _ _))
      | failure => exact absurd hp (parse_env_line_not_failure P line)
    | ok c =>
      cases c with
      | none => exact ih env hok hroom1 hrest
      | some cp =>
        dsimp only
        obtain ⟨env1, h1, t1, s1⟩ := sudo_putenv_runs P env cp true ow (n + rest.length) hok
          (by simp only [List.length_cons] at hroom; omega)
        unfold sudo_putenv
        rw [h1]
        exact ih env1 t1 s1 hrest

theorem seed_defaults_runs (S : Sudoers)
    (hfile : S.plat.reads_environment = true →
      ∀ line ∈ S.environment_file.getD [], parse_env_line S.plat line ≠ .error .undefined) :
    Runs S (S.environment_file.getD []).length (seed_defaults S) := by
  intro r n hF
  have tail : ∀ r1 : Rebuild, Fits S n r1 →
      ∃ r', (match r1.env.envp with
        | none => Except.error Fault.undefined
        | some v => Except.ok { r1 with didvar := (walk v).foldl (fun d ep => env_update_didvar ep d) r1.didvar }) =
          Except.ok r' ∧ Fits S n r' := by
    intro r1 F1
    obtain ⟨l, junk, hv, _⟩ := F1.1
    rw [hv]
    exact ⟨_, rfl, F1⟩
  unfold seed_defaults
  dsimp only
  by_cases hre : S.plat.reads_environment = true
  · simp only [hre, if_true]
    unfold read_env_file
    cases hf : S.environment_file with
    | none => exact tail r (fits_mono (by omega) hF)
    | some lines =>
      have hfl := hfile hre
      rw [hf] at hfl
      have hroom := hF.2
      rw [hf] at hroom
      obtain ⟨p, h1, t1, s1⟩ := read_env_lines_runs S.plat true lines r.env n hF.1 hroom hfl
      dsimp only
      rw [h1]
      exact tail { r with env := p.2 } ⟨t1, s1⟩
  · simp only [hre, Bool.false_eq_true, if_false]
    exact tail r (fits_mono (by omega) hF)

theorem reset_defaults_runs (S : Sudoers) : Runs S 4 (reset_defaults S) := by
  intro r n hF
  unfold reset_defaults
  split
  · exact runs_bind 1 3 (runs_set S _ (fun _ => _) (fun r => ISSET r.didvar DID_SHELL) (fun _ => _))
      (runs_bind 1 2 (runs_set S _ (fun _ => _) (fun r => ISSET r.didvar DID_LOGNAME) (fun _ => _))
        (runs_bind 1 1
          (runs_set S _ (fun _ => _) (fun r => ISSET r.didvar DID_USER) (fun _ => _))
          (runs_set S _ (fun _ => _) (fun r => ISSET r.didvar DID_USERNAME) (fun _ => _))))
      r n hF
  · split
    · have three : Runs S 3 (fun r =>
          when (!ISSET r.didvar DID_LOGNAME)
            (fun r => CHECK_SETENV2 S r (cstr "LOGNAME") S.user_name false true) r
          >>= fun r => when (!ISSET r.didvar DID_USER)
            (fun r => CHECK_SETENV2 S r (cstr "USER") S.user_name false true) r
          >>= fun r => when (!ISSET r.didvar DID_USERNAME)
            (fun r => CHECK_SETENV2 S r (cstr "USERNAME") S.user_name false true) r) :=
        runs_bind 1 2 (runs_when _ (runs_set S _ (fun _ => _) (fun _ => _) (fun _ => _)))
          (runs_bind 1 1 (runs_when _ (runs_set S _ (fun _ => _) (fun _ => _) (fun _ => _)))
            (runs_when _ (runs_set S _ (fun _ => _) (fun _ => _) (fun _ => _))))
      exact three r n (fits_mono (by omega) hF)
    · exact ⟨r, rfl, fits_mono (by omega) hF⟩

theorem reset_mail_runs (S : Sudoers) : Runs S 1 (reset_mail S) := by
  intro r n hF
  unfold reset_mail
  split
  · dsimp only
    obtain ⟨r', h, F, _⟩ := put_runs S r _ (ISSET r.didvar DID_MAIL) true n hF
    exact ⟨r', h, F⟩
  · exact ⟨r, rfl, fits_mono (by omega) hF⟩

theorem reset_branch_runs (S : Sudoers) (old : List CStr)
    (hfile : S.plat.reads_environment = true →
      ∀ line ∈ S.environment_file.getD [], parse_env_line S.plat line ≠ .error .undefined) :
    Runs S ((S.environment_file.getD []).length + old.length + 5) (reset_branch S old) := by
  unfold reset_branch
  refine runs_mono (by omega) (runs_bind ((S.environment_file.getD []).length + old.length) 5
    (runs_bind (S.environment_file.getD []).length old.length ?_ ?_)
    (runs_bind 4 1 (runs_bind 0 4 ?_ ?_) (runs_bind 0 1 ?_ ?_)))
  · exact runs_when (fun _ => !S.sudo_mode.login_shell) (seed_defaults_runs S hfile)
  · exact keep_loop_runs S old
  · exact runs_pure _ (fun _ => rfl)
  · exact reset_defaults_runs S
  · refine runs_pure _ (fun r => ?_)
    split <;> rfl
  · exact reset_mail_runs S

/-- `rebuild_env` succeeds on every invoker environment, its entries with or
without a `=`: the vector is not null, the lines of the environment file (where
one is read) are none of them a name with a value of one quote character, and
the reallocations pass the overflow guards. -/
theorem rebuild_env_succeeds (S : Sudoers) (env : Environment) (oldv : Slots)
    (hv : env.envp = some oldv)
    (hfile : S.plat.reads_environment = true →
      ∀ line ∈ S.environment_file.getD [], parse_env_line S.plat line ≠ .error .undefined)
    (hroom : 128 * ((S.environment_file.getD []).length + (walk oldv).length + 19) ≤
      S.plat.SIZE_MAX / S.plat.sizeof_ptr) :
    ∃ env', rebuild_env S env = .ok env' := by
  unfold rebuild_env
  rw [hv]
  dsimp only
  generalize hr0 : (⟨⟨some [none], some oldv, 128, 0⟩, 0, none,
      S.sudo_mode.run &&
        (S.def_always_set_home || (S.sudo_mode.reset_home || S.sudo_mode.login_shell) ||
          (S.sudo_mode.shell && S.def_set_home))⟩ : Rebuild) = r0
  have F0 : Fits S (9 + 3 + 1 + ((S.environment_file.getD []).length + (walk oldv).length + 5))
      r0 := by
    rw [← hr0]
    refine ⟨⟨[], [], rfl, rfl⟩, ?_⟩
    dsimp only
    omega
  have s1 : ∃ r1, (if (S.def_env_reset || S.sudo_mode.login_shell) = true then
        reset_branch S (walk oldv) r0 else delete_loop S (walk oldv) r0) = .ok r1 ∧
      Fits S (9 + 3 + 1) r1 := by
    split
    · exact reset_branch_runs S (walk oldv) hfile r0 _ F0
    · exact runs_mono (by omega) (delete_loop_runs S (walk oldv)) r0 _ F0
  obtain ⟨r1, h1, F1⟩ := s1
  obtain ⟨r2, h2, F2⟩ := secure_path_step_runs S r1 _ F1
  obtain ⟨r3, h3, F3⟩ := logname_step_runs S r2 _ F2
  obtain ⟨r4, h4, _⟩ := final_steps_runs S r3 0 (fits_mono (by omega) F3)
  refine ⟨r4.env, ?_⟩
  rw [h1]
  show ((secure_path_step S r1 >>= logname_step S) >>= final_steps S).map _ = _
  rw [h2]
  show (logname_step S r2 >>= final_steps S).map _ = _
  rw [h3]
  show (final_steps S r3).map _ = _
  rw [h4]
  rfl

/-- The environment `FOO`, `TERM=xterm`, `FOO` is rebuilt, and the entry `FOO`,
which holds no `=`, is kept once: the duplicate test compares whole strings. -/
theorem rebuild_env_bare_entry :
    rebuild_env builtin
      (env_init { envp := none, old_envp := none, env_size := 0, env_len := 0 }
        (some [cstr "FOO", cstr "TERM=xterm", cstr "FOO"])).2 =
      .ok { envp := some ([cstr "FOO", cstr "TERM=xterm", cstr "SHELL=/bin/zsh",
              cstr "PATH=/usr/bin:/bin:/usr/sbin:/sbin", cstr "SUDO_COMMAND=/bin/ls",
              cstr "SUDO_USER=alice", cstr "SUDO_UID=1000",
              cstr "SUDO_GID=1000"].map some ++ [none]),
            old_envp := some ([cstr "FOO", cstr "TERM=xterm", cstr "FOO"].map some ++ [none]),
            env_size := 128, env_len := 8 } := rfl

end SudoEnv
